import Mathlib

/-!
# KTAB spatial model of politics: utility, ideal points and the stop predicate

A shallow embedding of parts of `src/examples/smp/libsrc/smp.cpp`.

Conventions of the embedding.

* A C++ `double` is an exact rational (`ℚ`); the results of `sqrt` are exact
  reals (`ℝ`).  Round-off is therefore not modelled: every statement below is
  about the arithmetic the code writes down, carried out exactly.
* The one exception is `SMPActor::interpBrgnSnPm`, which cuts its results to
  four decimals, so that a difference in the last place of a double becomes a
  difference of `0.0001`.  It is embedded in IEEE-754 binary64: a double is the
  rational it denotes, and every operation rounds its exact result to the
  nearest double, ties to even (`fl64`); an overflow returns `none`.
* An `assert` that fails aborts the program; the embedding returns `none`.
* `unsigned int` is a natural number, reduced modulo `2^32` where the code
  subtracts.
-/

namespace KTAB

/-! ## Definitions -/

/-- Fail-fast check: an `assert` of the source.  A false condition aborts
the run, which the embedding renders as `none`. -/
def assertThat (p : Prop) [Decidable p] : Option Unit :=
  if p then some () else none

/-- Modelled from the spec: `KBase::KMatrix`, the "dense real-valued matrix
type with elementwise/linear-algebra operations" (spec section 2).  Its class
lives in kutils, which is not among the sources.  A matrix is its two
dimensions and its entries; entries outside the dimensions are never read. -/
structure KMatrix where
  numR : Nat
  numC : Nat
  val : Nat → Nat → ℚ

namespace KMatrix

/-- Modelled from the spec: the constructor `KMatrix(nr, nc)`, a matrix of zeros. -/
def zeros (nr nc : Nat) : KMatrix := ⟨nr, nc, fun _ _ => 0⟩

/-- Modelled from the spec: `KBase::iMat(n)`, the `n × n` identity matrix. -/
def iMat (n : Nat) : KMatrix := ⟨n, n, fun i j => if i = j then 1 else 0⟩

/-- Modelled from the spec: bounds-checked element access `m(i, j)`. -/
def get? (m : KMatrix) (i j : Nat) : Option ℚ :=
  if i < m.numR ∧ j < m.numC then some (m.val i j) else none

/-- Modelled from the spec: `KBase::sameShape`. -/
def sameShape (a b : KMatrix) : Prop := a.numR = b.numR ∧ a.numC = b.numC

instance (a b : KMatrix) : Decidable (sameShape a b) := by
  unfold sameShape; infer_instance

/-- Modelled from the spec: elementwise sum `a + b`, defined for equal shapes. -/
def add (a b : KMatrix) : Option KMatrix :=
  if sameShape a b then some ⟨a.numR, a.numC, fun i j => a.val i j + b.val i j⟩ else none

/-- Modelled from the spec: elementwise difference `a - b`, defined for equal shapes. -/
def sub (a b : KMatrix) : Option KMatrix :=
  if sameShape a b then some ⟨a.numR, a.numC, fun i j => a.val i j - b.val i j⟩ else none

/-- Modelled from the spec: scalar multiple `x * a`. -/
def smul (x : ℚ) (a : KMatrix) : KMatrix := ⟨a.numR, a.numC, fun i j => x * a.val i j⟩

/-- Sum of the squares of the entries of a matrix. -/
def sumSq (m : KMatrix) : ℚ :=
  ∑ i in Finset.range m.numR, ∑ j in Finset.range m.numC, (m.val i j) ^ 2

/-- Modelled from the spec: `KBase::norm`, the Euclidean (Frobenius) norm. -/
noncomputable def norm (m : KMatrix) : ℝ := Real.sqrt ((sumSq m : ℚ) : ℝ)

end KMatrix

/-- Constants of `KBase::Model` and `SMPModel` that are declared in headers
outside the sources; they are parameters of the embedding. -/
structure Consts where
  minNumActor : Nat
  maxNumActor : Nat
  /-- The sum `Model::NumSQLLogGrps + SMPModel::NumSQLLogGrps`. -/
  numSQLLogGrps : Nat

/-- An actor of the spatial model: the fields `initModel` fills in. -/
structure SMPActor where
  name : String
  desc : String
  sCap : ℚ
  vSal : KMatrix

/-- One snapshot of the simulation.  `numAct` and `numDim` stand for
`model->numAct` and `((SMPModel*)model)->numDim`; a position (`VctrPstn`) is a
`KMatrix`.  The cached flag `identAccMat` is written by `setAccomodate` with
`KBase::iMatP` (not among the sources) and read by none of the functions below,
so it is left out. -/
structure SMPState where
  numAct : Nat
  numDim : Nat
  pstns : List KMatrix
  ideals : List KMatrix
  accomodate : KMatrix

/-- The model as `initModel` returns it: roster, dimension names and the
history of states. -/
structure SMPModelData where
  actrs : List SMPActor
  dimName : List String
  history : List SMPState

namespace SMPState

/-- The matrix form `SMPState::setAccomodate(const KMatrix &)` (smp.cpp 527-536). -/
def setAccomodate (c : Consts) (st : SMPState) (aMat : KMatrix) : Option SMPState := do
  let na := st.numAct
  assertThat (c.minNumActor ≤ na)
  assertThat (na ≤ c.maxNumActor)
  assertThat (na = aMat.numR)
  assertThat (na = aMat.numC)
  pure { st with accomodate := aMat }

/-- The scalar form `SMPState::setAccomodate(double)` (smp.cpp 719-735). -/
def setAccomodateRate (c : Consts) (st : SMPState) (adjRate : ℚ) : Option SMPState := do
  assertThat (0 ≤ adjRate)
  assertThat (adjRate ≤ 1)
  let na := st.numAct
  let am := KMatrix.smul adjRate (KMatrix.iMat na)
  setAccomodate c st am

/-- One pass of the loop of `SMPState::idealsFromPstns`. -/
def idealsFromPstnsStep (st : SMPState) (ps : List KMatrix) (givenP : Bool)
    (ideals : List KMatrix) (i : Nat) : Option (List KMatrix) :=
  if givenP then do
    let p ← ps[i]?
    pure (ideals ++ [p])
  else do
    let ppJ ← st.pstns[i]?
    pure (ideals ++ [ppJ])

/-- Ideal points from given points or from the positions,
`SMPState::idealsFromPstns` (smp.cpp 663-685). -/
def idealsFromPstns (c : Consts) (st : SMPState) (ps : List KMatrix) : Option SMPState := do
  let na := st.numAct
  assertThat (c.minNumActor ≤ na)
  assertThat (na ≤ c.maxNumActor)
  let givenP : Bool := decide (na = ps.length)
  assertThat (givenP = true ∨ 0 = ps.length)
  let ideals ← (List.range na).foldlM (idealsFromPstnsStep st ps givenP) []
  pure { st with ideals := ideals }

/-- One pass of the loop of `SMPState::posIdealDist`. -/
noncomputable def posIdealDistStep (st : SMPState) (rmsDist : ℝ) (i : Nat) : Option ℝ := do
  let pI ← st.pstns[i]?
  let iI ← st.ideals[i]?
  let d ← KMatrix.sub pI iI
  let dI := KMatrix.norm d
  pure (rmsDist + dI * dI)

/-- Root-mean-square distance between positions and ideal points,
`SMPState::posIdealDist` (smp.cpp 687-717); the printing is left out. -/
noncomputable def posIdealDist (st : SMPState) : Option ℝ := do
  let na := st.numAct
  assertThat (na = st.pstns.length)
  assertThat (na = st.ideals.length)
  let rmsDist ← (List.range na).foldlM (posIdealDistStep st) 0
  let rmsDist := rmsDist / (na : ℝ)
  pure (Real.sqrt rmsDist)

/-- The body of the loop over `j` in `SMPState::newIdeals` (smp.cpp 626-639);
the accumulator is `(si, newIP)`. -/
def newIdealsInner (st : SMPState) (identP : Bool) (tol : ℚ) (i : Nat)
    (acc : ℚ × KMatrix) (j : Nat) : Option (ℚ × KMatrix) := do
  let aij := st.accomodate.val i j
  assertThat (0 ≤ aij)
  assertThat (aij ≤ 1)
  let si := acc.1 + aij
  assertThat (si ≤ 1 + tol)
  let pJ ← st.pstns[j]?
  let newIP ← KMatrix.add acc.2 (KMatrix.smul aij pJ)
  if identP = true ∧ i = j then
    assertThat (|aij - 1| < tol)
  pure (si, newIP)

/-- The body of the loop over `i` in `SMPState::newIdeals` (smp.cpp 622-652);
the accumulator is `nIdeals`. -/
noncomputable def newIdealsOuter (st : SMPState) (identP : Bool) (tol : ℚ)
    (nIdeals : List KMatrix) (i : Nat) : Option (List KMatrix) := do
  let pI ← st.pstns[i]?
  let r ← (List.range st.numAct).foldlM (newIdealsInner st identP tol i)
    (0, KMatrix.zeros st.numDim 1)
  let si := if 1 < r.1 then 1 else r.1
  let lagI := 1 - si
  assertThat (0 ≤ lagI)
  assertThat (lagI ≤ 1)
  if identP = true then
    assertThat (|lagI| < tol)
  let idI ← st.ideals[i]?
  let newIP ← KMatrix.add r.2 (KMatrix.smul lagI idI)
  if identP = true then do
    let d ← KMatrix.sub newIP pI
    assertThat (KMatrix.norm d < ((tol : ℚ) : ℝ))
  pure (nIdeals ++ [newIP])

/-- Update of the ideal points, `SMPState::newIdeals` (smp.cpp 600-661). -/
noncomputable def newIdeals (c : Consts) (st : SMPState) : Option SMPState := do
  let na := st.numAct
  let tol : ℚ := 1 / 10 ^ 10
  assertThat (c.minNumActor ≤ na)
  assertThat (na ≤ c.maxNumActor)
  assertThat (na = st.accomodate.numC)
  assertThat (na = st.accomodate.numR)
  assertThat (na = st.ideals.length)
  let dA ← KMatrix.sub st.accomodate (KMatrix.iMat na)
  let identP : Bool := decide (KMatrix.norm dA < ((tol : ℚ) : ℝ))
  let nIdeals ← (List.range na).foldlM (newIdealsOuter st identP tol) []
  let st1 : SMPState := { st with ideals := nIdeals }
  if identP = true then do
    let d ← posIdealDist st1
    assertThat (d < ((tol : ℚ) : ℝ))
  pure st1

end SMPState

namespace KMatrix

/-- Modelled from the spec: the assignment `m(i, j) = x`, bounds-checked. -/
def set? (m : KMatrix) (i j : Nat) (x : ℚ) : Option KMatrix :=
  if i < m.numR ∧ j < m.numC then
    some ⟨m.numR, m.numC, fun a b => if a = i ∧ b = j then x else m.val a b⟩
  else none

end KMatrix

namespace SMPModel

/-- One pass of the loop of `SMPModel::stateDist`. -/
noncomputable def stateDistStep (s1 s2 : SMPState) (dSum : ℝ) (i : Nat) : Option ℝ := do
  let vp1i ← s1.pstns[i]?
  let vp2i ← s2.pstns[i]?
  let d ← KMatrix.sub vp1i vp2i
  pure (dSum + KMatrix.norm d)

/-- Distance between two states: the sum over the actors of the norm of the
difference of their positions, `SMPModel::stateDist` (smp.cpp 823-833). -/
noncomputable def stateDist (s1 s2 : SMPState) : Option ℝ := do
  let n := s1.pstns.length
  assertThat (n = s2.pstns.length)
  (List.range n).foldlM (stateDistStep s1 s2) 0

/-- Utility of a scalar distance, `SMPModel::bsUtil` (smp.cpp 836-848), over
any ordered field: `ℚ` for a stored double, `ℝ` for a distance that comes out
of `sqrt`.  The assertion `0 <= sd` is the only way to fail. -/
def bsUtil {K : Type} [LinearOrderedField K] (sd R : K) : Option K := do
  assertThat (0 ≤ sd)
  if sd ≤ 1 then
    pure ((1 - sd) * (1 + sd * R))
  else
    pure ((1 - sd) * (1 + R))

/-- The body of the inner loop of `SMPModel::bvDiff` (smp.cpp 856-862); the
accumulator is `(dsSqr, ssSqr)`. -/
def bvDiffCell (vd vs : KMatrix) (i : Nat) (acc : ℚ × ℚ) (j : Nat) : Option (ℚ × ℚ) := do
  let dij := vd.val i j
  let sij := vs.val i j
  assertThat (0 ≤ sij)
  let ds := dij * sij
  let s := sij
  pure (acc.1 + ds * ds, acc.2 + s * s)

/-- The body of the outer loop of `SMPModel::bvDiff`: one row. -/
def bvDiffRow (vd vs : KMatrix) (acc : ℚ × ℚ) (i : Nat) : Option (ℚ × ℚ) :=
  (List.range vd.numC).foldlM (bvDiffCell vd vs i) acc

/-- The two sums `(dsSqr, ssSqr)` that `SMPModel::bvDiff` accumulates. -/
def bvDiffSums (vd vs : KMatrix) : Option (ℚ × ℚ) :=
  (List.range vd.numR).foldlM (bvDiffRow vd vs) (0, 0)

/-- Salience-weighted distance, `SMPModel::bvDiff` (smp.cpp 850-868). -/
noncomputable def bvDiff (vd vs : KMatrix) : Option ℝ := do
  assertThat (KMatrix.sameShape vd vs)
  let r ← bvDiffSums vd vs
  assertThat (0 < r.2)
  pure (Real.sqrt (((r.1 / r.2 : ℚ)) : ℝ))

/-- The loop over the dimensions in `SMPModel::initModel` (smp.cpp 1101-1104);
the accumulator is `(vSal, vpi)`. -/
def initModelDim (pos sal : KMatrix) (i : Nat) (acc : KMatrix × KMatrix) (j : Nat) :
    Option (KMatrix × KMatrix) := do
  let sij ← sal.get? i j
  let vSal ← acc.1.set? j 0 sij
  let pij ← pos.get? i j
  let vpi ← acc.2.set? j 0 pij
  pure (vSal, vpi)

/-- The loop over the actors in `SMPModel::initModel` (smp.cpp 1096-1107); the
accumulator is the roster and the positions of the initial state.  `numDim`
is the model's dimension count, against which `addPstn` checks the position.
The description `aDesc[i]` is read with the unchecked `operator[]` of
`std::vector` and nothing is asserted about `aDesc`, so the read never rejects
a scenario; past the end of `aDesc` the source has no defined behaviour and the
description is taken to be empty. -/
def initModelActor (aName aDesc : List String) (nd numDim : Nat) (cap pos sal : KMatrix)
    (acc : List SMPActor × List KMatrix) (i : Nat) : Option (List SMPActor × List KMatrix) := do
  let n ← aName[i]?
  let d := aDesc.getD i ""
  let sCap ← cap.get? i 0
  let r ← (List.range nd).foldlM (initModelDim pos sal i) (KMatrix.zeros nd 1, KMatrix.zeros nd 1)
  assertThat (1 = r.2.numC)
  assertThat (numDim = r.2.numR)
  pure (acc.1 ++ [⟨n, d, sCap, r.1⟩], acc.2 ++ [r.2])

/-- Construction of a model from scenario data, `SMPModel::initModel`
(smp.cpp 1057-1113).  The seed `_s` and the logging flags `f` only reach the
constructor.  `idealsFromPstns()` is called without an argument; its default,
declared in a header outside the sources, is the empty vector (the only size
besides `numAct` that its assertion accepts). -/
def initModel (c : Consts) (aName aDesc dName : List String)
    (cap pos sal accM : KMatrix) (_s : Nat) (f : List Bool) : Option SMPModelData := do
  assertThat (f.length = c.numSQLLogGrps)
  let na := aName.length
  let nd := dName.length
  let numDim := dName.length
  let r ← (List.range na).foldlM (initModelActor aName aDesc nd numDim cap pos sal) ([], [])
  let st0 : SMPState := ⟨r.1.length, numDim, r.2, [], KMatrix.zeros 0 0⟩
  let st1 ← SMPState.setAccomodate c st0 accM
  let st2 ← SMPState.idealsFromPstns c st1 []
  pure ⟨r.1, dName, [st2]⟩

/-- The stop predicate that `smpStopFn minIter maxIter minDeltaRatio minSigDelta`
returns (smp.cpp 63-87), applied to the iteration count and to the history of
the model the state points to.  `iter - 0` and `iter - 1` are `unsigned int`
subtractions; reading past the end of the history is a failure. -/
noncomputable def smpStopFn (minIter maxIter : Nat) (minDeltaRatio minSigDelta : ℚ)
    (iter : Nat) (history : List SMPState) : Option Bool := do
  let tooLong : Bool := decide (maxIter ≤ iter)
  let longEnough : Bool := decide (minIter ≤ iter)
  let s0 ← history[0]?
  let s1 ← history[1]?
  let d ← stateDist s0 s1
  let d01 : ℝ := d + ((minSigDelta : ℚ) : ℝ)
  let sx ← history[(iter + 2 ^ 32 - 0) % 2 ^ 32]?
  let sy ← history[(iter + 2 ^ 32 - 1) % 2 ^ 32]?
  let dxy ← stateDist sx sy
  let aRatio : ℝ := dxy / d01
  let quiet : Bool := decide (aRatio < ((minDeltaRatio : ℚ) : ℝ))
  pure (tooLong || (longEnough && quiet))

/-- The stop predicate as `SMPModel::configExec` builds it (smp.cpp 1139-1155):
`minIter = 2`, `maxIter = 100`, `minDeltaRatio = 0.02`, `minSigDelta = 1E-4`. -/
noncomputable def configExecStop (iter : Nat) (history : List SMPState) : Option Bool :=
  smpStopFn 2 100 (2 / 100) (1 / 10 ^ 4) iter history

end SMPModel

/-! ### Bargain interpolation, configuration, randomised actors, equivalence -/

/-- A floating-point division: a zero divisor has no value in exact
arithmetic (the double is an infinity or a NaN). -/
def divQ (a b : ℚ) : Option ℚ := if b = 0 then none else some (a / b)

/-- The conversion `(int)` of a double: truncation toward zero. -/
def truncInt (q : ℚ) : Int := if 0 ≤ q then ⌊q⌋ else ⌈q⌉

/-- Rounding of a rational to the nearest integer, a tie to the even
neighbour: the rounding of the last place in the default mode of IEEE-754. -/
def roundHalfEven (q : ℚ) : Int :=
  if q - ⌊q⌋ < 1 / 2 then ⌊q⌋
  else if 1 / 2 < q - ⌊q⌋ then ⌊q⌋ + 1
  else if ⌊q⌋ % 2 = 0 then ⌊q⌋ else ⌊q⌋ + 1

/-- The spacing of the binary64 numbers at `q`: `2^(e-52)` for
`2^e ≤ |q| < 2^(e+1)`, and `2^-1074`, the spacing of the subnormal numbers,
below `2^-1022`. -/
def ulp64 (q : ℚ) : ℚ := 2 ^ (max (Int.log 2 |q|) (-1022) - 52)

/-- The binary64 result of an operation whose exact result is `q`: the nearest
multiple of the spacing at `q`, a tie to the even one.  A result of magnitude
`2^1024` or more is an infinity, which the embedding renders as `none`. -/
def fl64 (q : ℚ) : Option ℚ :=
  let r : ℚ := (roundHalfEven (q / ulp64 q) : ℚ) * ulp64 q
  if |r| < 2 ^ 1024 then some r else none

/-- The binary64 division: the rounded quotient; a zero divisor gives an
infinity or a NaN, rendered as `none`. -/
def fdiv (a b : ℚ) : Option ℚ := if b = 0 then none else fl64 (a / b)

/-- Bargain-interpolation weightings, `InterVecBrgn`, as the switch of
`SMPActor::interpolateBrgn` names them. -/
inductive InterVecBrgn where
  | S1P1
  | S2P2
  | S2PMax
  deriving DecidableEq, Repr

namespace InterVecBrgn

/-- Modelled from the spec: the enumeration is declared in a header outside the
sources; its three enumerators are numbered 0, 1, 2 in the order of the switch.
An integer that is not the number of an enumerator is unrecognised. -/
def ofInt? (n : Int) : Option InterVecBrgn :=
  if n = 0 then some S1P1 else if n = 1 then some S2P2 else if n = 2 then some S2PMax
  else none

end InterVecBrgn

namespace SMPActor

/-- The integer `y` of the local function `round4` of `interpBrgnSnPm`
(smp.cpp 155-157), `(int)(0.5 + (x1 * s))` with `s = 10000.0`: the product and
the sum are rounded to binary64, and the conversion to a 32-bit `int`, which
truncates toward zero, is defined only when the truncated value fits. -/
def round4Int (x1 : ℚ) : Option Int := do
  let s : ℚ := 10000
  let a ← fl64 (x1 * s)
  let v ← fl64 (1 / 2 + a)
  assertThat (-(2 ^ 31) - 1 < v ∧ v < 2 ^ 31)
  pure (truncInt v)

/-- The local function `round4` of `interpBrgnSnPm` (smp.cpp 155-160): the
integer `y`, then `((double)y) / s`, rounded to binary64. -/
def round4 (x1 : ℚ) : Option ℚ := do
  let y ← round4Int x1
  fl64 ((y : ℚ) / 10000)

/-- The weight `pow(s, n) * pow(p, m)` of one actor in `interpBrgnSnPm`
(smp.cpp 164-170), in binary64.  The library function `pow` is taken to round
the exact power correctly; for the exponent 1 it returns its argument. -/
def snpmWeight (n m : Nat) (s p : ℚ) : Option ℚ := do
  let ws ← fl64 (s ^ n)
  let wp ← fl64 (p ^ m)
  fl64 (ws * wp)

/-- One quotient `(a * tik + b * tjk) / d` of `interpBrgnSnPm`
(smp.cpp 177-178), in binary64: the two products, their sum and the quotient
are rounded one after the other (no fused multiply-add). -/
def snpmQuot (a b tik tjk d : ℚ) : Option ℚ := do
  let p1 ← fl64 (a * tik)
  let p2 ← fl64 (b * tjk)
  let nm ← fl64 (p1 + p2)
  fdiv nm d

/-- The divisor `wik + minW + wjk` of `interpBrgnSnPm` (smp.cpp 177-178), as
the number the expression denotes before any rounding; the rounded divisor is
bounded in `snpm_divisor_pos`. -/
def snpmDivisor (n m : Nat) (sik prbI sjk prbJ : ℚ) : ℚ :=
  sik ^ n * prbI ^ m + 1 / 10 ^ 6 + sjk ^ n * prbJ ^ m

/-- Bargained coordinates under the weights `salience^n * probability^m`,
`SMPActor::interpBrgnSnPm` (smp.cpp 150-181); returns `(bik, bjk)`.  The
function cuts its two quotients to four decimals, so its results depend on the
last place of the quotients, and it is embedded in binary64: every operation
is rounded, in the order in which the source writes them.  The divisor of both
quotients is `(wik + minW) + wjk`; the floored weight of the first quotient is
`wik + minW`, that of the second `minW + wjk`. -/
def interpBrgnSnPm (n m : Nat) (tik sik prbI tjk sjk prbJ : ℚ) : Option (ℚ × ℚ) := do
  assertThat (1 = n ∨ 2 = n)
  assertThat (1 = m ∨ 2 = m)
  let wik ← snpmWeight n m sik prbI
  let wjk ← snpmWeight n m sjk prbJ
  let minW ← fl64 ((1 : ℚ) / 10 ^ 6)
  let ai ← fl64 (wik + minW)
  let d ← fl64 (ai + wjk)
  let xi ← snpmQuot ai wjk tik tjk d
  let bik ← round4 xi
  let aj ← fl64 (minW + wjk)
  let xj ← snpmQuot wik aj tik tjk d
  let bjk ← round4 xj
  pure (bik, bjk)

/-- The probability gap `max(0, prbJ - prbI)` of `interpBrgnS2PMax`
(smp.cpp 187-188). -/
def probGap (prbI prbJ : ℚ) : ℚ := if prbJ > prbI then prbJ - prbI else 0

/-- The divisor `(d * s2) + minW + ((1 - d) * s1)` of `interpBrgnS2PMax`
(smp.cpp 193-194), for a gap `d`, the other actor's squared salience `s2` and
the actor's own squared salience `s1`. -/
def s2pMaxDivisor (d s2 s1 : ℚ) : ℚ := (d * s2) + 1 / 10 ^ 6 + ((1 - d) * s1)

/-- Bargained coordinates under the probability-gap weighting,
`SMPActor::interpBrgnS2PMax` (smp.cpp 184-200); returns `(bik, bjk)`. -/
def interpBrgnS2PMax (tik sik prbI tjk sjk prbJ : ℚ) : Option (ℚ × ℚ) := do
  let di := probGap prbI prbJ
  let dj := probGap prbJ prbI
  let sik2 := sik * sik
  let sjk2 := sjk * sjk
  let dik ← divQ (di * sjk2) (s2pMaxDivisor di sjk2 sik2)
  let djk ← divQ (dj * sik2) (s2pMaxDivisor dj sik2 sjk2)
  let bik := tik + dik * (tjk - tik)
  let bjk := tjk + djk * (tik - tjk)
  pure (bik, bjk)

/-- The switch of `SMPActor::interpolateBrgn` (smp.cpp 220-233) on the stored
configuration value `ivb`; the default case throws. -/
def interpolateBrgnSwitch (ivb : Int) (tik sik prbI tjk sjk prbJ : ℚ) : Option (ℚ × ℚ) :=
  match InterVecBrgn.ofInt? ivb with
  | some InterVecBrgn.S1P1 => interpBrgnSnPm 1 1 tik sik prbI tjk sjk prbJ
  | some InterVecBrgn.S2P2 => interpBrgnSnPm 2 2 tik sik prbI tjk sjk prbJ
  | some InterVecBrgn.S2PMax => interpBrgnS2PMax tik sik prbI tjk sjk prbJ
  | none => none

/-- The body of the loop over the dimensions of `SMPActor::interpolateBrgn`
(smp.cpp 212-236); the accumulator is `(brgnI, brgnJ)`. -/
def interpolateBrgnStep (ai aj : SMPActor) (posI posJ : KMatrix) (prbI prbJ : ℚ) (ivb : Int)
    (acc : KMatrix × KMatrix) (k : Nat) : Option (KMatrix × KMatrix) := do
  let tik ← posI.get? k 0
  let sik ← ai.vSal.get? k 0
  let tjk ← posJ.get? k 0
  let sjk ← aj.vSal.get? k 0
  let b ← interpolateBrgnSwitch ivb tik sik prbI tjk sjk prbJ
  let brgnI ← acc.1.set? k 0 b.1
  let brgnJ ← acc.2.set? k 0 b.2
  pure (brgnI, brgnJ)

/-- The bargain between two actors, `SMPActor::interpolateBrgn`
(smp.cpp 203-240); returns the two proposed positions `(brgnI, brgnJ)`. -/
def interpolateBrgn (ai aj : SMPActor) (posI posJ : KMatrix) (prbI prbJ : ℚ) (ivb : Int) :
    Option (KMatrix × KMatrix) := do
  assertThat (1 = posI.numC ∧ 1 = posJ.numC)
  let numD := posI.numR
  assertThat (numD = posJ.numR)
  (List.range numD).foldlM (interpolateBrgnStep ai aj posI posJ prbI prbJ ivb)
    (KMatrix.zeros numD 1, KMatrix.zeros numD 1)

end SMPActor

/-- Modelled from the spec: the pseudo-random generator `KBase::PRNG` (kutils,
not among the sources).  `uniform k a b` is the value that the `k`-th call of
the run returns when it is `rng->uniform(a, b)`. -/
structure PRNG where
  uniform : Nat → ℚ → ℚ → ℚ

namespace KMatrix

/-- Modelled from the spec: `KMatrix::uniform(rng, nr, nc, a, b)`, a matrix of
draws `uniform(a, b)`, one per entry, taken row by row from call `k` on. -/
def uniform (rng : PRNG) (k nr nc : Nat) (a b : ℚ) : KMatrix :=
  ⟨nr, nc, fun i j => rng.uniform (k + i * nc + j) a b⟩

/-- Modelled from the spec: `KBase::sum`, the sum of the entries. -/
def sum (m : KMatrix) : ℚ :=
  ∑ i in Finset.range m.numR, ∑ j in Finset.range m.numC, m.val i j

/-- Modelled from the spec: the quotient `m / x` of a matrix by a scalar. -/
def sdiv (m : KMatrix) (x : ℚ) : Option KMatrix :=
  if x = 0 then none else some ⟨m.numR, m.numC, fun i j => m.val i j / x⟩

end KMatrix

namespace SMPActor

/-- Random capability, saliences and voting rule, `SMPActor::randomize`
(smp.cpp 130-146).  `numVR` is `KBase::VotingRuleNames.size()`, `k` the number
of draws made before the call.  Returns the actor, the number `vrNum` of the
voting rule it is given, and the number of draws made so far.  The conversion
`(unsigned int)` of a double is defined for values in `(-1, 2^32)`. -/
def randomize (numVR : Nat) (rng : PRNG) (k : Nat) (a : SMPActor) (numD : Nat) :
    Option (SMPActor × Nat × Nat) := do
  let sCap := rng.uniform k 10 200
  let s := rng.uniform (k + 1) (75 / 100) (99 / 100)
  let vSal0 := KMatrix.uniform rng (k + 2) numD 1 (1 / 10) 1
  let vSal ← KMatrix.sdiv (KMatrix.smul s vSal0) (KMatrix.sum vSal0)
  assertThat (|s - KMatrix.sum vSal| < 1 / 10 ^ 4)
  let x := rng.uniform (k + 2 + numD) 0 ((numVR : ℚ) - 1 / 100)
  assertThat (-1 < x ∧ x < 2 ^ 32)
  let vrNum : Nat := (truncInt x).toNat
  pure ({ a with sCap := sCap, vSal := vSal }, vrNum, k + 3 + numD)

end SMPActor

/-- The enumerated configuration of an `SMPModel`, each value stored as the
integer it was cast from. -/
structure SMPParams where
  vpm : Int
  pcem : Int
  stm : Int
  vrCltn : Int
  bigRAdj : Int
  bigRRng : Int
  tpCommit : Int
  ivBrgn : Int
  brgnMod : Int

namespace SMPModel

/-- Configuration from a vector of integers, `SMPModel::updateModelParameters`
(smp.cpp 1188-1199).  `parameters.at(i)` throws past the end of the vector; a
C-style cast to an enumeration keeps the integer. -/
def updateModelParameters (md0 : SMPParams) (parameters : List Int) : Option SMPParams := do
  let md0 := { md0 with vpm := (← parameters[0]?) }
  let md0 := { md0 with pcem := (← parameters[1]?) }
  let md0 := { md0 with stm := (← parameters[2]?) }
  let md0 := { md0 with vrCltn := (← parameters[3]?) }
  let md0 := { md0 with bigRAdj := (← parameters[4]?) }
  let md0 := { md0 with bigRRng := (← parameters[5]?) }
  let md0 := { md0 with tpCommit := (← parameters[6]?) }
  let md0 := { md0 with ivBrgn := (← parameters[7]?) }
  let md0 := { md0 with brgnMod := (← parameters[8]?) }
  pure md0

end SMPModel

namespace SMPState

/-- Equivalence of the positions of two actors, `SMPState::equivNdx`
(smp.cpp 552-562); `posTol` is the tolerance `sm->posTol` of the model. -/
noncomputable def equivNdx (posTol : ℚ) (st : SMPState) (i j : Nat) : Option Bool := do
  let vpi ← st.pstns[i]?
  let vpj ← st.pstns[j]?
  let d ← KMatrix.sub vpi vpj
  let diff := KMatrix.norm d
  pure (decide (diff < ((posTol : ℚ) : ℝ)))

end SMPState

/-- Modelled from the spec: a matching position `KBase::MtchPstn` (kmodel, not
among the sources): the item-to-actor assignment `match`. -/
structure MtchPstn where
  mtch : List Nat
  deriving DecidableEq, Repr

/-- A state of the committee-selection model: its positions. -/
structure CSState where
  pstns : List MtchPstn

namespace CSState

/-- Equivalence of the positions of two actors, `CSState::equivNdx`
(comsel.cpp 569-577); `==` on `MtchPstn` compares the matchings, as
`CSModel::equivStates` does (comsel.cpp 67). -/
def equivNdx (st : CSState) (i j : Nat) : Option Bool := do
  let mpi ← st.pstns[i]?
  let mpj ← st.pstns[j]?
  pure (decide (mpi.mtch = mpj.mtch))

end CSState

/-! ### Votes, perceived utilities, neighbouring matchings -/

/-- Modelled from the spec: the voting rules of `KBase::VotingRule` (kmodel, not
among the sources), as section 4.1 of the spec lists them: linear in capability,
linear in capability times utility gap, and a nonlinear saturating rule. -/
inductive VotingRule where
  | Binary
  | Proportional
  | Saturating
  deriving DecidableEq, Repr

/-- The sign of a number: `+1`, `-1` or `0`. -/
def sgn {K : Type} [LinearOrderedField K] (x : K) : K :=
  if 0 < x then 1 else if x < 0 then -1 else 0

namespace Model

/-- Modelled from the spec: `Model::vote(rule, capability, myUtil, otherUtil)`
(kmodel, not among the sources), "an actor's directed voting weight for
preferring one option over another, scaled by capability and by the utility
gap under the selected rule": the capability times the sign of the gap, times
the gap, or times the saturating response `gap / (1 + |gap|)`. -/
def vote {K : Type} [LinearOrderedField K] (vr : VotingRule) (c u1 u2 : K) : K :=
  match vr with
  | VotingRule.Binary => c * sgn (u1 - u2)
  | VotingRule.Proportional => c * (u1 - u2)
  | VotingRule.Saturating => c * ((u1 - u2) / (1 + |u1 - u2|))

end Model

/-- A matrix whose entries come out of `sqrt`: a `KMatrix` of reals. -/
structure RMatrix where
  numR : Nat
  numC : Nat
  val : Nat → Nat → ℝ

namespace RMatrix

/-- Modelled from the spec: the constructor `KMatrix(nr, nc)`, a matrix of zeros. -/
def zeros (nr nc : Nat) : RMatrix := ⟨nr, nc, fun _ _ => 0⟩

/-- Modelled from the spec: bounds-checked element access `m(i, j)`. -/
def get? (m : RMatrix) (i j : Nat) : Option ℝ :=
  if i < m.numR ∧ j < m.numC then some (m.val i j) else none

/-- Modelled from the spec: `KMatrix::map(fn, nr, nc)`, the matrix of the values
of `fn` at every `(i, j)` of the shape; it has no result when an evaluation of
`fn` has none. -/
noncomputable def mapOpt (fn : Nat → Nat → Option ℝ) (nr nc : Nat) : Option RMatrix :=
  if ∀ i, i < nr → ∀ j, j < nc → (fn i j).isSome = true then
    some ⟨nr, nc, fun i j => (fn i j).getD 0⟩
  else none

/-- Modelled from the spec: elementwise difference `a - b`, defined for equal shapes. -/
noncomputable def sub (a b : RMatrix) : Option RMatrix :=
  if a.numR = b.numR ∧ a.numC = b.numC then
    some ⟨a.numR, a.numC, fun i j => a.val i j - b.val i j⟩
  else none

/-- Modelled from the spec: `KBase::norm`, the Euclidean (Frobenius) norm. -/
noncomputable def norm (m : RMatrix) : ℝ :=
  Real.sqrt (∑ i in Finset.range m.numR, ∑ j in Finset.range m.numC, (m.val i j) ^ 2)

end RMatrix

/-- The rules `KBase::BigRAdjust` relating the risk attitude that actor `h`
ascribes to actor `i` to their own, as `setAllAUtil` names them
(smp.cpp 433-453). -/
inductive BigRAdjust where
  | FullRA
  | TwoThirdsRA
  | HalfRA
  | OneThirdRA
  | NoRA
  deriving DecidableEq, Repr

namespace Model

/-- Modelled from the spec: `Model::estNRA(rh, ri, ra)` (kmodel, not among the
sources), with the formulas that `setAllAUtil` prints for each rule:
`ri`, `(rh + 2*ri)/3`, `(rh + ri)/2`, `(2*rh + ri)/3`, `rh`. -/
def estNRA {K : Type} [LinearOrderedField K] (rh ri : K) (ra : BigRAdjust) : K :=
  match ra with
  | BigRAdjust.FullRA => ri
  | BigRAdjust.TwoThirdsRA => (rh + 2 * ri) / 3
  | BigRAdjust.HalfRA => (rh + ri) / 2
  | BigRAdjust.OneThirdRA => (2 * rh + ri) / 3
  | BigRAdjust.NoRA => rh

end Model

namespace SMPModel

/-- Utility of a difference of positions, `SMPModel::bvUtil` (smp.cpp 870-874). -/
noncomputable def bvUtil (vd vs : KMatrix) (R : ℝ) : Option ℝ := do
  let sd ← bvDiff vd vs
  bsUtil sd R

end SMPModel

namespace SMPState

/-- The risk attitude of actor `i`, `SMPState::aNRA` (smp.cpp 519-525); `nra`
is the column of risk attitudes of the state. -/
def aNRA (nra : RMatrix) (st : SMPState) (i : Nat) : Option ℝ := do
  let nr := nra.numR
  assertThat (nr = st.numAct)
  assertThat (i < nr)
  nra.get? i 0

/-- The risk attitude that actor `h` ascribes to actor `i`, `SMPState::estNRA`
(smp.cpp 356-361). -/
noncomputable def estNRA (nra : RMatrix) (h i : Nat) (ra : BigRAdjust) : Option ℝ := do
  let rh ← nra.get? h 0
  let ri ← nra.get? i 0
  pure (Model.estNRA rh ri ra)

/-- The entry `(i, j)` of the difference matrix, the local function `dfn` of
`SMPState::setVDiff` (smp.cpp 259-275) when no positions are given: the
distance from the ideal point of actor `i` to the position of actor `j` under
the saliences of actor `i`. -/
noncomputable def setVDiffEntry (actrs : List SMPActor) (st : SMPState) (i j : Nat) :
    Option ℝ := do
  let ai ← actrs[i]?
  let posJ ← st.pstns[j]?
  let idlI ← st.ideals[i]?
  let d ← KMatrix.sub idlI posJ
  SMPModel.bvDiff d ai.vSal

/-- The difference matrix `vDiff`, `SMPState::setVDiff` (smp.cpp 258-283),
called without given positions; `actrs` is the roster `model->actrs`. -/
noncomputable def setVDiff (actrs : List SMPActor) (st : SMPState) : Option RMatrix := do
  let na := st.numAct
  assertThat (na = st.ideals.length)
  assertThat (na = st.accomodate.numR)
  assertThat (na = st.accomodate.numC)
  RMatrix.mapOpt (setVDiffEntry actrs st) na na

/-- The local function `uFn1` of `SMPState::setAllAUtil` (smp.cpp 390-392):
the utility of the difference `vDiff(i, j)` under the risk attitude
`nra(i, 0)`. -/
noncomputable def uFn1 (vDiff nra : RMatrix) (i j : Nat) : Option ℝ := do
  let d ← vDiff.get? i j
  let r ← nra.get? i 0
  SMPModel.bsUtil d r

/-- The entry `(i, j)` of the utility matrix from the perspective of actor `h`
(smp.cpp 458-465). -/
noncomputable def perspEntry (vDiff nra : RMatrix) (ra : BigRAdjust) (h i j : Nat) : Option ℝ := do
  let rhi ← estNRA nra h i ra
  let dij ← vDiff.get? i j
  SMPModel.bsUtil dij rhi

/-- One pass of the loop over the perspectives `h` of `SMPState::setAllAUtil`
(smp.cpp 457-480): the matrix `u_h_ij` and the assertion that it differs from
the objective matrix `raUtil_ij`; the accumulator is `aUtil`. -/
noncomputable def setAllAUtilStep (vDiff nra raUtil : RMatrix) (ra : BigRAdjust) (na : Nat)
    (aUtil : List RMatrix) (h : Nat) : Option (List RMatrix) := do
  let u_h_ij ← RMatrix.mapOpt (perspEntry vDiff nra ra h) na na
  let d ← RMatrix.sub u_h_ij raUtil
  assertThat ((1 / 10 ^ 6 : ℝ) < RMatrix.norm d)
  pure (aUtil ++ [u_h_ij])

/-- What `SMPState::setAllAUtil` leaves in the state: the difference matrix,
the inferred risk attitudes and the list `aUtil` of perceived utility matrices. -/
structure AUtilResult where
  vDiff : RMatrix
  nra : RMatrix
  raUtil : RMatrix
  aUtil : List RMatrix

/-- All perceived utility matrices, `SMPState::setAllAUtil` (smp.cpp 374-481),
at reporting level `Silent`.  `inferRisk` stands for the chain `Model::vote`,
`Model::coalitions`, `Model::probCE2`, `Model::bigRfromProb` (kmodel, not among
the sources) that turns the risk-neutral utility matrix into the column of
risk attitudes; `eLen` and `uLen` are the sizes of `eIndices` and `uIndices`. -/
noncomputable def setAllAUtil (inferRisk : RMatrix → RMatrix) (ra : BigRAdjust)
    (actrs : List SMPActor) (eLen uLen : Nat) (st : SMPState) : Option AUtilResult := do
  let na := st.numAct
  assertThat (na = eLen)
  assertThat (0 < uLen)
  assertThat (uLen ≤ na)
  let vDiff ← setVDiff actrs st
  let nra0 := RMatrix.zeros na 1
  let rnUtil ← RMatrix.mapOpt (uFn1 vDiff nra0) na na
  let nra := inferRisk rnUtil
  let raUtil ← RMatrix.mapOpt (uFn1 vDiff nra) na na
  let d ← RMatrix.sub rnUtil raUtil
  assertThat ((1 / 10 ^ 6 : ℝ) < RMatrix.norm d)
  let aUtil ← (List.range na).foldlM (setAllAUtilStep vDiff nra raUtil ra na) []
  pure ⟨vDiff, nra, raUtil, aUtil⟩

end SMPState

namespace SMPActor

/-- The utility to an actor of a position, `SMPActor::posUtil`
(smp.cpp 116-127); `ai` is the index `actrNdx(this)` of the actor and `nra` the
column of risk attitudes of the state. -/
noncomputable def posUtil (a : SMPActor) (ai : Nat) (nra : RMatrix) (st : SMPState)
    (ap1 : KMatrix) : Option ℝ := do
  let ri ← SMPState.aNRA nra st ai
  let p0 ← st.pstns[ai]?
  let d ← KMatrix.sub p0 ap1
  SMPModel.bvUtil d a.vSal ri

/-- The vote of an actor between two positions, `SMPActor::vote`
(smp.cpp 108-113); `vr` is the voting rule of the actor. -/
noncomputable def vote (vr : VotingRule) (a : SMPActor) (ai : Nat) (nra : RMatrix)
    (st : SMPState) (ap1 ap2 : KMatrix) : Option ℝ := do
  let u1 ← posUtil a ai nra st ap1
  let u2 ← posUtil a ai nra st ap2
  pure (Model.vote vr ((a.sCap : ℚ) : ℝ) u1 u2)

end SMPActor

namespace CSState

/-- The neighbouring matchings of a matching, the local function `nfn` of
`CSState::doSUSN` (comsel.cpp 418-465, inside the part of `doSUSN` that is
commented out): the matching itself, then for every `i < j` the matching with
entries `i` and `j` exchanged, then for every `i < j < k` the two matchings
with entries `i`, `j`, `k` rotated.  Each loop appends to `mpVec`. -/
def nfn (mp0 : MtchPstn) : List MtchPstn :=
  let numI := mp0.mtch.length
  let mpVec : List MtchPstn := [mp0]
  let mpVec := (List.range numI).foldl (fun mpVec i =>
    (List.range' (i + 1) (numI - (i + 1))).foldl (fun mpVec j =>
      let ei := mp0.mtch.getD i 0
      let ej := mp0.mtch.getD j 0
      let mij : MtchPstn := ⟨(mp0.mtch.set i ej).set j ei⟩
      mpVec ++ [mij]) mpVec) mpVec
  let mpVec := (List.range numI).foldl (fun mpVec i =>
    (List.range' (i + 1) (numI - (i + 1))).foldl (fun mpVec j =>
      (List.range' (j + 1) (numI - (j + 1))).foldl (fun mpVec k =>
        let ei := mp0.mtch.getD i 0
        let ej := mp0.mtch.getD j 0
        let ek := mp0.mtch.getD k 0
        let mjki : MtchPstn := ⟨((mp0.mtch.set i ej).set j ek).set k ei⟩
        let mpVec := mpVec ++ [mjki]
        let mkij : MtchPstn := ⟨((mp0.mtch.set i ek).set j ei).set k ej⟩
        mpVec ++ [mkij]) mpVec) mpVec) mpVec
  mpVec

end CSState

/-! ### The quantities the claims speak of, and example data -/

/-- Weighted squared difference `∑ (vd i j * vs i j)^2` over the shape of `vd`. -/
def dsSqrSum (vd vs : KMatrix) : ℚ :=
  ∑ i in Finset.range vd.numR, ∑ j in Finset.range vd.numC, (vd.val i j * vs.val i j) ^ 2

/-- Squared salience norm `∑ (vs i j)^2` over the shape of `vd`. -/
def ssSqrSum (vd vs : KMatrix) : ℚ :=
  ∑ i in Finset.range vd.numR, ∑ j in Finset.range vd.numC, (vs.val i j) ^ 2

/-- A column vector (an `n × 1` matrix, the shape of a `VctrPstn`) with the
given entries. -/
def colVec (xs : List ℚ) : KMatrix := ⟨xs.length, 1, fun i _ => xs.getD i 0⟩

/-- A matrix given by its rows, all as long as the first. -/
def ofRows (rows : List (List ℚ)) : KMatrix :=
  ⟨rows.length, (rows.headD []).length, fun i j => (rows.getD i []).getD j 0⟩

/-- The position of actor `j` in a state (a zero vector past the end). -/
def pstnAt (st : SMPState) (j : Nat) : KMatrix := st.pstns.getD j (KMatrix.zeros st.numDim 1)

/-- The ideal point of actor `i` in a state (a zero vector past the end). -/
def idealAt (st : SMPState) (i : Nat) : KMatrix := st.ideals.getD i (KMatrix.zeros st.numDim 1)

/-- Sum of row `i` of the accommodation matrix. -/
def accRowSum (st : SMPState) (i : Nat) : ℚ :=
  ∑ j in Finset.range st.numAct, st.accomodate.val i j

/-- The accommodation-weighted combination of the actors' current positions,
plus the remaining weight on the previous ideal point of actor `i`:
`∑ j, A(i,j) * pstn_j + (1 - ∑ j, A(i,j)) * ideal_i`. -/
def newIdealPoint (st : SMPState) (i : Nat) : KMatrix :=
  ⟨st.numDim, 1, fun r c =>
    (∑ j in Finset.range st.numAct, st.accomodate.val i j * (pstnAt st j).val r c) +
      (1 - accRowSum st i) * (idealAt st i).val r c⟩

/-- The shape invariant of a state (spec section 3): as many positions and
ideal points as actors, a square accommodation matrix of that size, every
position and ideal point a `numDim × 1` vector, and the number of actors within
the model's limits. -/
def WellFormed (c : Consts) (st : SMPState) : Prop :=
  c.minNumActor ≤ st.numAct ∧ st.numAct ≤ c.maxNumActor ∧
  st.accomodate.numR = st.numAct ∧ st.accomodate.numC = st.numAct ∧
  st.pstns.length = st.numAct ∧ st.ideals.length = st.numAct ∧
  (∀ p ∈ st.pstns, p.numR = st.numDim ∧ p.numC = 1) ∧
  (∀ q ∈ st.ideals, q.numR = st.numDim ∧ q.numC = 1)

/-- The difference of the positions of actor `i` in two states. -/
def pstnDiff (s1 s2 : SMPState) (i : Nat) : KMatrix :=
  ⟨(pstnAt s1 i).numR, (pstnAt s1 i).numC,
    fun r k => (pstnAt s1 i).val r k - (pstnAt s2 i).val r k⟩

/-- The sum over the first `n` actors of the norms of the differences of their
positions in two states: the inter-state distance. -/
noncomputable def distSum (s1 s2 : SMPState) (n : Nat) : ℝ :=
  ∑ i in Finset.range n, KMatrix.norm (pstnDiff s1 s2 i)

/-- The sizes that `initModel` (with `setAccomodate`) checks: the length of the
flag vector; for every actor a capability, and for every dimension a salience
and a coordinate; the number of actors within the model's limits; and an
accommodation matrix with one row and one column per actor.  The number of
descriptions is not among them. -/
def SizesOk (c : Consts) (aName dName : List String) (cap pos sal accM : KMatrix)
    (f : List Bool) : Prop :=
  f.length = c.numSQLLogGrps ∧
  (∀ i, i < aName.length →
    (i < cap.numR ∧ 0 < cap.numC) ∧
    ∀ j, j < dName.length → (i < sal.numR ∧ j < sal.numC) ∧ (i < pos.numR ∧ j < pos.numC)) ∧
  c.minNumActor ≤ aName.length ∧ aName.length ≤ c.maxNumActor ∧
  aName.length = accM.numR ∧ aName.length = accM.numC

/-- Three one-dimensional positions `0`, `0.6 * posTol` and `1.2 * posTol`. -/
def chainState (posTol : ℚ) : SMPState :=
  ⟨3, 1, [colVec [0], colVec [3 / 5 * posTol], colVec [6 / 5 * posTol]], [],
    KMatrix.zeros 0 0⟩

/-- Two actors in one dimension at the positions `0` and `1/2`, each at its
ideal point, with identity accommodation. -/
def pairState : SMPState :=
  ⟨2, 1, [colVec [0], colVec [1 / 2]], [colVec [0], colVec [1 / 2]], KMatrix.iMat 2⟩

/-- The roster of `pairState`: capability 100 and salience 1 for both actors. -/
def pairActrs : List SMPActor :=
  [⟨"A0", "", 100, colVec [1]⟩, ⟨"A1", "", 100, colVec [1]⟩]

/-- A risk inference that gives actor 0 the attitude `1/2` and actor 1 the
attitude `-1/2`, whatever the utilities. -/
noncomputable def pairRisk (_ : RMatrix) : RMatrix :=
  ⟨2, 1, fun i _ => if i = 0 then 1 / 2 else -1 / 2⟩

/-- The matching with the entries at `i` and `j` exchanged. -/
def swapAt (mp0 : MtchPstn) (i j : Nat) : MtchPstn :=
  ⟨(mp0.mtch.set i (mp0.mtch.getD j 0)).set j (mp0.mtch.getD i 0)⟩

/-- The matching with the entries at `i`, `j`, `k` rotated one way: entry `j`
moves to `i`, entry `k` to `j`, entry `i` to `k`. -/
def rotA (mp0 : MtchPstn) (i j k : Nat) : MtchPstn :=
  ⟨((mp0.mtch.set i (mp0.mtch.getD j 0)).set j (mp0.mtch.getD k 0)).set k (mp0.mtch.getD i 0)⟩

/-- The matching with the entries at `i`, `j`, `k` rotated the other way: entry
`k` moves to `i`, entry `i` to `j`, entry `j` to `k`. -/
def rotB (mp0 : MtchPstn) (i j k : Nat) : MtchPstn :=
  ⟨((mp0.mtch.set i (mp0.mtch.getD k 0)).set j (mp0.mtch.getD i 0)).set k (mp0.mtch.getD j 0)⟩

/-- All single-pair swaps of a matching, one per pair `i < j`, in the order of
the loops. -/
def swapsOf (mp0 : MtchPstn) : List MtchPstn :=
  (List.range mp0.mtch.length).flatMap (fun i =>
    (List.range' (i + 1) (mp0.mtch.length - (i + 1))).flatMap (fun j => [swapAt mp0 i j]))

/-- Both rotations of every triple `i < j < k` of a matching, in the order of
the loops. -/
def rotsOf (mp0 : MtchPstn) : List MtchPstn :=
  (List.range mp0.mtch.length).flatMap (fun i =>
    (List.range' (i + 1) (mp0.mtch.length - (i + 1))).flatMap (fun j =>
      (List.range' (j + 1) (mp0.mtch.length - (j + 1))).flatMap (fun k =>
        [rotA mp0 i j k, rotB mp0 i j k])))

/-- Example values for the constants, used where a statement is applied to
concrete data. -/
def exConsts : Consts := ⟨3, 100, 0⟩

/-- Scenario A of the spec: 3 actors, 1 dimension, positions `0.2, 0.5, 0.8`,
equal saliences, equal capabilities, identity accommodation. -/
def scenarioA : Option SMPModelData :=
  SMPModel.initModel exConsts ["A0", "A1", "A2"] ["", "", ""] ["D0"]
    (colVec [100, 100, 100]) (colVec [1 / 5, 1 / 2, 4 / 5]) (colVec [1 / 2, 1 / 2, 1 / 2])
    (KMatrix.iMat 3) 0 []

/-- A scenario of the right sizes with invalid values: capabilities 0 and -5,
saliences -0.5 and 2, accommodation entries 2 and -1 and a row sum of 6. -/
def scenarioBad : Option SMPModelData :=
  SMPModel.initModel exConsts ["A0", "A1", "A2"] ["", "", ""] ["D0"]
    (colVec [0, -5, 100]) (colVec [1 / 5, 1 / 2, 4 / 5]) (colVec [-1 / 2, 2, 1 / 2])
    (ofRows [[2, 2, 2], [-1, 0, 0], [0, 0, 0]]) 0 []

/-- A state with identity accommodation, as `setAccomodate(1.0)` leaves it
(the matrix is `1.0 * iMat(3)`), whose ideal points differ from the positions. -/
def identState : SMPState :=
  ⟨3, 1, [colVec [1 / 5], colVec [1 / 2], colVec [4 / 5]],
    [colVec [0], colVec [1], colVec [1 / 2]], KMatrix.smul 1 (KMatrix.iMat 3)⟩

/-- A state in which actor 0 gives all its weight to actor 1, whose position
`1` differs from its ideal point `0`. -/
def followState : SMPState :=
  ⟨3, 1, [colVec [0], colVec [1], colVec [0]],
    [colVec [0], colVec [0], colVec [0]], ofRows [[0, 1, 0], [0, 0, 0], [0, 0, 0]]⟩

/-! ## Theorems -/

/-! ### Loops -/

/-- A loop `for k in 0..n-1` that may fail: if a property holds on entry and
every pass keeps it without failing, the loop returns and the property holds
on exit. -/
theorem foldlM_range_inv {α : Type} (f : α → Nat → Option α) (P : Nat → α → Prop)
    (n : Nat) (a0 : α) (h0 : P 0 a0)
    (hstep : ∀ k a, k < n → P k a → ∃ b, f a k = some b ∧ P (k + 1) b) :
    ∃ a, (List.range n).foldlM f a0 = some a ∧ P n a := by
  induction n with
  | zero => exact ⟨a0, by simp, h0⟩
  | succ m ih =>
    obtain ⟨a, ha, hP⟩ := ih (fun k a hk hPk => hstep k a (Nat.lt_succ_of_lt hk) hPk)
    obtain ⟨b, hb, hPb⟩ := hstep m a (Nat.lt_succ_self m) hP
    refine ⟨b, ?_, hPb⟩
    rw [List.range_succ, List.foldlM_append, ha]
    simp [hb]

/-- A loop `for k in 0..n-1` that returned: a property that holds on entry and
is kept by every pass that does not fail holds on exit. -/
theorem foldlM_range_post {α : Type} (f : α → Nat → Option α) (P : Nat → α → Prop)
    (n : Nat) (a0 a : α) (h : (List.range n).foldlM f a0 = some a) (h0 : P 0 a0)
    (hstep : ∀ k x y, k < n → P k x → f x k = some y → P (k + 1) y) : P n a := by
  induction n generalizing a with
  | zero =>
    simp at h
    exact h ▸ h0
  | succ m ih =>
    rw [List.range_succ, List.foldlM_append] at h
    cases hx : (List.range m).foldlM f a0 with
    | none => simp [hx] at h
    | some x =>
      have hPx := ih x hx (fun k x y hk => hstep k x y (Nat.lt_succ_of_lt hk))
      simp [hx] at h
      exact hstep m x a (Nat.lt_succ_self m) hPx h

/-- An assertion returns exactly when its condition holds. -/
theorem assertThat_eq_some (p : Prop) [Decidable p] (u : Unit) :
    assertThat p = some u ↔ p := by
  unfold assertThat
  split_ifs with h <;> simp [h]

/-! ### The scalar utility `bsUtil` -/

/-- Value of `bsUtil` on the documented domain `0 ≤ sd ≤ 1`. -/
theorem bsUtil_of_le_one {K : Type} [LinearOrderedField K] (sd R : K)
    (h0 : 0 ≤ sd) (h1 : sd ≤ 1) :
    SMPModel.bsUtil sd R = some ((1 - sd) * (1 + sd * R)) := by
  simp [SMPModel.bsUtil, assertThat, h0, h1]

/-- Value of `bsUtil` above the documented domain, `1 < sd`. -/
theorem bsUtil_of_one_lt {K : Type} [LinearOrderedField K] (sd R : K) (h1 : 1 < sd) :
    SMPModel.bsUtil sd R = some ((1 - sd) * (1 + R)) := by
  have h0 : 0 ≤ sd := le_trans zero_le_one h1.le
  simp [SMPModel.bsUtil, assertThat, h0, not_le.mpr h1]

/-- The value `(1 - d) * (1 + d * R)` lies in `[0,1]` for `d` in `[0,1]` and
`R` in `[-1,1]`. -/
theorem bsUtil_value_bounds {K : Type} [LinearOrderedField K] (d R : K)
    (hd0 : 0 ≤ d) (hd1 : d ≤ 1) (hR0 : -1 ≤ R) (hR1 : R ≤ 1) :
    0 ≤ (1 - d) * (1 + d * R) ∧ (1 - d) * (1 + d * R) ≤ 1 := by
  constructor
  · have h1 : 0 ≤ 1 - d := by linarith
    have h2 : 0 ≤ 1 + d * R := by nlinarith
    exact mul_nonneg h1 h2
  · have h3 : 0 ≤ d * (1 - R * (1 - d)) := by
      apply mul_nonneg hd0
      nlinarith
    nlinarith

/-- C2: for every distance `0 ≤ d ≤ 1` and every risk attitude `-1 ≤ R ≤ 1`,
`bsUtil d R` returns a value in `[0,1]`. -/
theorem C2_bsUtil_unit_interval {K : Type} [LinearOrderedField K] (d R : K)
    (hd0 : 0 ≤ d) (hd1 : d ≤ 1) (hR0 : -1 ≤ R) (hR1 : R ≤ 1) :
    ∃ u, SMPModel.bsUtil d R = some u ∧ 0 ≤ u ∧ u ≤ 1 :=
  ⟨(1 - d) * (1 + d * R), bsUtil_of_le_one d R hd0 hd1,
    bsUtil_value_bounds d R hd0 hd1 hR0 hR1⟩

/-- Witness for C2 at `d = 1/2`, `R = -1/2`. -/
theorem C2_bsUtil_unit_interval_witness :
    ∃ u : ℚ, SMPModel.bsUtil (1 / 2) (-1 / 2) = some u ∧ 0 ≤ u ∧ u ≤ 1 :=
  C2_bsUtil_unit_interval (1 / 2 : ℚ) (-1 / 2) (by norm_num) (by norm_num) (by norm_num)
    (by norm_num)

/-- C3: for every distance `d ≥ 0`, at most 1 or above it, and every risk
attitude `R`, `bsUtil d R` returns `(1 - d) * (1 + min d 1 * R)`. -/
theorem C3_bsUtil_formula {K : Type} [LinearOrderedField K] (d R : K) (hd0 : 0 ≤ d) :
    SMPModel.bsUtil d R = some ((1 - d) * (1 + min d 1 * R)) := by
  rcases le_or_lt d 1 with h | h
  · rw [bsUtil_of_le_one d R hd0 h, min_eq_left h]
  · rw [bsUtil_of_one_lt d R h, min_eq_right h.le, one_mul]

/-- Witness for C3 at `d = 3/2`, `R = 1/2`, above the documented domain. -/
theorem C3_bsUtil_formula_witness :
    SMPModel.bsUtil (3 / 2 : ℚ) (1 / 2) = some ((1 - 3 / 2) * (1 + min (3 / 2) 1 * (1 / 2))) :=
  C3_bsUtil_formula (3 / 2 : ℚ) (1 / 2) (by norm_num)

/-- C4, as stated, fails: at `d = 2`, `R = 0` the code returns `-1`, which is
not in `[0,1]`. -/
theorem C4_bsUtil_leaves_range :
    SMPModel.bsUtil (2 : ℚ) 0 = some (-1) ∧ ¬ (0 ≤ (-1 : ℚ) ∧ (-1 : ℚ) ≤ 1) := by
  constructor
  · rw [bsUtil_of_one_lt (2 : ℚ) 0 (by norm_num)]
    norm_num
  · norm_num

/-- C4, amended: for every `d ≥ 0` and `R` in `[-1,1]`, `bsUtil d R` returns a
value that is at most 1; the value is in `[0,1]` when `d ≤ 1`; when `1 < d` it
is `(1 - d) * (1 + R)`, which lies in `[2 * (1 - d), 0]`. -/
theorem C4_bsUtil_range_amended {K : Type} [LinearOrderedField K] (d R : K)
    (hd0 : 0 ≤ d) (hR0 : -1 ≤ R) (hR1 : R ≤ 1) :
    ∃ u, SMPModel.bsUtil d R = some u ∧ u ≤ 1 ∧ (d ≤ 1 → 0 ≤ u) ∧
      (1 < d → u = (1 - d) * (1 + R) ∧ 2 * (1 - d) ≤ u ∧ u ≤ 0) := by
  rcases le_or_lt d 1 with h | h
  · obtain ⟨hu0, hu1⟩ := bsUtil_value_bounds d R hd0 h hR0 hR1
    exact ⟨_, bsUtil_of_le_one d R hd0 h, hu1, fun _ => hu0,
      fun h1 => absurd h (not_le.mpr h1)⟩
  · have hup : (1 - d) * (1 + R) ≤ 0 :=
      mul_nonpos_of_nonpos_of_nonneg (by linarith) (by linarith)
    refine ⟨(1 - d) * (1 + R), bsUtil_of_one_lt d R h, by linarith,
      fun h1 => absurd h1 (not_le.mpr h), fun _ => ⟨rfl, ?_, hup⟩⟩
    nlinarith

/-- Witness for the amended C4 at `d = 2`, `R = 0`. -/
theorem C4_bsUtil_range_amended_witness :
    ∃ u : ℚ, SMPModel.bsUtil 2 0 = some u ∧ u ≤ 1 ∧ ((2 : ℚ) ≤ 1 → 0 ≤ u) ∧
      ((1 : ℚ) < 2 → u = (1 - 2) * (1 + 0) ∧ 2 * (1 - 2) ≤ u ∧ u ≤ 0) :=
  C4_bsUtil_range_amended (2 : ℚ) 0 (by norm_num) (by norm_num) (by norm_num)

/-- C5: for every fixed `R` in `[-1,1]`, `bsUtil` is non-increasing in the
distance on `d ≥ 0`: if `0 ≤ d1 ≤ d2` then both calls return and
`bsUtil d2 R ≤ bsUtil d1 R`. -/
theorem C5_bsUtil_antitone {K : Type} [LinearOrderedField K] (d1 d2 R : K)
    (hd1 : 0 ≤ d1) (h12 : d1 ≤ d2) (hR0 : -1 ≤ R) (hR1 : R ≤ 1) :
    ∃ u1 u2, SMPModel.bsUtil d1 R = some u1 ∧ SMPModel.bsUtil d2 R = some u2 ∧ u2 ≤ u1 := by
  have hd2 : 0 ≤ d2 := le_trans hd1 h12
  rcases le_or_lt d2 1 with h2 | h2
  · have h1 : d1 ≤ 1 := le_trans h12 h2
    refine ⟨_, _, bsUtil_of_le_one d1 R hd1 h1, bsUtil_of_le_one d2 R hd2 h2, ?_⟩
    have key : 0 ≤ (d2 - d1) * (1 - R + R * (d1 + d2)) := by
      apply mul_nonneg (by linarith)
      rcases le_or_lt 0 R with hR | hR
      · nlinarith [mul_nonneg hR (add_nonneg hd1 hd2)]
      · nlinarith [mul_nonneg (neg_nonneg.mpr hR.le) (by linarith : (0 : K) ≤ 2 - (d1 + d2))]
    nlinarith
  · rcases le_or_lt d1 1 with h1 | h1
    · refine ⟨_, _, bsUtil_of_le_one d1 R hd1 h1, bsUtil_of_one_lt d2 R h2, ?_⟩
      have ha : (1 - d2) * (1 + R) ≤ 0 :=
        mul_nonpos_of_nonpos_of_nonneg (by linarith) (by linarith)
      have hb : 0 ≤ (1 - d1) * (1 + d1 * R) :=
        mul_nonneg (by linarith) (by nlinarith)
      linarith
    · refine ⟨_, _, bsUtil_of_one_lt d1 R h1, bsUtil_of_one_lt d2 R h2, ?_⟩
      have : 0 ≤ (d2 - d1) * (1 + R) := mul_nonneg (by linarith) (by linarith)
      nlinarith

/-- Witness for C5 at `d1 = 1/2`, `d2 = 3/2`, `R = -1/2`. -/
theorem C5_bsUtil_antitone_witness :
    ∃ u1 u2 : ℚ, SMPModel.bsUtil (1 / 2) (-1 / 2) = some u1 ∧
      SMPModel.bsUtil (3 / 2) (-1 / 2) = some u2 ∧ u2 ≤ u1 :=
  C5_bsUtil_antitone (1 / 2 : ℚ) (3 / 2) (-1 / 2) (by norm_num) (by norm_num) (by norm_num)
    (by norm_num)

/-! ### The salience-weighted distance `bvDiff` -/

/-- One row of `bvDiff` adds the row's two sums to the accumulator. -/
theorem bvDiffRow_eq (vd vs : KMatrix) (i : Nat) (acc : ℚ × ℚ)
    (hs : ∀ j, j < vd.numC → 0 ≤ vs.val i j) :
    SMPModel.bvDiffRow vd vs acc i =
      some (acc.1 + ∑ j in Finset.range vd.numC, (vd.val i j * vs.val i j) ^ 2,
            acc.2 + ∑ j in Finset.range vd.numC, (vs.val i j) ^ 2) := by
  obtain ⟨a, ha, hP⟩ := foldlM_range_inv (SMPModel.bvDiffCell vd vs i)
    (fun k a => a = (acc.1 + ∑ j in Finset.range k, (vd.val i j * vs.val i j) ^ 2,
                     acc.2 + ∑ j in Finset.range k, (vs.val i j) ^ 2))
    vd.numC acc (by simp) (by
      intro k a hk hPk
      refine ⟨_, ?_, rfl⟩
      subst hPk
      simp only [SMPModel.bvDiffCell, assertThat, hs k hk, if_true, Option.pure_def,
        Option.bind_eq_bind, Option.some_bind, Finset.sum_range_succ]
      congr 1
      ext <;> simp <;> ring)
  rw [SMPModel.bvDiffRow, ha, hP]

/-- The two sums `bvDiff` accumulates, when no salience is negative. -/
theorem bvDiffSums_eq (vd vs : KMatrix)
    (hs : ∀ i j, i < vd.numR → j < vd.numC → 0 ≤ vs.val i j) :
    SMPModel.bvDiffSums vd vs = some (dsSqrSum vd vs, ssSqrSum vd vs) := by
  obtain ⟨a, ha, hP⟩ := foldlM_range_inv (SMPModel.bvDiffRow vd vs)
    (fun k a => a = (∑ i in Finset.range k, ∑ j in Finset.range vd.numC,
                        (vd.val i j * vs.val i j) ^ 2,
                     ∑ i in Finset.range k, ∑ j in Finset.range vd.numC, (vs.val i j) ^ 2))
    vd.numR (0, 0) (by simp) (by
      intro k a hk hPk
      refine ⟨_, bvDiffRow_eq vd vs k a (fun j hj => hs k j hk hj), ?_⟩
      subst hPk
      simp [Finset.sum_range_succ])
  rw [SMPModel.bvDiffSums, ha, hP]
  rfl

/-- The squared salience norm is positive when no salience is negative and one
is positive. -/
theorem ssSqrSum_pos (vd vs : KMatrix)
    (hpos : ∃ i j, i < vd.numR ∧ j < vd.numC ∧ 0 < vs.val i j) :
    0 < ssSqrSum vd vs := by
  obtain ⟨i, j, hi, hj, hij⟩ := hpos
  unfold ssSqrSum
  have h1 : (vs.val i j) ^ 2 ≤ ∑ j in Finset.range vd.numC, (vs.val i j) ^ 2 :=
    Finset.single_le_sum (f := fun j => (vs.val i j) ^ 2) (fun _ _ => sq_nonneg _)
      (Finset.mem_range.mpr hj)
  have h2 : (∑ j in Finset.range vd.numC, (vs.val i j) ^ 2) ≤
      ∑ i in Finset.range vd.numR, ∑ j in Finset.range vd.numC, (vs.val i j) ^ 2 :=
    Finset.single_le_sum (f := fun i => ∑ j in Finset.range vd.numC, (vs.val i j) ^ 2)
      (fun _ _ => Finset.sum_nonneg (fun _ _ => sq_nonneg _)) (Finset.mem_range.mpr hi)
  have h3 : 0 < (vs.val i j) ^ 2 := by positivity
  linarith

/-- What `bvDiff` returns when its assertions hold. -/
theorem bvDiff_eq_sqrt (vd vs : KMatrix) (hshape : KMatrix.sameShape vd vs)
    (hs : ∀ i j, i < vd.numR → j < vd.numC → 0 ≤ vs.val i j)
    (hpos : ∃ i j, i < vd.numR ∧ j < vd.numC ∧ 0 < vs.val i j) :
    SMPModel.bvDiff vd vs =
      some (Real.sqrt ((dsSqrSum vd vs / ssSqrSum vd vs : ℚ) : ℝ)) := by
  have hp := ssSqrSum_pos vd vs hpos
  simp [SMPModel.bvDiff, assertThat, hshape, bvDiffSums_eq vd vs hs, hp]

/-- C6: for a difference matrix `vd` and a salience matrix `vs` of the same
shape, with no negative salience and at least one positive, `bvDiff vd vs`
fails no assertion and returns `sqrt (∑ (vd i j * vs i j)^2 / ∑ (vs i j)^2)`,
and the divisor is strictly positive. -/
theorem C6_bvDiff_formula (vd vs : KMatrix) (hshape : KMatrix.sameShape vd vs)
    (hs : ∀ i j, i < vd.numR → j < vd.numC → 0 ≤ vs.val i j)
    (hpos : ∃ i j, i < vd.numR ∧ j < vd.numC ∧ 0 < vs.val i j) :
    SMPModel.bvDiff vd vs =
        some (Real.sqrt ((dsSqrSum vd vs / ssSqrSum vd vs : ℚ) : ℝ)) ∧
      0 < ssSqrSum vd vs :=
  ⟨bvDiff_eq_sqrt vd vs hshape hs hpos, ssSqrSum_pos vd vs hpos⟩

/-- Witness for C6: the difference `(1/2, -1)` under the saliences `(1/2, 0)`. -/
theorem C6_bvDiff_formula_witness :
    SMPModel.bvDiff (colVec [1 / 2, -1]) (colVec [1 / 2, 0]) =
        some (Real.sqrt ((dsSqrSum (colVec [1 / 2, -1]) (colVec [1 / 2, 0]) /
          ssSqrSum (colVec [1 / 2, -1]) (colVec [1 / 2, 0]) : ℚ) : ℝ)) ∧
      0 < ssSqrSum (colVec [1 / 2, -1]) (colVec [1 / 2, 0]) :=
  C6_bvDiff_formula (colVec [1 / 2, -1]) (colVec [1 / 2, 0])
    (by simp [KMatrix.sameShape, colVec])
    (by
      intro i j hi _
      have hi2 : i < 2 := by simpa [colVec] using hi
      interval_cases i <;> simp [colVec])
    ⟨0, 0, by simp [colVec], by simp [colVec], by simp [colVec]⟩

/-- The weighted squared difference is at most the squared salience norm when
every difference has absolute value at most 1. -/
theorem dsSqrSum_le_ssSqrSum (vd vs : KMatrix)
    (hd : ∀ i j, i < vd.numR → j < vd.numC → |vd.val i j| ≤ 1) :
    dsSqrSum vd vs ≤ ssSqrSum vd vs := by
  unfold dsSqrSum ssSqrSum
  apply Finset.sum_le_sum
  intro i hi
  apply Finset.sum_le_sum
  intro j hj
  have h := hd i j (Finset.mem_range.mp hi) (Finset.mem_range.mp hj)
  have h1 : (vd.val i j) ^ 2 ≤ 1 := by
    have := abs_le.mp h
    nlinarith
  have h2 : 0 ≤ (vs.val i j) ^ 2 := sq_nonneg _
  nlinarith

/-- C7: for saliences that are non-negative and not all zero, and differences
all of absolute value at most 1, `bvDiff` returns a value in `[0,1]`. -/
theorem C7_bvDiff_unit_interval (vd vs : KMatrix) (hshape : KMatrix.sameShape vd vs)
    (hs : ∀ i j, i < vd.numR → j < vd.numC → 0 ≤ vs.val i j)
    (hpos : ∃ i j, i < vd.numR ∧ j < vd.numC ∧ 0 < vs.val i j)
    (hd : ∀ i j, i < vd.numR → j < vd.numC → |vd.val i j| ≤ 1) :
    ∃ sd, SMPModel.bvDiff vd vs = some sd ∧ 0 ≤ sd ∧ sd ≤ 1 := by
  refine ⟨_, bvDiff_eq_sqrt vd vs hshape hs hpos, Real.sqrt_nonneg _, ?_⟩
  rw [Real.sqrt_le_one]
  have hp := ssSqrSum_pos vd vs hpos
  have hle := dsSqrSum_le_ssSqrSum vd vs hd
  have : dsSqrSum vd vs / ssSqrSum vd vs ≤ 1 := (div_le_one hp).mpr hle
  exact_mod_cast this

/-- Witness for C7: the difference `(1, -1/2)` under the saliences `(1/4, 3/4)`. -/
theorem C7_bvDiff_unit_interval_witness :
    ∃ sd, SMPModel.bvDiff (colVec [1, -1 / 2]) (colVec [1 / 4, 3 / 4]) = some sd ∧
      0 ≤ sd ∧ sd ≤ 1 :=
  C7_bvDiff_unit_interval (colVec [1, -1 / 2]) (colVec [1 / 4, 3 / 4])
    (by simp [KMatrix.sameShape, colVec])
    (by
      intro i j hi _
      have hi2 : i < 2 := by simpa [colVec] using hi
      interval_cases i
      · simp [colVec]
      · simp [colVec]
        norm_num)
    ⟨0, 0, by simp [colVec], by simp [colVec], by simp [colVec]⟩
    (by
      intro i j hi _
      have hi2 : i < 2 := by simpa [colVec] using hi
      interval_cases i
      · simp [colVec]
      · simp [colVec, abs_le]
        norm_num)

/-! ### Ideal points -/

/-- The norm of the difference of a matrix with itself is zero. -/
theorem norm_sub_self (p : KMatrix) :
    ∃ d, KMatrix.sub p p = some d ∧ KMatrix.norm d = 0 := by
  refine ⟨⟨p.numR, p.numC, fun i j => p.val i j - p.val i j⟩, ?_, ?_⟩
  · simp [KMatrix.sub, KMatrix.sameShape]
  · simp [KMatrix.norm, KMatrix.sumSq]

/-- When every ideal point is the actor's position, `posIdealDist` returns 0. -/
theorem posIdealDist_eq_zero (st : SMPState) (hid : st.ideals = st.pstns)
    (hna : st.numAct = st.pstns.length) :
    SMPState.posIdealDist st = some 0 := by
  obtain ⟨a, ha, hP⟩ := foldlM_range_inv (SMPState.posIdealDistStep st)
    (fun _ a => a = 0) st.numAct 0 rfl (by
      intro k a hk hPk
      refine ⟨0, ?_, rfl⟩
      subst hPk
      have hk2 : k < st.pstns.length := hna ▸ hk
      obtain ⟨d, hd, hn⟩ := norm_sub_self (st.pstns[k])
      simp [SMPState.posIdealDistStep, hid, List.getElem?_eq_getElem hk2, hd, hn])
  subst hP
  simp [SMPState.posIdealDist, assertThat, hid, hna.symm, ha]

/-- What `setAccomodate` checks and changes. -/
theorem setAccomodate_eq_some (c : Consts) (st st1 : SMPState) (aMat : KMatrix)
    (h : SMPState.setAccomodate c st aMat = some st1) :
    st1 = { st with accomodate := aMat } ∧ c.minNumActor ≤ st.numAct ∧
      st.numAct ≤ c.maxNumActor ∧ st.numAct = aMat.numR ∧ st.numAct = aMat.numC := by
  simp only [SMPState.setAccomodate, Option.bind_eq_bind, Option.bind_eq_some,
    assertThat_eq_some, Option.pure_def, Option.some.injEq] at h
  obtain ⟨_, h1, _, h2, _, h3, _, h4, h5⟩ := h
  exact ⟨h5.symm, h1, h2, h3, h4⟩

/-- Called without given points on a state with at least one actor,
`idealsFromPstns` copies the positions of the actors. -/
theorem idealsFromPstns_nil (c : Consts) (st st1 : SMPState) (hmin : 0 < c.minNumActor)
    (h : SMPState.idealsFromPstns c st [] = some st1) :
    st1 = { st with ideals := st.pstns.take st.numAct } ∧ st.numAct ≤ st.pstns.length := by
  simp only [SMPState.idealsFromPstns, Option.bind_eq_bind, Option.bind_eq_some,
    assertThat_eq_some, Option.pure_def, Option.some.injEq] at h
  obtain ⟨_, h1, _, _, _, _, ideals, hfold, hst⟩ := h
  have hna : st.numAct ≠ 0 := by omega
  have hg : decide (st.numAct = ([] : List KMatrix).length) = false := by simp [hna]
  rw [hg] at hfold
  have hP := foldlM_range_post (SMPState.idealsFromPstnsStep st [] false)
    (fun k a => a = st.pstns.take k ∧ k ≤ st.pstns.length) st.numAct [] ideals hfold
    (by simp) (by
      intro k x y _ hPk hy
      obtain ⟨hx, _⟩ := hPk
      simp only [SMPState.idealsFromPstnsStep, Bool.false_eq_true, if_false,
        Option.bind_eq_bind, Option.bind_eq_some, Option.pure_def, Option.some.injEq] at hy
      obtain ⟨p, hp, hy⟩ := hy
      obtain ⟨hk, hpk⟩ := List.getElem?_eq_some_iff.mp hp
      refine ⟨?_, hk⟩
      rw [← hy, hx, List.take_succ, hp]
      rfl)
  exact ⟨by rw [← hst, hP.1], hP.2⟩

/-- The actor loop of `initModel` adds one actor and one position per pass. -/
theorem initModel_loop_lengths (aName aDesc : List String) (nd numDim : Nat)
    (cap pos sal : KMatrix) (n : Nat) (r : List SMPActor × List KMatrix)
    (h : (List.range n).foldlM (SMPModel.initModelActor aName aDesc nd numDim cap pos sal)
      ([], []) = some r) :
    r.1.length = n ∧ r.2.length = n := by
  refine foldlM_range_post _ (fun k a => a.1.length = k ∧ a.2.length = k) n _ r h
    (by simp) ?_
  intro k x y _ hPk hy
  simp only [SMPModel.initModelActor, Option.bind_eq_bind, Option.bind_eq_some,
    Option.pure_def, Option.some.injEq] at hy
  obtain ⟨_, _, _, _, _, _, _, _, _, _, hy⟩ := hy
  rw [← hy]
  simp [hPk.1, hPk.2]

/-- C8: in the initial state of every scenario that `initModel` accepts, the
ideal point of each actor is that actor's position, and `posIdealDist` on this
state is 0.  The lower bound `Model::minNumActor` on the number of actors is
taken to be positive, so that the mean in `posIdealDist` divides by a positive
number. -/
theorem C8_initModel_ideals_are_positions (c : Consts) (hmin : 0 < c.minNumActor)
    (aName aDesc dName : List String) (cap pos sal accM : KMatrix) (s : Nat)
    (f : List Bool) (md : SMPModelData)
    (h : SMPModel.initModel c aName aDesc dName cap pos sal accM s f = some md) :
    ∃ st, md.history = [st] ∧ st.numAct = aName.length ∧
      st.pstns.length = aName.length ∧ st.ideals = st.pstns ∧
      SMPState.posIdealDist st = some 0 := by
  simp only [SMPModel.initModel, Option.bind_eq_bind, Option.bind_eq_some,
    Option.pure_def, Option.some.injEq] at h
  obtain ⟨_, _, r, hr, st1, h1, st2, h2, hmd⟩ := h
  obtain ⟨hl1, hl2⟩ := initModel_loop_lengths _ _ _ _ _ _ _ _ r hr
  obtain ⟨hst1, -⟩ := setAccomodate_eq_some _ _ _ _ h1
  obtain ⟨hst2, -⟩ := idealsFromPstns_nil c st1 st2 hmin h2
  have hid : st2.ideals = st2.pstns := by
    rw [hst2, hst1]
    simp [hl1, hl2]
  have hna : st2.numAct = st2.pstns.length := by
    rw [hst2, hst1]
    simp [hl1, hl2]
  have hlen : st2.pstns.length = aName.length := by
    rw [hst2, hst1]
    simp [hl2]
  exact ⟨st2, by rw [← hmd], by rw [hna, hlen], hlen, hid, posIdealDist_eq_zero st2 hid hna⟩

/-- Scenario A is accepted by `initModel`. -/
theorem scenarioA_accepted : scenarioA.isSome = true := by
  decide

/-- Witness for C8: scenario A of the spec. -/
theorem C8_initModel_ideals_are_positions_witness :
    ∃ md, scenarioA = some md ∧ ∃ st, md.history = [st] ∧ st.numAct = 3 ∧
      st.pstns.length = 3 ∧ st.ideals = st.pstns ∧ SMPState.posIdealDist st = some 0 := by
  obtain ⟨md, hmd⟩ := Option.isSome_iff_exists.mp scenarioA_accepted
  exact ⟨md, hmd, C8_initModel_ideals_are_positions exConsts (by decide) _ _ _ _ _ _ _ _ _ md hmd⟩

/-! ### The update of the ideal points, `newIdeals` -/

/-- The loop over `j` of `newIdeals` returns the row sum and the weighted sum
of the positions. -/
theorem newIdealsInner_loop (st : SMPState) (identP : Bool) (tol : ℚ) (htol : 0 < tol)
    (i : Nat) (hlen : st.pstns.length = st.numAct)
    (hshape : ∀ p ∈ st.pstns, p.numR = st.numDim ∧ p.numC = 1)
    (h01 : ∀ j, j < st.numAct → 0 ≤ st.accomodate.val i j ∧ st.accomodate.val i j ≤ 1)
    (hrow : accRowSum st i ≤ 1)
    (hid : identP = true → i < st.numAct → st.accomodate.val i i = 1) :
    (List.range st.numAct).foldlM (SMPState.newIdealsInner st identP tol i)
        (0, KMatrix.zeros st.numDim 1) =
      some (accRowSum st i, ⟨st.numDim, 1, fun r c =>
        ∑ j in Finset.range st.numAct, st.accomodate.val i j * (pstnAt st j).val r c⟩) := by
  obtain ⟨a, ha, hP⟩ := foldlM_range_inv (SMPState.newIdealsInner st identP tol i)
    (fun k a => a = (∑ j in Finset.range k, st.accomodate.val i j,
      (⟨st.numDim, 1, fun r c =>
        ∑ j in Finset.range k, st.accomodate.val i j * (pstnAt st j).val r c⟩ : KMatrix)))
    st.numAct (0, KMatrix.zeros st.numDim 1) (by simp [KMatrix.zeros]) (by
      intro k a hk hPk
      refine ⟨_, ?_, rfl⟩
      subst hPk
      have hk2 : k < st.pstns.length := hlen ▸ hk
      have hsh := hshape (st.pstns[k]) (List.getElem_mem hk2)
      have hpart : ∑ j in Finset.range (k + 1), st.accomodate.val i j ≤ 1 + tol := by
        have hsub : Finset.range (k + 1) ⊆ Finset.range st.numAct :=
          Finset.range_subset.mpr hk
        have := Finset.sum_le_sum_of_subset_of_nonneg hsub
          (f := fun j => st.accomodate.val i j)
          (fun j hj _ => (h01 j (Finset.mem_range.mp hj)).1)
        unfold accRowSum at hrow
        linarith
      rw [Finset.sum_range_succ] at hpart
      have hassert : (identP = true ∧ i = k) → |st.accomodate.val i k - 1| < tol := by
        rintro ⟨hI, rfl⟩
        rw [hid hI hk]
        simpa using htol
      have hpk : pstnAt st k = st.pstns[k] := by
        simp [pstnAt, List.getElem?_eq_getElem hk2]
      simp only [SMPState.newIdealsInner, assertThat, (h01 k hk).1, (h01 k hk).2, hpart,
        if_true, Option.pure_def, Option.bind_eq_bind, Option.some_bind,
        List.getElem?_eq_getElem hk2, KMatrix.add, KMatrix.smul, KMatrix.sameShape, hsh,
        and_self, Finset.sum_range_succ, hpk]
      by_cases hc : identP = true ∧ i = k
      · have hlt := hassert hc
        obtain ⟨hI, rfl⟩ := hc
        simp [hI, hlt]
      · simp [hc])
  rw [ha, hP]
  rfl

/-- Row `i` of an identity accommodation matrix sums to 1. -/
theorem accRowSum_ident (st : SMPState) (i : Nat) (hi : i < st.numAct)
    (hA : ∀ j, j < st.numAct → st.accomodate.val i j = if i = j then 1 else 0) :
    accRowSum st i = 1 := by
  unfold accRowSum
  rw [Finset.sum_congr rfl (fun j hj => hA j (Finset.mem_range.mp hj))]
  simp [hi]

/-- Under an identity accommodation matrix the new ideal point of an actor is
the actor's position. -/
theorem newIdealPoint_ident (st : SMPState) (i : Nat) (hi : i < st.numAct)
    (hlen : st.pstns.length = st.numAct)
    (hshape : ∀ p ∈ st.pstns, p.numR = st.numDim ∧ p.numC = 1)
    (hA : ∀ j, j < st.numAct → st.accomodate.val i j = if i = j then 1 else 0) :
    newIdealPoint st i = pstnAt st i := by
  have hi2 : i < st.pstns.length := hlen ▸ hi
  have hpk : pstnAt st i = st.pstns[i] := by
    simp [pstnAt, List.getElem?_eq_getElem hi2]
  have hsh := hshape (st.pstns[i]) (List.getElem_mem hi2)
  have hsum : ∀ r c, (∑ j in Finset.range st.numAct,
      st.accomodate.val i j * (pstnAt st j).val r c) = (pstnAt st i).val r c := by
    intro r c
    rw [Finset.sum_congr rfl (fun j hj => by rw [hA j (Finset.mem_range.mp hj)])]
    simp [hi]
  unfold newIdealPoint
  simp only [hsum, accRowSum_ident st i hi hA, sub_self, zero_mul, add_zero]
  rw [hpk, ← hsh.1, ← hsh.2]

/-- One pass of the loop over `i` of `newIdeals` appends the new ideal point
of actor `i`. -/
theorem newIdealsOuter_eq (st : SMPState) (identP : Bool) (tol : ℚ) (htol : 0 < tol)
    (nIdeals : List KMatrix) (i : Nat) (hi : i < st.numAct)
    (hlen : st.pstns.length = st.numAct) (hlen2 : st.ideals.length = st.numAct)
    (hshape : ∀ p ∈ st.pstns, p.numR = st.numDim ∧ p.numC = 1)
    (hshape2 : ∀ q ∈ st.ideals, q.numR = st.numDim ∧ q.numC = 1)
    (h01 : ∀ j, j < st.numAct → 0 ≤ st.accomodate.val i j ∧ st.accomodate.val i j ≤ 1)
    (hrow : accRowSum st i ≤ 1)
    (hid : identP = true →
      ∀ j, j < st.numAct → st.accomodate.val i j = if i = j then 1 else 0) :
    SMPState.newIdealsOuter st identP tol nIdeals i =
      some (nIdeals ++ [newIdealPoint st i]) := by
  have hi1 : i < st.pstns.length := hlen ▸ hi
  have hi2 : i < st.ideals.length := hlen2 ▸ hi
  have hsh1 := hshape (st.pstns[i]) (List.getElem_mem hi1)
  have hsh2 := hshape2 (st.ideals[i]) (List.getElem_mem hi2)
  have hinner := newIdealsInner_loop st identP tol htol i hlen hshape h01 hrow
    (fun hI hi => by simpa using hid hI i hi)
  have hrow0 : 0 ≤ accRowSum st i :=
    Finset.sum_nonneg (fun j hj => (h01 j (Finset.mem_range.mp hj)).1)
  have hnot : ¬ (1 < accRowSum st i) := not_lt.mpr hrow
  have hik : idealAt st i = st.ideals[i] := by
    simp [idealAt, List.getElem?_eq_getElem hi2]
  have hpk : pstnAt st i = st.pstns[i] := by
    simp [pstnAt, List.getElem?_eq_getElem hi1]
  have hnew : (⟨st.numDim, 1, fun r c =>
      (∑ j in Finset.range st.numAct, st.accomodate.val i j * (pstnAt st j).val r c) +
        (1 - accRowSum st i) * (st.ideals[i]).val r c⟩ : KMatrix) = newIdealPoint st i := by
    simp [newIdealPoint, hik]
  simp only [SMPState.newIdealsOuter, Option.bind_eq_bind, List.getElem?_eq_getElem hi1,
    Option.some_bind, hinner, hnot, if_false, assertThat, sub_nonneg, hrow, if_true,
    sub_le_self_iff, hrow0, List.getElem?_eq_getElem hi2, KMatrix.add, KMatrix.smul,
    KMatrix.sameShape, hsh2, and_self, Option.pure_def, hnew]
  cases hI : identP with
  | false => simp
  | true =>
    have hA := hid hI
    have hrow1 := accRowSum_ident st i hi hA
    have hpt := newIdealPoint_ident st i hi hlen hshape hA
    obtain ⟨d, hd, hn⟩ := norm_sub_self (st.pstns[i])
    have htolR : (0 : ℝ) < ((tol : ℚ) : ℝ) := by exact_mod_cast htol
    simp [hrow1, htol, hpt, hpk, hd, hn, htolR]

/-- The difference between the accommodation matrix and the identity, as
`newIdeals` forms it to decide whether the matrix is the identity. -/
theorem accomodate_sub_iMat (st : SMPState) (hR : st.accomodate.numR = st.numAct)
    (hC : st.accomodate.numC = st.numAct) :
    KMatrix.sub st.accomodate (KMatrix.iMat st.numAct) =
      some ⟨st.numAct, st.numAct,
        fun i j => st.accomodate.val i j - (KMatrix.iMat st.numAct).val i j⟩ := by
  simp [KMatrix.sub, KMatrix.sameShape, KMatrix.iMat, hR, hC]

/-- The loop over `i` of `newIdeals` returns the new ideal points of all actors. -/
theorem newIdealsOuter_loop (st : SMPState) (identP : Bool) (tol : ℚ) (htol : 0 < tol)
    (hlen : st.pstns.length = st.numAct) (hlen2 : st.ideals.length = st.numAct)
    (hshape : ∀ p ∈ st.pstns, p.numR = st.numDim ∧ p.numC = 1)
    (hshape2 : ∀ q ∈ st.ideals, q.numR = st.numDim ∧ q.numC = 1)
    (h01 : ∀ i j, i < st.numAct → j < st.numAct →
      0 ≤ st.accomodate.val i j ∧ st.accomodate.val i j ≤ 1)
    (hrow : ∀ i, i < st.numAct → accRowSum st i ≤ 1)
    (hid : identP = true → ∀ i j, i < st.numAct → j < st.numAct →
      st.accomodate.val i j = if i = j then 1 else 0) :
    (List.range st.numAct).foldlM (SMPState.newIdealsOuter st identP tol) [] =
      some ((List.range st.numAct).map (newIdealPoint st)) := by
  obtain ⟨a, ha, hP⟩ := foldlM_range_inv (SMPState.newIdealsOuter st identP tol)
    (fun k a => a = (List.range k).map (newIdealPoint st)) st.numAct [] (by simp) (by
      intro k a hk hPk
      refine ⟨_, newIdealsOuter_eq st identP tol htol a k hk hlen hlen2 hshape hshape2
        (fun j hj => h01 k j hk hj) (hrow k hk) (fun hI j hj => hid hI k j hk hj), ?_⟩
      simp only [hPk, List.range_succ, List.map_append, List.map_cons, List.map_nil])
  rw [ha, hP]

/-- Under an identity accommodation matrix the list of new ideal points is the
list of positions. -/
theorem newIdealPoints_ident (st : SMPState) (hlen : st.pstns.length = st.numAct)
    (hshape : ∀ p ∈ st.pstns, p.numR = st.numDim ∧ p.numC = 1)
    (hA : ∀ i j, i < st.numAct → j < st.numAct →
      st.accomodate.val i j = if i = j then 1 else 0) :
    (List.range st.numAct).map (newIdealPoint st) = st.pstns := by
  apply List.ext_getElem
  · simp [hlen]
  · intro i h1 h2
    have hi : i < st.numAct := by simpa using h1
    rw [List.getElem_map, List.getElem_range,
      newIdealPoint_ident st i hi hlen hshape (fun j hj => hA i j hi hj)]
    simp [pstnAt, List.getElem?_eq_getElem h2]

/-- What `newIdeals` returns on a well-formed state whose accommodation matrix
has entries in `[0,1]` and row sums at most 1, and is the identity whenever it
is within `1E-10` of the identity. -/
theorem newIdeals_eq (c : Consts) (st : SMPState) (hwf : WellFormed c st)
    (h01 : ∀ i j, i < st.numAct → j < st.numAct →
      0 ≤ st.accomodate.val i j ∧ st.accomodate.val i j ≤ 1)
    (hrow : ∀ i, i < st.numAct → accRowSum st i ≤ 1)
    (hid : KMatrix.norm ⟨st.numAct, st.numAct,
        fun i j => st.accomodate.val i j - (KMatrix.iMat st.numAct).val i j⟩ <
          (((1 / 10 ^ 10 : ℚ)) : ℝ) →
      ∀ i j, i < st.numAct → j < st.numAct →
        st.accomodate.val i j = if i = j then 1 else 0) :
    SMPState.newIdeals c st =
      some { st with ideals := (List.range st.numAct).map (newIdealPoint st) } := by
  obtain ⟨hmin, hmax, hR, hC, hlen, hlen2, hshape, hshape2⟩ := hwf
  have htol : (0 : ℚ) < 1 / 10 ^ 10 := by norm_num
  have htolR : (0 : ℝ) < (((1 / 10 ^ 10 : ℚ)) : ℝ) := by exact_mod_cast htol
  by_cases hI : KMatrix.norm ⟨st.numAct, st.numAct,
        fun i j => st.accomodate.val i j - (KMatrix.iMat st.numAct).val i j⟩ <
          (((1 / 10 ^ 10 : ℚ)) : ℝ)
  · have hA := hid hI
    have hloop := newIdealsOuter_loop st true (1 / 10 ^ 10) htol hlen hlen2 hshape hshape2
      h01 hrow (fun _ => hA)
    have hpts := newIdealPoints_ident st hlen hshape hA
    have hdist := posIdealDist_eq_zero { st with ideals := st.pstns } rfl hlen.symm
    simp only [SMPState.newIdeals, assertThat, hmin, hmax, hR, hC, hlen2, if_true,
      Option.bind_eq_bind, Option.some_bind, accomodate_sub_iMat st hR hC, Option.pure_def,
      hI, decide_True, hloop, hpts, hdist, htolR]
  · have hloop := newIdealsOuter_loop st false (1 / 10 ^ 10) htol hlen hlen2 hshape hshape2
      h01 hrow (fun h => absurd h (by simp))
    simp only [SMPState.newIdeals, assertThat, hmin, hmax, hR, hC, hlen2, if_true,
      Option.bind_eq_bind, Option.some_bind, accomodate_sub_iMat st hR hC, Option.pure_def,
      hI, decide_False, hloop, Bool.false_eq_true, if_false]

/-- An accommodation matrix that is the identity is recognised as such: the
norm of its difference with `iMat` is 0. -/
theorem norm_accomodate_sub_iMat_ident (st : SMPState)
    (hA : ∀ i j, i < st.numAct → j < st.numAct →
      st.accomodate.val i j = if i = j then 1 else 0) :
    KMatrix.norm ⟨st.numAct, st.numAct,
      fun i j => st.accomodate.val i j - (KMatrix.iMat st.numAct).val i j⟩ = 0 := by
  have h0 : KMatrix.sumSq ⟨st.numAct, st.numAct,
      fun i j => st.accomodate.val i j - (KMatrix.iMat st.numAct).val i j⟩ = 0 := by
    unfold KMatrix.sumSq
    apply Finset.sum_eq_zero
    intro i hi
    apply Finset.sum_eq_zero
    intro j hj
    simp only [Finset.mem_range] at hi hj
    simp [KMatrix.iMat, hA i j hi hj]
  simp [KMatrix.norm, h0]

/-- The scalar form of `setAccomodate` with rate 1 installs a matrix whose
entries are those of the identity. -/
theorem setAccomodateRate_one (c : Consts) (st st1 : SMPState)
    (h : SMPState.setAccomodateRate c st 1 = some st1) :
    st1.pstns = st.pstns ∧ st1.ideals = st.ideals ∧ st1.numAct = st.numAct ∧
      ∀ i j, st1.accomodate.val i j = if i = j then 1 else 0 := by
  simp only [SMPState.setAccomodateRate, Option.bind_eq_bind, Option.bind_eq_some,
    assertThat_eq_some] at h
  obtain ⟨_, _, _, _, h⟩ := h
  obtain ⟨hst, -⟩ := setAccomodate_eq_some _ _ _ _ h
  subst hst
  simp [KMatrix.smul, KMatrix.iMat]

/-- C9: on a well-formed state with at least one actor whose accommodation
matrix is the identity, `newIdeals` recognises the identity, fails none of its
assertions, sets every ideal point to the actor's current position whatever
the previous ideal points were, and `posIdealDist` is 0 afterwards. -/
theorem C9_newIdeals_identity (c : Consts) (st : SMPState) (hwf : WellFormed c st)
    (hpos : 0 < st.numAct)
    (hA : ∀ i j, i < st.numAct → j < st.numAct →
      st.accomodate.val i j = if i = j then 1 else 0) :
    (∃ dA, KMatrix.sub st.accomodate (KMatrix.iMat st.numAct) = some dA ∧
      KMatrix.norm dA < (((1 / 10 ^ 10 : ℚ)) : ℝ)) ∧
    ∃ st1, SMPState.newIdeals c st = some st1 ∧ st1.ideals = st.pstns ∧
      st1.pstns = st.pstns ∧ st1.numAct = st.numAct ∧ 0 < st1.numAct ∧
      SMPState.posIdealDist st1 = some 0 := by
  have hwf2 := hwf
  obtain ⟨hmin, hmax, hR, hC, hlen, hlen2, hshape, hshape2⟩ := hwf2
  have hn := norm_accomodate_sub_iMat_ident st hA
  have htolR : (0 : ℝ) < (((1 / 10 ^ 10 : ℚ)) : ℝ) := by norm_num
  have h01 : ∀ i j, i < st.numAct → j < st.numAct →
      0 ≤ st.accomodate.val i j ∧ st.accomodate.val i j ≤ 1 := by
    intro i j hi hj
    rw [hA i j hi hj]
    split_ifs <;> norm_num
  have hrow : ∀ i, i < st.numAct → accRowSum st i ≤ 1 :=
    fun i hi => (accRowSum_ident st i hi (fun j hj => hA i j hi hj)).le
  have hnew := newIdeals_eq c st hwf h01 hrow (fun _ => hA)
  rw [newIdealPoints_ident st hlen hshape hA] at hnew
  refine ⟨⟨_, accomodate_sub_iMat st hR hC, by rw [hn]; exact htolR⟩,
    { st with ideals := st.pstns }, hnew, rfl, rfl, rfl, hpos, ?_⟩
  exact posIdealDist_eq_zero { st with ideals := st.pstns } rfl hlen.symm

/-- The example state with identity accommodation is well formed. -/
theorem identState_wellFormed : WellFormed exConsts identState := by
  simp [WellFormed, exConsts, identState, colVec, KMatrix.smul, KMatrix.iMat]

/-- Witness for C9: three actors at `0.2, 0.5, 0.8` with ideal points
`0, 1, 0.5` and the accommodation matrix `1.0 * iMat(3)`. -/
theorem C9_newIdeals_identity_witness :
    (∃ dA, KMatrix.sub identState.accomodate (KMatrix.iMat identState.numAct) = some dA ∧
      KMatrix.norm dA < (((1 / 10 ^ 10 : ℚ)) : ℝ)) ∧
    ∃ st1, SMPState.newIdeals exConsts identState = some st1 ∧
      st1.ideals = identState.pstns ∧ st1.pstns = identState.pstns ∧
      st1.numAct = identState.numAct ∧ 0 < st1.numAct ∧
      SMPState.posIdealDist st1 = some 0 :=
  C9_newIdeals_identity exConsts identState identState_wellFormed (by decide)
    (by
      intro i j _ _
      simp [identState, KMatrix.smul, KMatrix.iMat])

/-- The example state `followState` is well formed. -/
theorem followState_wellFormed : WellFormed exConsts followState := by
  simp [WellFormed, exConsts, followState, colVec, ofRows]

/-- The accommodation matrix of `followState` has its entries in `[0,1]`. -/
theorem followState_entries (i j : Nat) (hi : i < followState.numAct)
    (hj : j < followState.numAct) :
    0 ≤ followState.accomodate.val i j ∧ followState.accomodate.val i j ≤ 1 := by
  have hi3 : i < 3 := hi
  have hj3 : j < 3 := hj
  interval_cases i <;> interval_cases j <;> simp [followState, ofRows]

/-- The rows of the accommodation matrix of `followState` sum to at most 1. -/
theorem followState_rows (i : Nat) (hi : i < followState.numAct) :
    accRowSum followState i ≤ 1 := by
  have hi3 : i < 3 := hi
  interval_cases i <;> simp [accRowSum, followState, ofRows, Finset.sum_range_succ]

/-- The accommodation matrix of `followState` is at distance 2 from the
identity, so `newIdeals` does not take it for the identity. -/
theorem followState_not_ident :
    ¬ KMatrix.norm ⟨followState.numAct, followState.numAct,
        fun i j => followState.accomodate.val i j -
          (KMatrix.iMat followState.numAct).val i j⟩ < (((1 / 10 ^ 10 : ℚ)) : ℝ) := by
  have h4 : KMatrix.sumSq ⟨followState.numAct, followState.numAct,
        fun i j => followState.accomodate.val i j -
          (KMatrix.iMat followState.numAct).val i j⟩ = 4 := by
    simp [KMatrix.sumSq, followState, ofRows, KMatrix.iMat, Finset.sum_range_succ]
    norm_num
  rw [KMatrix.norm, h4, not_lt]
  have h2 : (1 : ℝ) ≤ Real.sqrt ((4 : ℚ) : ℝ) := by
    rw [Real.one_le_sqrt]
    norm_num
  have h3 : (((1 / 10 ^ 10 : ℚ)) : ℝ) ≤ 1 := by norm_num
  exact le_trans h3 h2

/-- C10, as stated, fails: in `followState` actor 0 gives weight 1 to actor 1,
whose position is 1 and whose ideal point is 0.  `newIdeals` returns the new
ideal point 1 for actor 0 (the position of actor 1), where the combination of
the ideal points that the claim describes is 0. -/
theorem C10_newIdeals_uses_positions :
    ∃ st1, SMPState.newIdeals exConsts followState = some st1 ∧
      (idealAt st1 0).val 0 0 = 1 ∧
      (∑ j in Finset.range 3, followState.accomodate.val 0 j * (idealAt followState j).val 0 0) +
        (1 - ∑ j in Finset.range 3, followState.accomodate.val 0 j) *
          (idealAt followState 0).val 0 0 = 0 := by
  refine ⟨_, newIdeals_eq exConsts followState followState_wellFormed followState_entries
    followState_rows (fun h => absurd h followState_not_ident), ?_, ?_⟩
  · simp [idealAt, newIdealPoint, pstnAt, accRowSum, followState, ofRows, colVec,
      Finset.sum_range_succ, List.range_succ]
  · simp [idealAt, followState, ofRows, colVec, Finset.sum_range_succ]

/-- C10, amended: on a well-formed state with at least one actor, whose
accommodation matrix has entries in `[0,1]` and row sums at most 1 and is
either the identity or not within `1E-10` of it, `newIdeals` returns, keeps
the positions, and sets the ideal point of every actor `i` to
`∑ j, A(i,j) * (current position of actor j) + (1 - ∑ j, A(i,j)) * (previous
ideal point of actor i)`. -/
theorem C10_newIdeals_weighted_positions (c : Consts) (st : SMPState)
    (hwf : WellFormed c st) (hpos : 0 < st.numAct)
    (h01 : ∀ i j, i < st.numAct → j < st.numAct →
      0 ≤ st.accomodate.val i j ∧ st.accomodate.val i j ≤ 1)
    (hrow : ∀ i, i < st.numAct → ∑ j in Finset.range st.numAct, st.accomodate.val i j ≤ 1)
    (hid : KMatrix.norm ⟨st.numAct, st.numAct,
        fun i j => st.accomodate.val i j - (KMatrix.iMat st.numAct).val i j⟩ <
          (((1 / 10 ^ 10 : ℚ)) : ℝ) →
      ∀ i j, i < st.numAct → j < st.numAct →
        st.accomodate.val i j = if i = j then 1 else 0) :
    ∃ st1, SMPState.newIdeals c st = some st1 ∧ st1.pstns = st.pstns ∧
      st1.numAct = st.numAct ∧ 0 < st1.numAct ∧ st1.ideals.length = st.numAct ∧
      ∀ i, i < st.numAct →
        (idealAt st1 i).numR = st.numDim ∧ (idealAt st1 i).numC = 1 ∧
        ∀ r k, (idealAt st1 i).val r k =
          (∑ j in Finset.range st.numAct, st.accomodate.val i j * (pstnAt st j).val r k) +
            (1 - ∑ j in Finset.range st.numAct, st.accomodate.val i j) *
              (idealAt st i).val r k := by
  refine ⟨_, newIdeals_eq c st hwf h01 hrow hid, rfl, rfl, hpos, by simp, ?_⟩
  intro i hi
  have hat : idealAt { st with ideals := (List.range st.numAct).map (newIdealPoint st) } i =
      newIdealPoint st i := by
    simp [idealAt, hi]
  rw [hat]
  refine ⟨rfl, rfl, fun r k => ?_⟩
  simp [newIdealPoint, accRowSum, idealAt]

/-- Witness for the amended C10: the state `followState`. -/
theorem C10_newIdeals_weighted_positions_witness :
    ∃ st1, SMPState.newIdeals exConsts followState = some st1 ∧
      st1.pstns = followState.pstns ∧
      st1.numAct = followState.numAct ∧ 0 < st1.numAct ∧
      st1.ideals.length = followState.numAct ∧
      ∀ i, i < followState.numAct →
        (idealAt st1 i).numR = followState.numDim ∧ (idealAt st1 i).numC = 1 ∧
        ∀ r k, (idealAt st1 i).val r k =
          (∑ j in Finset.range followState.numAct,
              followState.accomodate.val i j * (pstnAt followState j).val r k) +
            (1 - ∑ j in Finset.range followState.numAct, followState.accomodate.val i j) *
              (idealAt followState i).val r k :=
  C10_newIdeals_weighted_positions exConsts followState followState_wellFormed (by decide)
    followState_entries followState_rows (fun h => absurd h followState_not_ident)

/-! ### The distance between states and the stop predicate -/

/-- On two states with the same number of positions, all of one shape,
`stateDist` returns the sum of the norms of the position differences. -/
theorem stateDist_eq_distSum (s1 s2 : SMPState) (n nd : Nat)
    (h1 : s1.pstns.length = n) (h2 : s2.pstns.length = n)
    (hs1 : ∀ p ∈ s1.pstns, p.numR = nd ∧ p.numC = 1)
    (hs2 : ∀ p ∈ s2.pstns, p.numR = nd ∧ p.numC = 1) :
    SMPModel.stateDist s1 s2 = some (distSum s1 s2 n) := by
  obtain ⟨a, ha, hP⟩ := foldlM_range_inv (SMPModel.stateDistStep s1 s2)
    (fun k a => a = distSum s1 s2 k) n 0 (by simp [distSum]) (by
      intro k a hk hPk
      refine ⟨_, ?_, rfl⟩
      subst hPk
      have hk1 : k < s1.pstns.length := h1 ▸ hk
      have hk2 : k < s2.pstns.length := h2 ▸ hk
      have hsh1 := hs1 (s1.pstns[k]) (List.getElem_mem hk1)
      have hsh2 := hs2 (s2.pstns[k]) (List.getElem_mem hk2)
      simp [SMPModel.stateDistStep, List.getElem?_eq_getElem hk1,
        List.getElem?_eq_getElem hk2, KMatrix.sub, KMatrix.sameShape, hsh1, hsh2, distSum,
        Finset.sum_range_succ, pstnDiff, pstnAt])
  subst hP
  simp [SMPModel.stateDist, assertThat, h1, h2, ha]

/-- The inter-state distance is never negative. -/
theorem distSum_nonneg (s1 s2 : SMPState) (n : Nat) : 0 ≤ distSum s1 s2 n :=
  Finset.sum_nonneg (fun _ _ => Real.sqrt_nonneg _)

/-- The inter-state distance does not depend on the order of the two states. -/
theorem distSum_comm (s1 s2 : SMPState) (n nd : Nat)
    (h1 : s1.pstns.length = n) (h2 : s2.pstns.length = n)
    (hs1 : ∀ p ∈ s1.pstns, p.numR = nd ∧ p.numC = 1)
    (hs2 : ∀ p ∈ s2.pstns, p.numR = nd ∧ p.numC = 1) :
    distSum s1 s2 n = distSum s2 s1 n := by
  unfold distSum
  apply Finset.sum_congr rfl
  intro i hi
  have hi' : i < n := Finset.mem_range.mp hi
  have hk1 : i < s1.pstns.length := h1 ▸ hi'
  have hk2 : i < s2.pstns.length := h2 ▸ hi'
  have hsh1 := hs1 (s1.pstns[i]) (List.getElem_mem hk1)
  have hsh2 := hs2 (s2.pstns[i]) (List.getElem_mem hk2)
  have hsq : KMatrix.sumSq (pstnDiff s1 s2 i) = KMatrix.sumSq (pstnDiff s2 s1 i) := by
    simp only [KMatrix.sumSq, pstnDiff, pstnAt, List.getD_eq_getElem?_getD,
      List.getElem?_eq_getElem hk1, List.getElem?_eq_getElem hk2, Option.getD_some,
      hsh1, hsh2]
    apply Finset.sum_congr rfl
    intro r _
    apply Finset.sum_congr rfl
    intro k _
    ring
  rw [KMatrix.norm, KMatrix.norm, hsq]

/-- The distance from a state to itself is 0. -/
theorem stateDist_self (s : SMPState) : SMPModel.stateDist s s = some 0 := by
  obtain ⟨a, ha, hP⟩ := foldlM_range_inv (SMPModel.stateDistStep s s)
    (fun _ a => a = 0) s.pstns.length 0 rfl (by
      intro k a hk hPk
      refine ⟨0, ?_, rfl⟩
      subst hPk
      obtain ⟨d, hd, hn⟩ := norm_sub_self (s.pstns[k])
      simp [SMPModel.stateDistStep, List.getElem?_eq_getElem hk, hd, hn])
  subst hP
  simp [SMPModel.stateDist, assertThat, ha]

/-- What the stop predicate returns once the four states it reads and the two
distances it computes are known. -/
theorem smpStopFn_eq (minIter maxIter : Nat) (minDeltaRatio minSigDelta : ℚ)
    (iter : Nat) (history : List SMPState) (h1 : 1 ≤ iter) (h32 : iter < 2 ^ 32)
    (s0 s1 sy sx : SMPState) (d01 dxy : ℝ)
    (hs0 : history[0]? = some s0) (hs1 : history[1]? = some s1)
    (hsy : history[iter - 1]? = some sy) (hsx : history[iter]? = some sx)
    (hd01 : SMPModel.stateDist s0 s1 = some d01)
    (hdxy : SMPModel.stateDist sx sy = some dxy) :
    SMPModel.smpStopFn minIter maxIter minDeltaRatio minSigDelta iter history =
      some (decide (maxIter ≤ iter) ||
        (decide (minIter ≤ iter) &&
          decide (dxy / (d01 + ((minSigDelta : ℚ) : ℝ)) < ((minDeltaRatio : ℚ) : ℝ)))) := by
  have e0 : (iter + 2 ^ 32 - 0) % 2 ^ 32 = iter := by omega
  have e1 : (iter + 2 ^ 32 - 1) % 2 ^ 32 = iter - 1 := by omega
  simp only [SMPModel.smpStopFn, Option.bind_eq_bind, hs0, hs1, Option.some_bind, hd01,
    e0, e1, hsx, hsy, hdxy, Option.pure_def]

/-- C1, as stated, fails: on a history of three equal states, at iteration 2,
both distances are 0; the predicate of `configExec` returns true (the ratio
`0 / (0 + 1E-4)` is below 0.02), while 2 is below 100 and the latest distance 0
is not below 2% of the first step's distance 0. -/
theorem C1_stop_true_on_still_history :
    SMPModel.stateDist identState identState = some 0 ∧
      SMPModel.configExecStop 2 [identState, identState, identState] = some true ∧
      ¬ (100 ≤ 2 ∨ (2 ≤ 2 ∧ (0 : ℝ) < 2 / 100 * 0)) := by
  refine ⟨stateDist_self identState, ?_, by norm_num⟩
  rw [SMPModel.configExecStop,
    smpStopFn_eq 2 100 (2 / 100) (1 / 10 ^ 4) 2 [identState, identState, identState]
      (by norm_num) (by norm_num) identState identState identState identState 0 0
      rfl rfl rfl rfl (stateDist_self identState) (stateDist_self identState)]
  norm_num

/-- C1, amended: for the stop predicate that `configExec` builds, for every
iteration count `iter ≥ 1` and every history holding more than `iter` states
(each with the same number of positions of the same shape), the predicate
returns, and it returns true exactly when `iter ≥ 100`, or `iter ≥ 2` and the
latest inter-state distance `stateDist(history[iter-1], history[iter])` is
below 2% of the first step's distance `stateDist(history[0], history[1])`
increased by the floor `minSigDelta = 1E-4`. -/
theorem C1_stop_amended (iter n nd : Nat) (history : List SMPState)
    (h1 : 1 ≤ iter) (h32 : iter < 2 ^ 32) (hlen : iter < history.length)
    (hshape : ∀ s ∈ history,
      s.pstns.length = n ∧ ∀ p ∈ s.pstns, p.numR = nd ∧ p.numC = 1) :
    ∃ s0 s1 sy sx d01 dxy b,
      history[0]? = some s0 ∧ history[1]? = some s1 ∧
      history[iter - 1]? = some sy ∧ history[iter]? = some sx ∧
      SMPModel.stateDist s0 s1 = some d01 ∧ SMPModel.stateDist sy sx = some dxy ∧
      0 ≤ d01 ∧ 0 ≤ dxy ∧
      SMPModel.configExecStop iter history = some b ∧
      (b = true ↔ (100 ≤ iter ∨ (2 ≤ iter ∧ dxy < 2 / 100 * (d01 + 1 / 10 ^ 4)))) := by
  have i0 : 0 < history.length := by omega
  have i1 : 1 < history.length := by omega
  have iy : iter - 1 < history.length := by omega
  have w0 := hshape _ (List.getElem_mem i0)
  have w1 := hshape _ (List.getElem_mem i1)
  have wy := hshape _ (List.getElem_mem iy)
  have wx := hshape _ (List.getElem_mem hlen)
  have hd01 := stateDist_eq_distSum _ _ n nd w0.1 w1.1 w0.2 w1.2
  have hdyx := stateDist_eq_distSum _ _ n nd wy.1 wx.1 wy.2 wx.2
  have hdxy := stateDist_eq_distSum _ _ n nd wx.1 wy.1 wx.2 wy.2
  rw [distSum_comm _ _ n nd wx.1 wy.1 wx.2 wy.2] at hdxy
  have hnn := distSum_nonneg (history[0]) (history[1]) n
  have hnn2 := distSum_nonneg (history[iter - 1]) (history[iter]) n
  have hpos : (0 : ℝ) < distSum (history[0]) (history[1]) n + (((1 / 10 ^ 4 : ℚ)) : ℝ) := by
    have : (0 : ℝ) < (((1 / 10 ^ 4 : ℚ)) : ℝ) := by norm_num
    linarith
  refine ⟨history[0], history[1], history[iter - 1], history[iter], _, _, _,
    List.getElem?_eq_getElem i0, List.getElem?_eq_getElem i1, List.getElem?_eq_getElem iy,
    List.getElem?_eq_getElem hlen, hd01, hdyx, hnn, hnn2,
    smpStopFn_eq 2 100 (2 / 100) (1 / 10 ^ 4) iter history h1 h32 _ _ _ _ _ _
      (List.getElem?_eq_getElem i0) (List.getElem?_eq_getElem i1)
      (List.getElem?_eq_getElem iy) (List.getElem?_eq_getElem hlen) hd01 hdxy, ?_⟩
  rw [Bool.or_eq_true, Bool.and_eq_true, decide_eq_true_eq, decide_eq_true_eq,
    decide_eq_true_eq, div_lt_iff₀ hpos]
  push_cast
  rfl

/-- Witness for the amended C1: iteration 2 on a history of three states with
three one-dimensional positions each. -/
theorem C1_stop_amended_witness :
    ∃ s0 s1 sy sx d01 dxy b,
      [identState, followState, followState][0]? = some s0 ∧
      [identState, followState, followState][1]? = some s1 ∧
      [identState, followState, followState][2 - 1]? = some sy ∧
      [identState, followState, followState][2]? = some sx ∧
      SMPModel.stateDist s0 s1 = some d01 ∧ SMPModel.stateDist sy sx = some dxy ∧
      0 ≤ d01 ∧ 0 ≤ dxy ∧
      SMPModel.configExecStop 2 [identState, followState, followState] = some b ∧
      (b = true ↔ (100 ≤ 2 ∨ (2 ≤ 2 ∧ dxy < 2 / 100 * (d01 + 1 / 10 ^ 4)))) :=
  C1_stop_amended 2 3 1 [identState, followState, followState] (by norm_num) (by norm_num)
    (by simp) (by simp [identState, followState, colVec])

/-! ### Bargain interpolation -/

/-- A division by a non-zero divisor has a value. -/
theorem divQ_of_ne_zero (a b : ℚ) (hb : b ≠ 0) : divQ a b = some (a / b) := by
  simp [divQ, hb]

/-- The probability gap lies in `[0,1]` for probabilities in `[0,1]`. -/
theorem probGap_bounds (prbI prbJ : ℚ) (hi : 0 ≤ prbI) (hj : prbJ ≤ 1) :
    0 ≤ SMPActor.probGap prbI prbJ ∧ SMPActor.probGap prbI prbJ ≤ 1 := by
  unfold SMPActor.probGap
  split_ifs with h
  · constructor <;> linarith
  · constructor <;> norm_num

/-- The divisor of `interpBrgnSnPm` is at least the floor `minW`. -/
theorem snpmDivisor_ge (n m : Nat) (sik prbI sjk prbJ : ℚ) (hsi : 0 ≤ sik) (hsj : 0 ≤ sjk)
    (hpi : 0 ≤ prbI) (hpj : 0 ≤ prbJ) :
    1 / 10 ^ 6 ≤ SMPActor.snpmDivisor n m sik prbI sjk prbJ := by
  unfold SMPActor.snpmDivisor
  have h1 : 0 ≤ sik ^ n * prbI ^ m := mul_nonneg (pow_nonneg hsi n) (pow_nonneg hpi m)
  have h2 : 0 ≤ sjk ^ n * prbJ ^ m := mul_nonneg (pow_nonneg hsj n) (pow_nonneg hpj m)
  linarith

/-- The divisor of `interpBrgnS2PMax` is at least the floor `minW`, for a gap
in `[0,1]` and non-negative squared saliences. -/
theorem s2pMaxDivisor_ge (d s2 s1 : ℚ) (hd0 : 0 ≤ d) (hd1 : d ≤ 1) (h2 : 0 ≤ s2)
    (h1 : 0 ≤ s1) : 1 / 10 ^ 6 ≤ SMPActor.s2pMaxDivisor d s2 s1 := by
  unfold SMPActor.s2pMaxDivisor
  have ha : 0 ≤ d * s2 := mul_nonneg hd0 h2
  have hb : 0 ≤ (1 - d) * s1 := mul_nonneg (by linarith) h1
  linarith

/-- What `interpBrgnS2PMax` returns when its two divisors are not zero. -/
theorem interpBrgnS2PMax_eq (tik sik prbI tjk sjk prbJ : ℚ)
    (hi : SMPActor.s2pMaxDivisor (SMPActor.probGap prbI prbJ) (sjk * sjk) (sik * sik) ≠ 0)
    (hj : SMPActor.s2pMaxDivisor (SMPActor.probGap prbJ prbI) (sik * sik) (sjk * sjk) ≠ 0) :
    SMPActor.interpBrgnS2PMax tik sik prbI tjk sjk prbJ =
      some (tik + (SMPActor.probGap prbI prbJ * (sjk * sjk) /
              SMPActor.s2pMaxDivisor (SMPActor.probGap prbI prbJ) (sjk * sjk) (sik * sik)) *
                (tjk - tik),
            tjk + (SMPActor.probGap prbJ prbI * (sik * sik) /
              SMPActor.s2pMaxDivisor (SMPActor.probGap prbJ prbI) (sik * sik) (sjk * sjk)) *
                (tik - tjk)) := by
  simp [SMPActor.interpBrgnS2PMax, divQ_of_ne_zero _ _ hi, divQ_of_ne_zero _ _ hj]

/-- C18: for non-negative saliences and win probabilities in `[0,1]`, every
divisor of the bargain interpolation is at least the floor `minW = 1E-6`, hence
strictly positive: `wik + minW + wjk` in `interpBrgnSnPm` and the two divisors
of `interpBrgnS2PMax`; no division in either function is by zero, and
`interpBrgnS2PMax` returns. -/
theorem C18_interp_divisors_positive (n m : Nat) (sik prbI sjk prbJ : ℚ)
    (hsi : 0 ≤ sik) (hsj : 0 ≤ sjk) (hpi0 : 0 ≤ prbI) (hpi1 : prbI ≤ 1)
    (hpj0 : 0 ≤ prbJ) (hpj1 : prbJ ≤ 1) :
    (1 / 10 ^ 6 ≤ SMPActor.snpmDivisor n m sik prbI sjk prbJ ∧
      ∀ a, divQ a (SMPActor.snpmDivisor n m sik prbI sjk prbJ) =
        some (a / SMPActor.snpmDivisor n m sik prbI sjk prbJ)) ∧
    1 / 10 ^ 6 ≤
      SMPActor.s2pMaxDivisor (SMPActor.probGap prbI prbJ) (sjk * sjk) (sik * sik) ∧
    1 / 10 ^ 6 ≤
      SMPActor.s2pMaxDivisor (SMPActor.probGap prbJ prbI) (sik * sik) (sjk * sjk) ∧
    ∀ tik tjk, (SMPActor.interpBrgnS2PMax tik sik prbI tjk sjk prbJ).isSome = true := by
  have hfl : (0 : ℚ) < 1 / 10 ^ 6 := by norm_num
  have h1 := snpmDivisor_ge n m sik prbI sjk prbJ hsi hsj hpi0 hpj0
  have gi := probGap_bounds prbI prbJ hpi0 hpj1
  have gj := probGap_bounds prbJ prbI hpj0 hpi1
  have h2 := s2pMaxDivisor_ge _ (sjk * sjk) (sik * sik) gi.1 gi.2
    (mul_self_nonneg sjk) (mul_self_nonneg sik)
  have h3 := s2pMaxDivisor_ge _ (sik * sik) (sjk * sjk) gj.1 gj.2
    (mul_self_nonneg sik) (mul_self_nonneg sjk)
  refine ⟨⟨h1, fun a => divQ_of_ne_zero a _ (by linarith)⟩, h2, h3, fun tik tjk => ?_⟩
  rw [interpBrgnS2PMax_eq tik sik prbI tjk sjk prbJ (by linarith) (by linarith)]
  rfl

/-- Witness for C18: all saliences zero and equal probabilities, where the
divisors are exactly the floor. -/
theorem C18_interp_divisors_positive_witness :
    (1 / 10 ^ 6 ≤ SMPActor.snpmDivisor 1 1 0 (1 / 2) 0 (1 / 2) ∧
      ∀ a, divQ a (SMPActor.snpmDivisor 1 1 0 (1 / 2) 0 (1 / 2)) =
        some (a / SMPActor.snpmDivisor 1 1 0 (1 / 2) 0 (1 / 2))) ∧
    1 / 10 ^ 6 ≤
      SMPActor.s2pMaxDivisor (SMPActor.probGap (1 / 2) (1 / 2)) (0 * 0) (0 * 0) ∧
    1 / 10 ^ 6 ≤
      SMPActor.s2pMaxDivisor (SMPActor.probGap (1 / 2) (1 / 2)) (0 * 0) (0 * 0) ∧
    ∀ tik tjk, (SMPActor.interpBrgnS2PMax tik 0 (1 / 2) tjk 0 (1 / 2)).isSome = true :=
  C18_interp_divisors_positive 1 1 0 (1 / 2) 0 (1 / 2) (by norm_num) (by norm_num)
    (by norm_num) (by norm_num) (by norm_num) (by norm_num)

/-- Truncation toward zero is monotone. -/
theorem truncInt_mono (a b : ℚ) (h : a ≤ b) : truncInt a ≤ truncInt b := by
  unfold truncInt
  split_ifs with ha hb hb
  · exact Int.floor_le_floor h
  · exact absurd (le_trans ha h) hb
  · have h1 : ⌈a⌉ ≤ 0 := by
      rw [Int.ceil_le]
      push_cast
      linarith [not_le.mp ha]
    have h2 : (0 : Int) ≤ ⌊b⌋ := Int.floor_nonneg.mpr hb
    exact le_trans h1 h2
  · exact Int.ceil_le_ceil h

/-- A weighted mean with non-negative weights lies between its two arguments. -/
theorem wmean_between (a b t u D : ℚ) (ha : 0 ≤ a) (hb : 0 ≤ b) (hD : D = a + b)
    (hpos : 0 < D) : min t u ≤ (a * t + b * u) / D ∧ (a * t + b * u) / D ≤ max t u := by
  constructor
  · rw [le_div_iff₀ hpos, hD]
    have h1 := min_le_left t u
    have h2 := min_le_right t u
    nlinarith [mul_le_mul_of_nonneg_left h1 ha, mul_le_mul_of_nonneg_left h2 hb]
  · rw [div_le_iff₀ hpos, hD]
    have h1 := le_max_left t u
    have h2 := le_max_right t u
    nlinarith [mul_le_mul_of_nonneg_left h1 ha, mul_le_mul_of_nonneg_left h2 hb]

/-- A point moved from `t` toward `u` by a fraction in `[0,1]` lies between
`t` and `u`. -/
theorem shift_between (t u f : ℚ) (h0 : 0 ≤ f) (h1 : f ≤ 1) :
    min t u ≤ t + f * (u - t) ∧ t + f * (u - t) ≤ max t u := by
  rcases le_total t u with h | h
  · rw [min_eq_left h, max_eq_right h]
    constructor <;> nlinarith
  · rw [min_eq_right h, max_eq_left h]
    constructor <;> nlinarith

/-- The truncation of a non-negative rational is its integer part. -/
theorem truncInt_eq_of_nonneg (q : ℚ) (z : Int) (h1 : (z : ℚ) ≤ q) (h2 : q < (z : ℚ) + 1)
    (h0 : 0 ≤ q) : truncInt q = z := by
  simp only [truncInt, h0, if_true]
  rw [Int.floor_eq_iff]
  exact ⟨h1, h2⟩

/-! ### Binary64 arithmetic and `interpBrgnSnPm` -/

/-- The rounding to the nearest integer, of a rational strictly within one
half of an integer, is that integer. -/
theorem roundHalfEven_eq (q : ℚ) (k : Int) (h1 : (k : ℚ) - 1 / 2 < q) (h2 : q < (k : ℚ) + 1 / 2) :
    roundHalfEven q = k := by
  unfold roundHalfEven
  have hf0 : (⌊q⌋ : ℚ) ≤ q := Int.floor_le q
  have hf1 : q < (⌊q⌋ : ℚ) + 1 := Int.lt_floor_add_one q
  split_ifs with c1 c2 c3
  · -- frac < 1/2 : floor = k
    have a : (k : ℚ) - 1 < ⌊q⌋ := by linarith
    have b : (⌊q⌋ : ℚ) < k + 1 := by linarith
    have a2 : k - 1 < ⌊q⌋ := by exact_mod_cast a
    have b2 : ⌊q⌋ < k + 1 := by exact_mod_cast b
    omega
  · have a : (k : ℚ) - 1 < ⌊q⌋ + 1 := by linarith
    have b : (⌊q⌋ : ℚ) + 1 < k + 1 := by linarith
    have a2 : k - 1 < ⌊q⌋ + 1 := by exact_mod_cast a
    have b2 : ⌊q⌋ + 1 < k + 1 := by exact_mod_cast b
    omega
  · have e : q - ⌊q⌋ = 1 / 2 := le_antisymm (not_lt.mp c2) (not_lt.mp c1)
    have a : (k : ℚ) - 1 < ⌊q⌋ := by linarith
    have b : (⌊q⌋ : ℚ) < k := by linarith
    have a2 : k - 1 < ⌊q⌋ := by exact_mod_cast a
    have b2 : ⌊q⌋ < k := by exact_mod_cast b
    omega
  · have e : q - ⌊q⌋ = 1 / 2 := le_antisymm (not_lt.mp c2) (not_lt.mp c1)
    have a : (k : ℚ) - 1 < ⌊q⌋ := by linarith
    have b : (⌊q⌋ : ℚ) < k := by linarith
    have a2 : k - 1 < ⌊q⌋ := by exact_mod_cast a
    have b2 : ⌊q⌋ < k := by exact_mod_cast b
    omega

/-- The rounding to the nearest integer moves a rational by at most one half. -/
theorem roundHalfEven_err (q : ℚ) : |((roundHalfEven q : Int) : ℚ) - q| ≤ 1 / 2 := by
  unfold roundHalfEven
  have hf0 : (⌊q⌋ : ℚ) ≤ q := Int.floor_le q
  have hf1 : q < (⌊q⌋ : ℚ) + 1 := Int.lt_floor_add_one q
  rw [abs_le]
  split_ifs with c1 c2 c3
  · constructor <;> linarith
  · push_cast
    constructor <;> linarith
  · have e : q - ⌊q⌋ = 1 / 2 := le_antisymm (not_lt.mp c2) (not_lt.mp c1)
    constructor <;> linarith
  · have e : q - ⌊q⌋ = 1 / 2 := le_antisymm (not_lt.mp c2) (not_lt.mp c1)
    push_cast
    constructor <;> linarith

/-- The rounding of a non-negative rational is non-negative. -/
theorem roundHalfEven_nonneg (q : ℚ) (h : 0 ≤ q) : 0 ≤ roundHalfEven q := by
  unfold roundHalfEven
  have hf : 0 ≤ ⌊q⌋ := Int.floor_nonneg.mpr h
  split_ifs <;> omega

/-- The spacing of the doubles is positive. -/
theorem ulp64_pos (q : ℚ) : 0 < ulp64 q := by
  unfold ulp64
  positivity

/-- The spacing of the doubles in the binade `[2^e, 2^(e+1))` of the normal
range is `2^(e-52)`. -/
theorem ulp64_eq (q : ℚ) (e : Int) (h1 : (2 : ℚ) ^ e ≤ |q|) (h2 : |q| < (2 : ℚ) ^ (e + 1))
    (he : -1022 ≤ e) : ulp64 q = 2 ^ (e - 52) := by
  have hpos : 0 < |q| := lt_of_lt_of_le (by positivity) h1
  have hlog : Int.log 2 |q| = e := by
    apply le_antisymm
    · have := (Int.lt_zpow_iff_log_lt (R := ℚ) (b := 2) (by norm_num) hpos).mp
        (by simpa using h2)
      omega
    · exact (Int.zpow_le_iff_le_log (R := ℚ) (b := 2) (by norm_num) hpos).mp (by simpa using h1)
  unfold ulp64
  rw [hlog, max_eq_left he]

/-- Certificate for one rounding. -/
theorem fl64_eq (q : ℚ) (e k : Int) (h1 : (2 : ℚ) ^ e ≤ |q|) (h2 : |q| < (2 : ℚ) ^ (e + 1))
    (he : -1022 ≤ e) (hk1 : (k : ℚ) - 1 / 2 < q / 2 ^ (e - 52))
    (hk2 : q / 2 ^ (e - 52) < (k : ℚ) + 1 / 2)
    (hfin : |(k : ℚ) * 2 ^ (e - 52)| < 2 ^ 1024) :
    fl64 q = some ((k : ℚ) * 2 ^ (e - 52)) := by
  unfold fl64
  simp only [ulp64_eq q e h1 h2 he, roundHalfEven_eq _ k hk1 hk2, hfin, if_true]

/-- Zero is rounded to zero. -/
theorem fl64_zero : fl64 0 = some 0 := by
  have h : roundHalfEven 0 = 0 := roundHalfEven_eq 0 0 (by norm_num) (by norm_num)
  unfold fl64
  simp only [zero_div, h, Int.cast_zero, zero_mul, abs_zero]
  rw [if_pos (by positivity)]

/-- The rounding of a non-negative rational is non-negative. -/
theorem fl64_nonneg (q r : ℚ) (hq : 0 ≤ q) (h : fl64 q = some r) : 0 ≤ r := by
  unfold fl64 at h
  simp only at h
  split_ifs at h
  have e := Option.some.inj h
  rw [← e]
  have h1 : 0 ≤ roundHalfEven (q / ulp64 q) :=
    roundHalfEven_nonneg _ (div_nonneg hq (ulp64_pos q).le)
  have h2 : (0 : ℚ) ≤ ((roundHalfEven (q / ulp64 q) : Int) : ℚ) := by exact_mod_cast h1
  exact mul_nonneg h2 (ulp64_pos q).le

/-- The error of one rounding. -/
theorem fl64_err (q r : ℚ) (h : fl64 q = some r) :
    |r - q| ≤ |q| / 2 ^ 53 + 1 / 2 ^ 1075 := by
  by_cases hq : q = 0
  · subst hq
    rw [fl64_zero] at h
    rw [← Option.some.inj h]
    norm_num
  unfold fl64 at h
  simp only at h
  split_ifs at h
  have e := Option.some.inj h
  have hu := ulp64_pos q
  have hk := roundHalfEven_err (q / ulp64 q)
  have hd : |r - q| = |((roundHalfEven (q / ulp64 q) : Int) : ℚ) - q / ulp64 q| * ulp64 q := by
    rw [← e, ← abs_of_pos hu, ← abs_mul, abs_of_pos hu]
    congr 1
    field_simp
  have hle : |r - q| ≤ ulp64 q / 2 := by
    rw [hd]
    calc _ ≤ 1 / 2 * ulp64 q := mul_le_mul_of_nonneg_right hk hu.le
      _ = ulp64 q / 2 := by ring
  have hpos : 0 < |q| := abs_pos.mpr hq
  have hlog := Int.zpow_log_le_self (R := ℚ) (b := 2) (by norm_num) hpos
  simp only [Nat.cast_ofNat] at hlog
  have hqn : 0 ≤ |q| / 2 ^ 53 := div_nonneg (abs_nonneg q) (by norm_num)
  rcases le_total (-1022) (Int.log 2 |q|) with hL | hL
  · have hu2 : ulp64 q / 2 = 2 ^ (Int.log 2 |q|) / 2 ^ 53 := by
      unfold ulp64
      rw [max_eq_left hL, zpow_sub₀ (by norm_num : (2 : ℚ) ≠ 0)]
      norm_num
      ring
    have : ulp64 q / 2 ≤ |q| / 2 ^ 53 := by
      rw [hu2]
      exact div_le_div_of_nonneg_right hlog (by positivity)
    linarith
  · have hu2 : ulp64 q / 2 = 1 / 2 ^ 1075 := by
      unfold ulp64
      rw [max_eq_right hL, show ((-1022 : Int) - 52) = -((1074 : Nat) : Int) by norm_num,
        zpow_neg, zpow_natCast, pow_succ (2 : ℚ) 1074]
      field_simp
    linarith

/-- A rounding has a finite result on a bounded argument. -/
theorem fl64_some (q : ℚ) (hq : |q| ≤ 2 ^ 1000) : ∃ r, fl64 q = some r := by
  by_cases hq0 : q = 0
  · exact ⟨0, hq0 ▸ fl64_zero⟩
  have hu := ulp64_pos q
  have hk := roundHalfEven_err (q / ulp64 q)
  have hpos : 0 < |q| := abs_pos.mpr hq0
  have hlog := Int.zpow_log_le_self (R := ℚ) (b := 2) (by norm_num) hpos
  simp only [Nat.cast_ofNat] at hlog
  have hulp : ulp64 q ≤ 2 ^ 1000 := by
    unfold ulp64
    rcases le_total (-1022) (Int.log 2 |q|) with hL | hL
    · rw [max_eq_left hL]
      calc (2 : ℚ) ^ (Int.log 2 |q| - 52) ≤ 2 ^ (Int.log 2 |q|) :=
            zpow_le_zpow_right₀ (by norm_num) (by omega)
        _ ≤ |q| := hlog
        _ ≤ 2 ^ 1000 := hq
    · rw [max_eq_right hL]
      calc (2 : ℚ) ^ ((-1022 : Int) - 52) ≤ 2 ^ (0 : Int) :=
            zpow_le_zpow_right₀ (by norm_num) (by norm_num)
        _ ≤ 2 ^ 1000 := by
            rw [zpow_zero]
            exact one_le_pow₀ (by norm_num)
  have hr : |((roundHalfEven (q / ulp64 q) : Int) : ℚ) * ulp64 q| < 2 ^ 1024 := by
    have h1 : |((roundHalfEven (q / ulp64 q) : Int) : ℚ) * ulp64 q - q| ≤ ulp64 q / 2 := by
      have hd : ((roundHalfEven (q / ulp64 q) : Int) : ℚ) * ulp64 q - q =
          (((roundHalfEven (q / ulp64 q) : Int) : ℚ) - q / ulp64 q) * ulp64 q := by
        field_simp
      rw [hd, abs_mul, abs_of_pos hu]
      calc _ ≤ 1 / 2 * ulp64 q := mul_le_mul_of_nonneg_right hk hu.le
        _ = ulp64 q / 2 := by ring
    have h2 : |((roundHalfEven (q / ulp64 q) : Int) : ℚ) * ulp64 q| ≤ |q| + ulp64 q / 2 := by
      have := abs_sub_abs_le_abs_sub (((roundHalfEven (q / ulp64 q) : Int) : ℚ) * ulp64 q) q
      linarith
    have h3 : (2 : ℚ) ^ 1000 + 2 ^ 1000 / 2 < 2 ^ 1024 := by norm_num
    linarith
  refine ⟨((roundHalfEven (q / ulp64 q) : Int) : ℚ) * ulp64 q, ?_⟩
  unfold fl64
  simp only [hr, if_true]

/-- One rounding of an argument of absolute value at most `B`: it has a
result, within `B * 1e-15 + 1e-30` of the argument (the relative error of a
rounding is at most `2^-53`, the absolute error below the normal range at most
`2^-1075`), and a non-negative one for a non-negative argument. -/
theorem fl64_step (q B : ℚ) (hq : |q| ≤ B) (hB : B ≤ 10 ^ 15) :
    ∃ r, fl64 q = some r ∧ |r - q| ≤ B / 10 ^ 15 + 1 / 10 ^ 30 ∧ (0 ≤ q → 0 ≤ r) := by
  have hB2 : (10 : ℚ) ^ 15 ≤ 2 ^ 1000 := by norm_num
  obtain ⟨r, hr⟩ := fl64_some q (le_trans hq (le_trans hB hB2))
  refine ⟨r, hr, ?_, fun h0 => fl64_nonneg q r h0 hr⟩
  have h1 := fl64_err q r hr
  have hB0 : 0 ≤ B := le_trans (abs_nonneg q) hq
  have h2 : |q| / 2 ^ 53 ≤ B / 10 ^ 15 := by
    calc |q| / 2 ^ 53 ≤ B / 2 ^ 53 := div_le_div_of_nonneg_right hq (by norm_num)
      _ ≤ B / 10 ^ 15 := div_le_div_of_nonneg_left hB0 (by norm_num) (by norm_num)
  have h3 : (1 : ℚ) / 2 ^ 1075 ≤ 1 / 10 ^ 30 := by norm_num
  linarith

/-- Truncation moves down by at most one when the argument does. -/
theorem truncInt_sub_one (y : ℚ) : truncInt y - 1 ≤ truncInt (y - 1) := by
  unfold truncInt
  split_ifs with h1 h2 h2
  · rw [Int.floor_sub_one]
  · rw [Int.ceil_sub_one]
    have := Int.floor_le_ceil y
    omega
  · exact absurd (by linarith : (0 : ℚ) ≤ y) h1
  · rw [Int.ceil_sub_one]

/-- The truncation is no larger in absolute value than the argument. -/
theorem truncInt_abs_le (v : ℚ) : |((truncInt v : Int) : ℚ)| ≤ |v| := by
  unfold truncInt
  split_ifs with h
  · have h1 : (0 : ℚ) ≤ ⌊v⌋ := by exact_mod_cast Int.floor_nonneg.mpr h
    rw [abs_of_nonneg h1, abs_of_nonneg h]
    exact Int.floor_le v
  · have hv : v < 0 := not_le.mp h
    have h1 : (⌈v⌉ : ℚ) ≤ 0 := by
      have : ⌈v⌉ ≤ 0 := by
        rw [Int.ceil_le]
        push_cast
        exact hv.le
      exact_mod_cast this
    rw [abs_of_nonpos h1, abs_of_neg hv]
    have := Int.le_ceil v
    linarith

/-- The integer that `round4` computes, on a coordinate of absolute value at
most `2 * 10^5`: it exists, and the value that is truncated is within `1e-5`
of `0.5 + 10000 x`. -/
theorem round4Int_close (x : ℚ) (hx : |x| ≤ 2 * 10 ^ 5) :
    ∃ v, SMPActor.round4Int x = some (truncInt v) ∧ |v - (1 / 2 + x * 10000)| ≤ 1 / 10 ^ 5 ∧
      |v| ≤ 2 * 10 ^ 9 + 1 := by
  have hxs : |x * 10000| ≤ 2 * 10 ^ 9 := by
    rw [abs_mul]
    have : |(10000 : ℚ)| = 10000 := abs_of_pos (by norm_num)
    rw [this]
    linarith
  obtain ⟨a, ha, hae, _⟩ := fl64_step (x * 10000) (2 * 10 ^ 9) hxs (by norm_num)
  have haa : |1 / 2 + a| ≤ 3 * 10 ^ 9 := by
    have h1 := abs_le.mp hae
    have h2 := abs_le.mp hxs
    have h3 : (2 * 10 ^ 9 : ℚ) / 10 ^ 15 + 1 / 10 ^ 30 ≤ 1 := by norm_num
    rw [abs_le]
    constructor <;> linarith
  obtain ⟨v, hv, hve, _⟩ := fl64_step (1 / 2 + a) (3 * 10 ^ 9) haa (by norm_num)
  have hclose : |v - (1 / 2 + x * 10000)| ≤ 1 / 10 ^ 5 := by
    have h1 := abs_le.mp hae
    have h2 := abs_le.mp hve
    have h3 : (2 * 10 ^ 9 : ℚ) / 10 ^ 15 + 1 / 10 ^ 30 +
        ((3 * 10 ^ 9 : ℚ) / 10 ^ 15 + 1 / 10 ^ 30) ≤ 1 / 10 ^ 5 := by norm_num
    rw [abs_le]
    constructor <;> linarith
  have hvb : |v| ≤ 2 * 10 ^ 9 + 1 := by
    have h1 := abs_le.mp hclose
    have h2 := abs_le.mp hxs
    rw [abs_le]
    constructor <;> linarith
  refine ⟨v, ?_, hclose, hvb⟩
  have hr := abs_le.mp hvb
  have hrange : -(2 ^ 31 : ℚ) - 1 < v ∧ v < 2 ^ 31 := by
    constructor <;> linarith
  simp only [SMPActor.round4Int, ha, hv, assertThat, hrange, and_self, if_true, Option.bind_eq_bind,
    Option.some_bind, Option.pure_def]

/-- The integer that `round4` computes moves down by at most one when the
coordinate moves down by at most `1e-6`. -/
theorem round4Int_ge (x y : ℚ) (hx : |x| ≤ 2 * 10 ^ 5) (hy : |y| ≤ 2 * 10 ^ 5)
    (h : y - 1 / 10 ^ 6 ≤ x) :
    ∃ k l, SMPActor.round4Int x = some k ∧ SMPActor.round4Int y = some l ∧ l - 1 ≤ k := by
  obtain ⟨v, hv, hvc, _⟩ := round4Int_close x hx
  obtain ⟨w, hw, hwc, _⟩ := round4Int_close y hy
  refine ⟨truncInt v, truncInt w, hv, hw, ?_⟩
  have h1 := abs_le.mp hvc
  have h2 := abs_le.mp hwc
  have h3 : w - 1 ≤ v := by linarith
  exact le_trans (truncInt_sub_one w) (truncInt_mono _ _ h3)

/-- The result of `round4` from its integer: the double nearest to
`k / 10000`, within `1e-9` of it. -/
theorem round4_some (x : ℚ) (k : Int) (hx : |x| ≤ 2 * 10 ^ 5) (hk : SMPActor.round4Int x = some k) :
    ∃ r, fl64 ((k : ℚ) / 10000) = some r ∧ SMPActor.round4 x = some r ∧
      |r - (k : ℚ) / 10000| ≤ 1 / 10 ^ 9 := by
  obtain ⟨v, hv, _, hvb⟩ := round4Int_close x hx
  rw [hk] at hv
  have hkv := Option.some.inj hv
  have hkb : |((k : Int) : ℚ)| ≤ 2 * 10 ^ 9 + 1 := by
    rw [hkv]
    exact le_trans (truncInt_abs_le v) hvb
  have hq : |((k : Int) : ℚ) / 10000| ≤ 3 * 10 ^ 5 := by
    rw [abs_div, abs_of_pos (by norm_num : (0 : ℚ) < 10000), div_le_iff₀ (by norm_num)]
    linarith
  obtain ⟨r, hr, er, _⟩ := fl64_step _ (3 * 10 ^ 5) hq (by norm_num)
  refine ⟨r, hr, ?_, ?_⟩
  · simp only [SMPActor.round4, hk, hr, Option.bind_eq_bind, Option.some_bind]
  · have c : (3 * 10 ^ 5 : ℚ) / 10 ^ 15 + 1 / 10 ^ 30 ≤ 1 / 10 ^ 9 := by norm_num
    linarith

/-- A weighted sum of two coordinates of absolute value at most `T`, with
non-negative weights. -/
theorem wsum_abs_le (a b t u T : ℚ) (ha : 0 ≤ a) (hb : 0 ≤ b) (ht : |t| ≤ T) (hu : |u| ≤ T) :
    |a * t + b * u| ≤ (a + b) * T := by
  have h1 := abs_le.mp ht
  have h2 := abs_le.mp hu
  rw [abs_le]
  constructor <;> nlinarith [mul_le_mul_of_nonneg_left h1.1 ha, mul_le_mul_of_nonneg_left h1.2 ha,
    mul_le_mul_of_nonneg_left h2.1 hb, mul_le_mul_of_nonneg_left h2.2 hb]

/-- The numerator of `snpmQuot`: for non-negative weights whose sum is in
`[9e-7, 3]` and coordinates of absolute value at most `1e5` the three
roundings have results, and the computed numerator is within the relative
distance `3e-10` of the exact one. -/
theorem snpmNum_err (a b tik tjk : ℚ) (ha : 0 ≤ a) (hb : 0 ≤ b)
    (hS0 : 9 / 10 ^ 7 ≤ a + b) (hS1 : a + b ≤ 3)
    (hti : |tik| ≤ 10 ^ 5) (htj : |tjk| ≤ 10 ^ 5) :
    ∃ p1 p2 nm, fl64 (a * tik) = some p1 ∧ fl64 (b * tjk) = some p2 ∧
      fl64 (p1 + p2) = some nm ∧
      |nm - (a * tik + b * tjk)| ≤ (a + b) * (4 / 10 ^ 10) := by
  have hS : 0 < a + b := by linarith
  have ha3 : a ≤ 3 := by linarith
  have hb3 : b ≤ 3 := by linarith
  have h1b : |a * tik| ≤ a * 10 ^ 5 := by
    rw [abs_mul, abs_of_nonneg ha]
    exact mul_le_mul_of_nonneg_left hti ha
  have h2b : |b * tjk| ≤ b * 10 ^ 5 := by
    rw [abs_mul, abs_of_nonneg hb]
    exact mul_le_mul_of_nonneg_left htj hb
  obtain ⟨p1, hp1, e1, _⟩ := fl64_step (a * tik) (a * 10 ^ 5) h1b (by linarith)
  obtain ⟨p2, hp2, e2, _⟩ := fl64_step (b * tjk) (b * 10 ^ 5) h2b (by linarith)
  have hN := wsum_abs_le a b tik tjk (10 ^ 5) ha hb hti htj
  have y1 : a * 10 ^ 5 / 10 ^ 15 = a * (1 / 10 ^ 10) := by ring
  have y2 : b * 10 ^ 5 / 10 ^ 15 = b * (1 / 10 ^ 10) := by ring
  rw [y1] at e1
  rw [y2] at e2
  have x1 := abs_le.mp e1
  have x2 := abs_le.mp e2
  have x0 := abs_le.mp hN
  have h3b : |p1 + p2| ≤ (a + b) * (10 ^ 5 + 1) := by
    rw [abs_le]
    constructor <;> linarith
  obtain ⟨nm, hnm, e3, _⟩ := fl64_step (p1 + p2) ((a + b) * (10 ^ 5 + 1)) h3b (by linarith)
  have y3 : (a + b) * (10 ^ 5 + 1) / 10 ^ 15 ≤ (a + b) * (11 / 10 ^ 11) := by
    rw [div_le_iff₀ (by norm_num)]
    nlinarith
  have x3 := abs_le.mp e3
  refine ⟨p1, p2, nm, hp1, hp2, hnm, ?_⟩
  rw [abs_le]
  constructor <;> linarith

/-- The quotient `snpmQuot`: for non-negative weights `a`, `b` whose sum is in
`[9e-7, 3]`, a divisor within the relative distance `1e-14` of that sum and
coordinates of absolute value at most `1e5`, it has a value, within `1e-8` of
the exact weighted mean. -/
theorem snpmQuot_err (a b tik tjk d : ℚ) (ha : 0 ≤ a) (hb : 0 ≤ b)
    (hS0 : 9 / 10 ^ 7 ≤ a + b) (hS1 : a + b ≤ 3) (hd : |d - (a + b)| ≤ (a + b) / 10 ^ 14)
    (hti : |tik| ≤ 10 ^ 5) (htj : |tjk| ≤ 10 ^ 5) :
    ∃ x, SMPActor.snpmQuot a b tik tjk d = some x ∧
      |x - (a * tik + b * tjk) / (a + b)| ≤ 1 / 10 ^ 8 ∧ |x| ≤ 10 ^ 5 + 1 := by
  have hS : 0 < a + b := by linarith
  obtain ⟨p1, p2, nm, hp1, hp2, hnm, hnum⟩ := snpmNum_err a b tik tjk ha hb hS0 hS1 hti htj
  have hN := wsum_abs_le a b tik tjk (10 ^ 5) ha hb hti htj
  have hdl := abs_le.mp hd
  have hsmall : (a + b) / 10 ^ 14 ≤ (a + b) * (1 / 100) := by
    rw [div_le_iff₀ (by norm_num)]
    nlinarith
  have hdge : (a + b) * (99 / 100) ≤ d := by linarith
  have hdpos : 0 < d := by nlinarith
  have hQ : |(a * tik + b * tjk) / (a + b)| ≤ 10 ^ 5 := by
    rw [abs_div, abs_of_pos hS, div_le_iff₀ hS]
    linarith
  have hq1 : |nm / d - (a * tik + b * tjk) / (a + b)| ≤ 2 / 10 ^ 9 := by
    have hrew : nm / d - (a * tik + b * tjk) / (a + b) =
        ((nm - (a * tik + b * tjk)) +
          (a * tik + b * tjk) / (a + b) * ((a + b) - d)) / d := by
      field_simp
      ring
    rw [hrew, abs_div, abs_of_pos hdpos, div_le_iff₀ hdpos]
    have t1 : |(a * tik + b * tjk) / (a + b) * ((a + b) - d)| ≤
        10 ^ 5 * ((a + b) / 10 ^ 14) := by
      rw [abs_mul]
      have h2 : |(a + b) - d| ≤ (a + b) / 10 ^ 14 := by
        rw [abs_sub_comm]
        exact hd
      exact mul_le_mul hQ h2 (abs_nonneg _) (by norm_num)
    have t2 := abs_add (nm - (a * tik + b * tjk))
      ((a * tik + b * tjk) / (a + b) * ((a + b) - d))
    have t3 : (a + b) * (4 / 10 ^ 10) + 10 ^ 5 * ((a + b) / 10 ^ 14) =
        (a + b) * (14 / 10 ^ 10) := by ring
    have t4 : (a + b) * (14 / 10 ^ 10) ≤ 2 / 10 ^ 9 * d := by nlinarith
    linarith
  have hq2 : |nm / d| ≤ 10 ^ 5 + 1 / 2 := by
    have x1 := abs_le.mp hq1
    have x2 := abs_le.mp hQ
    rw [abs_le]
    constructor <;> linarith
  obtain ⟨x, hx, e4, _⟩ := fl64_step (nm / d) (10 ^ 5 + 1 / 2) hq2 (by norm_num)
  have hxe : |x - (a * tik + b * tjk) / (a + b)| ≤ 1 / 10 ^ 8 := by
    have x1 := abs_le.mp hq1
    have x2 := abs_le.mp e4
    have c : ((10 : ℚ) ^ 5 + 1 / 2) / 10 ^ 15 + 1 / 10 ^ 30 ≤ 1 / 10 ^ 9 := by norm_num
    rw [abs_le]
    constructor <;> linarith
  have hf : fdiv nm d = some x := by
    unfold fdiv
    rw [if_neg (ne_of_gt hdpos)]
    exact hx
  refine ⟨x, ?_, hxe, ?_⟩
  · simp only [SMPActor.snpmQuot, hp1, hp2, hnm, hf, Option.bind_eq_bind, Option.some_bind]
  · have x1 := abs_le.mp hxe
    have x2 := abs_le.mp hQ
    rw [abs_le]
    constructor <;> linarith

/-- A rounding that returns on the argument `0` returns `0`. -/
theorem fl64_of_zero (q r : ℚ) (hq : q = 0) (h : fl64 q = some r) : r = 0 := by
  rw [hq, fl64_zero] at h
  exact (Option.some.inj h).symm

/-- The weight `pow(s, n) * pow(p, m)` for a salience and a probability in
`[0,1]`: it has a value in `[0, 1 + 1e-13]`, which is `0` when the salience or
the probability is `0`. -/
theorem snpmWeight_ok (n m : Nat) (s p : ℚ) (hn : n = 1 ∨ n = 2) (hs0 : 0 ≤ s) (hs1 : s ≤ 1)
    (hp0 : 0 ≤ p) (hp1 : p ≤ 1) :
    ∃ w, SMPActor.snpmWeight n m s p = some w ∧ 0 ≤ w ∧ w ≤ 1 + 1 / 10 ^ 13 ∧
      (s = 0 ∨ p = 0 → (m = 1 ∨ m = 2) → w = 0) := by
  have a0 : 0 ≤ s ^ n := pow_nonneg hs0 n
  have a1 : s ^ n ≤ 1 := pow_le_one₀ hs0 hs1
  have b0 : 0 ≤ p ^ m := pow_nonneg hp0 m
  have b1 : p ^ m ≤ 1 := pow_le_one₀ hp0 hp1
  obtain ⟨ws, hws, ews, sws⟩ := fl64_step (s ^ n) 1 (by rw [abs_of_nonneg a0]; exact a1)
    (by norm_num)
  obtain ⟨wp, hwp, ewp, swp⟩ := fl64_step (p ^ m) 1 (by rw [abs_of_nonneg b0]; exact b1)
    (by norm_num)
  have ws0 := sws a0
  have wp0 := swp b0
  have x1 := abs_le.mp ews
  have x2 := abs_le.mp ewp
  have ws1 : ws ≤ 1 + 1 / 10 ^ 14 := by
    have : (1 : ℚ) / 10 ^ 15 + 1 / 10 ^ 30 ≤ 1 / 10 ^ 14 := by norm_num
    linarith
  have wp1 : wp ≤ 1 + 1 / 10 ^ 14 := by
    have : (1 : ℚ) / 10 ^ 15 + 1 / 10 ^ 30 ≤ 1 / 10 ^ 14 := by norm_num
    linarith
  have hprod0 : 0 ≤ ws * wp := mul_nonneg ws0 wp0
  have hprod1 : ws * wp ≤ (1 + 1 / 10 ^ 14) * (1 + 1 / 10 ^ 14) :=
    mul_le_mul ws1 wp1 wp0 (by norm_num)
  have hprod2 : ws * wp ≤ 2 := le_trans hprod1 (by norm_num)
  obtain ⟨w, hw, ew, sw⟩ := fl64_step (ws * wp) 2 (by rw [abs_of_nonneg hprod0]; exact hprod2)
    (by norm_num)
  have x3 := abs_le.mp ew
  refine ⟨w, ?_, sw hprod0, ?_, ?_⟩
  · simp only [SMPActor.snpmWeight, hws, hwp, hw, Option.bind_eq_bind, Option.some_bind]
  · have c : ((1 : ℚ) + 1 / 10 ^ 14) * (1 + 1 / 10 ^ 14) + (2 / 10 ^ 15 + 1 / 10 ^ 30) ≤
        1 + 1 / 10 ^ 13 := by norm_num
    linarith
  · intro hz hm
    have hzero : ws * wp = 0 := by
      rcases hz with h | h
      · have : s ^ n = 0 := by
          rcases hn with h1 | h1 <;> rw [h, h1] <;> norm_num
        rw [fl64_of_zero _ ws this hws, zero_mul]
      · have : p ^ m = 0 := by
          rcases hm with h1 | h1 <;> rw [h, h1] <;> norm_num
        rw [fl64_of_zero _ wp this hwp, mul_zero]
    exact fl64_of_zero _ w hzero hw

/-- The roundings of `interpBrgnSnPm` that come before the two quotients, for
two weights in `[0, 1 + 1e-13]`: the floor `minW`, the two floored weights
`wik + minW` and `minW + wjk` and the divisor `wik + minW + wjk` have values;
the floored weights are non-negative, the two weight sums are in `[9e-7, 3]`,
and the divisor is within the relative distance `1e-14` of both sums. -/
theorem snpm_setup (wik wjk : ℚ) (hi0 : 0 ≤ wik) (hi1 : wik ≤ 1 + 1 / 10 ^ 13)
    (hj0 : 0 ≤ wjk) (hj1 : wjk ≤ 1 + 1 / 10 ^ 13) :
    ∃ c ai aj d, fl64 ((1 : ℚ) / 10 ^ 6) = some c ∧ fl64 (wik + c) = some ai ∧
      fl64 (ai + wjk) = some d ∧ fl64 (c + wjk) = some aj ∧
      0 < ai ∧ 0 < aj ∧
      9 / 10 ^ 7 ≤ ai + wjk ∧ ai + wjk ≤ 3 ∧ 9 / 10 ^ 7 ≤ wik + aj ∧ wik + aj ≤ 3 ∧
      |d - (ai + wjk)| ≤ (ai + wjk) / 10 ^ 14 ∧ |d - (wik + aj)| ≤ (wik + aj) / 10 ^ 14 := by
  obtain ⟨c, hc, ec, sc⟩ := fl64_step ((1 : ℚ) / 10 ^ 6) (1 / 10 ^ 6)
    (by rw [abs_of_nonneg (by norm_num)]) (by norm_num)
  have c0 : 0 ≤ c := sc (by norm_num)
  have xc := abs_le.mp ec
  have cl : (99 : ℚ) / 10 ^ 8 ≤ c := by
    have : (1 : ℚ) / 10 ^ 6 - (1 / 10 ^ 6 / 10 ^ 15 + 1 / 10 ^ 30) ≥ 99 / 10 ^ 8 := by norm_num
    linarith
  have cu : c ≤ 101 / 10 ^ 8 := by
    have : (1 : ℚ) / 10 ^ 6 + (1 / 10 ^ 6 / 10 ^ 15 + 1 / 10 ^ 30) ≤ 101 / 10 ^ 8 := by norm_num
    linarith
  obtain ⟨ai, hai, eai, sai⟩ := fl64_step (wik + c) (wik + c)
    (by rw [abs_of_nonneg (by linarith)]) (by linarith)
  obtain ⟨aj, haj, eaj, saj⟩ := fl64_step (c + wjk) (c + wjk)
    (by rw [abs_of_nonneg (by linarith)]) (by linarith)
  have xi := abs_le.mp eai
  have xj := abs_le.mp eaj
  have ai0 : 0 ≤ ai := sai (by linarith)
  have aj0 : 0 ≤ aj := saj (by linarith)
  have r1 : (wik + c) / 10 ^ 15 = (wik + c) * (1 / 10 ^ 15) := by ring
  have r2 : (c + wjk) / 10 ^ 15 = (c + wjk) * (1 / 10 ^ 15) := by ring
  rw [r1] at xi
  rw [r2] at xj
  obtain ⟨d, hd, ed, _⟩ := fl64_step (ai + wjk) (ai + wjk)
    (by rw [abs_of_nonneg (by linarith)]) (by linarith)
  have xd := abs_le.mp ed
  have r3 : (ai + wjk) / 10 ^ 15 = (ai + wjk) * (1 / 10 ^ 15) := by ring
  have r4 : (ai + wjk) / 10 ^ 14 = (ai + wjk) * (1 / 10 ^ 14) := by ring
  have r5 : (wik + aj) / 10 ^ 14 = (wik + aj) * (1 / 10 ^ 14) := by ring
  rw [r3] at xd
  refine ⟨c, ai, aj, d, hc, hai, hd, haj, by linarith, by linarith, by linarith, by linarith,
    by linarith, by linarith, ?_, ?_⟩
  · rw [r4, abs_le]
    constructor <;> linarith
  · rw [r5, abs_le]
    constructor <;> linarith

/-- In binary64 too the divisor of `interpBrgnSnPm` is positive: for saliences
and probabilities in `[0,1]` the two weights, the floor `minW`, the floored
weight `wik + minW` and the divisor `(wik + minW) + wjk` have values, and the
divisor is at least `8e-7`. -/
theorem snpm_divisor_pos (n m : Nat) (sik prbI sjk prbJ : ℚ) (hn : n = 1 ∨ n = 2)
    (hsi0 : 0 ≤ sik) (hsi1 : sik ≤ 1) (hpi0 : 0 ≤ prbI) (hpi1 : prbI ≤ 1)
    (hsj0 : 0 ≤ sjk) (hsj1 : sjk ≤ 1) (hpj0 : 0 ≤ prbJ) (hpj1 : prbJ ≤ 1) :
    ∃ wik wjk c ai d, SMPActor.snpmWeight n m sik prbI = some wik ∧
      SMPActor.snpmWeight n m sjk prbJ = some wjk ∧ fl64 ((1 : ℚ) / 10 ^ 6) = some c ∧
      fl64 (wik + c) = some ai ∧ fl64 (ai + wjk) = some d ∧ 8 / 10 ^ 7 ≤ d := by
  obtain ⟨wik, hwik, wi0, wi1, _⟩ := snpmWeight_ok n m sik prbI hn hsi0 hsi1 hpi0 hpi1
  obtain ⟨wjk, hwjk, wj0, wj1, _⟩ := snpmWeight_ok n m sjk prbJ hn hsj0 hsj1 hpj0 hpj1
  obtain ⟨c, ai, aj, d, hc, hai, hd, _, _, _, s1, _, _, _, d1, _⟩ :=
    snpm_setup wik wjk wi0 wi1 wj0 wj1
  refine ⟨wik, wjk, c, ai, d, hwik, hwjk, hc, hai, hd, ?_⟩
  have x := abs_le.mp d1
  have r : (ai + wjk) / 10 ^ 14 = (ai + wjk) * (1 / 10 ^ 14) := by ring
  rw [r] at x
  linarith [x.1]

/-- What `interpBrgnSnPm` does on saliences and probabilities in `[0,1]` and
coordinates of absolute value at most `1e5`: all roundings have finite
results and no assertion fails.  The quotient `xi` behind `bik` is within
`1e-8` of the exact mean of the coordinates under the floored weights
`wik + minW` and `wjk`, the quotient `xj` behind `bjk` within `1e-8` of the
exact mean under `wik` and `minW + wjk`, and each output is the double nearest
to `k / 10000` for the integer `k` that `round4` truncates to. -/
theorem snpm_run (n m : Nat) (tik sik prbI tjk sjk prbJ : ℚ)
    (hn : n = 1 ∨ n = 2) (hm : m = 1 ∨ m = 2)
    (hsi0 : 0 ≤ sik) (hsi1 : sik ≤ 1) (hpi0 : 0 ≤ prbI) (hpi1 : prbI ≤ 1)
    (hsj0 : 0 ≤ sjk) (hsj1 : sjk ≤ 1) (hpj0 : 0 ≤ prbJ) (hpj1 : prbJ ≤ 1)
    (hti : |tik| ≤ 10 ^ 5) (htj : |tjk| ≤ 10 ^ 5) :
    ∃ wik wjk c ai aj xi xj ki kj bik bjk,
      SMPActor.snpmWeight n m sik prbI = some wik ∧ SMPActor.snpmWeight n m sjk prbJ = some wjk ∧
      fl64 ((1 : ℚ) / 10 ^ 6) = some c ∧ fl64 (wik + c) = some ai ∧
      fl64 (c + wjk) = some aj ∧
      0 ≤ wik ∧ 0 ≤ wjk ∧ 0 < ai ∧ 0 < aj ∧
      |xi - (ai * tik + wjk * tjk) / (ai + wjk)| ≤ 1 / 10 ^ 8 ∧
      |xj - (wik * tik + aj * tjk) / (wik + aj)| ≤ 1 / 10 ^ 8 ∧
      |xi| ≤ 10 ^ 5 + 1 ∧ |xj| ≤ 10 ^ 5 + 1 ∧
      SMPActor.round4Int xi = some ki ∧ SMPActor.round4Int xj = some kj ∧
      fl64 ((ki : ℚ) / 10000) = some bik ∧ fl64 ((kj : ℚ) / 10000) = some bjk ∧
      |bik - (ki : ℚ) / 10000| ≤ 1 / 10 ^ 9 ∧ |bjk - (kj : ℚ) / 10000| ≤ 1 / 10 ^ 9 ∧
      SMPActor.interpBrgnSnPm n m tik sik prbI tjk sjk prbJ = some (bik, bjk) := by
  obtain ⟨wik, hwik, wi0, wi1, _⟩ := snpmWeight_ok n m sik prbI hn hsi0 hsi1 hpi0 hpi1
  obtain ⟨wjk, hwjk, wj0, wj1, _⟩ := snpmWeight_ok n m sjk prbJ hn hsj0 hsj1 hpj0 hpj1
  obtain ⟨c, ai, aj, d, hc, hai, hd, haj, ai0, aj0, s1, s2, s3, s4, d1, d2⟩ :=
    snpm_setup wik wjk wi0 wi1 wj0 wj1
  obtain ⟨xi, hxi, exi, bxi⟩ := snpmQuot_err ai wjk tik tjk d ai0.le wj0 s1 s2 d1 hti htj
  obtain ⟨xj, hxj, exj, bxj⟩ := snpmQuot_err wik aj tik tjk d wi0 aj0.le s3 s4 d2 hti htj
  have bxi2 : |xi| ≤ 2 * 10 ^ 5 := le_trans bxi (by norm_num)
  have bxj2 : |xj| ≤ 2 * 10 ^ 5 := le_trans bxj (by norm_num)
  obtain ⟨vi, hki, _, _⟩ := round4Int_close xi bxi2
  obtain ⟨vj, hkj, _, _⟩ := round4Int_close xj bxj2
  obtain ⟨bik, hbik, hri, ebi⟩ := round4_some xi _ bxi2 hki
  obtain ⟨bjk, hbjk, hrj, ebj⟩ := round4_some xj _ bxj2 hkj
  have hn2 : assertThat (1 = n ∨ 2 = n) = some () := by
    rw [assertThat_eq_some]
    omega
  have hm2 : assertThat (1 = m ∨ 2 = m) = some () := by
    rw [assertThat_eq_some]
    omega
  refine ⟨wik, wjk, c, ai, aj, xi, xj, truncInt vi, truncInt vj, bik, bjk, hwik, hwjk, hc, hai,
    haj, wi0, wj0, ai0, aj0, exi, exj, bxi, bxj, hki, hkj, hbik, hbjk, ebi, ebj, ?_⟩
  simp only [SMPActor.interpBrgnSnPm, hn2, hm2, hwik, hwjk, hc, hai, hd, hxi, hri, haj, hxj, hrj,
    Option.bind_eq_bind, Option.some_bind, Option.pure_def]

/-- A tie is rounded to the even neighbour. -/
theorem roundHalfEven_tie (q : ℚ) (f : Int) (h : q = (f : ℚ) + 1 / 2) :
    roundHalfEven q = if f % 2 = 0 then f else f + 1 := by
  have hf : ⌊q⌋ = f := by
    rw [Int.floor_eq_iff]
    constructor <;> linarith
  unfold roundHalfEven
  rw [hf]
  have e : q - (f : ℚ) = 1 / 2 := by linarith
  rw [e, if_neg (lt_irrefl _), if_neg (lt_irrefl _)]

/-- The rounding of a positive number in the normal range, from its binade and
the integer that the significand rounds to. -/
theorem fl64_of_round (q : ℚ) (e k : Int) (u r : ℚ) (hu : u = 2 ^ (e - 52)) (he : -1022 ≤ e)
    (h1 : 2 ^ 52 * u ≤ q) (h2 : q < 2 ^ 53 * u) (hk : roundHalfEven (q / u) = k)
    (hr : r = (k : ℚ) * u) (hr0 : 0 ≤ r) (hr1 : r ≤ 2 ^ 1000) : fl64 q = some r := by
  have hfin : |r| < 2 ^ 1024 := by
    rw [abs_of_nonneg hr0]
    exact lt_of_le_of_lt hr1 (by norm_num)
  have hupos : (0 : ℚ) < u := by
    rw [hu]
    positivity
  have hq : 0 < q := lt_of_lt_of_le (mul_pos (by norm_num) hupos) h1
  have e1 : (2 : ℚ) ^ e = 2 ^ 52 * u := by
    rw [hu, zpow_sub₀ (by norm_num : (2 : ℚ) ≠ 0)]
    norm_num
    field_simp
  have e2 : (2 : ℚ) ^ (e + 1) = 2 ^ 53 * u := by
    rw [zpow_add₀ (by norm_num : (2 : ℚ) ≠ 0), e1]
    ring
  have hulp : ulp64 q = u := by
    rw [ulp64_eq q e (by rw [abs_of_pos hq, e1]; exact h1)
      (by rw [abs_of_pos hq, e2]; exact h2) he, hu]
  unfold fl64
  simp only [hulp, hk, ← hr, hfin, if_true]

/-- Certificate for one rounding of a positive number that is not a tie. -/
theorem fl64_cert (q : ℚ) (e k : Int) (u r : ℚ) (hu : u = 2 ^ (e - 52)) (he : -1022 ≤ e)
    (h1 : 2 ^ 52 * u ≤ q) (h2 : q < 2 ^ 53 * u) (hk1 : ((k : ℚ) - 1 / 2) * u < q)
    (hk2 : q < ((k : ℚ) + 1 / 2) * u) (hr : r = (k : ℚ) * u) (hr0 : 0 ≤ r)
    (hr1 : r ≤ 2 ^ 1000) : fl64 q = some r := by
  have hupos : (0 : ℚ) < u := by
    rw [hu]
    positivity
  exact fl64_of_round q e k u r hu he h1 h2
    (roundHalfEven_eq _ k (by rw [lt_div_iff₀ hupos]; exact hk1)
      (by rw [div_lt_iff₀ hupos]; exact hk2)) hr hr0 hr1

/-- Certificate for one rounding of a positive number that is a tie. -/
theorem fl64_cert_tie (q : ℚ) (e f k : Int) (u r : ℚ) (hu : u = 2 ^ (e - 52)) (he : -1022 ≤ e)
    (h1 : 2 ^ 52 * u ≤ q) (h2 : q < 2 ^ 53 * u) (ht : q = ((f : ℚ) + 1 / 2) * u)
    (hk : k = if f % 2 = 0 then f else f + 1) (hr : r = (k : ℚ) * u)
    (hr0 : 0 ≤ r) (hr1 : r ≤ 2 ^ 1000) : fl64 q = some r := by
  have hupos : (0 : ℚ) < u := by
    rw [hu]
    positivity
  refine fl64_of_round q e k u r hu he h1 h2 ?_ hr hr0 hr1
  rw [hk]
  apply roundHalfEven_tie
  rw [ht]
  field_simp
  ring

/-- The weight of an actor from its three roundings. -/
theorem snpmWeight_of_steps (n m : Nat) (s p ws wp w : ℚ) (h1 : fl64 (s ^ n) = some ws)
    (h2 : fl64 (p ^ m) = some wp) (h3 : fl64 (ws * wp) = some w) :
    SMPActor.snpmWeight n m s p = some w := by
  simp only [SMPActor.snpmWeight, h1, h2, h3, Option.bind_eq_bind, Option.some_bind]

/-- One quotient of `interpBrgnSnPm` from its four roundings. -/
theorem snpmQuot_of_steps (a b tik tjk d p1 p2 nm x : ℚ) (h1 : fl64 (a * tik) = some p1)
    (h2 : fl64 (b * tjk) = some p2) (h3 : fl64 (p1 + p2) = some nm) (hd : d ≠ 0)
    (h4 : fl64 (nm / d) = some x) : SMPActor.snpmQuot a b tik tjk d = some x := by
  have h5 : fdiv nm d = some x := by
    unfold fdiv
    rw [if_neg hd]
    exact h4
  simp only [SMPActor.snpmQuot, h1, h2, h3, h5, Option.bind_eq_bind, Option.some_bind]

/-- The integer and the result of `round4` from its three roundings, for a
non-negative value below `2^31` under the conversion to `int`. -/
theorem round4_of_steps (x a v r : ℚ) (k : Int) (h1 : fl64 (x * 10000) = some a)
    (h2 : fl64 (1 / 2 + a) = some v) (hv0 : 0 ≤ v) (hv1 : v < 2 ^ 31)
    (hk1 : (k : ℚ) ≤ v) (hk2 : v < (k : ℚ) + 1) (h3 : fl64 ((k : ℚ) / 10000) = some r) :
    SMPActor.round4Int x = some k ∧ SMPActor.round4 x = some r := by
  have h4 : truncInt v = k := truncInt_eq_of_nonneg v k hk1 hk2 hv0
  have h5 : assertThat (-(2 ^ 31) - 1 < v ∧ v < 2 ^ 31) = some () :=
    (assertThat_eq_some _ _).mpr ⟨by linarith, hv1⟩
  have h6 : SMPActor.round4Int x = some k := by
    simp only [SMPActor.round4Int, h1, h2, h4, h5, Option.bind_eq_bind, Option.some_bind, Option.pure_def]
  refine ⟨h6, ?_⟩
  simp only [SMPActor.round4, h6, h3, Option.bind_eq_bind, Option.some_bind]

/-- The result of `interpBrgnSnPm` from the results of its steps. -/
theorem interpBrgnSnPm_of_steps (n m : Nat) (tik sik prbI tjk sjk prbJ : ℚ)
    (wik wjk c ai d xi bik aj xj bjk : ℚ) (hn : n = 1 ∨ n = 2) (hm : m = 1 ∨ m = 2)
    (hwik : SMPActor.snpmWeight n m sik prbI = some wik) (hwjk : SMPActor.snpmWeight n m sjk prbJ = some wjk)
    (hc : fl64 ((1 : ℚ) / 10 ^ 6) = some c) (hai : fl64 (wik + c) = some ai)
    (hd : fl64 (ai + wjk) = some d) (hxi : SMPActor.snpmQuot ai wjk tik tjk d = some xi)
    (hri : SMPActor.round4 xi = some bik) (haj : fl64 (c + wjk) = some aj)
    (hxj : SMPActor.snpmQuot wik aj tik tjk d = some xj) (hrj : SMPActor.round4 xj = some bjk) :
    SMPActor.interpBrgnSnPm n m tik sik prbI tjk sjk prbJ = some (bik, bjk) := by
  have hn2 : assertThat (1 = n ∨ 2 = n) = some () :=
    (assertThat_eq_some _ _).mpr (by omega)
  have hm2 : assertThat (1 = m ∨ 2 = m) = some () :=
    (assertThat_eq_some _ _).mpr (by omega)
  simp only [SMPActor.interpBrgnSnPm, hn2, hm2, hwik, hwjk, hc, hai, hd, hxi, hri, haj, hxj, hrj,
    Option.bind_eq_bind, Option.some_bind, Option.pure_def]

/-- The integer that `round4` computes moves by at most one when the
coordinate moves by at most `1e-6`. -/
theorem round4Int_near (x y : ℚ) (hx : |x| ≤ 2 * 10 ^ 5) (hy : |y| ≤ 2 * 10 ^ 5)
    (h : |x - y| ≤ 1 / 10 ^ 6) :
    ∃ k l, SMPActor.round4Int x = some k ∧ SMPActor.round4Int y = some l ∧ l - 1 ≤ k ∧ k ≤ l + 1 := by
  have h0 := abs_le.mp h
  obtain ⟨k, l, hk, hl, h1⟩ := round4Int_ge x y hx hy (by linarith)
  obtain ⟨l2, k2, hl2, hk2, h2⟩ := round4Int_ge y x hy hx (by linarith)
  rw [hk] at hk2
  rw [hl] at hl2
  have e1 := Option.some.inj hk2
  have e2 := Option.some.inj hl2
  subst e1
  subst e2
  exact ⟨k, l, hk, hl, h1, by linarith⟩

/-- The weight of an actor whose salience or probability is `0` is computed
as `0`. -/
theorem snpmWeight_zero (n m : Nat) (s p : ℚ) (hn : n = 1 ∨ n = 2) (hm : m = 1 ∨ m = 2)
    (hs0 : 0 ≤ s) (hs1 : s ≤ 1) (hp0 : 0 ≤ p) (hp1 : p ≤ 1) (hz : s = 0 ∨ p = 0) :
    SMPActor.snpmWeight n m s p = some 0 := by
  obtain ⟨w, hw, _, _, h⟩ := snpmWeight_ok n m s p hn hs0 hs1 hp0 hp1
  rw [hw, h hz hm]

/-- The outputs of `interpBrgnSnPm` against the roundings of the smaller and
of the larger coordinate, on saliences and probabilities in `[0,1]` and
coordinates of absolute value at most `1e5`. -/
theorem snpm_between (n m : Nat) (tik sik prbI tjk sjk prbJ : ℚ)
    (hn : n = 1 ∨ n = 2) (hm : m = 1 ∨ m = 2)
    (hsi0 : 0 ≤ sik) (hsi1 : sik ≤ 1) (hpi0 : 0 ≤ prbI) (hpi1 : prbI ≤ 1)
    (hsj0 : 0 ≤ sjk) (hsj1 : sjk ≤ 1) (hpj0 : 0 ≤ prbJ) (hpj1 : prbJ ≤ 1)
    (hti : |tik| ≤ 10 ^ 5) (htj : |tjk| ≤ 10 ^ 5) :
    ∃ (bik bjk : ℚ) (ki kj klo khi : Int),
      SMPActor.interpBrgnSnPm n m tik sik prbI tjk sjk prbJ = some (bik, bjk) ∧
      fl64 (((ki : Int) : ℚ) / 10000) = some bik ∧ fl64 (((kj : Int) : ℚ) / 10000) = some bjk ∧
      SMPActor.round4Int (min tik tjk) = some klo ∧ SMPActor.round4Int (max tik tjk) = some khi ∧
      klo - 1 ≤ ki ∧ ki ≤ khi + 1 ∧ klo - 1 ≤ kj ∧ kj ≤ khi + 1 := by
  obtain ⟨wik, wjk, c, ai, aj, xi, xj, ki, kj, bik, bjk, _, _, _, _, _, wi0, wj0, ai0, aj0,
    exi, exj, bxi, bxj, hki, hkj, hbik, hbjk, _, _, hrun⟩ :=
    snpm_run n m tik sik prbI tjk sjk prbJ hn hm hsi0 hsi1 hpi0 hpi1 hsj0 hsj1 hpj0 hpj1 hti htj
  have bi := wmean_between ai wjk tik tjk (ai + wjk) ai0.le wj0 rfl (by linarith)
  have bj := wmean_between wik aj tik tjk (wik + aj) wi0 aj0.le rfl (by linarith)
  have hmin : |min tik tjk| ≤ 2 * 10 ^ 5 := by
    rcases min_choice tik tjk with h | h <;> rw [h] <;> linarith
  have hmax : |max tik tjk| ≤ 2 * 10 ^ 5 := by
    rcases max_choice tik tjk with h | h <;> rw [h] <;> linarith
  have bxi2 : |xi| ≤ 2 * 10 ^ 5 := le_trans bxi (by norm_num)
  have bxj2 : |xj| ≤ 2 * 10 ^ 5 := le_trans bxj (by norm_num)
  have yi := abs_le.mp exi
  have yj := abs_le.mp exj
  have c8 : (1 : ℚ) / 10 ^ 8 ≤ 1 / 10 ^ 6 := by norm_num
  obtain ⟨k1, klo, a1, hklo, l1⟩ := round4Int_ge xi (min tik tjk) bxi2 hmin (by linarith)
  obtain ⟨khi, k2, hkhi, a2, l2⟩ := round4Int_ge (max tik tjk) xi hmax bxi2 (by linarith)
  obtain ⟨k3, klo3, a3, hklo3, l3⟩ := round4Int_ge xj (min tik tjk) bxj2 hmin (by linarith)
  obtain ⟨khi4, k4, hkhi4, a4, l4⟩ := round4Int_ge (max tik tjk) xj hmax bxj2 (by linarith)
  rw [hki] at a1 a2
  rw [hkj] at a3 a4
  rw [hklo] at hklo3
  rw [hkhi] at hkhi4
  have e1 := Option.some.inj a1
  have e2 := Option.some.inj a2
  have e3 := Option.some.inj a3
  have e4 := Option.some.inj a4
  have e5 := Option.some.inj hklo3
  have e6 := Option.some.inj hkhi4
  subst e1 e3 e5 e6
  rw [← e2] at l2
  rw [← e4] at l4
  exact ⟨bik, bjk, ki, kj, klo, khi, hrun, hbik, hbjk, hklo, hkhi, l1, by linarith, l3,
    by linarith⟩

/-- The outputs of `interpBrgnSnPm` on exchanged actors against the exchanged
outputs. -/
theorem snpm_exchange (n m : Nat) (tik sik prbI tjk sjk prbJ : ℚ)
    (hn : n = 1 ∨ n = 2) (hm : m = 1 ∨ m = 2)
    (hsi0 : 0 ≤ sik) (hsi1 : sik ≤ 1) (hpi0 : 0 ≤ prbI) (hpi1 : prbI ≤ 1)
    (hsj0 : 0 ≤ sjk) (hsj1 : sjk ≤ 1) (hpj0 : 0 ≤ prbJ) (hpj1 : prbJ ≤ 1)
    (hti : |tik| ≤ 10 ^ 5) (htj : |tjk| ≤ 10 ^ 5) :
    ∃ (bik bjk cjk cik : ℚ) (ki kj lj li : Int),
      SMPActor.interpBrgnSnPm n m tik sik prbI tjk sjk prbJ = some (bik, bjk) ∧
      SMPActor.interpBrgnSnPm n m tjk sjk prbJ tik sik prbI = some (cjk, cik) ∧
      fl64 (((ki : Int) : ℚ) / 10000) = some bik ∧ fl64 (((kj : Int) : ℚ) / 10000) = some bjk ∧
      fl64 (((lj : Int) : ℚ) / 10000) = some cjk ∧ fl64 (((li : Int) : ℚ) / 10000) = some cik ∧
      kj - 1 ≤ lj ∧ lj ≤ kj + 1 ∧ ki - 1 ≤ li ∧ li ≤ ki + 1 := by
  obtain ⟨wik, wjk, c, ai, aj, xi, xj, ki, kj, bik, bjk, hwik, hwjk, hc, hai, haj, _, _, _, _,
    exi, exj, bxi, bxj, hki, hkj, hbik, hbjk, _, _, hrun⟩ :=
    snpm_run n m tik sik prbI tjk sjk prbJ hn hm hsi0 hsi1 hpi0 hpi1 hsj0 hsj1 hpj0 hpj1 hti htj
  obtain ⟨vjk, vik, c2, ci, cj, yj, yi, lj, li, cjk, cik, hvjk, hvik, hc2, hci, hcj, _, _, _, _,
    eyj, eyi, byj, byi, hlj, hli, hcjk, hcik, _, _, hrun2⟩ :=
    snpm_run n m tjk sjk prbJ tik sik prbI hn hm hsj0 hsj1 hpj0 hpj1 hsi0 hsi1 hpi0 hpi1 htj hti
  rw [hwjk] at hvjk
  rw [hwik] at hvik
  rw [hc] at hc2
  have e1 := Option.some.inj hvjk
  have e2 := Option.some.inj hvik
  have e3 := Option.some.inj hc2
  subst e1 e2 e3
  rw [add_comm, haj] at hci
  rw [add_comm, hai] at hcj
  have e4 := Option.some.inj hci
  have e5 := Option.some.inj hcj
  subst e4 e5
  have q1 : (aj * tjk + wik * tik) / (aj + wik) = (wik * tik + aj * tjk) / (wik + aj) := by
    rw [add_comm (aj * tjk), add_comm aj]
  have q2 : (wjk * tjk + ai * tik) / (wjk + ai) = (ai * tik + wjk * tjk) / (ai + wjk) := by
    rw [add_comm (wjk * tjk), add_comm wjk]
  rw [q1] at eyj
  rw [q2] at eyi
  have bxi2 : |xi| ≤ 2 * 10 ^ 5 := le_trans bxi (by norm_num)
  have bxj2 : |xj| ≤ 2 * 10 ^ 5 := le_trans bxj (by norm_num)
  have byi2 : |yi| ≤ 2 * 10 ^ 5 := le_trans byi (by norm_num)
  have byj2 : |yj| ≤ 2 * 10 ^ 5 := le_trans byj (by norm_num)
  have dj : |yj - xj| ≤ 1 / 10 ^ 6 := by
    have a := abs_le.mp eyj
    have b := abs_le.mp exj
    rw [abs_le]
    constructor <;> linarith
  have di : |yi - xi| ≤ 1 / 10 ^ 6 := by
    have a := abs_le.mp eyi
    have b := abs_le.mp exi
    rw [abs_le]
    constructor <;> linarith
  obtain ⟨k1, l1, a1, b1, o1, u1⟩ := round4Int_near yj xj byj2 bxj2 dj
  obtain ⟨k2, l2, a2, b2, o2, u2⟩ := round4Int_near yi xi byi2 bxi2 di
  rw [hlj] at a1
  rw [hkj] at b1
  rw [hli] at a2
  rw [hki] at b2
  have e6 := Option.some.inj a1
  have e7 := Option.some.inj b1
  have e8 := Option.some.inj a2
  have e9 := Option.some.inj b2
  subst e6 e7 e8 e9
  exact ⟨bik, bjk, cjk, cik, ki, kj, lj, li, hrun, hrun2, hbik, hbjk, hcjk, hcik, o1, u1, o2, u2⟩

/-! ### The outputs of `interpBrgnSnPm` -/

/-- C16, as stated, fails: with both saliences `0` both weights are computed
as `0`, and the coordinates `0.03125` and `0.09375` come back as the doubles
`0.0313` and `0.0938`, not as themselves.  The output need not be the rounding
of the actor's own coordinate either: the double `0.00195` comes back as
`0.0019`, while `round4` takes it to `0.002`; the quotient
`(minW * tik) / minW` is one unit in the last place below `tik`.  The doubles
are written as the rationals they denote: `0.0313` is `4510805386774289 / 2^57`,
`0.0938` is `844875290094705 / 2^53`, `0.00195` is
`4496393867966703 / 2^61`, `0.0019` is `8762203435012037 / 2^62` and `0.002`
is `1152921504606847 / 2^59`. -/
theorem C16_zero_weights_rounded :
    SMPActor.snpmWeight 1 1 (0 : ℚ) ((1 : ℚ) / 2) = some (0 : ℚ) ∧
    SMPActor.interpBrgnSnPm 1 1 ((1 : ℚ) / 32) (0 : ℚ) ((1 : ℚ) / 2) ((3 : ℚ) / 32) (0 : ℚ) ((1 : ℚ) / 2) =
      some (((4510805386774289 : ℚ) / 144115188075855872), ((844875290094705 : ℚ) / 9007199254740992)) ∧
    ((4510805386774289 : ℚ) / 144115188075855872) ≠ ((1 : ℚ) / 32) ∧
    ((844875290094705 : ℚ) / 9007199254740992) ≠ ((3 : ℚ) / 32) ∧
    SMPActor.interpBrgnSnPm 1 1 ((4496393867966703 : ℚ) / 2305843009213693952) (0 : ℚ) ((1 : ℚ) / 2) ((4496393867966703 : ℚ) / 2305843009213693952) (0 : ℚ) ((1 : ℚ) / 2) =
      some (((8762203435012037 : ℚ) / 4611686018427387904), ((8762203435012037 : ℚ) / 4611686018427387904)) ∧
    SMPActor.round4 ((4496393867966703 : ℚ) / 2305843009213693952) =
      some ((1152921504606847 : ℚ) / 576460752303423488) ∧
    ((8762203435012037 : ℚ) / 4611686018427387904) ≠ ((1152921504606847 : ℚ) / 576460752303423488) := by
  have h1 : fl64 ((0 : ℚ) ^ 1) = some (0 : ℚ) := by
    rw [show ((0 : ℚ) ^ 1 : ℚ) = 0 by norm_num]
    exact fl64_zero
  have h2 : fl64 (((1 : ℚ) / 2) ^ 1) = some ((1 : ℚ) / 2) :=
    fl64_cert (((1 : ℚ) / 2) ^ 1) (-1) (4503599627370496) ((1 : ℚ) / 9007199254740992) ((1 : ℚ) / 2) (by norm_num) (by norm_num) (by norm_num)
      (by norm_num) (by norm_num) (by norm_num) (by norm_num) (by norm_num) (by norm_num)
  have h3 : fl64 ((0 : ℚ) * ((1 : ℚ) / 2)) = some (0 : ℚ) := by
    rw [show ((0 : ℚ) * ((1 : ℚ) / 2) : ℚ) = 0 by norm_num]
    exact fl64_zero
  have h4 : SMPActor.snpmWeight 1 1 (0 : ℚ) ((1 : ℚ) / 2) = some (0 : ℚ) :=
    snpmWeight_of_steps _ _ _ _ _ _ _ h1 h2 h3
  have h5 : fl64 ((1 : ℚ) / 10 ^ 6) = some ((4722366482869645 : ℚ) / 4722366482869645213696) :=
    fl64_cert ((1 : ℚ) / 10 ^ 6) (-20) (4722366482869645) ((1 : ℚ) / 4722366482869645213696) ((4722366482869645 : ℚ) / 4722366482869645213696) (by norm_num) (by norm_num) (by norm_num)
      (by norm_num) (by norm_num) (by norm_num) (by norm_num) (by norm_num) (by norm_num)
  have h6 : fl64 ((0 : ℚ) + ((4722366482869645 : ℚ) / 4722366482869645213696)) = some ((4722366482869645 : ℚ) / 4722366482869645213696) :=
    fl64_cert ((0 : ℚ) + ((4722366482869645 : ℚ) / 4722366482869645213696)) (-20) (4722366482869645) ((1 : ℚ) / 4722366482869645213696) ((4722366482869645 : ℚ) / 4722366482869645213696) (by norm_num) (by norm_num) (by norm_num)
      (by norm_num) (by norm_num) (by norm_num) (by norm_num) (by norm_num) (by norm_num)
  have h7 : fl64 (((4722366482869645 : ℚ) / 4722366482869645213696) + (0 : ℚ)) = some ((4722366482869645 : ℚ) / 4722366482869645213696) :=
    fl64_cert (((4722366482869645 : ℚ) / 4722366482869645213696) + (0 : ℚ)) (-20) (4722366482869645) ((1 : ℚ) / 4722366482869645213696) ((4722366482869645 : ℚ) / 4722366482869645213696) (by norm_num) (by norm_num) (by norm_num)
      (by norm_num) (by norm_num) (by norm_num) (by norm_num) (by norm_num) (by norm_num)
  have h8 : fl64 (((4722366482869645 : ℚ) / 4722366482869645213696) * ((1 : ℚ) / 32)) = some ((4722366482869645 : ℚ) / 151115727451828646838272) :=
    fl64_cert (((4722366482869645 : ℚ) / 4722366482869645213696) * ((1 : ℚ) / 32)) (-25) (4722366482869645) ((1 : ℚ) / 151115727451828646838272) ((4722366482869645 : ℚ) / 151115727451828646838272) (by norm_num) (by norm_num) (by norm_num)
      (by norm_num) (by norm_num) (by norm_num) (by norm_num) (by norm_num) (by norm_num)
  have h9 : fl64 ((0 : ℚ) * ((3 : ℚ) / 32)) = some (0 : ℚ) := by
    rw [show ((0 : ℚ) * ((3 : ℚ) / 32) : ℚ) = 0 by norm_num]
    exact fl64_zero
  have h10 : fl64 (((4722366482869645 : ℚ) / 151115727451828646838272) + (0 : ℚ)) = some ((4722366482869645 : ℚ) / 151115727451828646838272) :=
    fl64_cert (((4722366482869645 : ℚ) / 151115727451828646838272) + (0 : ℚ)) (-25) (4722366482869645) ((1 : ℚ) / 151115727451828646838272) ((4722366482869645 : ℚ) / 151115727451828646838272) (by norm_num) (by norm_num) (by norm_num)
      (by norm_num) (by norm_num) (by norm_num) (by norm_num) (by norm_num) (by norm_num)
  have h11 : fl64 (((4722366482869645 : ℚ) / 151115727451828646838272) / ((4722366482869645 : ℚ) / 4722366482869645213696)) = some ((1 : ℚ) / 32) :=
    fl64_cert (((4722366482869645 : ℚ) / 151115727451828646838272) / ((4722366482869645 : ℚ) / 4722366482869645213696)) (-5) (4503599627370496) ((1 : ℚ) / 144115188075855872) ((1 : ℚ) / 32) (by norm_num) (by norm_num) (by norm_num)
      (by norm_num) (by norm_num) (by norm_num) (by norm_num) (by norm_num) (by norm_num)
  have h12 : SMPActor.snpmQuot ((4722366482869645 : ℚ) / 4722366482869645213696) (0 : ℚ) ((1 : ℚ) / 32) ((3 : ℚ) / 32) ((4722366482869645 : ℚ) / 4722366482869645213696) =
      some ((1 : ℚ) / 32) :=
    snpmQuot_of_steps _ _ _ _ _ _ _ _ _ h8 h9 h10 (by norm_num) h11
  have h13 : fl64 (((1 : ℚ) / 32) * 10000) = some ((625 : ℚ) / 2) :=
    fl64_cert (((1 : ℚ) / 32) * 10000) (8) (5497558138880000) ((1 : ℚ) / 17592186044416) ((625 : ℚ) / 2) (by norm_num) (by norm_num) (by norm_num)
      (by norm_num) (by norm_num) (by norm_num) (by norm_num) (by norm_num) (by norm_num)
  have h14 : fl64 (1 / 2 + ((625 : ℚ) / 2)) = some (313 : ℚ) :=
    fl64_cert (1 / 2 + ((625 : ℚ) / 2)) (8) (5506354231902208) ((1 : ℚ) / 17592186044416) (313 : ℚ) (by norm_num) (by norm_num) (by norm_num)
      (by norm_num) (by norm_num) (by norm_num) (by norm_num) (by norm_num) (by norm_num)
  have h15 : fl64 (((313 : Int) : ℚ) / 10000) = some ((4510805386774289 : ℚ) / 144115188075855872) :=
    fl64_cert (((313 : Int) : ℚ) / 10000) (-5) (4510805386774289) ((1 : ℚ) / 144115188075855872) ((4510805386774289 : ℚ) / 144115188075855872) (by norm_num) (by norm_num) (by norm_num)
      (by norm_num) (by norm_num) (by norm_num) (by norm_num) (by norm_num) (by norm_num)
  have h16 : SMPActor.round4Int ((1 : ℚ) / 32) = some 313 ∧
      SMPActor.round4 ((1 : ℚ) / 32) = some ((4510805386774289 : ℚ) / 144115188075855872) :=
    round4_of_steps _ _ _ _ _ h13 h14 (by norm_num) (by norm_num) (by norm_num) (by norm_num)
      h15
  have h17 : fl64 ((0 : ℚ) * ((1 : ℚ) / 32)) = some (0 : ℚ) := by
    rw [show ((0 : ℚ) * ((1 : ℚ) / 32) : ℚ) = 0 by norm_num]
    exact fl64_zero
  have h18 : fl64 (((4722366482869645 : ℚ) / 4722366482869645213696) * ((3 : ℚ) / 32)) = some ((1770887431076117 : ℚ) / 18889465931478580854784) :=
    fl64_cert_tie (((4722366482869645 : ℚ) / 4722366482869645213696) * ((3 : ℚ) / 32)) (-24) (7083549724304467) (7083549724304468) ((1 : ℚ) / 75557863725914323419136) ((1770887431076117 : ℚ) / 18889465931478580854784) (by norm_num) (by norm_num)
      (by norm_num) (by norm_num) (by norm_num) (by decide) (by norm_num) (by norm_num)
      (by norm_num)
  have h19 : fl64 ((0 : ℚ) + ((1770887431076117 : ℚ) / 18889465931478580854784)) = some ((1770887431076117 : ℚ) / 18889465931478580854784) :=
    fl64_cert ((0 : ℚ) + ((1770887431076117 : ℚ) / 18889465931478580854784)) (-24) (7083549724304468) ((1 : ℚ) / 75557863725914323419136) ((1770887431076117 : ℚ) / 18889465931478580854784) (by norm_num) (by norm_num) (by norm_num)
      (by norm_num) (by norm_num) (by norm_num) (by norm_num) (by norm_num) (by norm_num)
  have h20 : fl64 (((1770887431076117 : ℚ) / 18889465931478580854784) / ((4722366482869645 : ℚ) / 4722366482869645213696)) = some ((3 : ℚ) / 32) :=
    fl64_cert (((1770887431076117 : ℚ) / 18889465931478580854784) / ((4722366482869645 : ℚ) / 4722366482869645213696)) (-4) (6755399441055744) ((1 : ℚ) / 72057594037927936) ((3 : ℚ) / 32) (by norm_num) (by norm_num) (by norm_num)
      (by norm_num) (by norm_num) (by norm_num) (by norm_num) (by norm_num) (by norm_num)
  have h21 : SMPActor.snpmQuot (0 : ℚ) ((4722366482869645 : ℚ) / 4722366482869645213696) ((1 : ℚ) / 32) ((3 : ℚ) / 32) ((4722366482869645 : ℚ) / 4722366482869645213696) =
      some ((3 : ℚ) / 32) :=
    snpmQuot_of_steps _ _ _ _ _ _ _ _ _ h17 h18 h19 (by norm_num) h20
  have h22 : fl64 (((3 : ℚ) / 32) * 10000) = some ((1875 : ℚ) / 2) :=
    fl64_cert (((3 : ℚ) / 32) * 10000) (9) (8246337208320000) ((1 : ℚ) / 8796093022208) ((1875 : ℚ) / 2) (by norm_num) (by norm_num) (by norm_num)
      (by norm_num) (by norm_num) (by norm_num) (by norm_num) (by norm_num) (by norm_num)
  have h23 : fl64 (1 / 2 + ((1875 : ℚ) / 2)) = some (938 : ℚ) :=
    fl64_cert (1 / 2 + ((1875 : ℚ) / 2)) (9) (8250735254831104) ((1 : ℚ) / 8796093022208) (938 : ℚ) (by norm_num) (by norm_num) (by norm_num)
      (by norm_num) (by norm_num) (by norm_num) (by norm_num) (by norm_num) (by norm_num)
  have h24 : fl64 (((938 : Int) : ℚ) / 10000) = some ((844875290094705 : ℚ) / 9007199254740992) :=
    fl64_cert (((938 : Int) : ℚ) / 10000) (-4) (6759002320757640) ((1 : ℚ) / 72057594037927936) ((844875290094705 : ℚ) / 9007199254740992) (by norm_num) (by norm_num) (by norm_num)
      (by norm_num) (by norm_num) (by norm_num) (by norm_num) (by norm_num) (by norm_num)
  have h25 : SMPActor.round4Int ((3 : ℚ) / 32) = some 938 ∧
      SMPActor.round4 ((3 : ℚ) / 32) = some ((844875290094705 : ℚ) / 9007199254740992) :=
    round4_of_steps _ _ _ _ _ h22 h23 (by norm_num) (by norm_num) (by norm_num) (by norm_num)
      h24
  have h26 : SMPActor.interpBrgnSnPm 1 1 ((1 : ℚ) / 32) (0 : ℚ) ((1 : ℚ) / 2) ((3 : ℚ) / 32) (0 : ℚ) ((1 : ℚ) / 2) =
      some (((4510805386774289 : ℚ) / 144115188075855872), ((844875290094705 : ℚ) / 9007199254740992)) :=
    interpBrgnSnPm_of_steps _ _ _ _ _ _ _ _ _ _ _ _ _ _ _ _ _ _ (by norm_num) (by norm_num)
      h4 h4 h5 h6 h7 h12 h16.2 h7 h21 h25.2
  have h27 : fl64 (((4722366482869645 : ℚ) / 4722366482869645213696) * ((4496393867966703 : ℚ) / 2305843009213693952)) = some ((4714810696497053 : ℚ) / 2417851639229258349412352) :=
    fl64_cert (((4722366482869645 : ℚ) / 4722366482869645213696) * ((4496393867966703 : ℚ) / 2305843009213693952)) (-29) (4714810696497053) ((1 : ℚ) / 2417851639229258349412352) ((4714810696497053 : ℚ) / 2417851639229258349412352) (by norm_num) (by norm_num) (by norm_num)
      (by norm_num) (by norm_num) (by norm_num) (by norm_num) (by norm_num) (by norm_num)
  have h28 : fl64 ((0 : ℚ) * ((4496393867966703 : ℚ) / 2305843009213693952)) = some (0 : ℚ) := by
    rw [show ((0 : ℚ) * ((4496393867966703 : ℚ) / 2305843009213693952) : ℚ) = 0 by norm_num]
    exact fl64_zero
  have h29 : fl64 (((4714810696497053 : ℚ) / 2417851639229258349412352) + (0 : ℚ)) = some ((4714810696497053 : ℚ) / 2417851639229258349412352) :=
    fl64_cert (((4714810696497053 : ℚ) / 2417851639229258349412352) + (0 : ℚ)) (-29) (4714810696497053) ((1 : ℚ) / 2417851639229258349412352) ((4714810696497053 : ℚ) / 2417851639229258349412352) (by norm_num) (by norm_num) (by norm_num)
      (by norm_num) (by norm_num) (by norm_num) (by norm_num) (by norm_num) (by norm_num)
  have h30 : fl64 (((4714810696497053 : ℚ) / 2417851639229258349412352) / ((4722366482869645 : ℚ) / 4722366482869645213696)) = some ((8992787735933405 : ℚ) / 4611686018427387904) :=
    fl64_cert (((4714810696497053 : ℚ) / 2417851639229258349412352) / ((4722366482869645 : ℚ) / 4722366482869645213696)) (-10) (8992787735933405) ((1 : ℚ) / 4611686018427387904) ((8992787735933405 : ℚ) / 4611686018427387904) (by norm_num) (by norm_num) (by norm_num)
      (by norm_num) (by norm_num) (by norm_num) (by norm_num) (by norm_num) (by norm_num)
  have h31 : SMPActor.snpmQuot ((4722366482869645 : ℚ) / 4722366482869645213696) (0 : ℚ) ((4496393867966703 : ℚ) / 2305843009213693952) ((4496393867966703 : ℚ) / 2305843009213693952) ((4722366482869645 : ℚ) / 4722366482869645213696) =
      some ((8992787735933405 : ℚ) / 4611686018427387904) :=
    snpmQuot_of_steps _ _ _ _ _ _ _ _ _ h27 h28 h29 (by norm_num) h30
  have h32 : fl64 (((8992787735933405 : ℚ) / 4611686018427387904) * 10000) = some ((5488762045857791 : ℚ) / 281474976710656) :=
    fl64_cert (((8992787735933405 : ℚ) / 4611686018427387904) * 10000) (4) (5488762045857791) ((1 : ℚ) / 281474976710656) ((5488762045857791 : ℚ) / 281474976710656) (by norm_num) (by norm_num) (by norm_num)
      (by norm_num) (by norm_num) (by norm_num) (by norm_num) (by norm_num) (by norm_num)
  have h33 : fl64 (1 / 2 + ((5488762045857791 : ℚ) / 281474976710656)) = some ((5629499534213119 : ℚ) / 281474976710656) :=
    fl64_cert (1 / 2 + ((5488762045857791 : ℚ) / 281474976710656)) (4) (5629499534213119) ((1 : ℚ) / 281474976710656) ((5629499534213119 : ℚ) / 281474976710656) (by norm_num) (by norm_num) (by norm_num)
      (by norm_num) (by norm_num) (by norm_num) (by norm_num) (by norm_num) (by norm_num)
  have h34 : fl64 (((19 : Int) : ℚ) / 10000) = some ((8762203435012037 : ℚ) / 4611686018427387904) :=
    fl64_cert (((19 : Int) : ℚ) / 10000) (-10) (8762203435012037) ((1 : ℚ) / 4611686018427387904) ((8762203435012037 : ℚ) / 4611686018427387904) (by norm_num) (by norm_num) (by norm_num)
      (by norm_num) (by norm_num) (by norm_num) (by norm_num) (by norm_num) (by norm_num)
  have h35 : SMPActor.round4Int ((8992787735933405 : ℚ) / 4611686018427387904) = some 19 ∧
      SMPActor.round4 ((8992787735933405 : ℚ) / 4611686018427387904) = some ((8762203435012037 : ℚ) / 4611686018427387904) :=
    round4_of_steps _ _ _ _ _ h32 h33 (by norm_num) (by norm_num) (by norm_num) (by norm_num)
      h34
  have h36 : fl64 ((0 : ℚ) + ((4714810696497053 : ℚ) / 2417851639229258349412352)) = some ((4714810696497053 : ℚ) / 2417851639229258349412352) :=
    fl64_cert ((0 : ℚ) + ((4714810696497053 : ℚ) / 2417851639229258349412352)) (-29) (4714810696497053) ((1 : ℚ) / 2417851639229258349412352) ((4714810696497053 : ℚ) / 2417851639229258349412352) (by norm_num) (by norm_num) (by norm_num)
      (by norm_num) (by norm_num) (by norm_num) (by norm_num) (by norm_num) (by norm_num)
  have h37 : SMPActor.snpmQuot (0 : ℚ) ((4722366482869645 : ℚ) / 4722366482869645213696) ((4496393867966703 : ℚ) / 2305843009213693952) ((4496393867966703 : ℚ) / 2305843009213693952) ((4722366482869645 : ℚ) / 4722366482869645213696) =
      some ((8992787735933405 : ℚ) / 4611686018427387904) :=
    snpmQuot_of_steps _ _ _ _ _ _ _ _ _ h28 h27 h36 (by norm_num) h30
  have h38 : SMPActor.interpBrgnSnPm 1 1 ((4496393867966703 : ℚ) / 2305843009213693952) (0 : ℚ) ((1 : ℚ) / 2) ((4496393867966703 : ℚ) / 2305843009213693952) (0 : ℚ) ((1 : ℚ) / 2) =
      some (((8762203435012037 : ℚ) / 4611686018427387904), ((8762203435012037 : ℚ) / 4611686018427387904)) :=
    interpBrgnSnPm_of_steps _ _ _ _ _ _ _ _ _ _ _ _ _ _ _ _ _ _ (by norm_num) (by norm_num)
      h4 h4 h5 h6 h7 h31 h35.2 h7 h37 h35.2
  have h39 : fl64 (((4496393867966703 : ℚ) / 2305843009213693952) * 10000) = some ((39 : ℚ) / 2) :=
    fl64_cert (((4496393867966703 : ℚ) / 2305843009213693952) * 10000) (4) (5488762045857792) ((1 : ℚ) / 281474976710656) ((39 : ℚ) / 2) (by norm_num) (by norm_num) (by norm_num)
      (by norm_num) (by norm_num) (by norm_num) (by norm_num) (by norm_num) (by norm_num)
  have h40 : fl64 (1 / 2 + ((39 : ℚ) / 2)) = some (20 : ℚ) :=
    fl64_cert (1 / 2 + ((39 : ℚ) / 2)) (4) (5629499534213120) ((1 : ℚ) / 281474976710656) (20 : ℚ) (by norm_num) (by norm_num) (by norm_num)
      (by norm_num) (by norm_num) (by norm_num) (by norm_num) (by norm_num) (by norm_num)
  have h41 : fl64 (((20 : Int) : ℚ) / 10000) = some ((1152921504606847 : ℚ) / 576460752303423488) :=
    fl64_cert (((20 : Int) : ℚ) / 10000) (-9) (4611686018427388) ((1 : ℚ) / 2305843009213693952) ((1152921504606847 : ℚ) / 576460752303423488) (by norm_num) (by norm_num) (by norm_num)
      (by norm_num) (by norm_num) (by norm_num) (by norm_num) (by norm_num) (by norm_num)
  have h42 : SMPActor.round4Int ((4496393867966703 : ℚ) / 2305843009213693952) = some 20 ∧
      SMPActor.round4 ((4496393867966703 : ℚ) / 2305843009213693952) = some ((1152921504606847 : ℚ) / 576460752303423488) :=
    round4_of_steps _ _ _ _ _ h39 h40 (by norm_num) (by norm_num) (by norm_num) (by norm_num)
      h41
  exact ⟨h4, h26, by norm_num, by norm_num, h38, h42.2, by norm_num⟩

/-- C16, amended: in `interpBrgnSnPm`, for saliences and probabilities in
`[0,1]` and coordinates of absolute value at most `1e5`, whenever both weights
are computed as `0` the function returns, and each actor keeps its own
coordinate up to the rounding to 4 decimals: `bik` is the double nearest to
`ki / 10000` and `bjk` the double nearest to `kj / 10000`, for integers `ki`
and `kj` that are within one of the integers `li` and `lj` to which `round4`
truncates on `tik` and on `tjk`. -/
theorem C16_zero_weights_amended (n m : Nat) (tik sik prbI tjk sjk prbJ : ℚ)
    (hn : n = 1 ∨ n = 2) (hm : m = 1 ∨ m = 2)
    (hsi0 : 0 ≤ sik) (hsi1 : sik ≤ 1) (hpi0 : 0 ≤ prbI) (hpi1 : prbI ≤ 1)
    (hsj0 : 0 ≤ sjk) (hsj1 : sjk ≤ 1) (hpj0 : 0 ≤ prbJ) (hpj1 : prbJ ≤ 1)
    (hti : |tik| ≤ 10 ^ 5) (htj : |tjk| ≤ 10 ^ 5)
    (hwi : SMPActor.snpmWeight n m sik prbI = some 0)
    (hwj : SMPActor.snpmWeight n m sjk prbJ = some 0) :
    ∃ (bik bjk : ℚ) (ki kj li lj : Int),
      SMPActor.interpBrgnSnPm n m tik sik prbI tjk sjk prbJ = some (bik, bjk) ∧
      fl64 (((ki : Int) : ℚ) / 10000) = some bik ∧ fl64 (((kj : Int) : ℚ) / 10000) = some bjk ∧
      SMPActor.round4Int tik = some li ∧ SMPActor.round4Int tjk = some lj ∧
      li - 1 ≤ ki ∧ ki ≤ li + 1 ∧ lj - 1 ≤ kj ∧ kj ≤ lj + 1 := by
  obtain ⟨wik, wjk, c, ai, aj, xi, xj, ki, kj, bik, bjk, hwik, hwjk, _, _, _, _, _, ai0, aj0,
    exi, exj, bxi, bxj, hki, hkj, hbik, hbjk, _, _, hrun⟩ :=
    snpm_run n m tik sik prbI tjk sjk prbJ hn hm hsi0 hsi1 hpi0 hpi1 hsj0 hsj1 hpj0 hpj1 hti htj
  rw [hwi] at hwik
  rw [hwj] at hwjk
  have e1 := Option.some.inj hwik
  have e2 := Option.some.inj hwjk
  subst e1 e2
  have qi : (ai * tik + 0 * tjk) / (ai + 0) = tik := by
    rw [zero_mul, add_zero, add_zero, mul_div_cancel_left₀ _ (ne_of_gt ai0)]
  have qj : (0 * tik + aj * tjk) / (0 + aj) = tjk := by
    rw [zero_mul, zero_add, zero_add, mul_div_cancel_left₀ _ (ne_of_gt aj0)]
  rw [qi] at exi
  rw [qj] at exj
  have bxi2 : |xi| ≤ 2 * 10 ^ 5 := le_trans bxi (by norm_num)
  have bxj2 : |xj| ≤ 2 * 10 ^ 5 := le_trans bxj (by norm_num)
  have c8 : (1 : ℚ) / 10 ^ 8 ≤ 1 / 10 ^ 6 := by norm_num
  obtain ⟨k1, li, a1, hli, l1, u1⟩ := round4Int_near xi tik bxi2 (by linarith)
    (le_trans exi c8)
  obtain ⟨k2, lj, a2, hlj, l2, u2⟩ := round4Int_near xj tjk bxj2 (by linarith)
    (le_trans exj c8)
  rw [hki] at a1
  rw [hkj] at a2
  have e3 := Option.some.inj a1
  have e4 := Option.some.inj a2
  subst e3 e4
  exact ⟨bik, bjk, ki, kj, li, lj, hrun, hbik, hbjk, hli, hlj, l1, u1, l2, u2⟩

/-- Witness for C16: coordinates `0.03125` and `0.09375`, both saliences `0`,
probabilities `0.5`, weights `salience * probability`. -/
theorem C16_zero_weights_amended_witness :
    ∃ (bik bjk : ℚ) (ki kj li lj : Int),
      SMPActor.interpBrgnSnPm 1 1 (1 / 32) 0 (1 / 2) (3 / 32) 0 (1 / 2) = some (bik, bjk) ∧
      fl64 (((ki : Int) : ℚ) / 10000) = some bik ∧
      fl64 (((kj : Int) : ℚ) / 10000) = some bjk ∧
      SMPActor.round4Int (1 / 32) = some li ∧ SMPActor.round4Int (3 / 32) = some lj ∧
      li - 1 ≤ ki ∧ ki ≤ li + 1 ∧ lj - 1 ≤ kj ∧ kj ≤ lj + 1 :=
  C16_zero_weights_amended 1 1 (1 / 32) 0 (1 / 2) (3 / 32) 0 (1 / 2) (Or.inl rfl) (Or.inl rfl)
    (by norm_num) (by norm_num) (by norm_num) (by norm_num) (by norm_num) (by norm_num)
    (by norm_num) (by norm_num) (abs_le.mpr ⟨by norm_num, by norm_num⟩)
    (abs_le.mpr ⟨by norm_num, by norm_num⟩)
    (snpmWeight_zero 1 1 0 (1 / 2) (Or.inl rfl) (Or.inl rfl) (by norm_num) (by norm_num)
      (by norm_num) (by norm_num) (Or.inl rfl))
    (snpmWeight_zero 1 1 0 (1 / 2) (Or.inl rfl) (Or.inl rfl) (by norm_num) (by norm_num)
      (by norm_num) (by norm_num) (Or.inl rfl))

/-- C17, as stated, fails for `interpBrgnSnPm`: with both coordinates
`0.03125`, saliences `0.125` and `0.5` and probabilities `0.5`, the output
`bjk` is the double `0.0312`, below `round4 (min tik tjk)`, the double
`0.0313`.  The quotient behind `bjk` is rounded to a double just below
`0.03125`, and `round4` truncates `312.99999999999994` to `312`.  The doubles
are written as the rationals they denote: `0.0313` is `4510805386774289 / 2^57`
and `0.0312` is `4496393867966703 / 2^57`. -/
theorem C17_snpm_below_rounded_min :
    SMPActor.interpBrgnSnPm 1 1 ((1 : ℚ) / 32) ((1 : ℚ) / 8) ((1 : ℚ) / 2) ((1 : ℚ) / 32) ((1 : ℚ) / 2) ((1 : ℚ) / 2) =
      some (((4510805386774289 : ℚ) / 144115188075855872), ((4496393867966703 : ℚ) / 144115188075855872)) ∧
    SMPActor.round4 (min ((1 : ℚ) / 32) ((1 : ℚ) / 32)) =
      some ((4510805386774289 : ℚ) / 144115188075855872) ∧
    ((4496393867966703 : ℚ) / 144115188075855872) < ((4510805386774289 : ℚ) / 144115188075855872) := by
  have h1 : fl64 (((1 : ℚ) / 8) ^ 1) = some ((1 : ℚ) / 8) :=
    fl64_cert (((1 : ℚ) / 8) ^ 1) (-3) (4503599627370496) ((1 : ℚ) / 36028797018963968) ((1 : ℚ) / 8) (by norm_num) (by norm_num) (by norm_num)
      (by norm_num) (by norm_num) (by norm_num) (by norm_num) (by norm_num) (by norm_num)
  have h2 : fl64 (((1 : ℚ) / 2) ^ 1) = some ((1 : ℚ) / 2) :=
    fl64_cert (((1 : ℚ) / 2) ^ 1) (-1) (4503599627370496) ((1 : ℚ) / 9007199254740992) ((1 : ℚ) / 2) (by norm_num) (by norm_num) (by norm_num)
      (by norm_num) (by norm_num) (by norm_num) (by norm_num) (by norm_num) (by norm_num)
  have h3 : fl64 (((1 : ℚ) / 8) * ((1 : ℚ) / 2)) = some ((1 : ℚ) / 16) :=
    fl64_cert (((1 : ℚ) / 8) * ((1 : ℚ) / 2)) (-4) (4503599627370496) ((1 : ℚ) / 72057594037927936) ((1 : ℚ) / 16) (by norm_num) (by norm_num) (by norm_num)
      (by norm_num) (by norm_num) (by norm_num) (by norm_num) (by norm_num) (by norm_num)
  have h4 : SMPActor.snpmWeight 1 1 ((1 : ℚ) / 8) ((1 : ℚ) / 2) = some ((1 : ℚ) / 16) :=
    snpmWeight_of_steps _ _ _ _ _ _ _ h1 h2 h3
  have h5 : fl64 (((1 : ℚ) / 2) * ((1 : ℚ) / 2)) = some ((1 : ℚ) / 4) :=
    fl64_cert (((1 : ℚ) / 2) * ((1 : ℚ) / 2)) (-2) (4503599627370496) ((1 : ℚ) / 18014398509481984) ((1 : ℚ) / 4) (by norm_num) (by norm_num) (by norm_num)
      (by norm_num) (by norm_num) (by norm_num) (by norm_num) (by norm_num) (by norm_num)
  have h6 : SMPActor.snpmWeight 1 1 ((1 : ℚ) / 2) ((1 : ℚ) / 2) = some ((1 : ℚ) / 4) :=
    snpmWeight_of_steps _ _ _ _ _ _ _ h2 h2 h5
  have h7 : fl64 ((1 : ℚ) / 10 ^ 6) = some ((4722366482869645 : ℚ) / 4722366482869645213696) :=
    fl64_cert ((1 : ℚ) / 10 ^ 6) (-20) (4722366482869645) ((1 : ℚ) / 4722366482869645213696) ((4722366482869645 : ℚ) / 4722366482869645213696) (by norm_num) (by norm_num) (by norm_num)
      (by norm_num) (by norm_num) (by norm_num) (by norm_num) (by norm_num) (by norm_num)
  have h8 : fl64 (((1 : ℚ) / 16) + ((4722366482869645 : ℚ) / 4722366482869645213696)) = some ((2251835842482267 : ℚ) / 36028797018963968) :=
    fl64_cert (((1 : ℚ) / 16) + ((4722366482869645 : ℚ) / 4722366482869645213696)) (-4) (4503671684964534) ((1 : ℚ) / 72057594037927936) ((2251835842482267 : ℚ) / 36028797018963968) (by norm_num) (by norm_num) (by norm_num)
      (by norm_num) (by norm_num) (by norm_num) (by norm_num) (by norm_num) (by norm_num)
  have h9 : fl64 (((2251835842482267 : ℚ) / 36028797018963968) + ((1 : ℚ) / 4)) = some ((2814758774305815 : ℚ) / 9007199254740992) :=
    fl64_cert_tie (((2251835842482267 : ℚ) / 36028797018963968) + ((1 : ℚ) / 4)) (-2) (5629517548611629) (5629517548611630) ((1 : ℚ) / 18014398509481984) ((2814758774305815 : ℚ) / 9007199254740992) (by norm_num) (by norm_num)
      (by norm_num) (by norm_num) (by norm_num) (by decide) (by norm_num) (by norm_num)
      (by norm_num)
  have h10 : fl64 (((2251835842482267 : ℚ) / 36028797018963968) * ((1 : ℚ) / 32)) = some ((2251835842482267 : ℚ) / 1152921504606846976) :=
    fl64_cert (((2251835842482267 : ℚ) / 36028797018963968) * ((1 : ℚ) / 32)) (-9) (4503671684964534) ((1 : ℚ) / 2305843009213693952) ((2251835842482267 : ℚ) / 1152921504606846976) (by norm_num) (by norm_num) (by norm_num)
      (by norm_num) (by norm_num) (by norm_num) (by norm_num) (by norm_num) (by norm_num)
  have h11 : fl64 (((1 : ℚ) / 4) * ((1 : ℚ) / 32)) = some ((1 : ℚ) / 128) :=
    fl64_cert (((1 : ℚ) / 4) * ((1 : ℚ) / 32)) (-7) (4503599627370496) ((1 : ℚ) / 576460752303423488) ((1 : ℚ) / 128) (by norm_num) (by norm_num) (by norm_num)
      (by norm_num) (by norm_num) (by norm_num) (by norm_num) (by norm_num) (by norm_num)
  have h12 : fl64 (((2251835842482267 : ℚ) / 1152921504606846976) + ((1 : ℚ) / 128)) = some ((2814758774305815 : ℚ) / 288230376151711744) :=
    fl64_cert_tie (((2251835842482267 : ℚ) / 1152921504606846976) + ((1 : ℚ) / 128)) (-7) (5629517548611629) (5629517548611630) ((1 : ℚ) / 576460752303423488) ((2814758774305815 : ℚ) / 288230376151711744) (by norm_num) (by norm_num)
      (by norm_num) (by norm_num) (by norm_num) (by decide) (by norm_num) (by norm_num)
      (by norm_num)
  have h13 : fl64 (((2814758774305815 : ℚ) / 288230376151711744) / ((2814758774305815 : ℚ) / 9007199254740992)) = some ((1 : ℚ) / 32) :=
    fl64_cert (((2814758774305815 : ℚ) / 288230376151711744) / ((2814758774305815 : ℚ) / 9007199254740992)) (-5) (4503599627370496) ((1 : ℚ) / 144115188075855872) ((1 : ℚ) / 32) (by norm_num) (by norm_num) (by norm_num)
      (by norm_num) (by norm_num) (by norm_num) (by norm_num) (by norm_num) (by norm_num)
  have h14 : SMPActor.snpmQuot ((2251835842482267 : ℚ) / 36028797018963968) ((1 : ℚ) / 4) ((1 : ℚ) / 32) ((1 : ℚ) / 32) ((2814758774305815 : ℚ) / 9007199254740992) =
      some ((1 : ℚ) / 32) :=
    snpmQuot_of_steps _ _ _ _ _ _ _ _ _ h10 h11 h12 (by norm_num) h13
  have h15 : fl64 (((1 : ℚ) / 32) * 10000) = some ((625 : ℚ) / 2) :=
    fl64_cert (((1 : ℚ) / 32) * 10000) (8) (5497558138880000) ((1 : ℚ) / 17592186044416) ((625 : ℚ) / 2) (by norm_num) (by norm_num) (by norm_num)
      (by norm_num) (by norm_num) (by norm_num) (by norm_num) (by norm_num) (by norm_num)
  have h16 : fl64 (1 / 2 + ((625 : ℚ) / 2)) = some (313 : ℚ) :=
    fl64_cert (1 / 2 + ((625 : ℚ) / 2)) (8) (5506354231902208) ((1 : ℚ) / 17592186044416) (313 : ℚ) (by norm_num) (by norm_num) (by norm_num)
      (by norm_num) (by norm_num) (by norm_num) (by norm_num) (by norm_num) (by norm_num)
  have h17 : fl64 (((313 : Int) : ℚ) / 10000) = some ((4510805386774289 : ℚ) / 144115188075855872) :=
    fl64_cert (((313 : Int) : ℚ) / 10000) (-5) (4510805386774289) ((1 : ℚ) / 144115188075855872) ((4510805386774289 : ℚ) / 144115188075855872) (by norm_num) (by norm_num) (by norm_num)
      (by norm_num) (by norm_num) (by norm_num) (by norm_num) (by norm_num) (by norm_num)
  have h18 : SMPActor.round4Int ((1 : ℚ) / 32) = some 313 ∧
      SMPActor.round4 ((1 : ℚ) / 32) = some ((4510805386774289 : ℚ) / 144115188075855872) :=
    round4_of_steps _ _ _ _ _ h15 h16 (by norm_num) (by norm_num) (by norm_num) (by norm_num)
      h17
  have h19 : fl64 (((4722366482869645 : ℚ) / 4722366482869645213696) + ((1 : ℚ) / 4)) = some ((4503617641769005 : ℚ) / 18014398509481984) :=
    fl64_cert (((4722366482869645 : ℚ) / 4722366482869645213696) + ((1 : ℚ) / 4)) (-2) (4503617641769005) ((1 : ℚ) / 18014398509481984) ((4503617641769005 : ℚ) / 18014398509481984) (by norm_num) (by norm_num) (by norm_num)
      (by norm_num) (by norm_num) (by norm_num) (by norm_num) (by norm_num) (by norm_num)
  have h20 : fl64 (((1 : ℚ) / 16) * ((1 : ℚ) / 32)) = some ((1 : ℚ) / 512) :=
    fl64_cert (((1 : ℚ) / 16) * ((1 : ℚ) / 32)) (-9) (4503599627370496) ((1 : ℚ) / 2305843009213693952) ((1 : ℚ) / 512) (by norm_num) (by norm_num) (by norm_num)
      (by norm_num) (by norm_num) (by norm_num) (by norm_num) (by norm_num) (by norm_num)
  have h21 : fl64 (((4503617641769005 : ℚ) / 18014398509481984) * ((1 : ℚ) / 32)) = some ((4503617641769005 : ℚ) / 576460752303423488) :=
    fl64_cert (((4503617641769005 : ℚ) / 18014398509481984) * ((1 : ℚ) / 32)) (-7) (4503617641769005) ((1 : ℚ) / 576460752303423488) ((4503617641769005 : ℚ) / 576460752303423488) (by norm_num) (by norm_num) (by norm_num)
      (by norm_num) (by norm_num) (by norm_num) (by norm_num) (by norm_num) (by norm_num)
  have h22 : fl64 (((1 : ℚ) / 512) + ((4503617641769005 : ℚ) / 576460752303423488)) = some ((5629517548611629 : ℚ) / 576460752303423488) :=
    fl64_cert (((1 : ℚ) / 512) + ((4503617641769005 : ℚ) / 576460752303423488)) (-7) (5629517548611629) ((1 : ℚ) / 576460752303423488) ((5629517548611629 : ℚ) / 576460752303423488) (by norm_num) (by norm_num) (by norm_num)
      (by norm_num) (by norm_num) (by norm_num) (by norm_num) (by norm_num) (by norm_num)
  have h23 : fl64 (((5629517548611629 : ℚ) / 576460752303423488) / ((2814758774305815 : ℚ) / 9007199254740992)) = some ((4503599627370495 : ℚ) / 144115188075855872) :=
    fl64_cert (((5629517548611629 : ℚ) / 576460752303423488) / ((2814758774305815 : ℚ) / 9007199254740992)) (-6) (9007199254740990) ((1 : ℚ) / 288230376151711744) ((4503599627370495 : ℚ) / 144115188075855872) (by norm_num) (by norm_num) (by norm_num)
      (by norm_num) (by norm_num) (by norm_num) (by norm_num) (by norm_num) (by norm_num)
  have h24 : SMPActor.snpmQuot ((1 : ℚ) / 16) ((4503617641769005 : ℚ) / 18014398509481984) ((1 : ℚ) / 32) ((1 : ℚ) / 32) ((2814758774305815 : ℚ) / 9007199254740992) =
      some ((4503599627370495 : ℚ) / 144115188075855872) :=
    snpmQuot_of_steps _ _ _ _ _ _ _ _ _ h20 h21 h22 (by norm_num) h23
  have h25 : fl64 (((4503599627370495 : ℚ) / 144115188075855872) * 10000) = some ((5497558138879999 : ℚ) / 17592186044416) :=
    fl64_cert (((4503599627370495 : ℚ) / 144115188075855872) * 10000) (8) (5497558138879999) ((1 : ℚ) / 17592186044416) ((5497558138879999 : ℚ) / 17592186044416) (by norm_num) (by norm_num) (by norm_num)
      (by norm_num) (by norm_num) (by norm_num) (by norm_num) (by norm_num) (by norm_num)
  have h26 : fl64 (1 / 2 + ((5497558138879999 : ℚ) / 17592186044416)) = some ((5506354231902207 : ℚ) / 17592186044416) :=
    fl64_cert (1 / 2 + ((5497558138879999 : ℚ) / 17592186044416)) (8) (5506354231902207) ((1 : ℚ) / 17592186044416) ((5506354231902207 : ℚ) / 17592186044416) (by norm_num) (by norm_num) (by norm_num)
      (by norm_num) (by norm_num) (by norm_num) (by norm_num) (by norm_num) (by norm_num)
  have h27 : fl64 (((312 : Int) : ℚ) / 10000) = some ((4496393867966703 : ℚ) / 144115188075855872) :=
    fl64_cert (((312 : Int) : ℚ) / 10000) (-6) (8992787735933406) ((1 : ℚ) / 288230376151711744) ((4496393867966703 : ℚ) / 144115188075855872) (by norm_num) (by norm_num) (by norm_num)
      (by norm_num) (by norm_num) (by norm_num) (by norm_num) (by norm_num) (by norm_num)
  have h28 : SMPActor.round4Int ((4503599627370495 : ℚ) / 144115188075855872) = some 312 ∧
      SMPActor.round4 ((4503599627370495 : ℚ) / 144115188075855872) = some ((4496393867966703 : ℚ) / 144115188075855872) :=
    round4_of_steps _ _ _ _ _ h25 h26 (by norm_num) (by norm_num) (by norm_num) (by norm_num)
      h27
  have h29 : SMPActor.interpBrgnSnPm 1 1 ((1 : ℚ) / 32) ((1 : ℚ) / 8) ((1 : ℚ) / 2) ((1 : ℚ) / 32) ((1 : ℚ) / 2) ((1 : ℚ) / 2) =
      some (((4510805386774289 : ℚ) / 144115188075855872), ((4496393867966703 : ℚ) / 144115188075855872)) :=
    interpBrgnSnPm_of_steps _ _ _ _ _ _ _ _ _ _ _ _ _ _ _ _ _ _ (by norm_num) (by norm_num)
      h4 h6 h7 h8 h9 h14 h18.2 h19 h24 h28.2
  refine ⟨h29, ?_, by norm_num⟩
  rw [min_self]
  exact h18.2

/-- C17, amended: for non-negative saliences and win probabilities in `[0,1]`,
the outputs of `interpBrgnS2PMax` lie in `[min tik tjk, max tik tjk]`; and for
saliences that are also at most `1` and coordinates of absolute value at most
`1e5`, `interpBrgnSnPm` returns, and its outputs lie between the roundings of
the two coordinates up to one unit of the fourth decimal: `bik` is the double
nearest to `ki / 10000` and `bjk` the double nearest to `kj / 10000`, for
integers with `klo - 1 ≤ ki, kj ≤ khi + 1`, where `klo` and `khi` are the
integers to which `round4` truncates on `min tik tjk` and on `max tik tjk`. -/
theorem C17_bargain_between (n m : Nat) (tik sik prbI tjk sjk prbJ : ℚ)
    (hn : n = 1 ∨ n = 2) (hm : m = 1 ∨ m = 2) (hsi : 0 ≤ sik) (hsj : 0 ≤ sjk)
    (hpi0 : 0 ≤ prbI) (hpi1 : prbI ≤ 1) (hpj0 : 0 ≤ prbJ) (hpj1 : prbJ ≤ 1) :
    (∃ bik bjk, SMPActor.interpBrgnS2PMax tik sik prbI tjk sjk prbJ = some (bik, bjk) ∧
      min tik tjk ≤ bik ∧ bik ≤ max tik tjk ∧ min tik tjk ≤ bjk ∧ bjk ≤ max tik tjk) ∧
    (sik ≤ 1 → sjk ≤ 1 → |tik| ≤ 10 ^ 5 → |tjk| ≤ 10 ^ 5 →
      ∃ (bik bjk : ℚ) (ki kj klo khi : Int),
        SMPActor.interpBrgnSnPm n m tik sik prbI tjk sjk prbJ = some (bik, bjk) ∧
        fl64 (((ki : Int) : ℚ) / 10000) = some bik ∧
        fl64 (((kj : Int) : ℚ) / 10000) = some bjk ∧
        SMPActor.round4Int (min tik tjk) = some klo ∧
        SMPActor.round4Int (max tik tjk) = some khi ∧
        klo - 1 ≤ ki ∧ ki ≤ khi + 1 ∧ klo - 1 ≤ kj ∧ kj ≤ khi + 1) := by
  constructor
  · have gi := probGap_bounds prbI prbJ hpi0 hpj1
    have gj := probGap_bounds prbJ prbI hpj0 hpi1
    have hi2 := mul_self_nonneg sik
    have hj2 := mul_self_nonneg sjk
    have hDi := s2pMaxDivisor_ge _ (sjk * sjk) (sik * sik) gi.1 gi.2 hj2 hi2
    have hDj := s2pMaxDivisor_ge _ (sik * sik) (sjk * sjk) gj.1 gj.2 hi2 hj2
    have hDi0 : 0 < SMPActor.s2pMaxDivisor (SMPActor.probGap prbI prbJ) (sjk * sjk)
        (sik * sik) := by linarith
    have hDj0 : 0 < SMPActor.s2pMaxDivisor (SMPActor.probGap prbJ prbI) (sik * sik)
        (sjk * sjk) := by linarith
    -- the two shift fractions lie in [0,1]
    have fi0 : 0 ≤ SMPActor.probGap prbI prbJ * (sjk * sjk) /
        SMPActor.s2pMaxDivisor (SMPActor.probGap prbI prbJ) (sjk * sjk) (sik * sik) :=
      div_nonneg (mul_nonneg gi.1 hj2) hDi0.le
    have fi1 : SMPActor.probGap prbI prbJ * (sjk * sjk) /
        SMPActor.s2pMaxDivisor (SMPActor.probGap prbI prbJ) (sjk * sjk) (sik * sik) ≤ 1 := by
      rw [div_le_one hDi0]
      unfold SMPActor.s2pMaxDivisor
      nlinarith [mul_nonneg (sub_nonneg.mpr gi.2) hi2]
    have fj0 : 0 ≤ SMPActor.probGap prbJ prbI * (sik * sik) /
        SMPActor.s2pMaxDivisor (SMPActor.probGap prbJ prbI) (sik * sik) (sjk * sjk) :=
      div_nonneg (mul_nonneg gj.1 hi2) hDj0.le
    have fj1 : SMPActor.probGap prbJ prbI * (sik * sik) /
        SMPActor.s2pMaxDivisor (SMPActor.probGap prbJ prbI) (sik * sik) (sjk * sjk) ≤ 1 := by
      rw [div_le_one hDj0]
      unfold SMPActor.s2pMaxDivisor
      nlinarith [mul_nonneg (sub_nonneg.mpr gj.2) hj2]
    have si := shift_between tik tjk _ fi0 fi1
    have sj := shift_between tjk tik _ fj0 fj1
    rw [min_comm, max_comm] at sj
    exact ⟨_, _, interpBrgnS2PMax_eq tik sik prbI tjk sjk prbJ (ne_of_gt hDi0) (ne_of_gt hDj0),
      si.1, si.2, sj.1, sj.2⟩
  · intro hsi1 hsj1 hti htj
    exact snpm_between n m tik sik prbI tjk sjk prbJ hn hm hsi hsi1 hpi0 hpi1 hsj hsj1 hpj0 hpj1
      hti htj

/-- Witness for C17: coordinates `0.2` and `0.8`, saliences `0.5`, probabilities
`0.75` and `0.25`, weights `salience^2 * probability^2`. -/
theorem C17_bargain_between_witness :
    (∃ bik bjk, SMPActor.interpBrgnS2PMax (1 / 5) (1 / 2) (3 / 4) (4 / 5) (1 / 2) (1 / 4) =
        some (bik, bjk) ∧
      min (1 / 5) (4 / 5) ≤ bik ∧ bik ≤ max (1 / 5) (4 / 5) ∧
      min (1 / 5) (4 / 5) ≤ bjk ∧ bjk ≤ max (1 / 5) (4 / 5)) ∧
    (∃ (bik bjk : ℚ) (ki kj klo khi : Int),
      SMPActor.interpBrgnSnPm 2 2 (1 / 5) (1 / 2) (3 / 4) (4 / 5) (1 / 2) (1 / 4) =
        some (bik, bjk) ∧
      fl64 (((ki : Int) : ℚ) / 10000) = some bik ∧
      fl64 (((kj : Int) : ℚ) / 10000) = some bjk ∧
      SMPActor.round4Int (min (1 / 5) (4 / 5)) = some klo ∧
      SMPActor.round4Int (max (1 / 5) (4 / 5)) = some khi ∧
      klo - 1 ≤ ki ∧ ki ≤ khi + 1 ∧ klo - 1 ≤ kj ∧ kj ≤ khi + 1) :=
  ⟨(C17_bargain_between 2 2 (1 / 5) (1 / 2) (3 / 4) (4 / 5) (1 / 2) (1 / 4) (Or.inr rfl)
      (Or.inr rfl) (by norm_num) (by norm_num) (by norm_num) (by norm_num) (by norm_num)
      (by norm_num)).1,
    (C17_bargain_between 2 2 (1 / 5) (1 / 2) (3 / 4) (4 / 5) (1 / 2) (1 / 4) (Or.inr rfl)
      (Or.inr rfl) (by norm_num) (by norm_num) (by norm_num) (by norm_num) (by norm_num)
      (by norm_num)).2 (by norm_num) (by norm_num) (abs_le.mpr ⟨by norm_num, by norm_num⟩)
      (abs_le.mpr ⟨by norm_num, by norm_num⟩)⟩

/-! ### The divisor of the stop predicate and the history it reads -/

/-- The norm of a matrix is never negative. -/
theorem norm_nonneg (m : KMatrix) : 0 ≤ KMatrix.norm m := Real.sqrt_nonneg _

/-- Whatever `stateDist` returns is never negative. -/
theorem stateDist_nonneg (s1 s2 : SMPState) (d : ℝ)
    (h : SMPModel.stateDist s1 s2 = some d) : 0 ≤ d := by
  simp only [SMPModel.stateDist, Option.bind_eq_bind, Option.bind_eq_some,
    assertThat_eq_some] at h
  obtain ⟨_, _, hfold⟩ := h
  refine foldlM_range_post (SMPModel.stateDistStep s1 s2) (fun _ a => 0 ≤ a) _ 0 d hfold
    le_rfl ?_
  intro k x y _ hx hy
  simp only [SMPModel.stateDistStep, Option.bind_eq_bind, Option.bind_eq_some,
    Option.pure_def, Option.some.injEq] at hy
  obtain ⟨_, _, _, _, dm, _, hy⟩ := hy
  rw [← hy]
  exact add_nonneg hx (norm_nonneg dm)

/-- C19: for every `minSigDelta > 0` and every two first states on which
`stateDist` returns, the distance is not negative and the divisor of the stop
predicate's change ratio, `stateDist(history[0], history[1]) + minSigDelta`, is
strictly positive (in particular not zero), also when no actor moved. -/
theorem C19_stop_divisor_positive (s0 s1 : SMPState) (d : ℝ) (minSigDelta : ℚ)
    (hpos : 0 < minSigDelta) (h : SMPModel.stateDist s0 s1 = some d) :
    0 ≤ d ∧ 0 < d + ((minSigDelta : ℚ) : ℝ) ∧ d + ((minSigDelta : ℚ) : ℝ) ≠ 0 := by
  have hd := stateDist_nonneg s0 s1 d h
  have hm : (0 : ℝ) < ((minSigDelta : ℚ) : ℝ) := by exact_mod_cast hpos
  have hsum : 0 < d + ((minSigDelta : ℚ) : ℝ) := add_pos_of_nonneg_of_pos hd hm
  exact ⟨hd, hsum, ne_of_gt hsum⟩

/-- Witness for C19: a first step that moved no actor, with the floor `1E-4`
of `configExec`. -/
theorem C19_stop_divisor_positive_witness :
    SMPModel.stateDist identState identState = some 0 ∧
      (0 : ℝ) ≤ 0 ∧ (0 : ℝ) < 0 + (((1 / 10 ^ 4 : ℚ)) : ℝ) ∧
      (0 : ℝ) + (((1 / 10 ^ 4 : ℚ)) : ℝ) ≠ 0 :=
  ⟨stateDist_self identState,
    C19_stop_divisor_positive identState identState 0 (1 / 10 ^ 4) (by norm_num)
      (stateDist_self identState)⟩

/-- Every history entry that a returning call of the stop predicate read
exists: indices 0, 1, `iter - 1` and `iter - 0` in `unsigned int` arithmetic. -/
theorem smpStopFn_reads (minIter maxIter : Nat) (r d : ℚ) (iter : Nat)
    (history : List SMPState) (b : Bool)
    (h : SMPModel.smpStopFn minIter maxIter r d iter history = some b) :
    0 < history.length ∧ 1 < history.length ∧
      (iter + 2 ^ 32 - 1) % 2 ^ 32 < history.length ∧
      (iter + 2 ^ 32 - 0) % 2 ^ 32 < history.length := by
  simp only [SMPModel.smpStopFn, Option.bind_eq_bind, Option.bind_eq_some] at h
  obtain ⟨s0, h0, s1, h1, _, _, sx, hx, sy, hy, _⟩ := h
  exact ⟨(List.getElem?_eq_some_iff.mp h0).1, (List.getElem?_eq_some_iff.mp h1).1,
    (List.getElem?_eq_some_iff.mp hy).1, (List.getElem?_eq_some_iff.mp hx).1⟩

/-- C20, as stated, fails: at the call with iteration 0 on a history holding
only the initial state, the predicate reads `history[1]` and
`history[0u - 1] = history[4294967295]`, which do not exist; the call has no
result. -/
theorem C20_stop_undefined_at_zero :
    SMPModel.configExecStop 0 [identState] = none ∧
      [identState][1]? = none ∧
      (0 + 2 ^ 32 - 1) % 2 ^ 32 = 4294967295 ∧ [identState][4294967295]? = none := by
  refine ⟨?_, rfl, by norm_num, rfl⟩
  simp [SMPModel.configExecStop, SMPModel.smpStopFn]

/-- C20, amended: the stop predicate is well defined on every call with an
iteration count `iter ≥ 1` and a history of `iter + 1` states (of one shape):
the entries it reads, at indices 0, 1, `iter - 1` and `iter`, all exist, and the
call returns.  Every returning call needs at least two states, so the call
with iteration 0 on the initial state alone has no result. -/
theorem C20_stop_reads_amended (minIter maxIter : Nat) (r d : ℚ) (iter n nd : Nat)
    (history : List SMPState) (h1 : 1 ≤ iter) (h32 : iter < 2 ^ 32)
    (hlen : history.length = iter + 1)
    (hshape : ∀ s ∈ history,
      s.pstns.length = n ∧ ∀ p ∈ s.pstns, p.numR = nd ∧ p.numC = 1) :
    ((iter + 2 ^ 32 - 1) % 2 ^ 32 = iter - 1 ∧ (iter + 2 ^ 32 - 0) % 2 ^ 32 = iter) ∧
    ((history[0]?).isSome = true ∧ (history[1]?).isSome = true ∧
      (history[iter - 1]?).isSome = true ∧ (history[iter]?).isSome = true) ∧
    (SMPModel.smpStopFn minIter maxIter r d iter history).isSome = true ∧
    (∀ it hs b, SMPModel.smpStopFn minIter maxIter r d it hs = some b →
      1 < hs.length ∧ (it + 2 ^ 32 - 1) % 2 ^ 32 < hs.length ∧
        (it + 2 ^ 32 - 0) % 2 ^ 32 < hs.length) ∧
    (∀ s, SMPModel.smpStopFn minIter maxIter r d 0 [s] = none) := by
  have i0 : 0 < history.length := by omega
  have i1 : 1 < history.length := by omega
  have iy : iter - 1 < history.length := by omega
  have ix : iter < history.length := by omega
  have w0 := hshape _ (List.getElem_mem i0)
  have w1 := hshape _ (List.getElem_mem i1)
  have wy := hshape _ (List.getElem_mem iy)
  have wx := hshape _ (List.getElem_mem ix)
  have hd01 := stateDist_eq_distSum _ _ n nd w0.1 w1.1 w0.2 w1.2
  have hdxy := stateDist_eq_distSum _ _ n nd wx.1 wy.1 wx.2 wy.2
  refine ⟨⟨by omega, by omega⟩, ⟨?_, ?_, ?_, ?_⟩, ?_, ?_, ?_⟩
  · rw [List.getElem?_eq_getElem i0]; rfl
  · rw [List.getElem?_eq_getElem i1]; rfl
  · rw [List.getElem?_eq_getElem iy]; rfl
  · rw [List.getElem?_eq_getElem ix]; rfl
  · rw [smpStopFn_eq minIter maxIter r d iter history h1 h32 _ _ _ _ _ _
      (List.getElem?_eq_getElem i0) (List.getElem?_eq_getElem i1)
      (List.getElem?_eq_getElem iy) (List.getElem?_eq_getElem ix) hd01 hdxy]
    rfl
  · intro it hs b hb
    exact (smpStopFn_reads minIter maxIter r d it hs b hb).2
  · intro s
    simp [SMPModel.smpStopFn]

/-- Witness for the amended C20: iteration 2 on a history of three states. -/
theorem C20_stop_reads_amended_witness :
    ((2 + 2 ^ 32 - 1) % 2 ^ 32 = 2 - 1 ∧ (2 + 2 ^ 32 - 0) % 2 ^ 32 = 2) ∧
    (([identState, followState, followState][0]?).isSome = true ∧
      ([identState, followState, followState][1]?).isSome = true ∧
      ([identState, followState, followState][2 - 1]?).isSome = true ∧
      ([identState, followState, followState][2]?).isSome = true) ∧
    (SMPModel.smpStopFn 2 100 (2 / 100) (1 / 10 ^ 4) 2
      [identState, followState, followState]).isSome = true ∧
    (∀ it hs b, SMPModel.smpStopFn 2 100 (2 / 100) (1 / 10 ^ 4) it hs = some b →
      1 < hs.length ∧ (it + 2 ^ 32 - 1) % 2 ^ 32 < hs.length ∧
        (it + 2 ^ 32 - 0) % 2 ^ 32 < hs.length) ∧
    (∀ s, SMPModel.smpStopFn 2 100 (2 / 100) (1 / 10 ^ 4) 0 [s] = none) :=
  C20_stop_reads_amended 2 100 (2 / 100) (1 / 10 ^ 4) 2 3 1
    [identState, followState, followState] (by norm_num) (by norm_num) rfl
    (by simp [identState, followState, colVec])

/-! ### Equivalent positions -/

/-- Two matrices of one shape with equal entries are at distance 0. -/
theorem norm_sub_of_equal (p q : KMatrix) (hR : p.numR = q.numR) (hC : p.numC = q.numC)
    (hval : ∀ r k, r < p.numR → k < p.numC → p.val r k = q.val r k) :
    ∃ d, KMatrix.sub p q = some d ∧ KMatrix.norm d = 0 := by
  refine ⟨⟨p.numR, p.numC, fun r k => p.val r k - q.val r k⟩, ?_, ?_⟩
  · simp [KMatrix.sub, KMatrix.sameShape, hR, hC]
  · have h0 : KMatrix.sumSq ⟨p.numR, p.numC, fun r k => p.val r k - q.val r k⟩ = 0 := by
      unfold KMatrix.sumSq
      apply Finset.sum_eq_zero
      intro r hr
      apply Finset.sum_eq_zero
      intro k hk
      simp only [Finset.mem_range] at hr hk
      simp [hval r k hr hk]
    simp [KMatrix.norm, h0]

/-- C15: if the positions of actors `i` and `j` are exactly equal, `equivNdx`
returns true: in an `SMPState` whenever the position tolerance of the model is
positive, in a `CSState` by the equality of the two matchings. -/
theorem C15_equivNdx_of_equal (posTol : ℚ) (hpos : 0 < posTol) (st : SMPState) (i j : Nat)
    (p q : KMatrix) (hi : st.pstns[i]? = some p) (hj : st.pstns[j]? = some q)
    (hR : p.numR = q.numR) (hC : p.numC = q.numC)
    (hval : ∀ r k, r < p.numR → k < p.numC → p.val r k = q.val r k) :
    SMPState.equivNdx posTol st i j = some true ∧
    ∀ (cs : CSState) (a b : MtchPstn), cs.pstns[i]? = some a → cs.pstns[j]? = some b →
      a = b → CSState.equivNdx cs i j = some true := by
  constructor
  · obtain ⟨d, hd, hn⟩ := norm_sub_of_equal p q hR hC hval
    have hposR : (0 : ℝ) < ((posTol : ℚ) : ℝ) := by exact_mod_cast hpos
    simp [SMPState.equivNdx, hi, hj, hd, hn, hposR]
  · intro cs a b ha hb hab
    simp [CSState.equivNdx, ha, hb, hab]

/-- Witness for C15: actors 0 and 2 of `followState` hold the same position,
and so do actors 0 and 2 of a committee-selection state. -/
theorem C15_equivNdx_of_equal_witness :
    SMPState.equivNdx (1 / 1000) followState 0 2 = some true ∧
    ∀ (cs : CSState) (a b : MtchPstn), cs.pstns[0]? = some a → cs.pstns[2]? = some b →
      a = b → CSState.equivNdx cs 0 2 = some true :=
  C15_equivNdx_of_equal (1 / 1000) (by norm_num) followState 0 2 (colVec [0]) (colVec [0])
    rfl rfl rfl rfl (fun _ _ _ _ => rfl)

/-! ### Configuration -/

/-- A loop `for k in 0..n-1` in which some pass fails whatever the accumulator
has no result. -/
theorem foldlM_range_none {α : Type} (f : α → Nat → Option α) (n k : Nat) (a0 : α)
    (hk : k < n) (hfail : ∀ a, f a k = none) : (List.range n).foldlM f a0 = none := by
  induction n with
  | zero => exact absurd hk (Nat.not_lt_zero k)
  | succ m ih =>
    rw [List.range_succ, List.foldlM_append]
    rcases Nat.lt_succ_iff_lt_or_eq.mp hk with h | h
    · simp [ih h]
    · subst h
      cases hx : (List.range k).foldlM f a0 with
      | none => simp
      | some x => simp [hfail x]

/-- C12, as stated, fails: the vector `[0,0,0,0,0,0,0,7,0]` is accepted, and 7,
which is the number of no `InterVecBrgn` enumerator, is stored as the bargain
weighting. -/
theorem C12_unknown_value_stored :
    (SMPModel.updateModelParameters ⟨0, 0, 0, 0, 0, 0, 0, 0, 0⟩
        [0, 0, 0, 0, 0, 0, 0, 7, 0]).map (fun md => md.ivBrgn) = some 7 ∧
      InterVecBrgn.ofInt? 7 = none := by
  decide

/-- C12, amended: `updateModelParameters` fails exactly when the parameter
vector has fewer than 9 entries; otherwise it stores the first 9 integers as
given, each in its field, whether or not it is the number of an enumerator.
An unrecognised bargain weighting is fatal only later: `interpolateBrgn` on
positions with at least one dimension has no result for it. -/
theorem C12_updateModelParameters_amended (md0 : SMPParams) (parameters : List Int) :
    SMPModel.updateModelParameters md0 parameters =
      (if 9 ≤ parameters.length then
        some ⟨parameters.getD 0 0, parameters.getD 1 0, parameters.getD 2 0,
          parameters.getD 3 0, parameters.getD 4 0, parameters.getD 5 0,
          parameters.getD 6 0, parameters.getD 7 0, parameters.getD 8 0⟩
      else none) ∧
    ∀ (ai aj : SMPActor) (posI posJ : KMatrix) (prbI prbJ : ℚ) (ivb : Int),
      InterVecBrgn.ofInt? ivb = none → 0 < posI.numR →
        SMPActor.interpolateBrgn ai aj posI posJ prbI prbJ ivb = none := by
  constructor
  · rcases parameters with _ | ⟨p0, _ | ⟨p1, _ | ⟨p2, _ | ⟨p3, _ | ⟨p4, _ | ⟨p5, _ | ⟨p6,
      _ | ⟨p7, _ | ⟨p8, rest⟩⟩⟩⟩⟩⟩⟩⟩⟩ <;> simp [SMPModel.updateModelParameters]
  · intro ai aj posI posJ prbI prbJ ivb hivb hnum
    have hstep : ∀ acc, SMPActor.interpolateBrgnStep ai aj posI posJ prbI prbJ ivb acc 0 =
        none := by
      intro acc
      simp only [SMPActor.interpolateBrgnStep, SMPActor.interpolateBrgnSwitch, hivb,
        Option.bind_eq_bind, Option.bind_eq_none]
      intro _ _ _ _ _ _ _ _ b hb
      exact absurd hb (by simp)
    have hloop := foldlM_range_none (SMPActor.interpolateBrgnStep ai aj posI posJ prbI prbJ ivb)
      posI.numR 0 (KMatrix.zeros posI.numR 1, KMatrix.zeros posI.numR 1) hnum hstep
    simp only [SMPActor.interpolateBrgn, Option.bind_eq_bind, hloop, Option.bind_eq_none]
    intro _ _ _ _
    trivial

/-! ### Randomised actors -/

/-- The sum of a matrix of draws from `[1/10, 1]` with at least one row and
one column is positive. -/
theorem sum_uniform_pos (rng : PRNG) (k numD : Nat) (hD : 1 ≤ numD)
    (hrng : ∀ k a b, a ≤ b → a ≤ rng.uniform k a b ∧ rng.uniform k a b ≤ b) :
    0 < KMatrix.sum (KMatrix.uniform rng k numD 1 (1 / 10) 1) := by
  unfold KMatrix.sum
  apply Finset.sum_pos
  · intro i _
    apply Finset.sum_pos
    · intro j _
      have := (hrng (k + i * 1 + j) (1 / 10) 1 (by norm_num)).1
      simp only [KMatrix.uniform]
      linarith
    · simp [KMatrix.uniform]
  · simp only [KMatrix.uniform, Finset.nonempty_range_iff]
    omega

/-- Dividing a matrix by a non-zero scalar divides the sum of its entries. -/
theorem sum_sdiv (m : KMatrix) (x : ℚ) (hx : x ≠ 0) :
    ∃ q, KMatrix.sdiv m x = some q ∧ q.numR = m.numR ∧ q.numC = m.numC ∧
      (∀ i j, q.val i j = m.val i j / x) ∧ KMatrix.sum q = KMatrix.sum m / x := by
  refine ⟨⟨m.numR, m.numC, fun i j => m.val i j / x⟩, by simp [KMatrix.sdiv, hx], rfl, rfl,
    fun _ _ => rfl, ?_⟩
  simp only [KMatrix.sum, Finset.sum_div]

/-- Multiplying a matrix by a scalar multiplies the sum of its entries. -/
theorem sum_smul (x : ℚ) (m : KMatrix) :
    KMatrix.sum (KMatrix.smul x m) = x * KMatrix.sum m := by
  simp only [KMatrix.sum, KMatrix.smul, Finset.mul_sum]

/-- C14: for every dimension count `numD ≥ 1` and every generator whose draws
lie in the requested ranges (with at least one voting rule to draw from),
`randomize` returns; its normalisation assertion holds; the capability is in
`[10,200]`; the salience is a `numD × 1` vector with every entry strictly
positive; and the entries sum to the drawn overall salience, which is in
`[0.75,0.99]`, hence in `(0,1]`.  The voting rule drawn is one of the `numVR`
rules. -/
theorem C14_randomize_invariants (numVR : Nat) (rng : PRNG) (k : Nat) (a : SMPActor)
    (numD : Nat) (hD : 1 ≤ numD) (hVR : 1 ≤ numVR) (hVR2 : numVR ≤ 2 ^ 32)
    (hrng : ∀ k a b, a ≤ b → a ≤ rng.uniform k a b ∧ rng.uniform k a b ≤ b) :
    ∃ a1 vrNum k1, SMPActor.randomize numVR rng k a numD = some (a1, vrNum, k1) ∧
      (10 ≤ a1.sCap ∧ a1.sCap ≤ 200) ∧
      (a1.vSal.numR = numD ∧ a1.vSal.numC = 1 ∧ ∀ i, i < numD → 0 < a1.vSal.val i 0) ∧
      (KMatrix.sum a1.vSal = rng.uniform (k + 1) (75 / 100) (99 / 100) ∧
        75 / 100 ≤ KMatrix.sum a1.vSal ∧ KMatrix.sum a1.vSal ≤ 99 / 100 ∧
        0 < KMatrix.sum a1.vSal ∧ KMatrix.sum a1.vSal ≤ 1) ∧
      vrNum < numVR := by
  have hcap := hrng k 10 200 (by norm_num)
  have hs := hrng (k + 1) (75 / 100) (99 / 100) (by norm_num)
  have hS := sum_uniform_pos rng (k + 2) numD hD hrng
  have hVRq : (1 : ℚ) ≤ (numVR : ℚ) := by exact_mod_cast hVR
  have hVRq2 : (numVR : ℚ) ≤ 2 ^ 32 := by exact_mod_cast hVR2
  have hx := hrng (k + 2 + numD) 0 ((numVR : ℚ) - 1 / 100) (by linarith)
  obtain ⟨q, hq, hqR, hqC, hqv, hqs⟩ := sum_sdiv
    (KMatrix.smul (rng.uniform (k + 1) (75 / 100) (99 / 100))
      (KMatrix.uniform rng (k + 2) numD 1 (1 / 10) 1))
    (KMatrix.sum (KMatrix.uniform rng (k + 2) numD 1 (1 / 10) 1)) (ne_of_gt hS)
  have hsum : KMatrix.sum q = rng.uniform (k + 1) (75 / 100) (99 / 100) := by
    rw [hqs, sum_smul]
    field_simp
  have hassert : |rng.uniform (k + 1) (75 / 100) (99 / 100) - KMatrix.sum q| < 1 / 10 ^ 4 := by
    rw [hsum, sub_self, abs_zero]
    norm_num
  have hconv : -1 < rng.uniform (k + 2 + numD) 0 ((numVR : ℚ) - 1 / 100) ∧
      rng.uniform (k + 2 + numD) 0 ((numVR : ℚ) - 1 / 100) < 2 ^ 32 := by
    constructor <;> linarith [hx.1, hx.2]
  refine ⟨{ a with sCap := rng.uniform k 10 200, vSal := q },
    (truncInt (rng.uniform (k + 2 + numD) 0 ((numVR : ℚ) - 1 / 100))).toNat, k + 3 + numD,
    ?_, hcap, ⟨?_, ?_, ?_⟩, ⟨hsum, ?_, ?_, ?_, ?_⟩, ?_⟩
  · simp only [SMPActor.randomize, Option.bind_eq_bind, hq, Option.some_bind, assertThat,
      hassert, if_true, hconv, and_self, Option.pure_def]
  · rw [hqR]; rfl
  · rw [hqC]; rfl
  · intro i _
    rw [hqv]
    apply div_pos _ hS
    have := (hrng (k + 2 + i * 1 + 0) (1 / 10) 1 (by norm_num)).1
    simp only [KMatrix.smul, KMatrix.uniform]
    apply mul_pos
    · linarith [hs.1]
    · linarith
  · show 75 / 100 ≤ KMatrix.sum q
    rw [hsum]; exact hs.1
  · show KMatrix.sum q ≤ 99 / 100
    rw [hsum]; exact hs.2
  · show 0 < KMatrix.sum q
    rw [hsum]; linarith [hs.1]
  · show KMatrix.sum q ≤ 1
    rw [hsum]; linarith [hs.2]
  · have h0 : (0 : ℚ) ≤ rng.uniform (k + 2 + numD) 0 ((numVR : ℚ) - 1 / 100) := hx.1
    have hfl : truncInt (rng.uniform (k + 2 + numD) 0 ((numVR : ℚ) - 1 / 100)) <
        (numVR : Int) := by
      simp only [truncInt, h0, if_true]
      rw [Int.floor_lt]
      push_cast
      linarith [hx.2]
    have hnn : 0 ≤ truncInt (rng.uniform (k + 2 + numD) 0 ((numVR : ℚ) - 1 / 100)) := by
      simp only [truncInt, h0, if_true]
      exact Int.floor_nonneg.mpr h0
    omega

/-- Witness for C14: the generator that always returns the middle of the
requested range, five voting rules, three dimensions. -/
theorem C14_randomize_invariants_witness :
    ∃ a1 vrNum k1, SMPActor.randomize 5 ⟨fun _ a b => (a + b) / 2⟩ 0
        ⟨"A0", "", 0, KMatrix.zeros 0 0⟩ 3 = some (a1, vrNum, k1) ∧
      (10 ≤ a1.sCap ∧ a1.sCap ≤ 200) ∧
      (a1.vSal.numR = 3 ∧ a1.vSal.numC = 1 ∧ ∀ i, i < 3 → 0 < a1.vSal.val i 0) ∧
      (KMatrix.sum a1.vSal =
          (⟨fun _ a b => (a + b) / 2⟩ : PRNG).uniform (0 + 1) (75 / 100) (99 / 100) ∧
        75 / 100 ≤ KMatrix.sum a1.vSal ∧ KMatrix.sum a1.vSal ≤ 99 / 100 ∧
        0 < KMatrix.sum a1.vSal ∧ KMatrix.sum a1.vSal ≤ 1) ∧
      vrNum < 5 :=
  C14_randomize_invariants 5 ⟨fun _ a b => (a + b) / 2⟩ 0 ⟨"A0", "", 0, KMatrix.zeros 0 0⟩ 3
    (by norm_num) (by norm_num) (by norm_num)
    (by
      intro _ a b hab
      constructor <;> linarith)

/-! ### The shape invariant of a state -/

/-- A sum of matrices has the shape of its left operand. -/
theorem add_shape (a b x : KMatrix) (h : KMatrix.add a b = some x) :
    x.numR = a.numR ∧ x.numC = a.numC := by
  unfold KMatrix.add at h
  split_ifs at h
  simp only [Option.some.injEq] at h
  rw [← h]
  exact ⟨rfl, rfl⟩

/-- An assignment to an entry keeps the shape of the matrix. -/
theorem set?_shape (a x : KMatrix) (i j : Nat) (v : ℚ) (h : KMatrix.set? a i j v = some x) :
    x.numR = a.numR ∧ x.numC = a.numC := by
  unfold KMatrix.set? at h
  split_ifs at h
  simp only [Option.some.injEq] at h
  rw [← h]
  exact ⟨rfl, rfl⟩

/-- A pass of the loop of `idealsFromPstns` that returns appends the given
point, or else the position, of the actor. -/
theorem idealsFromPstnsStep_some (st : SMPState) (ps : List KMatrix) (g : Bool)
    (acc y : List KMatrix) (k : Nat)
    (h : SMPState.idealsFromPstnsStep st ps g acc k = some y) :
    ∃ p, (if g = true then ps else st.pstns)[k]? = some p ∧ y = acc ++ [p] := by
  cases g with
  | true =>
    simp only [SMPState.idealsFromPstnsStep, if_true, Option.bind_eq_bind,
      Option.bind_eq_some, Option.pure_def, Option.some.injEq] at h
    obtain ⟨p, hp, hy⟩ := h
    exact ⟨p, by simpa using hp, hy.symm⟩
  | false =>
    simp only [SMPState.idealsFromPstnsStep, Bool.false_eq_true, if_false,
      Option.bind_eq_bind, Option.bind_eq_some, Option.pure_def, Option.some.injEq] at h
    obtain ⟨p, hp, hy⟩ := h
    exact ⟨p, by simpa using hp, hy.symm⟩

/-- What `idealsFromPstns` checks and returns: the given points if there are as
many as actors, else the positions. -/
theorem idealsFromPstns_some (c : Consts) (st st1 : SMPState) (ps : List KMatrix)
    (h : SMPState.idealsFromPstns c st ps = some st1) :
    st1 = { st with ideals :=
        (if st.numAct = ps.length then ps else st.pstns).take st.numAct } ∧
      st.numAct ≤ (if st.numAct = ps.length then ps else st.pstns).length ∧
      c.minNumActor ≤ st.numAct ∧ st.numAct ≤ c.maxNumActor := by
  simp only [SMPState.idealsFromPstns, Option.bind_eq_bind, Option.bind_eq_some,
    assertThat_eq_some, Option.pure_def, Option.some.injEq] at h
  obtain ⟨_, h1, _, h2, _, _, ideals, hfold, hst⟩ := h
  have hP := foldlM_range_post
    (SMPState.idealsFromPstnsStep st ps (decide (st.numAct = ps.length)))
    (fun k a => a = (if st.numAct = ps.length then ps else st.pstns).take k ∧
      k ≤ (if st.numAct = ps.length then ps else st.pstns).length)
    st.numAct [] ideals hfold (by simp) (by
      intro k x y _ hPk hy
      obtain ⟨hx, _⟩ := hPk
      obtain ⟨p, hp, hy⟩ := idealsFromPstnsStep_some st ps _ x y k hy
      simp only [decide_eq_true_eq] at hp
      obtain ⟨hk, _⟩ := List.getElem?_eq_some_iff.mp hp
      refine ⟨?_, hk⟩
      rw [hy, hx, List.take_succ, hp]
      rfl)
  exact ⟨by rw [← hst, hP.1], hP.2, h1, h2⟩

/-- Every position that the actor loop of `initModel` adds is a
`numDim × 1` vector. -/
theorem initModel_loop_shapes (aName aDesc : List String) (nd numDim : Nat)
    (cap pos sal : KMatrix) (n : Nat) (r : List SMPActor × List KMatrix)
    (h : (List.range n).foldlM (SMPModel.initModelActor aName aDesc nd numDim cap pos sal)
      ([], []) = some r) :
    ∀ p ∈ r.2, p.numR = numDim ∧ p.numC = 1 := by
  refine foldlM_range_post _ (fun _ a => ∀ p ∈ a.2, p.numR = numDim ∧ p.numC = 1) n _ r h
    (by simp) ?_
  intro k x y _ hPk hy
  simp only [SMPModel.initModelActor, Option.bind_eq_bind, Option.bind_eq_some,
    assertThat_eq_some, Option.pure_def, Option.some.injEq] at hy
  obtain ⟨_, _, _, _, q, _, _, hC, _, hR, hy⟩ := hy
  rw [← hy]
  intro p hp
  rcases List.mem_append.mp hp with hp | hp
  · exact hPk p hp
  · rw [List.mem_singleton.mp hp]
    exact ⟨hR.symm, hC.symm⟩

/-- The weighted sum that the loop over `j` of `newIdeals` returns is a
`numDim × 1` vector. -/
theorem newIdealsInner_shape (st : SMPState) (identP : Bool) (tol : ℚ) (i n : Nat)
    (r : ℚ × KMatrix)
    (h : (List.range n).foldlM (SMPState.newIdealsInner st identP tol i)
      (0, KMatrix.zeros st.numDim 1) = some r) :
    r.2.numR = st.numDim ∧ r.2.numC = 1 := by
  refine foldlM_range_post _ (fun _ a => a.2.numR = st.numDim ∧ a.2.numC = 1) n _ r h
    ⟨rfl, rfl⟩ ?_
  intro k x y _ hPk hy
  simp only [SMPState.newIdealsInner, Option.bind_eq_bind, Option.bind_eq_some,
    Option.pure_def, Option.some.injEq] at hy
  obtain ⟨_, _, _, _, _, _, _, _, newIP, hadd, hrest⟩ := hy
  obtain ⟨hR, hC⟩ := add_shape _ _ _ hadd
  have hy2 : y.2 = newIP := by
    split_ifs at hrest
    · simp only [Option.bind_eq_some, Option.some.injEq] at hrest
      obtain ⟨_, _, hrest⟩ := hrest
      rw [← hrest]
    · simp only [Option.some_bind, Option.some.injEq] at hrest
      rw [← hrest]
  rw [hy2]
  exact ⟨hR.trans hPk.1, hC.trans hPk.2⟩

/-- The list that the loop over `i` of `newIdeals` returns holds one
`numDim × 1` vector per pass. -/
theorem newIdealsOuter_shape (st : SMPState) (identP : Bool) (tol : ℚ) (n : Nat)
    (l : List KMatrix)
    (h : (List.range n).foldlM (SMPState.newIdealsOuter st identP tol) [] = some l) :
    l.length = n ∧ ∀ q ∈ l, q.numR = st.numDim ∧ q.numC = 1 := by
  refine foldlM_range_post _
    (fun k a => a.length = k ∧ ∀ q ∈ a, q.numR = st.numDim ∧ q.numC = 1) n _ l h
    (by simp) ?_
  intro k x y _ hPk hy
  simp only [SMPState.newIdealsOuter, Option.bind_eq_bind, Option.bind_eq_some,
    Option.pure_def, Option.some.injEq] at hy
  obtain ⟨pI, _, r, hr, _, _, _, _, hrest⟩ := hy
  obtain ⟨hrR, hrC⟩ := newIdealsInner_shape st identP tol k st.numAct r hr
  have hy2 : ∃ newIP, (newIP.numR = r.2.numR ∧ newIP.numC = r.2.numC) ∧ y = x ++ [newIP] := by
    cases hI : identP with
    | false =>
      simp only [hI, Bool.false_eq_true, if_false, Option.some_bind, Option.bind_eq_some,
        Option.some.injEq] at hrest
      obtain ⟨_, _, newIP, hadd, hy⟩ := hrest
      exact ⟨newIP, add_shape _ _ _ hadd, hy.symm⟩
    | true =>
      simp only [hI, if_true, Option.bind_eq_some, Option.some.injEq] at hrest
      obtain ⟨_, _, _, _, newIP, hadd, _, _, _, _, hy⟩ := hrest
      exact ⟨newIP, add_shape _ _ _ hadd, hy.symm⟩
  obtain ⟨newIP, ⟨hR, hC⟩, hy⟩ := hy2
  rw [hy]
  refine ⟨by simp [hPk.1], ?_⟩
  intro q hq
  rcases List.mem_append.mp hq with hq | hq
  · exact hPk.2 q hq
  · rw [List.mem_singleton.mp hq]
    exact ⟨hR.trans hrR, hC.trans hrC⟩

/-- A returning call of `newIdeals` replaces the ideal points by the list its
loop over the actors built, and changes nothing else. -/
theorem newIdeals_some (c : Consts) (st st1 : SMPState)
    (h : SMPState.newIdeals c st = some st1) :
    ∃ identP nIdeals,
      (List.range st.numAct).foldlM (SMPState.newIdealsOuter st identP (1 / 10 ^ 10)) [] =
        some nIdeals ∧ st1 = { st with ideals := nIdeals } := by
  simp only [SMPState.newIdeals, Option.bind_eq_bind, Option.bind_eq_some,
    Option.pure_def, Option.some.injEq] at h
  obtain ⟨_, _, _, _, _, _, _, _, _, _, dA, _, nIdeals, hfold, hrest⟩ := h
  refine ⟨_, nIdeals, hfold, ?_⟩
  split_ifs at hrest
  · simp only [Option.bind_eq_some, Option.some.injEq] at hrest
    obtain ⟨_, _, _, _, hst⟩ := hrest
    exact hst.symm
  · simp only [Option.some_bind, Option.some.injEq] at hrest
    exact hrest.symm

/-- A returning call of `idealsFromPstns`, on a state whose positions and
accommodation matrix have the right shapes and with given points that are
`numDim × 1` vectors, leaves a well-formed state. -/
theorem idealsFromPstns_wellFormed (c : Consts) (st st1 : SMPState) (ps : List KMatrix)
    (hlen : st.pstns.length = st.numAct)
    (hshape : ∀ p ∈ st.pstns, p.numR = st.numDim ∧ p.numC = 1)
    (hR : st.accomodate.numR = st.numAct) (hC : st.accomodate.numC = st.numAct)
    (hps : ∀ p ∈ ps, p.numR = st.numDim ∧ p.numC = 1)
    (h : SMPState.idealsFromPstns c st ps = some st1) :
    WellFormed c st1 ∧ st1.numAct = st.numAct ∧ st1.numDim = st.numDim ∧
      st1.pstns = st.pstns ∧ st1.accomodate = st.accomodate := by
  obtain ⟨hst, hle, hmin, hmax⟩ := idealsFromPstns_some c st st1 ps h
  subst hst
  refine ⟨⟨hmin, hmax, hR, hC, hlen, ?_, hshape, ?_⟩, rfl, rfl, rfl, rfl⟩
  · simp only [List.length_take]
    exact min_eq_left hle
  · intro q hq
    have hq2 := List.mem_of_mem_take hq
    split_ifs at hq2
    · exact hps q hq2
    · exact hshape q hq2

/-- A returning call of `newIdeals` on a well-formed state leaves a
well-formed state. -/
theorem newIdeals_wellFormed (c : Consts) (st st1 : SMPState) (hwf : WellFormed c st)
    (h : SMPState.newIdeals c st = some st1) :
    WellFormed c st1 ∧ st1.numAct = st.numAct ∧ st1.numDim = st.numDim ∧
      st1.pstns = st.pstns ∧ st1.accomodate = st.accomodate := by
  obtain ⟨hmin, hmax, hR, hC, hlen, _, hshape, _⟩ := hwf
  obtain ⟨identP, nIdeals, hfold, hst⟩ := newIdeals_some c st st1 h
  obtain ⟨hl, hsh⟩ := newIdealsOuter_shape st identP _ st.numAct nIdeals hfold
  subst hst
  exact ⟨⟨hmin, hmax, hR, hC, hlen, hl, hshape, hsh⟩, rfl, rfl, rfl, rfl⟩

/-- The initial state that `initModel` returns is well formed. -/
theorem initModel_wellFormed (c : Consts) (aName aDesc dName : List String)
    (cap pos sal accM : KMatrix) (s : Nat) (f : List Bool) (md : SMPModelData)
    (h : SMPModel.initModel c aName aDesc dName cap pos sal accM s f = some md) :
    ∃ st0, md.history = [st0] ∧ WellFormed c st0 ∧ st0.numAct = aName.length ∧
      st0.numDim = dName.length ∧ st0.accomodate = accM := by
  simp only [SMPModel.initModel, Option.bind_eq_bind, Option.bind_eq_some,
    Option.pure_def, Option.some.injEq] at h
  obtain ⟨_, _, r, hr, st1, h1, st2, h2, hmd⟩ := h
  obtain ⟨hl1, hl2⟩ := initModel_loop_lengths _ _ _ _ _ _ _ _ r hr
  have hsh := initModel_loop_shapes _ _ _ _ _ _ _ _ r hr
  obtain ⟨hst1, _, _, hR, hC⟩ := setAccomodate_eq_some _ _ _ _ h1
  subst hst1
  obtain ⟨hwf, hna, hnd, _, hacc⟩ := idealsFromPstns_wellFormed c _ st2 []
    (by simp [hl1, hl2]) hsh hR.symm hC.symm (by simp) h2
  exact ⟨st2, by rw [← hmd], hwf, by rw [hna]; exact hl1, by rw [hnd], by rw [hacc]⟩

/-- C13, as stated, fails for `idealsFromPstns`: it stores given points without
looking at their shape.  On a well-formed state of three actors in one
dimension, given the three points `(0)`, `(0, 0)`, `(0)`, it returns a state
whose second ideal point is a `2 × 1` vector, which is not well formed. -/
theorem C13_given_points_unchecked :
    WellFormed exConsts identState ∧
    ∃ st1, SMPState.idealsFromPstns exConsts identState
        [colVec [0], colVec [0, 0], colVec [0]] = some st1 ∧
      st1.ideals = [colVec [0], colVec [0, 0], colVec [0]] ∧
      (colVec [0, 0]).numR ≠ st1.numDim ∧ ¬ WellFormed exConsts st1 := by
  refine ⟨identState_wellFormed, ?_⟩
  have h : SMPState.idealsFromPstns exConsts identState
      [colVec [0], colVec [0, 0], colVec [0]] =
      some { identState with ideals := [colVec [0], colVec [0, 0], colVec [0]] } := by
    simp [SMPState.idealsFromPstns, SMPState.idealsFromPstnsStep, assertThat, identState,
      exConsts, List.range_succ]
  refine ⟨_, h, rfl, by simp [colVec, identState], ?_⟩
  intro hwf
  have h2 := hwf.2.2.2.2.2.2.2 (colVec [0, 0]) (by simp)
  simp [colVec, identState] at h2

/-- C13, amended: after a successful `initModel` with `na` actor names and `nd`
dimension names the initial state is well formed: it has `na` positions and
`na` ideal points, `numAct = na`, an `na × na` accommodation matrix, and every
position and ideal point is an `nd × 1` vector.  A returning `newIdeals` keeps
a well-formed state well formed, and so does a returning `idealsFromPstns`
when it is called without points or with points that are all `numDim × 1`
vectors. -/
theorem C13_shape_invariant (c : Consts) (aName aDesc dName : List String)
    (cap pos sal accM : KMatrix) (s : Nat) (f : List Bool) (md : SMPModelData)
    (h : SMPModel.initModel c aName aDesc dName cap pos sal accM s f = some md) :
    (∃ st0, md.history = [st0] ∧ st0.numAct = aName.length ∧
      st0.pstns.length = aName.length ∧ st0.ideals.length = aName.length ∧
      st0.accomodate.numR = aName.length ∧ st0.accomodate.numC = aName.length ∧
      (∀ p ∈ st0.pstns, p.numR = dName.length ∧ p.numC = 1) ∧
      (∀ q ∈ st0.ideals, q.numR = dName.length ∧ q.numC = 1) ∧ WellFormed c st0) ∧
    (∀ st st1, WellFormed c st → SMPState.newIdeals c st = some st1 →
      WellFormed c st1 ∧ st1.numAct = st.numAct ∧ st1.numDim = st.numDim) ∧
    (∀ st ps st1, WellFormed c st → (∀ p ∈ ps, p.numR = st.numDim ∧ p.numC = 1) →
      SMPState.idealsFromPstns c st ps = some st1 →
      WellFormed c st1 ∧ st1.numAct = st.numAct ∧ st1.numDim = st.numDim) := by
  refine ⟨?_, ?_, ?_⟩
  · obtain ⟨st0, hh, hwf, hna, hnd, _⟩ := initModel_wellFormed c _ _ _ _ _ _ _ _ _ md h
    have hwf2 := hwf
    obtain ⟨_, _, hR, hC, hlen, hlen2, hshape, hshape2⟩ := hwf2
    exact ⟨st0, hh, hna, by rw [hlen, hna], by rw [hlen2, hna], by rw [hR, hna],
      by rw [hC, hna], by rw [← hnd]; exact hshape, by rw [← hnd]; exact hshape2, hwf⟩
  · intro st st1 hwf hn
    obtain ⟨h1, h2, h3, _⟩ := newIdeals_wellFormed c st st1 hwf hn
    exact ⟨h1, h2, h3⟩
  · intro st ps st1 hwf hps hi
    obtain ⟨_, _, hR, hC, hlen, _, hshape, _⟩ := hwf
    obtain ⟨h1, h2, h3, _⟩ := idealsFromPstns_wellFormed c st st1 ps hlen hshape hR hC hps hi
    exact ⟨h1, h2, h3⟩

/-- Witness for C13: scenario A of the spec, with 3 actors and 1 dimension. -/
theorem C13_shape_invariant_witness :
    ∃ md, scenarioA = some md ∧
    (∃ st0, md.history = [st0] ∧ st0.numAct = 3 ∧
      st0.pstns.length = 3 ∧ st0.ideals.length = 3 ∧
      st0.accomodate.numR = 3 ∧ st0.accomodate.numC = 3 ∧
      (∀ p ∈ st0.pstns, p.numR = 1 ∧ p.numC = 1) ∧
      (∀ q ∈ st0.ideals, q.numR = 1 ∧ q.numC = 1) ∧ WellFormed exConsts st0) ∧
    (∀ st st1, WellFormed exConsts st → SMPState.newIdeals exConsts st = some st1 →
      WellFormed exConsts st1 ∧ st1.numAct = st.numAct ∧ st1.numDim = st.numDim) ∧
    (∀ st ps st1, WellFormed exConsts st → (∀ p ∈ ps, p.numR = st.numDim ∧ p.numC = 1) →
      SMPState.idealsFromPstns exConsts st ps = some st1 →
      WellFormed exConsts st1 ∧ st1.numAct = st.numAct ∧ st1.numDim = st.numDim) := by
  obtain ⟨md, hmd⟩ := Option.isSome_iff_exists.mp scenarioA_accepted
  exact ⟨md, hmd, C13_shape_invariant exConsts _ _ _ _ _ _ _ _ _ md hmd⟩

/-! ### What scenario construction checks -/

/-- A bounds-checked read returns exactly when the indices are in range. -/
theorem get?_eq_some (m : KMatrix) (i j : Nat) (v : ℚ) (h : m.get? i j = some v) :
    i < m.numR ∧ j < m.numC := by
  unfold KMatrix.get? at h
  split_ifs at h with hc
  exact hc

/-- The dimension loop of `initModel`, when it returns, has read a salience and
a coordinate for every dimension. -/
theorem initModelDim_loop_bounds (pos sal : KMatrix) (i nd : Nat) (a0 r : KMatrix × KMatrix)
    (h : (List.range nd).foldlM (SMPModel.initModelDim pos sal i) a0 = some r) :
    ∀ j, j < nd → (i < sal.numR ∧ j < sal.numC) ∧ (i < pos.numR ∧ j < pos.numC) := by
  refine foldlM_range_post _
    (fun k _ => ∀ j, j < k → (i < sal.numR ∧ j < sal.numC) ∧ (i < pos.numR ∧ j < pos.numC))
    nd a0 r h (fun j hj => absurd hj (Nat.not_lt_zero j)) ?_
  intro k x y _ hPk hy j hj
  simp only [SMPModel.initModelDim, Option.bind_eq_bind, Option.bind_eq_some,
    Option.pure_def, Option.some.injEq] at hy
  obtain ⟨_, hs, _, _, _, hp, _⟩ := hy
  rcases Nat.lt_succ_iff_lt_or_eq.mp hj with hlt | heq
  · exact hPk j hlt
  · rw [heq]
    exact ⟨get?_eq_some _ _ _ _ hs, get?_eq_some _ _ _ _ hp⟩

/-- The dimension loop of `initModel` returns two `nd × 1` vectors when every
salience and coordinate it reads exists. -/
theorem initModelDim_loop_ok (pos sal : KMatrix) (i nd : Nat)
    (hb : ∀ j, j < nd → (i < sal.numR ∧ j < sal.numC) ∧ (i < pos.numR ∧ j < pos.numC)) :
    ∃ r, (List.range nd).foldlM (SMPModel.initModelDim pos sal i)
        (KMatrix.zeros nd 1, KMatrix.zeros nd 1) = some r ∧
      (r.1.numR = nd ∧ r.1.numC = 1) ∧ (r.2.numR = nd ∧ r.2.numC = 1) := by
  refine foldlM_range_inv (SMPModel.initModelDim pos sal i)
    (fun _ a => (a.1.numR = nd ∧ a.1.numC = 1) ∧ (a.2.numR = nd ∧ a.2.numC = 1))
    nd _ ⟨⟨rfl, rfl⟩, ⟨rfl, rfl⟩⟩ ?_
  intro k a hk hPk
  obtain ⟨⟨h1R, h1C⟩, ⟨h2R, h2C⟩⟩ := hPk
  obtain ⟨hs, hp⟩ := hb k hk
  refine ⟨(⟨a.1.numR, a.1.numC, fun x y => if x = k ∧ y = 0 then sal.val i k else a.1.val x y⟩,
    ⟨a.2.numR, a.2.numC, fun x y => if x = k ∧ y = 0 then pos.val i k else a.2.val x y⟩),
    ?_, ⟨h1R, h1C⟩, ⟨h2R, h2C⟩⟩
  simp [SMPModel.initModelDim, KMatrix.get?, KMatrix.set?, hs, hp, h1R, h1C, h2R, h2C, hk]

/-- The actor loop of `initModel`, when it returns, has read a capability and
all saliences and coordinates of every actor. -/
theorem initModel_loop_bounds (aName aDesc : List String) (nd numDim : Nat)
    (cap pos sal : KMatrix) (n : Nat) (r : List SMPActor × List KMatrix)
    (h : (List.range n).foldlM (SMPModel.initModelActor aName aDesc nd numDim cap pos sal)
      ([], []) = some r) :
    ∀ i, i < n → (i < cap.numR ∧ 0 < cap.numC) ∧
      ∀ j, j < nd → (i < sal.numR ∧ j < sal.numC) ∧ (i < pos.numR ∧ j < pos.numC) := by
  refine foldlM_range_post _
    (fun k _ => ∀ i, i < k → (i < cap.numR ∧ 0 < cap.numC) ∧
      ∀ j, j < nd → (i < sal.numR ∧ j < sal.numC) ∧ (i < pos.numR ∧ j < pos.numC))
    n _ r h (fun i hi => absurd hi (Nat.not_lt_zero i)) ?_
  intro k x y _ hPk hy i hi
  simp only [SMPModel.initModelActor, Option.bind_eq_bind, Option.bind_eq_some,
    Option.pure_def, Option.some.injEq] at hy
  obtain ⟨_, _, _, hc, q, hq, _⟩ := hy
  rcases Nat.lt_succ_iff_lt_or_eq.mp hi with hlt | heq
  · exact hPk i hlt
  · rw [heq]
    exact ⟨get?_eq_some _ _ _ _ hc, initModelDim_loop_bounds pos sal k nd _ q hq⟩

/-- The actor loop of `initModel` returns one actor and one position per
name when everything it reads exists. -/
theorem initModel_loop_ok (aName aDesc : List String) (nd : Nat) (cap pos sal : KMatrix)
    (hb : ∀ i, i < aName.length → (i < cap.numR ∧ 0 < cap.numC) ∧
      ∀ j, j < nd → (i < sal.numR ∧ j < sal.numC) ∧ (i < pos.numR ∧ j < pos.numC)) :
    ∃ r, (List.range aName.length).foldlM
        (SMPModel.initModelActor aName aDesc nd nd cap pos sal) ([], []) = some r ∧
      r.1.length = aName.length ∧ r.2.length = aName.length := by
  refine foldlM_range_inv (SMPModel.initModelActor aName aDesc nd nd cap pos sal)
    (fun k a => a.1.length = k ∧ a.2.length = k) aName.length _ ⟨rfl, rfl⟩ ?_
  intro k a hk hPk
  obtain ⟨hc, hj⟩ := hb k hk
  obtain ⟨q, hq, ⟨_, _⟩, ⟨hR, hC⟩⟩ := initModelDim_loop_ok pos sal k nd hj
  refine ⟨(a.1 ++ [⟨aName[k], aDesc.getD k "", cap.val k 0, q.1⟩], a.2 ++ [q.2]), ?_,
    by simp [hPk.1], by simp [hPk.2]⟩
  simp [SMPModel.initModelActor, List.getElem?_eq_getElem hk,
    KMatrix.get?, hc, hq, assertThat, hR, hC]

/-- Called without given points on a state with as many positions as actors,
a number within the limits, `idealsFromPstns` returns. -/
theorem idealsFromPstns_nil_ok (c : Consts) (st : SMPState)
    (hmin : c.minNumActor ≤ st.numAct) (hmax : st.numAct ≤ c.maxNumActor)
    (hlen : st.pstns.length = st.numAct) :
    (SMPState.idealsFromPstns c st []).isSome = true := by
  obtain ⟨a, ha, -⟩ := foldlM_range_inv
    (SMPState.idealsFromPstnsStep st [] (decide (st.numAct = ([] : List KMatrix).length)))
    (fun _ _ => True) st.numAct [] trivial (by
      intro k a hk _
      have hne : st.numAct ≠ 0 := by omega
      have hk2 : k < st.pstns.length := hlen ▸ hk
      exact ⟨a ++ [st.pstns[k]], by
        simp [SMPState.idealsFromPstnsStep, hne, List.getElem?_eq_getElem hk2], trivial⟩)
  simp only [List.length_nil] at ha
  simp [SMPState.idealsFromPstns, assertThat, hmin, hmax, ha]

/-- Exactly the scenarios of consistent sizes are accepted by `initModel`. -/
theorem initModel_isSome_iff (c : Consts) (aName aDesc dName : List String)
    (cap pos sal accM : KMatrix) (s : Nat) (f : List Bool) :
    (SMPModel.initModel c aName aDesc dName cap pos sal accM s f).isSome = true ↔
      SizesOk c aName dName cap pos sal accM f := by
  constructor
  · intro h
    obtain ⟨md, hmd⟩ := Option.isSome_iff_exists.mp h
    simp only [SMPModel.initModel, Option.bind_eq_bind, Option.bind_eq_some,
      assertThat_eq_some, Option.pure_def, Option.some.injEq] at hmd
    obtain ⟨_, hf, r, hr, st1, h1, _⟩ := hmd
    obtain ⟨hl1, _⟩ := initModel_loop_lengths _ _ _ _ _ _ _ _ r hr
    have hb := initModel_loop_bounds _ _ _ _ _ _ _ _ r hr
    obtain ⟨_, hmin, hmax, hR, hC⟩ := setAccomodate_eq_some _ _ _ _ h1
    simp only [hl1] at hmin hmax hR hC
    exact ⟨hf, hb, hmin, hmax, hR, hC⟩
  · rintro ⟨hf, hb, hmin, hmax, hR, hC⟩
    obtain ⟨r, hr, hl1, hl2⟩ := initModel_loop_ok aName aDesc dName.length cap pos sal hb
    have hset : SMPState.setAccomodate c
        ⟨r.1.length, dName.length, r.2, [], KMatrix.zeros 0 0⟩ accM =
        some ⟨r.1.length, dName.length, r.2, [], accM⟩ := by
      simp [SMPState.setAccomodate, assertThat, hl1, hmin, hmax, hR.symm, hC.symm]
    have hid := idealsFromPstns_nil_ok c ⟨r.1.length, dName.length, r.2, [], accM⟩
      (by simpa [hl1] using hmin) (by simpa [hl1] using hmax) (by simp [hl1, hl2])
    obtain ⟨st2, hst2⟩ := Option.isSome_iff_exists.mp hid
    simp [SMPModel.initModel, assertThat, hf, hr, hset, hst2]

/-- A pass of the loop over `j` of `newIdeals` that returns has found the
entry in `[0,1]` and the partial row sum at most `1 + tol`. -/
theorem newIdealsInner_some (st : SMPState) (identP : Bool) (tol : ℚ) (i k : Nat)
    (x y : ℚ × KMatrix) (h : SMPState.newIdealsInner st identP tol i x k = some y) :
    (0 ≤ st.accomodate.val i k ∧ st.accomodate.val i k ≤ 1) ∧
      x.1 + st.accomodate.val i k ≤ 1 + tol ∧ y.1 = x.1 + st.accomodate.val i k := by
  simp only [SMPState.newIdealsInner, Option.bind_eq_bind, Option.bind_eq_some,
    assertThat_eq_some, Option.pure_def, Option.some.injEq] at h
  obtain ⟨_, h0, _, h1, _, hs, _, _, newIP, _, hrest⟩ := h
  refine ⟨⟨h0, h1⟩, hs, ?_⟩
  split_ifs at hrest
  · simp only [Option.bind_eq_some, Option.some.injEq] at hrest
    obtain ⟨_, _, hrest⟩ := hrest
    rw [← hrest]
  · simp only [Option.some_bind, Option.some.injEq] at hrest
    rw [← hrest]

/-- The loop over `j` of `newIdeals`, when it returns, has found every entry
of the row in `[0,1]` and every partial row sum at most `1 + tol`. -/
theorem newIdealsInner_loop_checks (st : SMPState) (identP : Bool) (tol : ℚ) (i n : Nat)
    (r : ℚ × KMatrix)
    (h : (List.range n).foldlM (SMPState.newIdealsInner st identP tol i)
      (0, KMatrix.zeros st.numDim 1) = some r) :
    (∀ j, j < n → 0 ≤ st.accomodate.val i j ∧ st.accomodate.val i j ≤ 1) ∧
      ∀ k, 1 ≤ k → k ≤ n → ∑ j in Finset.range k, st.accomodate.val i j ≤ 1 + tol := by
  have hP := foldlM_range_post (SMPState.newIdealsInner st identP tol i)
    (fun k a => a.1 = ∑ j in Finset.range k, st.accomodate.val i j ∧
      (∀ j, j < k → 0 ≤ st.accomodate.val i j ∧ st.accomodate.val i j ≤ 1) ∧
      ∀ m, 1 ≤ m → m ≤ k → ∑ j in Finset.range m, st.accomodate.val i j ≤ 1 + tol)
    n _ r h
    ⟨by simp, fun j hj => absurd hj (Nat.not_lt_zero j), fun m h1 h0 => by omega⟩ (by
      intro k x y _ hPk hy
      obtain ⟨hx, hent, hsum⟩ := hPk
      obtain ⟨he, hs, hy1⟩ := newIdealsInner_some st identP tol i k x y hy
      refine ⟨by rw [hy1, hx, Finset.sum_range_succ], ?_, ?_⟩
      · intro j hj
        rcases Nat.lt_succ_iff_lt_or_eq.mp hj with hlt | heq
        · exact hent j hlt
        · rw [heq]; exact he
      · intro m hm1 hm
        rcases Nat.lt_succ_iff_lt_or_eq.mp (Nat.lt_succ_of_le hm) with hlt | heq
        · exact hsum m hm1 (Nat.lt_succ_iff.mp hlt)
        · rw [heq, Finset.sum_range_succ, ← hx]
          exact hs)
  exact ⟨hP.2.1, hP.2.2⟩

/-- The loop over `i` of `newIdeals`, when it returns, has run the loop over
`j` to its end for every row. -/
theorem newIdealsOuter_loop_rows (st : SMPState) (identP : Bool) (tol : ℚ) (n : Nat)
    (l : List KMatrix)
    (h : (List.range n).foldlM (SMPState.newIdealsOuter st identP tol) [] = some l) :
    ∀ i, i < n → ∃ r, (List.range st.numAct).foldlM (SMPState.newIdealsInner st identP tol i)
      (0, KMatrix.zeros st.numDim 1) = some r := by
  refine foldlM_range_post (SMPState.newIdealsOuter st identP tol)
    (fun k _ => ∀ i, i < k → ∃ r, (List.range st.numAct).foldlM
      (SMPState.newIdealsInner st identP tol i) (0, KMatrix.zeros st.numDim 1) = some r)
    n _ l h (fun i hi => absurd hi (Nat.not_lt_zero i)) ?_
  intro k x y _ hPk hy i hi
  simp only [SMPState.newIdealsOuter, Option.bind_eq_bind, Option.bind_eq_some] at hy
  obtain ⟨_, _, r, hr, _⟩ := hy
  rcases Nat.lt_succ_iff_lt_or_eq.mp hi with hlt | heq
  · exact hPk i hlt
  · rw [heq]
    exact ⟨r, hr⟩

/-- A returning call of `newIdeals` has found every accommodation entry in
`[0,1]` and every partial row sum at most `1 + 1E-10`. -/
theorem newIdeals_some_checks (c : Consts) (st st1 : SMPState)
    (h : SMPState.newIdeals c st = some st1) :
    (∀ i j, i < st.numAct → j < st.numAct →
      0 ≤ st.accomodate.val i j ∧ st.accomodate.val i j ≤ 1) ∧
      ∀ i, i < st.numAct → accRowSum st i ≤ 1 + 1 / 10 ^ 10 := by
  obtain ⟨identP, nIdeals, hfold, _⟩ := newIdeals_some c st st1 h
  have hrows := newIdealsOuter_loop_rows st identP _ st.numAct nIdeals hfold
  constructor
  · intro i j hi hj
    obtain ⟨r, hr⟩ := hrows i hi
    exact (newIdealsInner_loop_checks st identP _ i st.numAct r hr).1 j hj
  · intro i hi
    obtain ⟨r, hr⟩ := hrows i hi
    exact (newIdealsInner_loop_checks st identP _ i st.numAct r hr).2 st.numAct
      (by omega) le_rfl

/-- C11, as stated, fails: a scenario of the right sizes with capabilities 0
and -5, saliences -0.5 and 2, and accommodation entries 2 and -1 is accepted
by `initModel`. -/
theorem C11_bad_values_accepted :
    scenarioBad.isSome = true ∧
      ¬ (0 < (colVec [0, -5, 100]).val 0 0) ∧ ¬ (0 < (colVec [0, -5, 100]).val 1 0) ∧
      (colVec [-1 / 2, 2, 1 / 2]).val 0 0 < 0 ∧ 1 < (colVec [-1 / 2, 2, 1 / 2]).val 1 0 ∧
      1 < (ofRows [[2, 2, 2], [-1, 0, 0], [0, 0, 0]]).val 0 0 ∧
      (ofRows [[2, 2, 2], [-1, 0, 0], [0, 0, 0]]).val 1 0 < 0 := by
  refine ⟨by decide, ?_, ?_, ?_, ?_, ?_, ?_⟩ <;> norm_num [colVec, ofRows]

/-- C11, amended: on a scenario with a description for every actor name (the
descriptions are read unchecked and are the one size `initModel` does not
test), `initModel` (with `setAccomodate`) accepts the scenario exactly when
its other sizes are consistent (`SizesOk`); it tests no value, so two
scenarios of the same sizes are both accepted or both rejected, whatever their
capabilities, saliences and accommodation entries.  An accommodation matrix
with an entry outside `[0,1]` or a row sum above `1 + 1E-10` is rejected later,
by `newIdeals`. -/
theorem C11_initModel_checks_sizes (c : Consts) (aName aDesc dName : List String)
    (cap pos sal accM : KMatrix) (s : Nat) (f : List Bool)
    (_hdesc : aName.length ≤ aDesc.length) :
    ((SMPModel.initModel c aName aDesc dName cap pos sal accM s f).isSome = true ↔
      SizesOk c aName dName cap pos sal accM f) ∧
    (∀ cap2 pos2 sal2 accM2 : KMatrix,
      (cap2.numR = cap.numR ∧ cap2.numC = cap.numC) →
      (pos2.numR = pos.numR ∧ pos2.numC = pos.numC) →
      (sal2.numR = sal.numR ∧ sal2.numC = sal.numC) →
      (accM2.numR = accM.numR ∧ accM2.numC = accM.numC) →
      ((SMPModel.initModel c aName aDesc dName cap2 pos2 sal2 accM2 s f).isSome = true ↔
        (SMPModel.initModel c aName aDesc dName cap pos sal accM s f).isSome = true)) ∧
    (∀ st : SMPState,
      (∃ i j, i < st.numAct ∧ j < st.numAct ∧
        (st.accomodate.val i j < 0 ∨ 1 < st.accomodate.val i j)) →
      SMPState.newIdeals c st = none) ∧
    (∀ st : SMPState, (∃ i, i < st.numAct ∧ 1 + 1 / 10 ^ 10 < accRowSum st i) →
      SMPState.newIdeals c st = none) := by
  refine ⟨initModel_isSome_iff c aName aDesc dName cap pos sal accM s f, ?_, ?_, ?_⟩
  · intro cap2 pos2 sal2 accM2 hc hp hs ha
    rw [initModel_isSome_iff, initModel_isSome_iff]
    simp only [SizesOk, hc.1, hc.2, hp.1, hp.2, hs.1, hs.2, ha.1, ha.2]
  · rintro st ⟨i, j, hi, hj, hbad⟩
    rw [Option.eq_none_iff_forall_not_mem]
    intro st1 hst1
    have hch := (newIdeals_some_checks c st st1 hst1).1 i j hi hj
    rcases hbad with hb | hb
    · linarith [hch.1]
    · linarith [hch.2]
  · rintro st ⟨i, hi, hbad⟩
    rw [Option.eq_none_iff_forall_not_mem]
    intro st1 hst1
    have hch := (newIdeals_some_checks c st st1 hst1).2 i hi
    linarith

/-- Witness for the amended C11: the sizes of scenario A of the spec, three
names with three descriptions; the scenario is accepted, and so is every
scenario of these sizes. -/
theorem C11_initModel_checks_sizes_witness :
    (SMPModel.initModel exConsts ["A0", "A1", "A2"] ["", "", ""] ["D0"]
        (colVec [100, 100, 100]) (colVec [1 / 5, 1 / 2, 4 / 5]) (colVec [1 / 2, 1 / 2, 1 / 2])
        (KMatrix.iMat 3) 0 []).isSome = true ∧
    (SMPModel.initModel exConsts ["A0", "A1", "A2"] ["", "", ""] ["D0"]
        (colVec [0, -5, 100]) (colVec [1 / 5, 1 / 2, 4 / 5]) (colVec [-1 / 2, 2, 1 / 2])
        (ofRows [[2, 2, 2], [-1, 0, 0], [0, 0, 0]]) 0 []).isSome = true := by
  have h := C11_initModel_checks_sizes exConsts ["A0", "A1", "A2"] ["", "", ""] ["D0"]
    (colVec [100, 100, 100]) (colVec [1 / 5, 1 / 2, 4 / 5]) (colVec [1 / 2, 1 / 2, 1 / 2])
    (KMatrix.iMat 3) 0 [] (le_refl 3)
  have hA : (SMPModel.initModel exConsts ["A0", "A1", "A2"] ["", "", ""] ["D0"]
      (colVec [100, 100, 100]) (colVec [1 / 5, 1 / 2, 4 / 5]) (colVec [1 / 2, 1 / 2, 1 / 2])
      (KMatrix.iMat 3) 0 []).isSome = true := scenarioA_accepted
  exact ⟨hA, (h.2.1 (colVec [0, -5, 100]) (colVec [1 / 5, 1 / 2, 4 / 5])
    (colVec [-1 / 2, 2, 1 / 2]) (ofRows [[2, 2, 2], [-1, 0, 0], [0, 0, 0]])
    ⟨rfl, rfl⟩ ⟨rfl, rfl⟩ ⟨rfl, rfl⟩ ⟨rfl, rfl⟩).mpr hA⟩

/-! ### Symmetry and shift fractions of the bargain interpolation -/

/-- C26, as stated, fails for `interpBrgnSnPm`: with both coordinates
`0.03125`, the first actor at salience `0.125` and probability `0.125` and the
second at `0.375` and `0.875`, the outputs are the doubles `(0.0313, 0.0312)`;
with the two actors exchanged they are `(0.0313, 0.0313)`, not
`(0.0312, 0.0313)`.  The divisor is summed as `(wik + minW) + wjk`, on the
exchanged actors as `(wjk + minW) + wik`, and the two sums round to different
doubles.  The doubles are written as the rationals they denote: `0.0313` is
`4510805386774289 / 2^57` and `0.0312` is `4496393867966703 / 2^57`. -/
theorem C26_snpm_not_symmetric :
    SMPActor.interpBrgnSnPm 1 1 ((1 : ℚ) / 32) ((1 : ℚ) / 8) ((1 : ℚ) / 8) ((1 : ℚ) / 32) ((3 : ℚ) / 8) ((7 : ℚ) / 8) =
      some (((4510805386774289 : ℚ) / 144115188075855872), ((4496393867966703 : ℚ) / 144115188075855872)) ∧
    SMPActor.interpBrgnSnPm 1 1 ((1 : ℚ) / 32) ((3 : ℚ) / 8) ((7 : ℚ) / 8) ((1 : ℚ) / 32) ((1 : ℚ) / 8) ((1 : ℚ) / 8) =
      some (((4510805386774289 : ℚ) / 144115188075855872), ((4510805386774289 : ℚ) / 144115188075855872)) ∧
    SMPActor.interpBrgnSnPm 1 1 ((1 : ℚ) / 32) ((3 : ℚ) / 8) ((7 : ℚ) / 8) ((1 : ℚ) / 32) ((1 : ℚ) / 8) ((1 : ℚ) / 8) ≠
      (SMPActor.interpBrgnSnPm 1 1 ((1 : ℚ) / 32) ((1 : ℚ) / 8) ((1 : ℚ) / 8) ((1 : ℚ) / 32) ((3 : ℚ) / 8) ((7 : ℚ) / 8)).map
        Prod.swap := by
  have h1 : fl64 (((1 : ℚ) / 8) ^ 1) = some ((1 : ℚ) / 8) :=
    fl64_cert (((1 : ℚ) / 8) ^ 1) (-3) (4503599627370496) ((1 : ℚ) / 36028797018963968) ((1 : ℚ) / 8) (by norm_num) (by norm_num) (by norm_num)
      (by norm_num) (by norm_num) (by norm_num) (by norm_num) (by norm_num) (by norm_num)
  have h2 : fl64 (((1 : ℚ) / 8) * ((1 : ℚ) / 8)) = some ((1 : ℚ) / 64) :=
    fl64_cert (((1 : ℚ) / 8) * ((1 : ℚ) / 8)) (-6) (4503599627370496) ((1 : ℚ) / 288230376151711744) ((1 : ℚ) / 64) (by norm_num) (by norm_num) (by norm_num)
      (by norm_num) (by norm_num) (by norm_num) (by norm_num) (by norm_num) (by norm_num)
  have h3 : SMPActor.snpmWeight 1 1 ((1 : ℚ) / 8) ((1 : ℚ) / 8) = some ((1 : ℚ) / 64) :=
    snpmWeight_of_steps _ _ _ _ _ _ _ h1 h1 h2
  have h4 : fl64 (((3 : ℚ) / 8) ^ 1) = some ((3 : ℚ) / 8) :=
    fl64_cert (((3 : ℚ) / 8) ^ 1) (-2) (6755399441055744) ((1 : ℚ) / 18014398509481984) ((3 : ℚ) / 8) (by norm_num) (by norm_num) (by norm_num)
      (by norm_num) (by norm_num) (by norm_num) (by norm_num) (by norm_num) (by norm_num)
  have h5 : fl64 (((7 : ℚ) / 8) ^ 1) = some ((7 : ℚ) / 8) :=
    fl64_cert (((7 : ℚ) / 8) ^ 1) (-1) (7881299347898368) ((1 : ℚ) / 9007199254740992) ((7 : ℚ) / 8) (by norm_num) (by norm_num) (by norm_num)
      (by norm_num) (by norm_num) (by norm_num) (by norm_num) (by norm_num) (by norm_num)
  have h6 : fl64 (((3 : ℚ) / 8) * ((7 : ℚ) / 8)) = some ((21 : ℚ) / 64) :=
    fl64_cert (((3 : ℚ) / 8) * ((7 : ℚ) / 8)) (-2) (5910974510923776) ((1 : ℚ) / 18014398509481984) ((21 : ℚ) / 64) (by norm_num) (by norm_num) (by norm_num)
      (by norm_num) (by norm_num) (by norm_num) (by norm_num) (by norm_num) (by norm_num)
  have h7 : SMPActor.snpmWeight 1 1 ((3 : ℚ) / 8) ((7 : ℚ) / 8) = some ((21 : ℚ) / 64) :=
    snpmWeight_of_steps _ _ _ _ _ _ _ h4 h5 h6
  have h8 : fl64 ((1 : ℚ) / 10 ^ 6) = some ((4722366482869645 : ℚ) / 4722366482869645213696) :=
    fl64_cert ((1 : ℚ) / 10 ^ 6) (-20) (4722366482869645) ((1 : ℚ) / 4722366482869645213696) ((4722366482869645 : ℚ) / 4722366482869645213696) (by norm_num) (by norm_num) (by norm_num)
      (by norm_num) (by norm_num) (by norm_num) (by norm_num) (by norm_num) (by norm_num)
  have h9 : fl64 (((1 : ℚ) / 64) + ((4722366482869645 : ℚ) / 4722366482869645213696)) = some ((562985982218331 : ℚ) / 36028797018963968) :=
    fl64_cert (((1 : ℚ) / 64) + ((4722366482869645 : ℚ) / 4722366482869645213696)) (-6) (4503887857746648) ((1 : ℚ) / 288230376151711744) ((562985982218331 : ℚ) / 36028797018963968) (by norm_num) (by norm_num) (by norm_num)
      (by norm_num) (by norm_num) (by norm_num) (by norm_num) (by norm_num) (by norm_num)
  have h10 : fl64 (((562985982218331 : ℚ) / 36028797018963968) + ((21 : ℚ) / 64)) = some ((3096233751016471 : ℚ) / 9007199254740992) :=
    fl64_cert_tie (((562985982218331 : ℚ) / 36028797018963968) + ((21 : ℚ) / 64)) (-2) (6192467502032941) (6192467502032942) ((1 : ℚ) / 18014398509481984) ((3096233751016471 : ℚ) / 9007199254740992) (by norm_num) (by norm_num)
      (by norm_num) (by norm_num) (by norm_num) (by decide) (by norm_num) (by norm_num)
      (by norm_num)
  have h11 : fl64 (((562985982218331 : ℚ) / 36028797018963968) * ((1 : ℚ) / 32)) = some ((562985982218331 : ℚ) / 1152921504606846976) :=
    fl64_cert (((562985982218331 : ℚ) / 36028797018963968) * ((1 : ℚ) / 32)) (-11) (4503887857746648) ((1 : ℚ) / 9223372036854775808) ((562985982218331 : ℚ) / 1152921504606846976) (by norm_num) (by norm_num) (by norm_num)
      (by norm_num) (by norm_num) (by norm_num) (by norm_num) (by norm_num) (by norm_num)
  have h12 : fl64 (((21 : ℚ) / 64) * ((1 : ℚ) / 32)) = some ((21 : ℚ) / 2048) :=
    fl64_cert (((21 : ℚ) / 64) * ((1 : ℚ) / 32)) (-7) (5910974510923776) ((1 : ℚ) / 576460752303423488) ((21 : ℚ) / 2048) (by norm_num) (by norm_num) (by norm_num)
      (by norm_num) (by norm_num) (by norm_num) (by norm_num) (by norm_num) (by norm_num)
  have h13 : fl64 (((562985982218331 : ℚ) / 1152921504606846976) + ((21 : ℚ) / 2048)) = some ((3096233751016471 : ℚ) / 288230376151711744) :=
    fl64_cert_tie (((562985982218331 : ℚ) / 1152921504606846976) + ((21 : ℚ) / 2048)) (-7) (6192467502032941) (6192467502032942) ((1 : ℚ) / 576460752303423488) ((3096233751016471 : ℚ) / 288230376151711744) (by norm_num) (by norm_num)
      (by norm_num) (by norm_num) (by norm_num) (by decide) (by norm_num) (by norm_num)
      (by norm_num)
  have h14 : fl64 (((3096233751016471 : ℚ) / 288230376151711744) / ((3096233751016471 : ℚ) / 9007199254740992)) = some ((1 : ℚ) / 32) :=
    fl64_cert (((3096233751016471 : ℚ) / 288230376151711744) / ((3096233751016471 : ℚ) / 9007199254740992)) (-5) (4503599627370496) ((1 : ℚ) / 144115188075855872) ((1 : ℚ) / 32) (by norm_num) (by norm_num) (by norm_num)
      (by norm_num) (by norm_num) (by norm_num) (by norm_num) (by norm_num) (by norm_num)
  have h15 : SMPActor.snpmQuot ((562985982218331 : ℚ) / 36028797018963968) ((21 : ℚ) / 64) ((1 : ℚ) / 32) ((1 : ℚ) / 32) ((3096233751016471 : ℚ) / 9007199254740992) =
      some ((1 : ℚ) / 32) :=
    snpmQuot_of_steps _ _ _ _ _ _ _ _ _ h11 h12 h13 (by norm_num) h14
  have h16 : fl64 (((1 : ℚ) / 32) * 10000) = some ((625 : ℚ) / 2) :=
    fl64_cert (((1 : ℚ) / 32) * 10000) (8) (5497558138880000) ((1 : ℚ) / 17592186044416) ((625 : ℚ) / 2) (by norm_num) (by norm_num) (by norm_num)
      (by norm_num) (by norm_num) (by norm_num) (by norm_num) (by norm_num) (by norm_num)
  have h17 : fl64 (1 / 2 + ((625 : ℚ) / 2)) = some (313 : ℚ) :=
    fl64_cert (1 / 2 + ((625 : ℚ) / 2)) (8) (5506354231902208) ((1 : ℚ) / 17592186044416) (313 : ℚ) (by norm_num) (by norm_num) (by norm_num)
      (by norm_num) (by norm_num) (by norm_num) (by norm_num) (by norm_num) (by norm_num)
  have h18 : fl64 (((313 : Int) : ℚ) / 10000) = some ((4510805386774289 : ℚ) / 144115188075855872) :=
    fl64_cert (((313 : Int) : ℚ) / 10000) (-5) (4510805386774289) ((1 : ℚ) / 144115188075855872) ((4510805386774289 : ℚ) / 144115188075855872) (by norm_num) (by norm_num) (by norm_num)
      (by norm_num) (by norm_num) (by norm_num) (by norm_num) (by norm_num) (by norm_num)
  have h19 : SMPActor.round4Int ((1 : ℚ) / 32) = some 313 ∧
      SMPActor.round4 ((1 : ℚ) / 32) = some ((4510805386774289 : ℚ) / 144115188075855872) :=
    round4_of_steps _ _ _ _ _ h16 h17 (by norm_num) (by norm_num) (by norm_num) (by norm_num)
      h18
  have h20 : fl64 (((4722366482869645 : ℚ) / 4722366482869645213696) + ((21 : ℚ) / 64)) = some ((5910992525322285 : ℚ) / 18014398509481984) :=
    fl64_cert (((4722366482869645 : ℚ) / 4722366482869645213696) + ((21 : ℚ) / 64)) (-2) (5910992525322285) ((1 : ℚ) / 18014398509481984) ((5910992525322285 : ℚ) / 18014398509481984) (by norm_num) (by norm_num) (by norm_num)
      (by norm_num) (by norm_num) (by norm_num) (by norm_num) (by norm_num) (by norm_num)
  have h21 : fl64 (((1 : ℚ) / 64) * ((1 : ℚ) / 32)) = some ((1 : ℚ) / 2048) :=
    fl64_cert (((1 : ℚ) / 64) * ((1 : ℚ) / 32)) (-11) (4503599627370496) ((1 : ℚ) / 9223372036854775808) ((1 : ℚ) / 2048) (by norm_num) (by norm_num) (by norm_num)
      (by norm_num) (by norm_num) (by norm_num) (by norm_num) (by norm_num) (by norm_num)
  have h22 : fl64 (((5910992525322285 : ℚ) / 18014398509481984) * ((1 : ℚ) / 32)) = some ((5910992525322285 : ℚ) / 576460752303423488) :=
    fl64_cert (((5910992525322285 : ℚ) / 18014398509481984) * ((1 : ℚ) / 32)) (-7) (5910992525322285) ((1 : ℚ) / 576460752303423488) ((5910992525322285 : ℚ) / 576460752303423488) (by norm_num) (by norm_num) (by norm_num)
      (by norm_num) (by norm_num) (by norm_num) (by norm_num) (by norm_num) (by norm_num)
  have h23 : fl64 (((1 : ℚ) / 2048) + ((5910992525322285 : ℚ) / 576460752303423488)) = some ((6192467502032941 : ℚ) / 576460752303423488) :=
    fl64_cert (((1 : ℚ) / 2048) + ((5910992525322285 : ℚ) / 576460752303423488)) (-7) (6192467502032941) ((1 : ℚ) / 576460752303423488) ((6192467502032941 : ℚ) / 576460752303423488) (by norm_num) (by norm_num) (by norm_num)
      (by norm_num) (by norm_num) (by norm_num) (by norm_num) (by norm_num) (by norm_num)
  have h24 : fl64 (((6192467502032941 : ℚ) / 576460752303423488) / ((3096233751016471 : ℚ) / 9007199254740992)) = some ((9007199254740991 : ℚ) / 288230376151711744) :=
    fl64_cert (((6192467502032941 : ℚ) / 576460752303423488) / ((3096233751016471 : ℚ) / 9007199254740992)) (-6) (9007199254740991) ((1 : ℚ) / 288230376151711744) ((9007199254740991 : ℚ) / 288230376151711744) (by norm_num) (by norm_num) (by norm_num)
      (by norm_num) (by norm_num) (by norm_num) (by norm_num) (by norm_num) (by norm_num)
  have h25 : SMPActor.snpmQuot ((1 : ℚ) / 64) ((5910992525322285 : ℚ) / 18014398509481984) ((1 : ℚ) / 32) ((1 : ℚ) / 32) ((3096233751016471 : ℚ) / 9007199254740992) =
      some ((9007199254740991 : ℚ) / 288230376151711744) :=
    snpmQuot_of_steps _ _ _ _ _ _ _ _ _ h21 h22 h23 (by norm_num) h24
  have h26 : fl64 (((9007199254740991 : ℚ) / 288230376151711744) * 10000) = some ((5497558138879999 : ℚ) / 17592186044416) :=
    fl64_cert (((9007199254740991 : ℚ) / 288230376151711744) * 10000) (8) (5497558138879999) ((1 : ℚ) / 17592186044416) ((5497558138879999 : ℚ) / 17592186044416) (by norm_num) (by norm_num) (by norm_num)
      (by norm_num) (by norm_num) (by norm_num) (by norm_num) (by norm_num) (by norm_num)
  have h27 : fl64 (1 / 2 + ((5497558138879999 : ℚ) / 17592186044416)) = some ((5506354231902207 : ℚ) / 17592186044416) :=
    fl64_cert (1 / 2 + ((5497558138879999 : ℚ) / 17592186044416)) (8) (5506354231902207) ((1 : ℚ) / 17592186044416) ((5506354231902207 : ℚ) / 17592186044416) (by norm_num) (by norm_num) (by norm_num)
      (by norm_num) (by norm_num) (by norm_num) (by norm_num) (by norm_num) (by norm_num)
  have h28 : fl64 (((312 : Int) : ℚ) / 10000) = some ((4496393867966703 : ℚ) / 144115188075855872) :=
    fl64_cert (((312 : Int) : ℚ) / 10000) (-6) (8992787735933406) ((1 : ℚ) / 288230376151711744) ((4496393867966703 : ℚ) / 144115188075855872) (by norm_num) (by norm_num) (by norm_num)
      (by norm_num) (by norm_num) (by norm_num) (by norm_num) (by norm_num) (by norm_num)
  have h29 : SMPActor.round4Int ((9007199254740991 : ℚ) / 288230376151711744) = some 312 ∧
      SMPActor.round4 ((9007199254740991 : ℚ) / 288230376151711744) = some ((4496393867966703 : ℚ) / 144115188075855872) :=
    round4_of_steps _ _ _ _ _ h26 h27 (by norm_num) (by norm_num) (by norm_num) (by norm_num)
      h28
  have h30 : SMPActor.interpBrgnSnPm 1 1 ((1 : ℚ) / 32) ((1 : ℚ) / 8) ((1 : ℚ) / 8) ((1 : ℚ) / 32) ((3 : ℚ) / 8) ((7 : ℚ) / 8) =
      some (((4510805386774289 : ℚ) / 144115188075855872), ((4496393867966703 : ℚ) / 144115188075855872)) :=
    interpBrgnSnPm_of_steps _ _ _ _ _ _ _ _ _ _ _ _ _ _ _ _ _ _ (by norm_num) (by norm_num)
      h3 h7 h8 h9 h10 h15 h19.2 h20 h25 h29.2
  have h31 : fl64 (((21 : ℚ) / 64) + ((4722366482869645 : ℚ) / 4722366482869645213696)) = some ((5910992525322285 : ℚ) / 18014398509481984) :=
    fl64_cert (((21 : ℚ) / 64) + ((4722366482869645 : ℚ) / 4722366482869645213696)) (-2) (5910992525322285) ((1 : ℚ) / 18014398509481984) ((5910992525322285 : ℚ) / 18014398509481984) (by norm_num) (by norm_num) (by norm_num)
      (by norm_num) (by norm_num) (by norm_num) (by norm_num) (by norm_num) (by norm_num)
  have h32 : fl64 (((5910992525322285 : ℚ) / 18014398509481984) + ((1 : ℚ) / 64)) = some ((6192467502032941 : ℚ) / 18014398509481984) :=
    fl64_cert (((5910992525322285 : ℚ) / 18014398509481984) + ((1 : ℚ) / 64)) (-2) (6192467502032941) ((1 : ℚ) / 18014398509481984) ((6192467502032941 : ℚ) / 18014398509481984) (by norm_num) (by norm_num) (by norm_num)
      (by norm_num) (by norm_num) (by norm_num) (by norm_num) (by norm_num) (by norm_num)
  have h33 : fl64 (((5910992525322285 : ℚ) / 576460752303423488) + ((1 : ℚ) / 2048)) = some ((6192467502032941 : ℚ) / 576460752303423488) :=
    fl64_cert (((5910992525322285 : ℚ) / 576460752303423488) + ((1 : ℚ) / 2048)) (-7) (6192467502032941) ((1 : ℚ) / 576460752303423488) ((6192467502032941 : ℚ) / 576460752303423488) (by norm_num) (by norm_num) (by norm_num)
      (by norm_num) (by norm_num) (by norm_num) (by norm_num) (by norm_num) (by norm_num)
  have h34 : fl64 (((6192467502032941 : ℚ) / 576460752303423488) / ((6192467502032941 : ℚ) / 18014398509481984)) = some ((1 : ℚ) / 32) :=
    fl64_cert (((6192467502032941 : ℚ) / 576460752303423488) / ((6192467502032941 : ℚ) / 18014398509481984)) (-5) (4503599627370496) ((1 : ℚ) / 144115188075855872) ((1 : ℚ) / 32) (by norm_num) (by norm_num) (by norm_num)
      (by norm_num) (by norm_num) (by norm_num) (by norm_num) (by norm_num) (by norm_num)
  have h35 : SMPActor.snpmQuot ((5910992525322285 : ℚ) / 18014398509481984) ((1 : ℚ) / 64) ((1 : ℚ) / 32) ((1 : ℚ) / 32) ((6192467502032941 : ℚ) / 18014398509481984) =
      some ((1 : ℚ) / 32) :=
    snpmQuot_of_steps _ _ _ _ _ _ _ _ _ h22 h21 h33 (by norm_num) h34
  have h36 : fl64 (((4722366482869645 : ℚ) / 4722366482869645213696) + ((1 : ℚ) / 64)) = some ((562985982218331 : ℚ) / 36028797018963968) :=
    fl64_cert (((4722366482869645 : ℚ) / 4722366482869645213696) + ((1 : ℚ) / 64)) (-6) (4503887857746648) ((1 : ℚ) / 288230376151711744) ((562985982218331 : ℚ) / 36028797018963968) (by norm_num) (by norm_num) (by norm_num)
      (by norm_num) (by norm_num) (by norm_num) (by norm_num) (by norm_num) (by norm_num)
  have h37 : fl64 (((21 : ℚ) / 2048) + ((562985982218331 : ℚ) / 1152921504606846976)) = some ((3096233751016471 : ℚ) / 288230376151711744) :=
    fl64_cert_tie (((21 : ℚ) / 2048) + ((562985982218331 : ℚ) / 1152921504606846976)) (-7) (6192467502032941) (6192467502032942) ((1 : ℚ) / 576460752303423488) ((3096233751016471 : ℚ) / 288230376151711744) (by norm_num) (by norm_num)
      (by norm_num) (by norm_num) (by norm_num) (by decide) (by norm_num) (by norm_num)
      (by norm_num)
  have h38 : fl64 (((3096233751016471 : ℚ) / 288230376151711744) / ((6192467502032941 : ℚ) / 18014398509481984)) = some ((4503599627370497 : ℚ) / 144115188075855872) :=
    fl64_cert (((3096233751016471 : ℚ) / 288230376151711744) / ((6192467502032941 : ℚ) / 18014398509481984)) (-5) (4503599627370497) ((1 : ℚ) / 144115188075855872) ((4503599627370497 : ℚ) / 144115188075855872) (by norm_num) (by norm_num) (by norm_num)
      (by norm_num) (by norm_num) (by norm_num) (by norm_num) (by norm_num) (by norm_num)
  have h39 : SMPActor.snpmQuot ((21 : ℚ) / 64) ((562985982218331 : ℚ) / 36028797018963968) ((1 : ℚ) / 32) ((1 : ℚ) / 32) ((6192467502032941 : ℚ) / 18014398509481984) =
      some ((4503599627370497 : ℚ) / 144115188075855872) :=
    snpmQuot_of_steps _ _ _ _ _ _ _ _ _ h12 h11 h37 (by norm_num) h38
  have h40 : fl64 (((4503599627370497 : ℚ) / 144115188075855872) * 10000) = some ((5497558138880001 : ℚ) / 17592186044416) :=
    fl64_cert (((4503599627370497 : ℚ) / 144115188075855872) * 10000) (8) (5497558138880001) ((1 : ℚ) / 17592186044416) ((5497558138880001 : ℚ) / 17592186044416) (by norm_num) (by norm_num) (by norm_num)
      (by norm_num) (by norm_num) (by norm_num) (by norm_num) (by norm_num) (by norm_num)
  have h41 : fl64 (1 / 2 + ((5497558138880001 : ℚ) / 17592186044416)) = some ((5506354231902209 : ℚ) / 17592186044416) :=
    fl64_cert (1 / 2 + ((5497558138880001 : ℚ) / 17592186044416)) (8) (5506354231902209) ((1 : ℚ) / 17592186044416) ((5506354231902209 : ℚ) / 17592186044416) (by norm_num) (by norm_num) (by norm_num)
      (by norm_num) (by norm_num) (by norm_num) (by norm_num) (by norm_num) (by norm_num)
  have h42 : SMPActor.round4Int ((4503599627370497 : ℚ) / 144115188075855872) = some 313 ∧
      SMPActor.round4 ((4503599627370497 : ℚ) / 144115188075855872) = some ((4510805386774289 : ℚ) / 144115188075855872) :=
    round4_of_steps _ _ _ _ _ h40 h41 (by norm_num) (by norm_num) (by norm_num) (by norm_num)
      h18
  have h43 : SMPActor.interpBrgnSnPm 1 1 ((1 : ℚ) / 32) ((3 : ℚ) / 8) ((7 : ℚ) / 8) ((1 : ℚ) / 32) ((1 : ℚ) / 8) ((1 : ℚ) / 8) =
      some (((4510805386774289 : ℚ) / 144115188075855872), ((4510805386774289 : ℚ) / 144115188075855872)) :=
    interpBrgnSnPm_of_steps _ _ _ _ _ _ _ _ _ _ _ _ _ _ _ _ _ _ (by norm_num) (by norm_num)
      h7 h3 h8 h31 h32 h35 h19.2 h36 h39 h42.2
  refine ⟨h30, h43, ?_⟩
  rw [h30, h43]
  simp only [Option.map_some', Prod.swap_prod_mk, ne_eq, Option.some.injEq, Prod.mk.injEq,
    not_and]
  norm_num

/-- C26, amended: `interpBrgnS2PMax` is symmetric in the two actors: exchanging
their inputs (`tik` with `tjk`, `sik` with `sjk`, `prbI` with `prbJ`) exchanges
the two outputs, and where one call has no result, neither has the other.
`interpBrgnSnPm` is symmetric up to one unit of the fourth decimal: for `n`
and `m` in `{1, 2}`, saliences and probabilities in `[0,1]` and coordinates of
absolute value at most `1e5`, both calls return; the outputs `bik`, `bjk` are
the doubles nearest to `ki / 10000`, `kj / 10000`, the outputs `cjk`, `cik` on
the exchanged actors the doubles nearest to `lj / 10000`, `li / 10000`, and
the integers `lj` and `kj` differ by at most one, as do `li` and `ki`. -/
theorem C26_bargain_symmetric (n m : Nat) (tik sik prbI tjk sjk prbJ : ℚ) :
    SMPActor.interpBrgnS2PMax tjk sjk prbJ tik sik prbI =
        (SMPActor.interpBrgnS2PMax tik sik prbI tjk sjk prbJ).map Prod.swap ∧
    ((n = 1 ∨ n = 2) → (m = 1 ∨ m = 2) → 0 ≤ sik → sik ≤ 1 → 0 ≤ prbI → prbI ≤ 1 →
      0 ≤ sjk → sjk ≤ 1 → 0 ≤ prbJ → prbJ ≤ 1 → |tik| ≤ 10 ^ 5 → |tjk| ≤ 10 ^ 5 →
      ∃ (bik bjk cjk cik : ℚ) (ki kj lj li : Int),
        SMPActor.interpBrgnSnPm n m tik sik prbI tjk sjk prbJ = some (bik, bjk) ∧
        SMPActor.interpBrgnSnPm n m tjk sjk prbJ tik sik prbI = some (cjk, cik) ∧
        fl64 (((ki : Int) : ℚ) / 10000) = some bik ∧
        fl64 (((kj : Int) : ℚ) / 10000) = some bjk ∧
        fl64 (((lj : Int) : ℚ) / 10000) = some cjk ∧
        fl64 (((li : Int) : ℚ) / 10000) = some cik ∧
        kj - 1 ≤ lj ∧ lj ≤ kj + 1 ∧ ki - 1 ≤ li ∧ li ≤ ki + 1) := by
  constructor
  · simp only [SMPActor.interpBrgnS2PMax, Option.bind_eq_bind, Option.pure_def]
    cases divQ (SMPActor.probGap prbI prbJ * (sjk * sjk))
        (SMPActor.s2pMaxDivisor (SMPActor.probGap prbI prbJ) (sjk * sjk) (sik * sik)) <;>
      cases divQ (SMPActor.probGap prbJ prbI * (sik * sik))
        (SMPActor.s2pMaxDivisor (SMPActor.probGap prbJ prbI) (sik * sik) (sjk * sjk)) <;>
      rfl
  · intro hn hm hsi0 hsi1 hpi0 hpi1 hsj0 hsj1 hpj0 hpj1 hti htj
    exact snpm_exchange n m tik sik prbI tjk sjk prbJ hn hm hsi0 hsi1 hpi0 hpi1 hsj0 hsj1 hpj0
      hpj1 hti htj

/-- Witness for C26: coordinates `0.2` and `0.8`, saliences `0.5` and `0.25`,
probabilities `0.75` and `0.25`, weights `salience^2 * probability^2`. -/
theorem C26_bargain_symmetric_witness :
    SMPActor.interpBrgnS2PMax (4 / 5) (1 / 4) (1 / 4) (1 / 5) (1 / 2) (3 / 4) =
        (SMPActor.interpBrgnS2PMax (1 / 5) (1 / 2) (3 / 4) (4 / 5) (1 / 4) (1 / 4)).map
          Prod.swap ∧
    ∃ (bik bjk cjk cik : ℚ) (ki kj lj li : Int),
      SMPActor.interpBrgnSnPm 2 2 (1 / 5) (1 / 2) (3 / 4) (4 / 5) (1 / 4) (1 / 4) =
        some (bik, bjk) ∧
      SMPActor.interpBrgnSnPm 2 2 (4 / 5) (1 / 4) (1 / 4) (1 / 5) (1 / 2) (3 / 4) =
        some (cjk, cik) ∧
      fl64 (((ki : Int) : ℚ) / 10000) = some bik ∧
      fl64 (((kj : Int) : ℚ) / 10000) = some bjk ∧
      fl64 (((lj : Int) : ℚ) / 10000) = some cjk ∧
      fl64 (((li : Int) : ℚ) / 10000) = some cik ∧
      kj - 1 ≤ lj ∧ lj ≤ kj + 1 ∧ ki - 1 ≤ li ∧ li ≤ ki + 1 :=
  ⟨(C26_bargain_symmetric 2 2 (1 / 5) (1 / 2) (3 / 4) (4 / 5) (1 / 4) (1 / 4)).1,
    (C26_bargain_symmetric 2 2 (1 / 5) (1 / 2) (3 / 4) (4 / 5) (1 / 4) (1 / 4)).2 (Or.inr rfl)
      (Or.inr rfl) (by norm_num) (by norm_num) (by norm_num) (by norm_num) (by norm_num)
      (by norm_num) (by norm_num) (by norm_num) (abs_le.mpr ⟨by norm_num, by norm_num⟩)
      (abs_le.mpr ⟨by norm_num, by norm_num⟩)⟩

/-- C27: in `interpBrgnS2PMax`, for win probabilities in `[0,1]` and any
saliences, the function returns; the shift fractions `dik` and `djk` lie in
`[0,1)`; at most one of them is not zero; and the actor whose win probability
is at least the other's keeps its coordinate exactly. -/
theorem C27_s2pMax_shift_fractions (tik sik prbI tjk sjk prbJ : ℚ)
    (hpi0 : 0 ≤ prbI) (hpi1 : prbI ≤ 1) (hpj0 : 0 ≤ prbJ) (hpj1 : prbJ ≤ 1) :
    ∃ dik djk bik bjk,
      divQ (SMPActor.probGap prbI prbJ * (sjk * sjk))
        (SMPActor.s2pMaxDivisor (SMPActor.probGap prbI prbJ) (sjk * sjk) (sik * sik)) =
          some dik ∧
      divQ (SMPActor.probGap prbJ prbI * (sik * sik))
        (SMPActor.s2pMaxDivisor (SMPActor.probGap prbJ prbI) (sik * sik) (sjk * sjk)) =
          some djk ∧
      SMPActor.interpBrgnS2PMax tik sik prbI tjk sjk prbJ = some (bik, bjk) ∧
      bik = tik + dik * (tjk - tik) ∧ bjk = tjk + djk * (tik - tjk) ∧
      (0 ≤ dik ∧ dik < 1) ∧ (0 ≤ djk ∧ djk < 1) ∧ (dik = 0 ∨ djk = 0) ∧
      (prbJ ≤ prbI → bik = tik) ∧ (prbI ≤ prbJ → bjk = tjk) := by
  have gi := probGap_bounds prbI prbJ hpi0 hpj1
  have gj := probGap_bounds prbJ prbI hpj0 hpi1
  have hi2 := mul_self_nonneg sik
  have hj2 := mul_self_nonneg sjk
  have hDi := s2pMaxDivisor_ge _ (sjk * sjk) (sik * sik) gi.1 gi.2 hj2 hi2
  have hDj := s2pMaxDivisor_ge _ (sik * sik) (sjk * sjk) gj.1 gj.2 hi2 hj2
  have hfl : (0 : ℚ) < 1 / 10 ^ 6 := by norm_num
  have hDi0 : 0 < SMPActor.s2pMaxDivisor (SMPActor.probGap prbI prbJ) (sjk * sjk)
      (sik * sik) := by linarith
  have hDj0 : 0 < SMPActor.s2pMaxDivisor (SMPActor.probGap prbJ prbI) (sik * sik)
      (sjk * sjk) := by linarith
  have fi1 : SMPActor.probGap prbI prbJ * (sjk * sjk) /
      SMPActor.s2pMaxDivisor (SMPActor.probGap prbI prbJ) (sjk * sjk) (sik * sik) < 1 := by
    rw [div_lt_one hDi0]
    unfold SMPActor.s2pMaxDivisor
    nlinarith [mul_nonneg (sub_nonneg.mpr gi.2) hi2]
  have fj1 : SMPActor.probGap prbJ prbI * (sik * sik) /
      SMPActor.s2pMaxDivisor (SMPActor.probGap prbJ prbI) (sik * sik) (sjk * sjk) < 1 := by
    rw [div_lt_one hDj0]
    unfold SMPActor.s2pMaxDivisor
    nlinarith [mul_nonneg (sub_nonneg.mpr gj.2) hj2]
  have zi : prbJ ≤ prbI → SMPActor.probGap prbI prbJ * (sjk * sjk) /
      SMPActor.s2pMaxDivisor (SMPActor.probGap prbI prbJ) (sjk * sjk) (sik * sik) = 0 := by
    intro h
    simp [SMPActor.probGap, not_lt.mpr h]
  have zj : prbI ≤ prbJ → SMPActor.probGap prbJ prbI * (sik * sik) /
      SMPActor.s2pMaxDivisor (SMPActor.probGap prbJ prbI) (sik * sik) (sjk * sjk) = 0 := by
    intro h
    simp [SMPActor.probGap, not_lt.mpr h]
  refine ⟨_, _, _, _, divQ_of_ne_zero _ _ (ne_of_gt hDi0), divQ_of_ne_zero _ _ (ne_of_gt hDj0),
    interpBrgnS2PMax_eq tik sik prbI tjk sjk prbJ (ne_of_gt hDi0) (ne_of_gt hDj0), rfl, rfl,
    ⟨div_nonneg (mul_nonneg gi.1 hj2) hDi0.le, fi1⟩,
    ⟨div_nonneg (mul_nonneg gj.1 hi2) hDj0.le, fj1⟩, ?_, ?_, ?_⟩
  · rcases le_total prbJ prbI with h | h
    · exact Or.inl (zi h)
    · exact Or.inr (zj h)
  · intro h
    rw [zi h]; ring
  · intro h
    rw [zj h]; ring

/-- Witness for C27: probabilities `0.75` and `0.25`, saliences `0.5`. -/
theorem C27_s2pMax_shift_fractions_witness :
    ∃ dik djk bik bjk,
      divQ (SMPActor.probGap (3 / 4) (1 / 4) * ((1 / 2) * (1 / 2)))
        (SMPActor.s2pMaxDivisor (SMPActor.probGap (3 / 4) (1 / 4)) ((1 / 2) * (1 / 2))
          ((1 / 2) * (1 / 2))) = some dik ∧
      divQ (SMPActor.probGap (1 / 4) (3 / 4) * ((1 / 2) * (1 / 2)))
        (SMPActor.s2pMaxDivisor (SMPActor.probGap (1 / 4) (3 / 4)) ((1 / 2) * (1 / 2))
          ((1 / 2) * (1 / 2))) = some djk ∧
      SMPActor.interpBrgnS2PMax (1 / 5) (1 / 2) (3 / 4) (4 / 5) (1 / 2) (1 / 4) =
        some (bik, bjk) ∧
      bik = 1 / 5 + dik * (4 / 5 - 1 / 5) ∧ bjk = 4 / 5 + djk * (1 / 5 - 4 / 5) ∧
      (0 ≤ dik ∧ dik < 1) ∧ (0 ≤ djk ∧ djk < 1) ∧ (dik = 0 ∨ djk = 0) ∧
      ((1 / 4 : ℚ) ≤ 3 / 4 → bik = 1 / 5) ∧ ((3 / 4 : ℚ) ≤ 1 / 4 → bjk = 4 / 5) :=
  C27_s2pMax_shift_fractions (1 / 5) (1 / 2) (3 / 4) (4 / 5) (1 / 2) (1 / 4) (by norm_num)
    (by norm_num) (by norm_num) (by norm_num)

/-! ### The equivalence test is not transitive -/

/-- The norm of the difference of two matrices does not depend on their order. -/
theorem norm_sub_comm (p q : KMatrix) :
    (KMatrix.sub p q).map KMatrix.norm = (KMatrix.sub q p).map KMatrix.norm := by
  by_cases h : KMatrix.sameShape p q
  · have h2 : KMatrix.sameShape q p := ⟨h.1.symm, h.2.symm⟩
    have hsq : KMatrix.sumSq ⟨p.numR, p.numC, fun i j => p.val i j - q.val i j⟩ =
        KMatrix.sumSq ⟨q.numR, q.numC, fun i j => q.val i j - p.val i j⟩ := by
      simp only [KMatrix.sumSq, h.1, h.2]
      apply Finset.sum_congr rfl
      intro r _
      apply Finset.sum_congr rfl
      intro k _
      ring
    simp [KMatrix.sub, h, h2, KMatrix.norm, hsq]
  · have h2 : ¬ KMatrix.sameShape q p := fun h3 => h ⟨h3.1.symm, h3.2.symm⟩
    simp [KMatrix.sub, h, h2]

/-- The distance between two one-dimensional positions is the absolute value
of the difference of their coordinates. -/
theorem norm_sub_colVec (a b : ℚ) :
    (KMatrix.sub (colVec [a]) (colVec [b])).map KMatrix.norm = some |((a - b : ℚ) : ℝ)| := by
  have hsq : KMatrix.sumSq ⟨1, 1, fun i _ => [a].getD i 0 - [b].getD i 0⟩ = (a - b) ^ 2 := by
    simp [KMatrix.sumSq]
  simp only [KMatrix.sub, KMatrix.sameShape, colVec, List.length_singleton, and_self, if_true,
    Option.map_some', KMatrix.norm, hsq, Option.some.injEq]
  push_cast
  exact Real.sqrt_sq_eq_abs _

/-- What `equivNdx` returns in terms of the distance of the two positions. -/
theorem equivNdx_eq (posTol : ℚ) (st : SMPState) (i j : Nat) (p q : KMatrix)
    (hi : st.pstns[i]? = some p) (hj : st.pstns[j]? = some q) :
    SMPState.equivNdx posTol st i j =
      ((KMatrix.sub p q).map KMatrix.norm).map (fun d => decide (d < ((posTol : ℚ) : ℝ))) := by
  simp only [SMPState.equivNdx, hi, hj, Option.bind_eq_bind, Option.some_bind, Option.pure_def]
  cases KMatrix.sub p q <;> rfl

/-- C29: for every positive position tolerance `equivNdx` is reflexive and
symmetric, but it is not transitive: three one-dimensional positions `0`,
`0.6 * posTol` and `1.2 * posTol` have the first equivalent to the second and
the second to the third, but not the first to the third. -/
theorem C29_equivNdx_not_transitive (posTol : ℚ) (hpos : 0 < posTol) :
    (∀ (st : SMPState) (i : Nat) (p : KMatrix), st.pstns[i]? = some p →
      SMPState.equivNdx posTol st i i = some true) ∧
    (∀ (st : SMPState) (i j : Nat),
      SMPState.equivNdx posTol st i j = SMPState.equivNdx posTol st j i) ∧
    ∃ st : SMPState, SMPState.equivNdx posTol st 0 1 = some true ∧
      SMPState.equivNdx posTol st 1 2 = some true ∧
      SMPState.equivNdx posTol st 0 2 = some false := by
  have hposR : (0 : ℝ) < ((posTol : ℚ) : ℝ) := by exact_mod_cast hpos
  refine ⟨?_, ?_, ?_⟩
  · intro st i p hp
    obtain ⟨d, hd, hn⟩ := norm_sub_self p
    rw [equivNdx_eq posTol st i i p p hp hp, hd]
    simp [hn, hposR]
  · intro st i j
    cases hi : st.pstns[i]? with
    | none => cases hj : st.pstns[j]? <;> simp [SMPState.equivNdx, hi, hj]
    | some p =>
      cases hj : st.pstns[j]? with
      | none => simp [SMPState.equivNdx, hi, hj]
      | some q =>
        rw [equivNdx_eq posTol st i j p q hi hj, equivNdx_eq posTol st j i q p hj hi,
          norm_sub_comm p q]
  · refine ⟨chainState posTol, ?_, ?_, ?_⟩
    · rw [equivNdx_eq posTol (chainState posTol) 0 1 (colVec [0]) (colVec [3 / 5 * posTol]) rfl rfl,
        norm_sub_colVec]
      simp only [Option.map_some', Option.some.injEq, decide_eq_true_eq]
      rw [abs_lt]
      constructor <;> push_cast <;> linarith
    · rw [equivNdx_eq posTol (chainState posTol) 1 2 (colVec [3 / 5 * posTol])
        (colVec [6 / 5 * posTol]) rfl rfl,
        norm_sub_colVec]
      simp only [Option.map_some', Option.some.injEq, decide_eq_true_eq]
      rw [abs_lt]
      constructor <;> push_cast <;> linarith
    · rw [equivNdx_eq posTol (chainState posTol) 0 2 (colVec [0]) (colVec [6 / 5 * posTol]) rfl rfl,
        norm_sub_colVec]
      simp only [Option.map_some', Option.some.injEq, decide_eq_false_iff_not, not_lt]
      rw [le_abs]
      right
      push_cast
      linarith

/-- Witness for C29 with the tolerance `0.001`. -/
theorem C29_equivNdx_not_transitive_witness :
    (∀ (st : SMPState) (i : Nat) (p : KMatrix), st.pstns[i]? = some p →
      SMPState.equivNdx (1 / 1000) st i i = some true) ∧
    (∀ (st : SMPState) (i j : Nat),
      SMPState.equivNdx (1 / 1000) st i j = SMPState.equivNdx (1 / 1000) st j i) ∧
    ∃ st : SMPState, SMPState.equivNdx (1 / 1000) st 0 1 = some true ∧
      SMPState.equivNdx (1 / 1000) st 1 2 = some true ∧
      SMPState.equivNdx (1 / 1000) st 0 2 = some false :=
  C29_equivNdx_not_transitive (1 / 1000) (by norm_num)

/-! ### Antisymmetry of votes -/

theorem sgn_neg {K : Type} [LinearOrderedField K] (x : K) : sgn (-x) = - sgn x := by
  unfold sgn
  rcases lt_trichotomy x 0 with h | h | h
  · have h1 : (0 : K) < -x := by linarith
    have h2 : ¬ (0 : K) < x := by linarith
    simp [h, h1, h2]
  · subst h
    simp
  · have h1 : ¬ (0 : K) < -x := by linarith
    have h2 : ¬ x < 0 := by linarith
    have h3 : -x < 0 := by linarith
    simp [h, h1, h2, h3]

theorem Model.vote_antisymm {K : Type} [LinearOrderedField K] (vr : VotingRule) (c u1 u2 : K) :
    Model.vote vr c u1 u2 = - Model.vote vr c u2 u1 := by
  cases vr
  · have h : u1 - u2 = -(u2 - u1) := by ring
    simp only [Model.vote]
    rw [h, sgn_neg]
    ring
  · simp only [Model.vote]
    ring
  · have h : u1 - u2 = -(u2 - u1) := by ring
    simp only [Model.vote]
    rw [h, abs_neg]
    ring

/-- C24: `Model.vote` changes sign when the two utilities are exchanged, for
every voting rule, every capability and all utilities (in particular for a
positive capability and utilities in `[0, 1]`); consequently the vote of an
actor between two positions, `SMPActor.vote`, is defined for `(p1, p2)`
exactly when it is for `(p2, p1)` and is then its negative. -/
theorem C24_vote_antisymmetric :
    (∀ (K : Type) [LinearOrderedField K] (vr : VotingRule) (c u1 u2 : K),
      Model.vote vr c u1 u2 = - Model.vote vr c u2 u1) ∧
    (∀ (vr : VotingRule) (a : SMPActor) (ai : Nat) (nra : RMatrix) (st : SMPState)
      (p1 p2 : KMatrix),
      SMPActor.vote vr a ai nra st p1 p2 =
        (SMPActor.vote vr a ai nra st p2 p1).map (fun v => -v)) := by
  refine ⟨fun K _ vr c u1 u2 => Model.vote_antisymm vr c u1 u2, ?_⟩
  intro vr a ai nra st p1 p2
  unfold SMPActor.vote
  cases h1 : SMPActor.posUtil a ai nra st p1 <;> cases h2 : SMPActor.posUtil a ai nra st p2
  · rfl
  · rfl
  · rfl
  · simp only [Option.bind_eq_bind, Option.some_bind, Option.pure_def, Option.map_some',
      Option.some.injEq]
    exact Model.vote_antisymm vr _ _ _

/-! ### Perceived utility matrices, `setAllAUtil` -/

/-- What `mapOpt` returns: a matrix of the given shape whose entries are the
values of the function. -/
theorem mapOpt_some (fn : Nat → Nat → Option ℝ) (nr nc : Nat) (M : RMatrix)
    (h : RMatrix.mapOpt fn nr nc = some M) :
    M.numR = nr ∧ M.numC = nc ∧ ∀ i j, i < nr → j < nc → fn i j = some (M.val i j) := by
  unfold RMatrix.mapOpt at h
  split_ifs at h with hall
  simp only [Option.some.injEq] at h
  subst h
  refine ⟨rfl, rfl, ?_⟩
  intro i j hi hj
  have h1 := hall i hi j hj
  cases hf : fn i j with
  | none => simp [hf] at h1
  | some v => simp [hf]

/-- A function that has a value everywhere on the shape gives a matrix. -/
theorem mapOpt_of_all_some (fn : Nat → Nat → Option ℝ) (nr nc : Nat)
    (hall : ∀ i, i < nr → ∀ j, j < nc → (fn i j).isSome = true) :
    RMatrix.mapOpt fn nr nc = some ⟨nr, nc, fun i j => (fn i j).getD 0⟩ := by
  unfold RMatrix.mapOpt
  rw [if_pos hall]

/-- A function without a value somewhere on the shape gives no matrix. -/
theorem mapOpt_none (fn : Nat → Nat → Option ℝ) (nr nc i j : Nat) (hi : i < nr) (hj : j < nc)
    (hf : fn i j = none) : RMatrix.mapOpt fn nr nc = none := by
  unfold RMatrix.mapOpt
  rw [if_neg]
  intro hall
  have h1 := hall i hi j hj
  simp [hf] at h1

/-- A matrix that is zero on its shape has norm zero. -/
theorem rnorm_eq_zero (m : RMatrix)
    (h : ∀ i j, i < m.numR → j < m.numC → m.val i j = 0) : RMatrix.norm m = 0 := by
  unfold RMatrix.norm
  have hs : (∑ i in Finset.range m.numR, ∑ j in Finset.range m.numC, (m.val i j) ^ 2) = 0 := by
    apply Finset.sum_eq_zero
    intro i hi
    apply Finset.sum_eq_zero
    intro j hj
    rw [h i j (Finset.mem_range.mp hi) (Finset.mem_range.mp hj)]
    norm_num
  rw [hs, Real.sqrt_zero]

/-- The norm of a matrix is at least the absolute value of each entry. -/
theorem rnorm_ge_entry (m : RMatrix) (i j : Nat) (hi : i < m.numR) (hj : j < m.numC) :
    |m.val i j| ≤ RMatrix.norm m := by
  unfold RMatrix.norm
  apply Real.abs_le_sqrt
  have h1 : (m.val i j) ^ 2 ≤ ∑ j in Finset.range m.numC, (m.val i j) ^ 2 :=
    Finset.single_le_sum (f := fun j => (m.val i j) ^ 2) (fun _ _ => sq_nonneg _)
      (Finset.mem_range.mpr hj)
  have h2 : (∑ j in Finset.range m.numC, (m.val i j) ^ 2) ≤
      ∑ i in Finset.range m.numR, ∑ j in Finset.range m.numC, (m.val i j) ^ 2 :=
    Finset.single_le_sum (f := fun i => ∑ j in Finset.range m.numC, (m.val i j) ^ 2)
      (fun _ _ => Finset.sum_nonneg (fun _ _ => sq_nonneg _)) (Finset.mem_range.mpr hi)
  exact le_trans h1 h2

/-- Under `FullRA` the entry that actor `h` perceives is the objective entry. -/
theorem perspEntry_fullRA (vDiff nra : RMatrix) (h i j : Nat) (v : ℝ)
    (hv : SMPState.perspEntry vDiff nra BigRAdjust.FullRA h i j = some v) :
    SMPState.uFn1 vDiff nra i j = some v := by
  unfold SMPState.perspEntry SMPState.estNRA at hv
  unfold SMPState.uFn1
  cases hh : nra.get? h 0 with
  | none => simp [hh] at hv
  | some rh =>
    cases hi : nra.get? i 0 with
    | none => simp [hh, hi] at hv
    | some ri =>
      cases hd : vDiff.get? i j with
      | none => simp [hh, hi, hd] at hv
      | some d =>
        simp only [hh, hi, hd, Option.bind_eq_bind, Option.some_bind, Option.pure_def,
          Model.estNRA] at hv ⊢
        exact hv

/-- Under `FullRA` the matrix perceived by actor `h` and the objective matrix
have the same entries, so the norm of their difference is zero. -/
theorem fullRA_norm_zero (vDiff nra raUtil U : RMatrix) (na h : Nat)
    (hra : RMatrix.mapOpt (SMPState.uFn1 vDiff nra) na na = some raUtil)
    (hU : RMatrix.mapOpt (SMPState.perspEntry vDiff nra BigRAdjust.FullRA h) na na = some U) :
    (∀ i j, i < na → j < na → U.val i j = raUtil.val i j) ∧
      ∃ d, RMatrix.sub U raUtil = some d ∧ RMatrix.norm d = 0 := by
  obtain ⟨hr1, hr2, hr3⟩ := mapOpt_some _ _ _ _ hra
  obtain ⟨hu1, hu2, hu3⟩ := mapOpt_some _ _ _ _ hU
  have heq : ∀ i j, i < na → j < na → U.val i j = raUtil.val i j := by
    intro i j hi hj
    have h1 := perspEntry_fullRA vDiff nra h i j _ (hu3 i j hi hj)
    rw [hr3 i j hi hj] at h1
    exact (Option.some.inj h1).symm
  refine ⟨heq, ⟨U.numR, U.numC, fun i j => U.val i j - raUtil.val i j⟩, ?_, ?_⟩
  · unfold RMatrix.sub
    rw [if_pos ⟨by rw [hu1, hr1], by rw [hu2, hr2]⟩]
  · apply rnorm_eq_zero
    intro i j hi hj
    simp only at hi hj ⊢
    rw [heq i j (hu1 ▸ hi) (hu2 ▸ hj)]
    ring

/-- Under `FullRA` every pass of the loop over the perspectives fails. -/
theorem setAllAUtilStep_fullRA_none (vDiff nra raUtil : RMatrix) (na h : Nat)
    (acc : List RMatrix)
    (hra : RMatrix.mapOpt (SMPState.uFn1 vDiff nra) na na = some raUtil) :
    SMPState.setAllAUtilStep vDiff nra raUtil BigRAdjust.FullRA na acc h = none := by
  unfold SMPState.setAllAUtilStep
  cases hU : RMatrix.mapOpt (SMPState.perspEntry vDiff nra BigRAdjust.FullRA h) na na with
  | none => rfl
  | some U =>
    obtain ⟨_, d, hd, hn⟩ := fullRA_norm_zero vDiff nra raUtil U na h hra hU
    simp only [Option.bind_eq_bind, Option.some_bind, hd, hn, assertThat]
    rw [if_neg (by norm_num)]
    rfl

/-- Under `FullRA`, `setAllAUtil` has no result on a state with an actor. -/
theorem setAllAUtil_fullRA_none (inferRisk : RMatrix → RMatrix) (actrs : List SMPActor)
    (eLen uLen : Nat) (st : SMPState) (h0 : 0 < st.numAct) :
    SMPState.setAllAUtil inferRisk BigRAdjust.FullRA actrs eLen uLen st = none := by
  rw [Option.eq_none_iff_forall_not_mem]
  intro r hr
  simp only [SMPState.setAllAUtil, Option.mem_def, Option.bind_eq_bind, Option.bind_eq_some,
    Option.pure_def] at hr
  obtain ⟨_, _, _, _, _, _, vDiff, _, rnUtil, _, raUtil, hra, d, _, _, _, aUtil, hfold, _⟩ := hr
  rw [foldlM_range_none _ st.numAct 0 [] h0
    (fun a => setAllAUtilStep_fullRA_none vDiff (inferRisk rnUtil) raUtil st.numAct 0 a hra)]
    at hfold
  exact Option.noConfusion hfold

/-- What an entry perceived by actor `h` is: the utility `bsUtil` of the
difference `vDiff(i, j)` under the risk attitude `estNRA(h, i)`. -/
theorem perspEntry_some (vDiff nra : RMatrix) (ra : BigRAdjust) (h i j : Nat) (v : ℝ)
    (hv : SMPState.perspEntry vDiff nra ra h i j = some v) :
    ∃ rhi, SMPState.estNRA nra h i ra = some rhi ∧
      SMPModel.bsUtil (vDiff.val i j) rhi = some v := by
  unfold SMPState.perspEntry at hv
  cases he : SMPState.estNRA nra h i ra with
  | none => simp [he] at hv
  | some rhi =>
    refine ⟨rhi, rfl, ?_⟩
    simp only [he, Option.bind_eq_bind, Option.some_bind, RMatrix.get?] at hv
    split_ifs at hv with hc
    · simpa using hv
    · simp at hv

/-- The loop over the perspectives, when it returns, has appended one matrix
per actor, each with the entries `perspEntry`. -/
theorem setAllAUtil_loop (vDiff nra raUtil : RMatrix) (ra : BigRAdjust) (na n : Nat)
    (aUtil : List RMatrix)
    (hfold : (List.range n).foldlM (SMPState.setAllAUtilStep vDiff nra raUtil ra na) [] =
      some aUtil) :
    aUtil.length = n ∧ ∀ h, h < n → ∃ U, aUtil[h]? = some U ∧ U.numR = na ∧ U.numC = na ∧
      ∀ i j, i < na → j < na → SMPState.perspEntry vDiff nra ra h i j = some (U.val i j) := by
  refine foldlM_range_post (SMPState.setAllAUtilStep vDiff nra raUtil ra na)
    (fun k acc => acc.length = k ∧ ∀ h, h < k → ∃ U, acc[h]? = some U ∧ U.numR = na ∧
      U.numC = na ∧
      ∀ i j, i < na → j < na → SMPState.perspEntry vDiff nra ra h i j = some (U.val i j))
    n [] aUtil hfold ⟨rfl, fun h hh => absurd hh (Nat.not_lt_zero h)⟩ ?_
  intro k x y _ hP hstep
  obtain ⟨hlen, hent⟩ := hP
  simp only [SMPState.setAllAUtilStep, Option.bind_eq_bind, Option.bind_eq_some,
    Option.pure_def, Option.some.injEq] at hstep
  obtain ⟨U, hU, d, _, _, _, hy⟩ := hstep
  subst hy
  obtain ⟨hu1, hu2, hu3⟩ := mapOpt_some _ _ _ _ hU
  refine ⟨by simp [hlen], ?_⟩
  intro h hh
  rcases Nat.lt_succ_iff_lt_or_eq.mp hh with hlt | heq
  · obtain ⟨V, hV, hrest⟩ := hent h hlt
    refine ⟨V, ?_, hrest⟩
    rw [List.getElem?_append_left (by omega)]
    exact hV
  · subst heq
    refine ⟨U, ?_, hu1, hu2, hu3⟩
    rw [List.getElem?_append_right (by omega)]
    simp [hlen]

/-- What `setAllAUtil` leaves when it returns: one matrix per actor, of shape
`numAct × numAct`, with the entries `bsUtil(vDiff(i,j), estNRA(h,i))`. -/
theorem setAllAUtil_entries (inferRisk : RMatrix → RMatrix) (ra : BigRAdjust)
    (actrs : List SMPActor) (eLen uLen : Nat) (st : SMPState) (r : SMPState.AUtilResult)
    (hr : SMPState.setAllAUtil inferRisk ra actrs eLen uLen st = some r) :
    r.aUtil.length = st.numAct ∧
      ∀ h, h < st.numAct → ∃ U, r.aUtil[h]? = some U ∧ U.numR = st.numAct ∧
        U.numC = st.numAct ∧
        ∀ i j, i < st.numAct → j < st.numAct →
          ∃ rhi, SMPState.estNRA r.nra h i ra = some rhi ∧
            SMPModel.bsUtil (r.vDiff.val i j) rhi = some (U.val i j) := by
  simp only [SMPState.setAllAUtil, Option.bind_eq_bind, Option.bind_eq_some,
    Option.pure_def, Option.some.injEq] at hr
  obtain ⟨_, _, _, _, _, _, vDiff, _, rnUtil, _, raUtil, _, d, _, _, _, aUtil, hfold, hr⟩ := hr
  subst hr
  obtain ⟨hlen, hent⟩ := setAllAUtil_loop _ _ _ _ _ _ _ hfold
  refine ⟨hlen, ?_⟩
  intro h hh
  obtain ⟨U, hU, h1, h2, h3⟩ := hent h hh
  exact ⟨U, hU, h1, h2, fun i j hi hj => perspEntry_some _ _ _ _ _ _ _ (h3 i j hi hj)⟩

/-- The difference of two matrices of one shape. -/
theorem rsub_some (a b : RMatrix) (hR : a.numR = b.numR) (hC : a.numC = b.numC) :
    RMatrix.sub a b = some ⟨a.numR, a.numC, fun i j => a.val i j - b.val i j⟩ := by
  unfold RMatrix.sub
  rw [if_pos ⟨hR, hC⟩]

/-- Two matrices of shape `n × n` that differ by more than `1e-6` in one entry
pass the assertion on the norm of their difference. -/
theorem norm_assert_passes (a b : RMatrix) (n : Nat) (ha1 : a.numR = n) (ha2 : a.numC = n)
    (hb1 : b.numR = n) (hb2 : b.numC = n)
    (hd : ∃ i j, i < n ∧ j < n ∧ (1 / 10 ^ 6 : ℝ) < |a.val i j - b.val i j|) :
    ∃ d, RMatrix.sub a b = some d ∧ assertThat ((1 / 10 ^ 6 : ℝ) < RMatrix.norm d) = some () := by
  refine ⟨_, rsub_some a b (by rw [ha1, hb1]) (by rw [ha2, hb2]), ?_⟩
  obtain ⟨i, j, hi, hj, hlt⟩ := hd
  have hge := rnorm_ge_entry ⟨a.numR, a.numC, fun i j => a.val i j - b.val i j⟩ i j
    (by simpa [ha1] using hi) (by simpa [ha2] using hj)
  rw [assertThat_eq_some]
  exact lt_of_lt_of_le hlt hge

/-- When `setAllAUtil` returns: the sizes agree, the difference matrix and the
two utility matrices are defined, the risk-aware matrix differs from the
risk-neutral one in some entry, and so does every perceived matrix from the
risk-aware one. -/
theorem setAllAUtil_returns (inferRisk : RMatrix → RMatrix) (ra : BigRAdjust)
    (actrs : List SMPActor) (eLen uLen : Nat) (st : SMPState) (vDiff rnUtil raUtil : RMatrix)
    (h1 : st.numAct = eLen) (h2 : 0 < uLen) (h3 : uLen ≤ st.numAct)
    (hv : SMPState.setVDiff actrs st = some vDiff)
    (hrn : RMatrix.mapOpt (SMPState.uFn1 vDiff (RMatrix.zeros st.numAct 1)) st.numAct st.numAct
      = some rnUtil)
    (hra : RMatrix.mapOpt (SMPState.uFn1 vDiff (inferRisk rnUtil)) st.numAct st.numAct
      = some raUtil)
    (hd : ∃ i j, i < st.numAct ∧ j < st.numAct ∧
      (1 / 10 ^ 6 : ℝ) < |rnUtil.val i j - raUtil.val i j|)
    (hU : ∀ h, h < st.numAct → ∃ U,
      RMatrix.mapOpt (SMPState.perspEntry vDiff (inferRisk rnUtil) ra h) st.numAct st.numAct
        = some U ∧
      ∃ i j, i < st.numAct ∧ j < st.numAct ∧
        (1 / 10 ^ 6 : ℝ) < |U.val i j - raUtil.val i j|) :
    ∃ r, SMPState.setAllAUtil inferRisk ra actrs eLen uLen st = some r := by
  obtain ⟨hn1, hn2, _⟩ := mapOpt_some _ _ _ _ hrn
  obtain ⟨ha1, ha2, _⟩ := mapOpt_some _ _ _ _ hra
  obtain ⟨d, hd1, hd2⟩ := norm_assert_passes rnUtil raUtil st.numAct hn1 hn2 ha1 ha2 hd
  obtain ⟨aUtil, hfold, _⟩ := foldlM_range_inv
    (SMPState.setAllAUtilStep vDiff (inferRisk rnUtil) raUtil ra st.numAct)
    (fun _ _ => True) st.numAct [] trivial (by
      intro k a hk _
      obtain ⟨U, hUk, hdk⟩ := hU k hk
      obtain ⟨hu1, hu2, _⟩ := mapOpt_some _ _ _ _ hUk
      obtain ⟨e, he1, he2⟩ := norm_assert_passes U raUtil st.numAct hu1 hu2 ha1 ha2 hdk
      refine ⟨a ++ [U], ?_, trivial⟩
      simp only [SMPState.setAllAUtilStep, hUk, he1, he2, Option.bind_eq_bind,
        Option.some_bind, Option.pure_def])
  refine ⟨⟨vDiff, inferRisk rnUtil, raUtil, aUtil⟩, ?_⟩
  have a1 : assertThat (st.numAct = eLen) = some () := (assertThat_eq_some _ _).mpr h1
  have a2 : assertThat (0 < uLen) = some () := (assertThat_eq_some _ _).mpr h2
  have a3 : assertThat (uLen ≤ st.numAct) = some () := (assertThat_eq_some _ _).mpr h3
  simp only [SMPState.setAllAUtil, a1, a2, a3, hv, hrn, hra, hd1, hd2, hfold,
    Option.bind_eq_bind, Option.some_bind, Option.pure_def]

/-- The salience-weighted distance in one dimension is the absolute value of
the difference. -/
theorem bvDiff_single (vd vs : KMatrix) (h1 : vd.numR = 1) (h2 : vd.numC = 1)
    (h3 : vs.numR = 1) (h4 : vs.numC = 1) (hs : 0 < vs.val 0 0) :
    SMPModel.bvDiff vd vs = some |((vd.val 0 0 : ℚ) : ℝ)| := by
  rw [bvDiff_eq_sqrt vd vs ⟨by rw [h1, h3], by rw [h2, h4]⟩
    (by
      intro i j hi hj
      rw [h1] at hi
      rw [h2] at hj
      have hi0 : i = 0 := by omega
      have hj0 : j = 0 := by omega
      subst hi0
      subst hj0
      exact le_of_lt hs)
    ⟨0, 0, by rw [h1]; exact Nat.one_pos, by rw [h2]; exact Nat.one_pos, hs⟩]
  have hne : vs.val 0 0 ≠ 0 := ne_of_gt hs
  have hq : dsSqrSum vd vs / ssSqrSum vd vs = (vd.val 0 0) ^ 2 := by
    simp only [dsSqrSum, ssSqrSum, h1, h2, Finset.sum_range_one]
    field_simp
    ring
  rw [hq]
  push_cast
  rw [Real.sqrt_sq_eq_abs]

/-- The differences of `pairState`: `0` on the diagonal and `1/2` off it. -/
theorem pair_vDiffEntry (i j : Nat) (hi : i < 2) (hj : j < 2) :
    SMPState.setVDiffEntry pairActrs pairState i j = some (if i = j then 0 else 1 / 2) := by
  interval_cases i <;> interval_cases j
  · simp [SMPState.setVDiffEntry, pairActrs, pairState, KMatrix.sub, KMatrix.sameShape, colVec]
    rw [bvDiff_single _ _ rfl rfl rfl rfl (by simp)]
    simp
  · simp [SMPState.setVDiffEntry, pairActrs, pairState, KMatrix.sub, KMatrix.sameShape, colVec]
    rw [bvDiff_single _ _ rfl rfl rfl rfl (by simp)]
    simp [abs_of_pos]
  · simp [SMPState.setVDiffEntry, pairActrs, pairState, KMatrix.sub, KMatrix.sameShape, colVec]
    rw [bvDiff_single _ _ rfl rfl rfl rfl (by simp)]
    simp [abs_of_pos]
  · simp [SMPState.setVDiffEntry, pairActrs, pairState, KMatrix.sub, KMatrix.sameShape, colVec]
    rw [bvDiff_single _ _ rfl rfl rfl rfl (by simp)]
    simp

/-- The difference matrix of `pairState`. -/
theorem pair_setVDiff :
    ∃ vDiff, SMPState.setVDiff pairActrs pairState = some vDiff ∧ vDiff.numR = 2 ∧
      vDiff.numC = 2 ∧ ∀ i j, i < 2 → j < 2 → vDiff.val i j = if i = j then 0 else 1 / 2 := by
  have hall : ∀ i, i < 2 → ∀ j, j < 2 →
      (SMPState.setVDiffEntry pairActrs pairState i j).isSome = true := by
    intro i hi j hj
    rw [pair_vDiffEntry i j hi hj]
    rfl
  refine ⟨⟨2, 2, fun i j => (SMPState.setVDiffEntry pairActrs pairState i j).getD 0⟩,
    ?_, rfl, rfl, ?_⟩
  · simp only [SMPState.setVDiff, pairState, KMatrix.iMat, assertThat, List.length_cons,
      List.length_nil, Option.bind_eq_bind]
    exact mapOpt_of_all_some _ 2 2 hall
  · intro i j hi hj
    simp only [pair_vDiffEntry i j hi hj, Option.getD_some]

/-- Objective utilities over the differences of `pairState`. -/
theorem pair_uFn1 (vDiff nra : RMatrix) (hv1 : vDiff.numR = 2) (hv2 : vDiff.numC = 2)
    (hv : ∀ i j, i < 2 → j < 2 → vDiff.val i j = if i = j then 0 else 1 / 2)
    (hn1 : nra.numR = 2) (hn2 : nra.numC = 1) (i j : Nat) (hi : i < 2) (hj : j < 2) :
    SMPState.uFn1 vDiff nra i j =
      some (if i = j then 1 else 1 / 2 * (1 + 1 / 2 * nra.val i 0)) := by
  simp only [SMPState.uFn1, RMatrix.get?, hv1, hv2, hn1, hn2, hi, hj, hv i j hi hj,
    and_self, if_true, Nat.lt_one_iff, Option.bind_eq_bind, Option.some_bind]
  by_cases hij : i = j
  · simp [hij, SMPModel.bsUtil, assertThat]
  · simp only [hij, if_false]
    rw [bsUtil_of_le_one _ _ (by norm_num) (by norm_num)]
    norm_num

/-- Utilities over the differences of `pairState` as actor `h` perceives them
under `NoRA`: with its own risk attitude. -/
theorem pair_perspEntry (vDiff nra : RMatrix) (hv1 : vDiff.numR = 2) (hv2 : vDiff.numC = 2)
    (hv : ∀ i j, i < 2 → j < 2 → vDiff.val i j = if i = j then 0 else 1 / 2)
    (hn1 : nra.numR = 2) (hn2 : nra.numC = 1) (h i j : Nat) (hh : h < 2) (hi : i < 2)
    (hj : j < 2) :
    SMPState.perspEntry vDiff nra BigRAdjust.NoRA h i j =
      some (if i = j then 1 else 1 / 2 * (1 + 1 / 2 * nra.val h 0)) := by
  simp only [SMPState.perspEntry, SMPState.estNRA, Model.estNRA, RMatrix.get?, hv1, hv2, hn1,
    hn2, hh, hi, hj, hv i j hi hj, and_self, if_true, Nat.lt_one_iff, Option.bind_eq_bind,
    Option.some_bind, Option.pure_def]
  by_cases hij : i = j
  · simp [hij, SMPModel.bsUtil, assertThat]
  · simp only [hij, if_false]
    rw [bsUtil_of_le_one _ _ (by norm_num) (by norm_num)]
    norm_num

/-- On `pairState`, with the risk attitudes `1/2` and `-1/2` and the rule
`NoRA`, `setAllAUtil` passes all its assertions and returns. -/
theorem pair_setAllAUtil_returns :
    ∃ r, SMPState.setAllAUtil pairRisk BigRAdjust.NoRA pairActrs 2 2 pairState = some r := by
  obtain ⟨vDiff, hvd, hv1, hv2, hv⟩ := pair_setVDiff
  have hz := pair_uFn1 vDiff (RMatrix.zeros 2 1) hv1 hv2 hv rfl rfl
  have hrn := mapOpt_of_all_some (SMPState.uFn1 vDiff (RMatrix.zeros 2 1)) 2 2
    (fun i hi j hj => by rw [hz i j hi hj]; rfl)
  have hr := fun M => pair_uFn1 vDiff (pairRisk M) hv1 hv2 hv rfl rfl
  have hp := fun M => pair_perspEntry vDiff (pairRisk M) hv1 hv2 hv rfl rfl
  refine setAllAUtil_returns pairRisk BigRAdjust.NoRA pairActrs 2 2 pairState vDiff _ _
    rfl (by norm_num) (le_refl 2) hvd hrn
    (mapOpt_of_all_some _ 2 2 (fun i hi j hj => by rw [hr _ i j hi hj]; rfl)) ?_ ?_
  · refine ⟨0, 1, by decide, by decide, ?_⟩
    dsimp only
    rw [hz 0 1 (by decide) (by decide), hr _ 0 1 (by decide) (by decide)]
    simp only [Option.getD_some, RMatrix.zeros, pairRisk]
    norm_num [abs_of_pos]
  · intro h hh
    refine ⟨_, mapOpt_of_all_some _ 2 2
      (fun i hi j hj => by rw [hp _ h i j hh hi hj]; rfl), ?_⟩
    have hh2 : h < 2 := hh
    interval_cases h
    · refine ⟨1, 0, by decide, by decide, ?_⟩
      dsimp only
      rw [hp _ 0 1 0 (by decide) (by decide) (by decide), hr _ 1 0 (by decide) (by decide)]
      simp only [Option.getD_some, pairRisk]
      norm_num [abs_of_pos]
    · refine ⟨0, 1, by decide, by decide, ?_⟩
      dsimp only
      rw [hp _ 1 0 1 (by decide) (by decide) (by decide), hr _ 0 1 (by decide) (by decide)]
      simp only [Option.getD_some, pairRisk]
      norm_num [abs_of_pos]

/-- When the inferred risk attitudes are all zero, the risk-aware matrix is the
risk-neutral one and the first assertion of `setAllAUtil` fails. -/
theorem setAllAUtil_riskNeutral_none (inferRisk : RMatrix → RMatrix) (ra : BigRAdjust)
    (actrs : List SMPActor) (eLen uLen : Nat) (st : SMPState)
    (hzero : ∀ M, inferRisk M = RMatrix.zeros st.numAct 1) :
    SMPState.setAllAUtil inferRisk ra actrs eLen uLen st = none := by
  rw [Option.eq_none_iff_forall_not_mem]
  intro r hr
  simp only [SMPState.setAllAUtil, Option.mem_def, Option.bind_eq_bind, Option.bind_eq_some,
    Option.pure_def] at hr
  obtain ⟨_, _, _, _, _, _, vDiff, _, rnUtil, hrn, raUtil, hra, d, hd, _, hassert, _⟩ := hr
  rw [hzero, hrn] at hra
  have heq : rnUtil = raUtil := Option.some.inj hra
  subst heq
  rw [rsub_some rnUtil rnUtil rfl rfl] at hd
  have hd2 := Option.some.inj hd
  subst hd2
  rw [assertThat_eq_some, rnorm_eq_zero _ (fun i j _ _ => sub_self _)] at hassert
  norm_num at hassert

/-- C23: on a state with an actor, when `setAllAUtil` returns, `aUtil` holds one
`numAct × numAct` matrix per actor `h`, whose entry `(i, j)` is
`bsUtil(vDiff(i,j), estNRA(h,i))`; under `FullRA` the matrix computed for every
actor has the entries of the objective risk-aware matrix, so all of them are
identical, but then the assertion that each differs from the objective matrix
fails, and `setAllAUtil` does not return. -/
theorem C23_aUtil_entries_and_fullRA (inferRisk : RMatrix → RMatrix) (ra : BigRAdjust)
    (actrs : List SMPActor) (eLen uLen : Nat) (st : SMPState) (h0 : 0 < st.numAct) :
    (∀ r, SMPState.setAllAUtil inferRisk ra actrs eLen uLen st = some r →
      r.aUtil.length = st.numAct ∧
      ∀ h, h < st.numAct → ∃ U, r.aUtil[h]? = some U ∧ U.numR = st.numAct ∧
        U.numC = st.numAct ∧
        ∀ i j, i < st.numAct → j < st.numAct →
          ∃ rhi, SMPState.estNRA r.nra h i ra = some rhi ∧
            SMPModel.bsUtil (r.vDiff.val i j) rhi = some (U.val i j)) ∧
    (∀ (vDiff nra raUtil U : RMatrix) (h : Nat),
      RMatrix.mapOpt (SMPState.uFn1 vDiff nra) st.numAct st.numAct = some raUtil →
      RMatrix.mapOpt (SMPState.perspEntry vDiff nra BigRAdjust.FullRA h) st.numAct st.numAct
        = some U →
      ∀ i j, i < st.numAct → j < st.numAct → U.val i j = raUtil.val i j) ∧
    SMPState.setAllAUtil inferRisk BigRAdjust.FullRA actrs eLen uLen st = none :=
  ⟨fun r hr => setAllAUtil_entries inferRisk ra actrs eLen uLen st r hr,
    fun vDiff nra raUtil U h hra hU =>
      (fullRA_norm_zero vDiff nra raUtil U st.numAct h hra hU).1,
    setAllAUtil_fullRA_none inferRisk actrs eLen uLen st h0⟩

/-- Witness for C23: on `pairState` with the risk attitudes `1/2` and `-1/2`,
`setAllAUtil` returns two matrices under `NoRA` and does not return under
`FullRA`. -/
theorem C23_aUtil_entries_and_fullRA_witness :
    (∃ r, SMPState.setAllAUtil pairRisk BigRAdjust.NoRA pairActrs 2 2 pairState = some r ∧
      r.aUtil.length = 2) ∧
    SMPState.setAllAUtil pairRisk BigRAdjust.FullRA pairActrs 2 2 pairState = none := by
  have h := C23_aUtil_entries_and_fullRA pairRisk BigRAdjust.NoRA pairActrs 2 2 pairState
    (Nat.succ_pos 1)
  obtain ⟨r, hr⟩ := pair_setAllAUtil_returns
  exact ⟨⟨r, hr, (h.1 r hr).1⟩, h.2.2⟩

/-- C28: the assertions inside `setAllAUtil` do not hold for every valid state.
On every state with an actor, under `FullRA`, each pass of the loop over the
perspectives fails its assertion (the perceived matrix is the objective one, so
the norm of the difference is `0`, not above `1e-6`) and `setAllAUtil` has no
result; and whenever the inferred risk attitudes are all zero, the first
assertion fails under every rule. -/
theorem C28_assertions_fail (inferRisk : RMatrix → RMatrix) (actrs : List SMPActor)
    (eLen uLen : Nat) (st : SMPState) (h0 : 0 < st.numAct) :
    (∀ (vDiff nra raUtil U : RMatrix) (h : Nat),
      RMatrix.mapOpt (SMPState.uFn1 vDiff nra) st.numAct st.numAct = some raUtil →
      RMatrix.mapOpt (SMPState.perspEntry vDiff nra BigRAdjust.FullRA h) st.numAct st.numAct
        = some U →
      ∃ d, RMatrix.sub U raUtil = some d ∧ RMatrix.norm d = 0 ∧
        assertThat ((1 / 10 ^ 6 : ℝ) < RMatrix.norm d) = none) ∧
    SMPState.setAllAUtil inferRisk BigRAdjust.FullRA actrs eLen uLen st = none ∧
    ((∀ M, inferRisk M = RMatrix.zeros st.numAct 1) →
      ∀ ra, SMPState.setAllAUtil inferRisk ra actrs eLen uLen st = none) := by
  refine ⟨?_, setAllAUtil_fullRA_none inferRisk actrs eLen uLen st h0,
    fun hzero ra => setAllAUtil_riskNeutral_none inferRisk ra actrs eLen uLen st hzero⟩
  intro vDiff nra raUtil U h hra hU
  obtain ⟨_, d, hd, hn⟩ := fullRA_norm_zero vDiff nra raUtil U st.numAct h hra hU
  refine ⟨d, hd, hn, ?_⟩
  rw [hn]
  unfold assertThat
  rw [if_neg (by norm_num)]

/-- Witness for C28: `pairState`, on which `setAllAUtil` returns under `NoRA`,
makes it fail under `FullRA`. -/
theorem C28_assertions_fail_witness :
    SMPState.setAllAUtil pairRisk BigRAdjust.FullRA pairActrs 2 2 pairState = none ∧
    ∃ r, SMPState.setAllAUtil pairRisk BigRAdjust.NoRA pairActrs 2 2 pairState = some r :=
  ⟨(C28_assertions_fail pairRisk pairActrs 2 2 pairState (Nat.succ_pos 1)).2.1,
    pair_setAllAUtil_returns⟩

/-! ### Neighbouring matchings, `nfn` -/

/-- A loop that appends a list per pass appends the concatenation of the lists. -/
theorem foldl_push {α β : Type} (l : List α) (f : α → List β) (init : List β) :
    l.foldl (fun acc a => acc ++ f a) init = init ++ l.flatMap f := by
  induction l generalizing init with
  | nil => simp
  | cons a l ih => simp [ih, List.flatMap_cons]

/-- The list `nfn` returns: the matching, then the swaps, then the rotations. -/
theorem nfn_eq (mp0 : MtchPstn) :
    CSState.nfn mp0 = [mp0] ++ swapsOf mp0 ++ rotsOf mp0 := by
  simp only [CSState.nfn, swapsOf, rotsOf, swapAt, rotA, rotB, List.append_assoc, foldl_push,
    List.singleton_append]

/-- The number of swaps in row `i`, summed over the first `n` rows. -/
theorem sum_swap_rows (K n : Nat) (hn : n ≤ K) :
    2 * ((List.range n).map (fun i => K - (i + 1))).sum + n * (n + 1) = 2 * n * K := by
  induction n with
  | zero => simp
  | succ n ih =>
    have ih1 := ih (by omega)
    obtain ⟨d, rfl⟩ : ∃ d, K = n + 1 + d := ⟨K - (n + 1), by omega⟩
    rw [List.range_succ, List.map_append, List.sum_append]
    simp only [List.map_cons, List.map_nil, List.sum_cons, List.sum_nil, Nat.add_sub_cancel_left]
    nlinarith [ih1]

/-- The number of rotations of the triples `i < j < k` with `i` fixed, summed
over `n` values of `j` from `a` on. -/
theorem sum_rot_rows (K a n : Nat) (hn : a + n ≤ K) :
    ((List.range' a n).map (fun j => 2 * (K - (j + 1)))).sum + n * (n + 1) = 2 * n * (K - a) := by
  induction n with
  | zero => simp
  | succ n ih =>
    have ih1 := ih (by omega)
    obtain ⟨d, rfl⟩ : ∃ d, K = a + n + 1 + d := ⟨K - (a + n + 1), by omega⟩
    rw [List.range'_concat, List.map_append, List.sum_append]
    have e1 : a + n + 1 + d - (a + 1 * n + 1) = d := by omega
    have e2 : a + n + 1 + d - a = n + 1 + d := by omega
    rw [e2] at ih1
    simp only [List.map_cons, List.map_nil, List.sum_cons, List.sum_nil, e1, e2]
    nlinarith [ih1]

/-- Summing `m * (m - 1)` for `m = K - 1, K - 2, ..`: three times the sum is the
product of three consecutive numbers. -/
theorem sum_rot_blocks (g : Nat → Nat) (K : Nat)
    (hg : ∀ i, i < K → g i + (K - (i + 1)) * (K - (i + 1) + 1) = 2 * (K - (i + 1)) * (K - (i + 1)))
    (n : Nat) (hn : n ≤ K) :
    3 * ((List.range n).map g).sum + (K - n) * (K - n - 1) * (K - n - 2) =
      K * (K - 1) * (K - 2) := by
  induction n with
  | zero => simp
  | succ n ih =>
    have ih1 := ih (by omega)
    have hgn := hg n (by omega)
    rw [List.range_succ, List.map_append, List.sum_append]
    simp only [List.map_cons, List.map_nil, List.sum_cons, List.sum_nil]
    generalize K * (K - 1) * (K - 2) = X at ih1 ⊢
    obtain ⟨b, hb⟩ : ∃ b, K - (n + 1) = b := ⟨_, rfl⟩
    have ha : K - n = b + 1 := by omega
    rw [hb] at hgn ⊢
    rw [ha] at ih1
    rcases b with _ | _ | e
    · simp at hgn ih1 ⊢
      omega
    · simp at hgn ih1 ⊢
      omega
    · simp only [Nat.add_sub_cancel] at ih1 ⊢
      have e1 : e + 1 + 1 + 1 - 2 = e + 1 := by omega
      have e2 : e + 1 + 1 - 2 = e := by omega
      rw [e1] at ih1
      rw [e2]
      nlinarith [ih1, hgn]

/-- Twice the number of swaps of a matching of `K` entries is `K * (K - 1)`. -/
theorem length_swapsOf (mp0 : MtchPstn) :
    2 * (swapsOf mp0).length = mp0.mtch.length * (mp0.mtch.length - 1) := by
  have hlen : (swapsOf mp0).length =
      ((List.range mp0.mtch.length).map (fun i => mp0.mtch.length - (i + 1))).sum := by
    simp [swapsOf, List.length_flatMap, Function.comp_def]
  have h := sum_swap_rows mp0.mtch.length mp0.mtch.length (le_refl _)
  rw [← hlen] at h
  rcases Nat.eq_zero_or_pos mp0.mtch.length with h0 | h0
  · rw [h0] at h ⊢
    simpa using h
  · obtain ⟨d, hd⟩ : ∃ d, mp0.mtch.length = d + 1 := ⟨mp0.mtch.length - 1, by omega⟩
    rw [hd] at h ⊢
    simp only [Nat.add_sub_cancel]
    nlinarith [h]

/-- Three times the number of rotations of a matching of `K` entries is
`K * (K - 1) * (K - 2)`. -/
theorem length_rotsOf (mp0 : MtchPstn) :
    3 * (rotsOf mp0).length =
      mp0.mtch.length * (mp0.mtch.length - 1) * (mp0.mtch.length - 2) := by
  have hlen : (rotsOf mp0).length =
      ((List.range mp0.mtch.length).map (fun i =>
        ((List.range' (i + 1) (mp0.mtch.length - (i + 1))).map
          (fun j => 2 * (mp0.mtch.length - (j + 1)))).sum)).sum := by
    simp [rotsOf, List.length_flatMap, Function.comp_def, Nat.mul_comm]
  have h := sum_rot_blocks
    (fun i => ((List.range' (i + 1) (mp0.mtch.length - (i + 1))).map
      (fun j => 2 * (mp0.mtch.length - (j + 1)))).sum) mp0.mtch.length
    (by
      intro i hi
      have h1 := sum_rot_rows mp0.mtch.length (i + 1) (mp0.mtch.length - (i + 1)) (by omega)
      simpa using h1)
    mp0.mtch.length (le_refl _)
  rw [← hlen] at h
  simpa using h

/-- The number of matchings `nfn` returns for `K` entries. -/
theorem nfn_length (mp0 : MtchPstn) :
    (CSState.nfn mp0).length =
      1 + mp0.mtch.length * (mp0.mtch.length - 1) / 2 +
        mp0.mtch.length * (mp0.mtch.length - 1) * (mp0.mtch.length - 2) / 3 := by
  have h2 := length_swapsOf mp0
  have h3 := length_rotsOf mp0
  rw [nfn_eq, List.length_append, List.length_append, List.length_singleton, ← h3, ← h2]
  omega

/-- For every `c`, a matching of `3 * c + 4` entries has more than
`c * (3 * c + 4) ^ 2` neighbours. -/
theorem nfn_exceeds (c : Nat) :
    c * (3 * c + 4) ^ 2 < (CSState.nfn ⟨List.replicate (3 * c + 4) 0⟩).length := by
  have h3 := length_rotsOf ⟨List.replicate (3 * c + 4) 0⟩
  rw [nfn_eq, List.length_append, List.length_append, List.length_singleton]
  simp only [List.length_replicate] at h3
  have e1 : 3 * c + 4 - 1 = 3 * c + 3 := by omega
  have e2 : 3 * c + 4 - 2 = 3 * c + 2 := by omega
  rw [e1, e2] at h3
  nlinarith [h3, Nat.zero_le c, Nat.zero_le (c * c), Nat.zero_le (c * c * c)]

/-- C22, as stated, fails: no constant `c` bounds the number of neighbours by
`c * k ^ 2` for every matching of `k >= 1` entries. -/
theorem C22_neighbours_not_quadratic :
    ¬ ∃ c : ℝ, ∀ mp0 : MtchPstn, 1 ≤ mp0.mtch.length →
      ((CSState.nfn mp0).length : ℝ) ≤ c * (mp0.mtch.length : ℝ) ^ 2 := by
  rintro ⟨c, hc⟩
  have h1 := hc ⟨List.replicate (3 * ⌈c⌉₊ + 4) 0⟩ (by simp)
  have h2 := nfn_exceeds ⌈c⌉₊
  have h3 : c ≤ (⌈c⌉₊ : ℝ) := Nat.le_ceil c
  simp only [List.length_replicate] at h1
  have h4 : ((CSState.nfn ⟨List.replicate (3 * ⌈c⌉₊ + 4) 0⟩).length : ℝ) ≤
      ((⌈c⌉₊ * (3 * ⌈c⌉₊ + 4) ^ 2 : Nat) : ℝ) := by
    push_cast at h1 ⊢
    exact le_trans h1 (mul_le_mul_of_nonneg_right h3 (by positivity))
  have h5 := Nat.cast_le.mp h4
  omega

/-- C22, amended: the number of neighbours of a matching of `k >= 1` entries is
exactly `1 + k(k-1)/2 + k(k-1)(k-2)/3`, which is at most `k ^ 3`. -/
theorem C22_neighbours_cubic (mp0 : MtchPstn) (hk : 1 ≤ mp0.mtch.length) :
    (CSState.nfn mp0).length =
        1 + mp0.mtch.length * (mp0.mtch.length - 1) / 2 +
          mp0.mtch.length * (mp0.mtch.length - 1) * (mp0.mtch.length - 2) / 3 ∧
      (CSState.nfn mp0).length ≤ mp0.mtch.length ^ 3 := by
  refine ⟨nfn_length mp0, ?_⟩
  have h2 := length_swapsOf mp0
  have h3 := length_rotsOf mp0
  rw [nfn_eq, List.length_append, List.length_append, List.length_singleton]
  obtain ⟨d, hd⟩ : ∃ d, mp0.mtch.length = d + 1 := ⟨mp0.mtch.length - 1, by omega⟩
  rw [hd] at h2 h3 ⊢
  rcases d with _ | e
  · simp only [Nat.zero_add, Nat.sub_self, Nat.mul_zero, Nat.zero_mul, one_pow] at h2 h3 ⊢
    omega
  · have e1 : e + 1 + 1 - 1 = e + 1 := by omega
    have e2 : e + 1 + 1 - 2 = e := by omega
    rw [e1] at h2 h3
    rw [e2] at h3
    nlinarith [h2, h3, Nat.zero_le e, Nat.zero_le (e * e), Nat.zero_le (e * e * e)]

/-- Witness for C22, amended: a matching of three entries has six neighbours. -/
theorem C22_neighbours_cubic_witness :
    (CSState.nfn ⟨[10, 11, 12]⟩).length = 1 + 3 * (3 - 1) / 2 + 3 * (3 - 1) * (3 - 2) / 3 ∧
      (CSState.nfn ⟨[10, 11, 12]⟩).length ≤ 3 ^ 3 :=
  C22_neighbours_cubic ⟨[10, 11, 12]⟩ (by decide)

/-- Reading a list after one write. -/
theorem getD_set_eq (l : List Nat) (i a p : Nat) (hi : i < l.length) :
    (l.set i a).getD p 0 = if p = i then a else l.getD p 0 := by
  simp only [List.getD_eq_getElem?_getD, List.getElem?_set, hi, if_true]
  by_cases h : i = p
  · subst h
    simp
  · have h2 : ¬ p = i := fun e => h e.symm
    simp [h, h2]

/-- Counting an entry after one write: the written value is gained and the
overwritten one is lost. -/
theorem count_set_add (l : List Nat) (i a b : Nat) (hi : i < l.length) :
    (l.set i a).count b + (if l.getD i 0 = b then 1 else 0) =
      l.count b + (if a = b then 1 else 0) := by
  induction l generalizing i with
  | nil => simp at hi
  | cons x xs ih =>
    cases i with
    | zero =>
      simp only [List.set_cons_zero, List.count_cons, List.getD_cons_zero, beq_iff_eq]
      omega
    | succ i =>
      have h1 := ih i (by simpa using hi)
      simp only [List.set_cons_succ, List.count_cons, List.getD_cons_succ, beq_iff_eq] at h1 ⊢
      omega

/-- The members of the list of swaps. -/
theorem mem_swapsOf (mp0 m : MtchPstn) :
    m ∈ swapsOf mp0 ↔ ∃ i j, i < j ∧ j < mp0.mtch.length ∧ m = swapAt mp0 i j := by
  simp only [swapsOf, List.mem_flatMap, List.mem_range, List.mem_range'_1, List.mem_singleton]
  constructor
  · rintro ⟨i, hi, j, ⟨h1, h2⟩, rfl⟩
    exact ⟨i, j, by omega, by omega, rfl⟩
  · rintro ⟨i, j, h1, h2, rfl⟩
    exact ⟨i, by omega, j, ⟨by omega, by omega⟩, rfl⟩

/-- The members of the list of rotations. -/
theorem mem_rotsOf (mp0 m : MtchPstn) :
    m ∈ rotsOf mp0 ↔ ∃ i j k, i < j ∧ j < k ∧ k < mp0.mtch.length ∧
      (m = rotA mp0 i j k ∨ m = rotB mp0 i j k) := by
  simp only [rotsOf, List.mem_flatMap, List.mem_range, List.mem_range'_1, List.mem_cons,
    List.mem_singleton, List.not_mem_nil, or_false]
  constructor
  · rintro ⟨i, hi, j, ⟨h1, h2⟩, k, ⟨h3, h4⟩, h⟩
    exact ⟨i, j, k, by omega, by omega, by omega, h⟩
  · rintro ⟨i, j, k, h1, h2, h3, h⟩
    exact ⟨i, by omega, j, ⟨by omega, by omega⟩, k, ⟨by omega, by omega⟩, h⟩

/-- The members of the list `nfn` returns. -/
theorem mem_nfn (mp0 m : MtchPstn) :
    m ∈ CSState.nfn mp0 ↔ m = mp0 ∨
      (∃ i j, i < j ∧ j < mp0.mtch.length ∧ m = swapAt mp0 i j) ∨
      (∃ i j k, i < j ∧ j < k ∧ k < mp0.mtch.length ∧
        (m = rotA mp0 i j k ∨ m = rotB mp0 i j k)) := by
  rw [nfn_eq, List.mem_append, List.mem_append, List.mem_singleton, mem_swapsOf, mem_rotsOf,
    or_assoc]

/-- A swap rearranges the matching. -/
theorem swapAt_perm (mp0 : MtchPstn) (i j : Nat) (hij : i < j) (hj : j < mp0.mtch.length) :
    (swapAt mp0 i j).mtch.Perm mp0.mtch := by
  rw [List.perm_iff_count]
  intro b
  have hi : i < mp0.mtch.length := by omega
  have c1 := count_set_add mp0.mtch i (mp0.mtch.getD j 0) b hi
  have c2 := count_set_add (mp0.mtch.set i (mp0.mtch.getD j 0)) j (mp0.mtch.getD i 0) b
    (by rw [List.length_set]; exact hj)
  rw [getD_set_eq _ _ _ _ hi, if_neg (show ¬ j = i by omega)] at c2
  simp only [swapAt]
  split_ifs at c1 c2 <;> omega

/-- A rotation rearranges the matching. -/
theorem rotA_perm (mp0 : MtchPstn) (i j k : Nat) (hij : i < j) (hjk : j < k)
    (hk : k < mp0.mtch.length) : (rotA mp0 i j k).mtch.Perm mp0.mtch := by
  rw [List.perm_iff_count]
  intro b
  have hi : i < mp0.mtch.length := by omega
  have hj : j < mp0.mtch.length := by omega
  have c1 := count_set_add mp0.mtch i (mp0.mtch.getD j 0) b hi
  have c2 := count_set_add (mp0.mtch.set i (mp0.mtch.getD j 0)) j (mp0.mtch.getD k 0) b
    (by rw [List.length_set]; exact hj)
  have c3 := count_set_add ((mp0.mtch.set i (mp0.mtch.getD j 0)).set j (mp0.mtch.getD k 0)) k
    (mp0.mtch.getD i 0) b (by rw [List.length_set, List.length_set]; exact hk)
  rw [getD_set_eq _ _ _ _ hi, if_neg (show ¬ j = i by omega)] at c2
  rw [getD_set_eq _ _ _ _ (by rw [List.length_set]; exact hj), if_neg (show ¬ k = j by omega),
    getD_set_eq _ _ _ _ hi, if_neg (show ¬ k = i by omega)] at c3
  simp only [rotA]
  split_ifs at c1 c2 c3 <;> omega

/-- The other rotation rearranges the matching. -/
theorem rotB_perm (mp0 : MtchPstn) (i j k : Nat) (hij : i < j) (hjk : j < k)
    (hk : k < mp0.mtch.length) : (rotB mp0 i j k).mtch.Perm mp0.mtch := by
  rw [List.perm_iff_count]
  intro b
  have hi : i < mp0.mtch.length := by omega
  have hj : j < mp0.mtch.length := by omega
  have c1 := count_set_add mp0.mtch i (mp0.mtch.getD k 0) b hi
  have c2 := count_set_add (mp0.mtch.set i (mp0.mtch.getD k 0)) j (mp0.mtch.getD i 0) b
    (by rw [List.length_set]; exact hj)
  have c3 := count_set_add ((mp0.mtch.set i (mp0.mtch.getD k 0)).set j (mp0.mtch.getD i 0)) k
    (mp0.mtch.getD j 0) b (by rw [List.length_set, List.length_set]; exact hk)
  rw [getD_set_eq _ _ _ _ hi, if_neg (show ¬ j = i by omega)] at c2
  rw [getD_set_eq _ _ _ _ (by rw [List.length_set]; exact hj), if_neg (show ¬ k = j by omega),
    getD_set_eq _ _ _ _ hi, if_neg (show ¬ k = i by omega)] at c3
  simp only [rotB]
  split_ifs at c1 c2 c3 <;> omega

/-- Every matching `nfn` returns rearranges the current one. -/
theorem nfn_perm (mp0 m : MtchPstn) (hm : m ∈ CSState.nfn mp0) : m.mtch.Perm mp0.mtch := by
  rw [mem_nfn] at hm
  rcases hm with rfl | ⟨i, j, h1, h2, rfl⟩ | ⟨i, j, k, h1, h2, h3, rfl | rfl⟩
  · exact List.Perm.refl _
  · exact swapAt_perm mp0 i j h1 h2
  · exact rotA_perm mp0 i j k h1 h2 h3
  · exact rotB_perm mp0 i j k h1 h2 h3

/-- C30: every matching returned by `nfn` has the length of the current
matching and is a rearrangement of it (every entry occurs as often in it as in
the current matching), so whenever the current matching is a permutation of a
list of items, every neighbour is one too. -/
theorem C30_neighbours_are_rearrangements (mp0 m : MtchPstn) (hm : m ∈ CSState.nfn mp0) :
    m.mtch.length = mp0.mtch.length ∧ m.mtch.Perm mp0.mtch ∧
      (∀ b, m.mtch.count b = mp0.mtch.count b) ∧
      ∀ items : List Nat, mp0.mtch.Perm items → m.mtch.Perm items :=
  ⟨(nfn_perm mp0 m hm).length_eq, nfn_perm mp0 m hm,
    fun b => List.perm_iff_count.mp (nfn_perm mp0 m hm) b,
    fun _ h => (nfn_perm mp0 m hm).trans h⟩

/-- Witness for C30: the rotation `[1, 2, 0]` of the matching `[0, 1, 2]`. -/
theorem C30_neighbours_are_rearrangements_witness :
    (⟨[1, 2, 0]⟩ : MtchPstn).mtch.length = (⟨[0, 1, 2]⟩ : MtchPstn).mtch.length ∧
      (⟨[1, 2, 0]⟩ : MtchPstn).mtch.Perm (⟨[0, 1, 2]⟩ : MtchPstn).mtch ∧
      (∀ b, (⟨[1, 2, 0]⟩ : MtchPstn).mtch.count b = (⟨[0, 1, 2]⟩ : MtchPstn).mtch.count b) ∧
      ∀ items : List Nat, (⟨[0, 1, 2]⟩ : MtchPstn).mtch.Perm items →
        (⟨[1, 2, 0]⟩ : MtchPstn).mtch.Perm items :=
  C30_neighbours_are_rearrangements ⟨[0, 1, 2]⟩ ⟨[1, 2, 0]⟩ (by decide)

/-- The entry at `p` of a swap is the entry of the matching at the exchanged index. -/
theorem swapAt_getD (mp0 : MtchPstn) (i j p : Nat) (hij : i < j) (hj : j < mp0.mtch.length) :
    (swapAt mp0 i j).mtch.getD p 0 =
      mp0.mtch.getD (if p = j then i else if p = i then j else p) 0 := by
  have hi : i < mp0.mtch.length := by omega
  simp only [swapAt]
  rw [getD_set_eq _ _ _ _ (by rw [List.length_set]; exact hj), getD_set_eq _ _ _ _ hi]
  split_ifs <;> rfl

/-- The entry at `p` of a rotation is the entry of the matching at the rotated index. -/
theorem rotA_getD (mp0 : MtchPstn) (i j k p : Nat) (hij : i < j) (hjk : j < k)
    (hk : k < mp0.mtch.length) :
    (rotA mp0 i j k).mtch.getD p 0 =
      mp0.mtch.getD (if p = k then i else if p = j then k else if p = i then j else p) 0 := by
  have hi : i < mp0.mtch.length := by omega
  have hj : j < mp0.mtch.length := by omega
  simp only [rotA]
  rw [getD_set_eq _ _ _ _ (by rw [List.length_set, List.length_set]; exact hk),
    getD_set_eq _ _ _ _ (by rw [List.length_set]; exact hj), getD_set_eq _ _ _ _ hi]
  split_ifs <;> rfl

/-- The entry at `p` of the other rotation. -/
theorem rotB_getD (mp0 : MtchPstn) (i j k p : Nat) (hij : i < j) (hjk : j < k)
    (hk : k < mp0.mtch.length) :
    (rotB mp0 i j k).mtch.getD p 0 =
      mp0.mtch.getD (if p = k then j else if p = j then i else if p = i then k else p) 0 := by
  have hi : i < mp0.mtch.length := by omega
  have hj : j < mp0.mtch.length := by omega
  simp only [rotB]
  rw [getD_set_eq _ _ _ _ (by rw [List.length_set, List.length_set]; exact hk),
    getD_set_eq _ _ _ _ (by rw [List.length_set]; exact hj), getD_set_eq _ _ _ _ hi]
  split_ifs <;> rfl

/-- In a list without repetition, equal entries sit at equal indices. -/
theorem nodup_getD_inj (l : List Nat) (h : l.Nodup) (a b : Nat) (ha : a < l.length)
    (hb : b < l.length) (heq : l.getD a 0 = l.getD b 0) : a = b := by
  rw [List.getD_eq_getElem _ _ ha, List.getD_eq_getElem _ _ hb] at heq
  exact (h.getElem_inj_iff).mp heq

/-- Two rearrangements of a matching without repetition that are equal read the
matching at the same indices. -/
theorem idx_eq_of_eq (mp0 m1 m2 : MtchPstn) (hnd : mp0.mtch.Nodup) (s1 s2 : Nat → Nat)
    (h1 : ∀ p, m1.mtch.getD p 0 = mp0.mtch.getD (s1 p) 0)
    (h2 : ∀ p, m2.mtch.getD p 0 = mp0.mtch.getD (s2 p) 0)
    (hb1 : ∀ p, p < mp0.mtch.length → s1 p < mp0.mtch.length)
    (hb2 : ∀ p, p < mp0.mtch.length → s2 p < mp0.mtch.length)
    (heq : m1 = m2) (p : Nat) (hp : p < mp0.mtch.length) : s1 p = s2 p := by
  apply nodup_getD_inj mp0.mtch hnd _ _ (hb1 p hp) (hb2 p hp)
  rw [← h1 p, ← h2 p, heq]

/-- A swap of a matching without repetition determines its pair. -/
theorem swapAt_inj (mp0 : MtchPstn) (hnd : mp0.mtch.Nodup) (i j i2 j2 : Nat)
    (h1 : i < j) (h2 : j < mp0.mtch.length) (g1 : i2 < j2) (g2 : j2 < mp0.mtch.length)
    (heq : swapAt mp0 i j = swapAt mp0 i2 j2) : i = i2 ∧ j = j2 := by
  have H := idx_eq_of_eq mp0 _ _ hnd _ _ (fun p => swapAt_getD mp0 i j p h1 h2)
    (fun p => swapAt_getD mp0 i2 j2 p g1 g2)
    (by intro p hp; split_ifs <;> omega)
    (by intro p hp; split_ifs <;> omega) heq
  have a := H i (by omega)
  have b := H j h2
  split_ifs at a b <;> omega

/-- A swap of a matching without repetition differs from the matching. -/
theorem swapAt_ne_self (mp0 : MtchPstn) (hnd : mp0.mtch.Nodup) (i j : Nat)
    (h1 : i < j) (h2 : j < mp0.mtch.length) : mp0 ≠ swapAt mp0 i j := by
  intro heq
  have H := idx_eq_of_eq mp0 _ _ hnd (fun p => p) _ (fun _ => rfl)
    (fun p => swapAt_getD mp0 i j p h1 h2)
    (by intro p hp; exact hp)
    (by intro p hp; split_ifs <;> omega) heq
  have a := H i (by omega)
  beta_reduce at a
  split_ifs at a <;> omega

/-- A rotation of a matching without repetition differs from the matching. -/
theorem rotA_ne_self (mp0 : MtchPstn) (hnd : mp0.mtch.Nodup) (i j k : Nat)
    (h1 : i < j) (h2 : j < k) (h3 : k < mp0.mtch.length) : mp0 ≠ rotA mp0 i j k := by
  intro heq
  have H := idx_eq_of_eq mp0 _ _ hnd (fun p => p) _ (fun _ => rfl)
    (fun p => rotA_getD mp0 i j k p h1 h2 h3)
    (by intro p hp; exact hp)
    (by intro p hp; split_ifs <;> omega) heq
  have a := H i (by omega)
  beta_reduce at a
  split_ifs at a <;> omega

/-- The other rotation of a matching without repetition differs from the matching. -/
theorem rotB_ne_self (mp0 : MtchPstn) (hnd : mp0.mtch.Nodup) (i j k : Nat)
    (h1 : i < j) (h2 : j < k) (h3 : k < mp0.mtch.length) : mp0 ≠ rotB mp0 i j k := by
  intro heq
  have H := idx_eq_of_eq mp0 _ _ hnd (fun p => p) _ (fun _ => rfl)
    (fun p => rotB_getD mp0 i j k p h1 h2 h3)
    (by intro p hp; exact hp)
    (by intro p hp; split_ifs <;> omega) heq
  have a := H i (by omega)
  beta_reduce at a
  split_ifs at a <;> omega

/-- A swap of a matching without repetition is no rotation of it. -/
theorem swapAt_ne_rotA (mp0 : MtchPstn) (hnd : mp0.mtch.Nodup) (i j i2 j2 k2 : Nat)
    (h1 : i < j) (h2 : j < mp0.mtch.length) (g1 : i2 < j2) (g2 : j2 < k2)
    (g3 : k2 < mp0.mtch.length) : swapAt mp0 i j ≠ rotA mp0 i2 j2 k2 := by
  intro heq
  have H := idx_eq_of_eq mp0 _ _ hnd _ _ (fun p => swapAt_getD mp0 i j p h1 h2)
    (fun p => rotA_getD mp0 i2 j2 k2 p g1 g2 g3)
    (by intro p hp; split_ifs <;> omega)
    (by intro p hp; split_ifs <;> omega) heq
  have a := H i2 (by omega)
  have b := H j2 (by omega)
  have c := H k2 g3
  rw [if_neg (show ¬ i2 = k2 by omega), if_neg (show ¬ i2 = j2 by omega), if_pos rfl] at a
  rw [if_neg (show ¬ j2 = k2 by omega), if_pos rfl] at b
  rw [if_pos rfl] at c
  split_ifs at a b c <;> omega

/-- A swap of a matching without repetition is no rotation of it, either way. -/
theorem swapAt_ne_rotB (mp0 : MtchPstn) (hnd : mp0.mtch.Nodup) (i j i2 j2 k2 : Nat)
    (h1 : i < j) (h2 : j < mp0.mtch.length) (g1 : i2 < j2) (g2 : j2 < k2)
    (g3 : k2 < mp0.mtch.length) : swapAt mp0 i j ≠ rotB mp0 i2 j2 k2 := by
  intro heq
  have H := idx_eq_of_eq mp0 _ _ hnd _ _ (fun p => swapAt_getD mp0 i j p h1 h2)
    (fun p => rotB_getD mp0 i2 j2 k2 p g1 g2 g3)
    (by intro p hp; split_ifs <;> omega)
    (by intro p hp; split_ifs <;> omega) heq
  have a := H i2 (by omega)
  have b := H j2 (by omega)
  have c := H k2 g3
  rw [if_neg (show ¬ i2 = k2 by omega), if_neg (show ¬ i2 = j2 by omega), if_pos rfl] at a
  rw [if_neg (show ¬ j2 = k2 by omega), if_pos rfl] at b
  rw [if_pos rfl] at c
  split_ifs at a b c <;> omega

/-- A rotation of a matching without repetition determines its triple. -/
theorem rotA_inj (mp0 : MtchPstn) (hnd : mp0.mtch.Nodup) (i j k i2 j2 k2 : Nat)
    (h1 : i < j) (h2 : j < k) (h3 : k < mp0.mtch.length) (g1 : i2 < j2) (g2 : j2 < k2)
    (g3 : k2 < mp0.mtch.length) (heq : rotA mp0 i j k = rotA mp0 i2 j2 k2) :
    i = i2 ∧ j = j2 ∧ k = k2 := by
  have H := idx_eq_of_eq mp0 _ _ hnd _ _ (fun p => rotA_getD mp0 i j k p h1 h2 h3)
    (fun p => rotA_getD mp0 i2 j2 k2 p g1 g2 g3)
    (by intro p hp; split_ifs <;> omega)
    (by intro p hp; split_ifs <;> omega) heq
  have a := H i (by omega)
  have b := H j (by omega)
  have c := H k h3
  rw [if_neg (show ¬ i = k by omega), if_neg (show ¬ i = j by omega), if_pos rfl] at a
  rw [if_neg (show ¬ j = k by omega), if_pos rfl] at b
  rw [if_pos rfl] at c
  split_ifs at a b c <;> omega

/-- The other rotation of a matching without repetition determines its triple. -/
theorem rotB_inj (mp0 : MtchPstn) (hnd : mp0.mtch.Nodup) (i j k i2 j2 k2 : Nat)
    (h1 : i < j) (h2 : j < k) (h3 : k < mp0.mtch.length) (g1 : i2 < j2) (g2 : j2 < k2)
    (g3 : k2 < mp0.mtch.length) (heq : rotB mp0 i j k = rotB mp0 i2 j2 k2) :
    i = i2 ∧ j = j2 ∧ k = k2 := by
  have H := idx_eq_of_eq mp0 _ _ hnd _ _ (fun p => rotB_getD mp0 i j k p h1 h2 h3)
    (fun p => rotB_getD mp0 i2 j2 k2 p g1 g2 g3)
    (by intro p hp; split_ifs <;> omega)
    (by intro p hp; split_ifs <;> omega) heq
  have a := H i (by omega)
  have b := H j (by omega)
  have c := H k h3
  rw [if_neg (show ¬ i = k by omega), if_neg (show ¬ i = j by omega), if_pos rfl] at a
  rw [if_neg (show ¬ j = k by omega), if_pos rfl] at b
  rw [if_pos rfl] at c
  split_ifs at a b c <;> omega

/-- The two rotations of a matching without repetition are different, whatever
their triples. -/
theorem rotA_ne_rotB (mp0 : MtchPstn) (hnd : mp0.mtch.Nodup) (i j k i2 j2 k2 : Nat)
    (h1 : i < j) (h2 : j < k) (h3 : k < mp0.mtch.length) (g1 : i2 < j2) (g2 : j2 < k2)
    (g3 : k2 < mp0.mtch.length) : rotA mp0 i j k ≠ rotB mp0 i2 j2 k2 := by
  intro heq
  have H := idx_eq_of_eq mp0 _ _ hnd _ _ (fun p => rotA_getD mp0 i j k p h1 h2 h3)
    (fun p => rotB_getD mp0 i2 j2 k2 p g1 g2 g3)
    (by intro p hp; split_ifs <;> omega)
    (by intro p hp; split_ifs <;> omega) heq
  have a := H i (by omega)
  have b := H j (by omega)
  have c := H k h3
  rw [if_neg (show ¬ i = k by omega), if_neg (show ¬ i = j by omega), if_pos rfl] at a
  rw [if_neg (show ¬ j = k by omega), if_pos rfl] at b
  rw [if_pos rfl] at c
  split_ifs at a b c <;> omega

/-- Two members of the pairs of rotations of two triples of a matching without
repetition are equal only when the triples are. -/
theorem rot_pair_inj (mp0 : MtchPstn) (hnd : mp0.mtch.Nodup) (i j k i2 j2 k2 : Nat)
    (h1 : i < j) (h2 : j < k) (h3 : k < mp0.mtch.length) (g1 : i2 < j2) (g2 : j2 < k2)
    (g3 : k2 < mp0.mtch.length) (b : MtchPstn)
    (hb : b ∈ [rotA mp0 i j k, rotB mp0 i j k])
    (hb2 : b ∈ [rotA mp0 i2 j2 k2, rotB mp0 i2 j2 k2]) : i = i2 ∧ j = j2 ∧ k = k2 := by
  simp only [List.mem_cons, List.mem_singleton, List.not_mem_nil, or_false] at hb hb2
  rcases hb with rfl | rfl <;> rcases hb2 with e | e
  · exact rotA_inj mp0 hnd i j k i2 j2 k2 h1 h2 h3 g1 g2 g3 e
  · exact absurd e (rotA_ne_rotB mp0 hnd i j k i2 j2 k2 h1 h2 h3 g1 g2 g3)
  · exact absurd e.symm (rotA_ne_rotB mp0 hnd i2 j2 k2 i j k g1 g2 g3 h1 h2 h3)
  · exact rotB_inj mp0 hnd i j k i2 j2 k2 h1 h2 h3 g1 g2 g3 e

/-- A concatenation of lists without repetition, over indices without
repetition, in which a common member forces equal indices, has no repetition. -/
theorem nodup_flatMap_of {α β : Type} (l : List α) (f : α → List β) (hl : l.Nodup)
    (h1 : ∀ x, x ∈ l → (f x).Nodup)
    (h2 : ∀ x, x ∈ l → ∀ y, y ∈ l → ∀ b, b ∈ f x → b ∈ f y → x = y) :
    (l.flatMap f).Nodup := by
  rw [List.nodup_flatMap]
  refine ⟨h1, hl.pairwise_of_forall_ne ?_⟩
  intro x hx y hy hne b hbx hby
  exact hne (h2 x hx y hy b hbx hby)

/-- The swaps of a matching without repetition are all different. -/
theorem swapsOf_nodup (mp0 : MtchPstn) (hnd : mp0.mtch.Nodup) : (swapsOf mp0).Nodup := by
  unfold swapsOf
  apply nodup_flatMap_of _ _ (List.nodup_range _)
  · intro i hi
    rw [List.mem_range] at hi
    apply nodup_flatMap_of _ _ (List.nodup_range' _ _)
    · intro j _
      exact List.nodup_singleton _
    · intro j hj j2 hj2 b hb hb2
      rw [List.mem_range'_1] at hj hj2
      rw [List.mem_singleton] at hb hb2
      exact (swapAt_inj mp0 hnd i j i j2 (by omega) (by omega) (by omega) (by omega)
        (hb.symm.trans hb2)).2
  · intro i hi i2 hi2 b hb hb2
    simp only [List.mem_flatMap, List.mem_range'_1, List.mem_singleton] at hb hb2
    obtain ⟨j, hj, rfl⟩ := hb
    obtain ⟨j2, hj2, e⟩ := hb2
    exact (swapAt_inj mp0 hnd i j i2 j2 (by omega) (by omega) (by omega) (by omega) e).1

/-- The rotations of a matching without repetition are all different. -/
theorem rotsOf_nodup (mp0 : MtchPstn) (hnd : mp0.mtch.Nodup) : (rotsOf mp0).Nodup := by
  unfold rotsOf
  apply nodup_flatMap_of _ _ (List.nodup_range _)
  · intro i hi
    rw [List.mem_range] at hi
    apply nodup_flatMap_of _ _ (List.nodup_range' _ _)
    · intro j hj
      rw [List.mem_range'_1] at hj
      apply nodup_flatMap_of _ _ (List.nodup_range' _ _)
      · intro k hk
        rw [List.mem_range'_1] at hk
        rw [List.nodup_cons]
        refine ⟨?_, List.nodup_singleton _⟩
        rw [List.mem_singleton]
        exact rotA_ne_rotB mp0 hnd i j k i j k (by omega) (by omega) (by omega) (by omega)
          (by omega) (by omega)
      · intro k hk k2 hk2 b hb hb2
        rw [List.mem_range'_1] at hk hk2
        exact (rot_pair_inj mp0 hnd i j k i j k2 (by omega) (by omega) (by omega) (by omega)
          (by omega) (by omega) b hb hb2).2.2
    · intro j hj j2 hj2 b hb hb2
      rw [List.mem_range'_1] at hj hj2
      rw [List.mem_flatMap] at hb hb2
      obtain ⟨k, hk, hbk⟩ := hb
      obtain ⟨k2, hk2, hbk2⟩ := hb2
      rw [List.mem_range'_1] at hk hk2
      exact (rot_pair_inj mp0 hnd i j k i j2 k2 (by omega) (by omega) (by omega) (by omega)
        (by omega) (by omega) b hbk hbk2).2.1
  · intro i hi i2 hi2 b hb hb2
    rw [List.mem_flatMap] at hb hb2
    obtain ⟨j, hj, hb⟩ := hb
    obtain ⟨j2, hj2, hb2⟩ := hb2
    rw [List.mem_flatMap] at hb hb2
    obtain ⟨k, hk, hbk⟩ := hb
    obtain ⟨k2, hk2, hbk2⟩ := hb2
    rw [List.mem_range'_1] at hj hj2 hk hk2
    exact (rot_pair_inj mp0 hnd i j k i2 j2 k2 (by omega) (by omega) (by omega) (by omega)
      (by omega) (by omega) b hbk hbk2).1

/-- The list `nfn` returns for a matching without repetition has no repetition. -/
theorem nfn_nodup (mp0 : MtchPstn) (hnd : mp0.mtch.Nodup) : (CSState.nfn mp0).Nodup := by
  rw [nfn_eq, List.append_assoc, List.singleton_append, List.nodup_cons, List.nodup_append]
  refine ⟨?_, swapsOf_nodup mp0 hnd, rotsOf_nodup mp0 hnd, ?_⟩
  · rw [List.mem_append, mem_swapsOf, mem_rotsOf]
    rintro (⟨i, j, h1, h2, e⟩ | ⟨i, j, k, h1, h2, h3, e | e⟩)
    · exact swapAt_ne_self mp0 hnd i j h1 h2 e
    · exact rotA_ne_self mp0 hnd i j k h1 h2 h3 e
    · exact rotB_ne_self mp0 hnd i j k h1 h2 h3 e
  · intro b hb hb2
    rw [mem_swapsOf] at hb
    rw [mem_rotsOf] at hb2
    obtain ⟨i, j, h1, h2, rfl⟩ := hb
    obtain ⟨i2, j2, k2, g1, g2, g3, e | e⟩ := hb2
    · exact swapAt_ne_rotA mp0 hnd i j i2 j2 k2 h1 h2 g1 g2 g3 e
    · exact swapAt_ne_rotB mp0 hnd i j i2 j2 k2 h1 h2 g1 g2 g3 e

/-- C21: for a matching of `k` pairwise distinct entries, `nfn` returns the
matching itself first, then one swap per pair `i < j`, then both rotations of
every triple `i < j < l`; what follows the first element consists exactly of
those swaps and rotations; the list has no repeated element; and it has
`1 + k(k-1)/2 + k(k-1)(k-2)/3` elements. -/
theorem C21_nfn_neighbours (mp0 : MtchPstn) (hnd : mp0.mtch.Nodup) :
    (CSState.nfn mp0).head? = some mp0 ∧
    CSState.nfn mp0 = mp0 :: (swapsOf mp0 ++ rotsOf mp0) ∧
    (∀ m, m ∈ (CSState.nfn mp0).tail ↔
      (∃ i j, i < j ∧ j < mp0.mtch.length ∧ m = swapAt mp0 i j) ∨
      (∃ i j l, i < j ∧ j < l ∧ l < mp0.mtch.length ∧
        (m = rotA mp0 i j l ∨ m = rotB mp0 i j l))) ∧
    (CSState.nfn mp0).Nodup ∧
    (CSState.nfn mp0).length =
      1 + mp0.mtch.length * (mp0.mtch.length - 1) / 2 +
        mp0.mtch.length * (mp0.mtch.length - 1) * (mp0.mtch.length - 2) / 3 := by
  have heq : CSState.nfn mp0 = mp0 :: (swapsOf mp0 ++ rotsOf mp0) := by
    rw [nfn_eq, List.append_assoc, List.singleton_append]
  refine ⟨by rw [heq]; rfl, heq, ?_, nfn_nodup mp0 hnd, nfn_length mp0⟩
  intro m
  rw [heq, List.tail_cons, List.mem_append, mem_swapsOf, mem_rotsOf]

/-- Witness for C21: the matching `[10, 11, 12]` has six neighbours, all
different, itself first. -/
theorem C21_nfn_neighbours_witness :
    (CSState.nfn ⟨[10, 11, 12]⟩).head? = some ⟨[10, 11, 12]⟩ ∧
    (CSState.nfn ⟨[10, 11, 12]⟩).Nodup ∧
    (CSState.nfn ⟨[10, 11, 12]⟩).length = 1 + 3 * (3 - 1) / 2 + 3 * (3 - 1) * (3 - 2) / 3 :=
  ⟨(C21_nfn_neighbours ⟨[10, 11, 12]⟩ (by decide)).1,
    (C21_nfn_neighbours ⟨[10, 11, 12]⟩ (by decide)).2.2.2.1,
    (C21_nfn_neighbours ⟨[10, 11, 12]⟩ (by decide)).2.2.2.2⟩

end KTAB
